import Mathlib

/-!
# OCCAM variable-based model manager (`ocVBMManager.cpp`)

A shallow embedding of the lattice-generation and statistics code of
`ocVBMManager`, and theorems about it.

Conventions of the embedding.

* A C++ `double` is an `ocDouble`: an exact rational, or one of the IEEE special
  values `+inf`, `-inf`, `NaN`.  Arithmetic on finite values is exact (no
  rounding); the special values follow the IEEE rules, so that a division by
  zero is what the C++ code computes there.  A finite zero counts as `+0`.
* A relation is identified with its list of variable indices: the relation
  cache keeps one instance per variable composition.
* `ocModel` objects live on a heap (a list, the address is the index); a
  pointer to a model is an address, `NULL` is `none`.
-/

namespace Occam

/-! ## Doubles -/

/-- A C++ `double`: exact rational arithmetic on finite values, with the IEEE
special values. -/
inductive ocDouble where
  | fin (q : ℚ)
  | posInf
  | negInf
  | nan
deriving DecidableEq

namespace ocDouble

/-- Unary minus. -/
def neg : ocDouble → ocDouble
  | fin q => fin (-q)
  | posInf => negInf
  | negInf => posInf
  | nan => nan

/-- Addition of doubles (`+`). -/
def add : ocDouble → ocDouble → ocDouble
  | fin a, fin b => fin (a + b)
  | nan, _ => nan
  | _, nan => nan
  | posInf, negInf => nan
  | negInf, posInf => nan
  | posInf, _ => posInf
  | _, posInf => posInf
  | negInf, _ => negInf
  | _, negInf => negInf

/-- Subtraction of doubles (`-`). -/
def sub (a b : ocDouble) : ocDouble := add a (neg b)

/-- Division of doubles (`/`); a finite zero divisor is `+0`. -/
def div : ocDouble → ocDouble → ocDouble
  | nan, _ => nan
  | _, nan => nan
  | fin a, fin b =>
    if b = 0 then (if a = 0 then nan else if 0 < a then posInf else negInf)
    else fin (a / b)
  | fin _, posInf => fin 0
  | fin _, negInf => fin 0
  | posInf, fin b => if 0 ≤ b then posInf else negInf
  | negInf, fin b => if 0 ≤ b then negInf else posInf
  | posInf, posInf => nan
  | posInf, negInf => nan
  | negInf, posInf => nan
  | negInf, negInf => nan

/-- Comparison `a <= b`; false when either side is `NaN`. -/
def le : ocDouble → ocDouble → Bool
  | nan, _ => false
  | _, nan => false
  | fin a, fin b => decide (a ≤ b)
  | negInf, _ => true
  | _, posInf => true
  | posInf, _ => false
  | _, negInf => false

/-- Comparison `a >= b`. -/
def ge (a b : ocDouble) : Bool := le b a

end ocDouble

/-! ## Attribute lists -/

/-- Modelled from the spec: `ocAttributeList` (ocCore), a sparse name to double
mapping. -/
abbrev ocAttributeList := List (String × ocDouble)

/-- Modelled from the spec: `ocAttributeList::getAttribute`; an unset attribute
reads as the negative sentinel `-1`. -/
def ocAttributeList.getAttribute (attrs : ocAttributeList) (name : String) : ocDouble :=
  match attrs.find? (fun kv => kv.1 == name) with
  | some kv => kv.2
  | none => ocDouble.fin (-1)

/-- Modelled from the spec: `ocAttributeList::setAttribute`; overwrites the entry
of that name, or appends a new one. -/
def ocAttributeList.setAttribute : ocAttributeList → String → ocDouble → ocAttributeList
  | [], name, v => [(name, v)]
  | kv :: rest, name, v =>
    if kv.1 == name then (name, v) :: rest
    else kv :: ocAttributeList.setAttribute rest name v

/-- Modelled from the spec: attribute name of the entropy `H` (ocCore.h). -/
def ATTRIBUTE_H : String := "h"
/-- Modelled from the spec: attribute name of the degrees of freedom (ocCore.h). -/
def ATTRIBUTE_DF : String := "df"
/-- Modelled from the spec: attribute name of the explained information (ocCore.h). -/
def ATTRIBUTE_EXPLAINED_I : String := "information"
/-- Modelled from the spec: attribute name of the unexplained information (ocCore.h). -/
def ATTRIBUTE_UNEXPLAINED_I : String := "unexplained"

/-! ## Variables, relations, models -/

/-- Modelled from the spec: `ocVariable`, with its cardinality and its
dependent-variable flag `dv`. -/
structure ocVariable where
  cardinality : Nat
  dv : Bool
deriving DecidableEq, Repr

/-- Modelled from the spec: `ocVariableList`, the ordered catalog of variables. -/
abbrev ocVariableList := List ocVariable

/-- Modelled from the spec: `ocVariableList::getVarCount`. -/
def ocVariableList.getVarCount (vl : ocVariableList) : Nat := vl.length

/-- Modelled from the spec: `ocVariableList::isDirected`; a system is directed
when some variable is dependent. -/
def ocVariableList.isDirected (vl : ocVariableList) : Bool := vl.any (fun v => v.dv)

/-- Modelled from the spec: `ocVariableList::getVariable`. -/
def ocVariableList.getVariable (vl : ocVariableList) (i : Nat) : Option ocVariable := vl[i]?

/-- Modelled from the spec: `ocRelation`, the variable indices of a relation, in
the order the relation holds them. -/
structure ocRelation where
  vars : List Nat
deriving DecidableEq, Repr

/-- Modelled from the spec: `ocRelation::getVariableCount`, the order of the relation. -/
def ocRelation.getVariableCount (rel : ocRelation) : Nat := rel.vars.length

/-- Modelled from the spec: `ocModel`, an ordered collection of relations and an
attribute list. -/
structure ocModel where
  relations : List ocRelation
  attrs : ocAttributeList
deriving DecidableEq

/-- A freshly constructed model (`new ocModel(n)`): no relation, no attribute. -/
def ocModel.new : ocModel := ⟨[], []⟩

/-- Modelled from the spec: `ocModel::getRelationCount`. -/
def ocModel.getRelationCount (m : ocModel) : Nat := m.relations.length

/-- Modelled from the spec: `ocModel::getRelation`; `NULL` out of range. -/
def ocModel.getRelation (m : ocModel) (i : Nat) : Option ocRelation := m.relations[i]?

/-- Modelled from the spec: `ocModel::addRelation`; the relation is added at the
end of the ordered collection of the model, a `NULL` pointer adds nothing. -/
def ocModel.addRelation (m : ocModel) (rel : Option ocRelation) : ocModel :=
  match rel with
  | none => m
  | some r => { m with relations := m.relations ++ [r] }

/-! ## The manager -/

/-- The state of an `ocVBMManager` the lattice and reference code works on.
`heap` holds the live `ocModel` objects, `modelCache` the addresses of the
published ones. -/
structure ocVBMManager where
  varList : ocVariableList
  heap : List ocModel
  modelCache : List Nat
  topRef : Option Nat
  bottomRef : Option Nat
  refModel : Option Nat

section Lattice

variable {Name : Type} [DecidableEq Name]
/- `getPrintName` is `ocModel::getPrintName`, the canonical name of a model as a
function of its relations; it is a parameter of the embedding. -/
variable (getPrintName : List ocRelation → Name)

/-- The canonical name of the model object at address `a` (`getPrintName` through
the pointer); `none` when no object lives there. -/
def ocVBMManager.nameOf (mgr : ocVBMManager) (a : Nat) : Option Name :=
  (mgr.heap[a]?).map (fun m => getPrintName m.relations)

/-- Modelled from the spec: `ocModelCache::findModel`; the cached model of that
canonical name, `NULL` when there is none. It never creates. -/
def ocVBMManager.findModel (mgr : ocVBMManager) (name : Name) : Option Nat :=
  mgr.modelCache.find? (fun a => decide (mgr.nameOf getPrintName a = some name))

/-- Modelled from the spec: `ocModelCache::addModel`; a no-op returning failure
when a model of the same canonical name is cached, else the model is cached. -/
def ocVBMManager.addModel (mgr : ocVBMManager) (model : Nat) : Bool × ocVBMManager :=
  match mgr.heap[model]? with
  | none => (false, mgr)
  | some m =>
    match mgr.findModel getPrintName (getPrintName m.relations) with
    | some _ => (false, mgr)
    | none => (true, { mgr with modelCache := model :: mgr.modelCache })

/-- Allocation of a model object (`new ocModel`): the object gets the next free
address. -/
def ocVBMManager.alloc (mgr : ocVBMManager) (m : ocModel) : Nat × ocVBMManager :=
  (mgr.heap.length, { mgr with heap := mgr.heap ++ [m] })

/-- Deallocation (`delete`) of the object allocated last. -/
def ocVBMManager.free (mgr : ocVBMManager) (a : Nat) : ocVBMManager :=
  if a + 1 = mgr.heap.length then { mgr with heap := mgr.heap.dropLast } else mgr

/-- Modelled from the spec: `ocManagerBase::getChildRelation`; the relation of
the variables of `rel` with the one at position `skip` omitted. -/
def getChildRelation (rel : ocRelation) (skip : Nat) (_makeProject : Bool) : ocRelation :=
  ⟨rel.vars.eraseIdx skip⟩

/-- The method `ocVBMManager::makeAllChildRelations`: for `r = order-1` down to `0`, stores
`getChildRelation(rel, r)` in `children[r]`. -/
def makeAllChildRelations (rel : ocRelation) (children : List (Option ocRelation))
    (makeProject : Bool) : List (Option ocRelation) :=
  let order := rel.getVariableCount
  (List.range order).reverse.foldl
    (fun children r => children.set r (some (getChildRelation rel r makeProject)))
    children

/-- The relation loop of `ocVBMManager::makeChildModel` (lines 84-98): copies the
relations of `model` into `newModel`, relation `remove` being replaced by its
children. -/
def makeChildModel.addRelations (model : ocModel) (remove : Int) (makeProject : Bool)
    (newModel : ocModel) : ocModel :=
  (List.range model.getRelationCount).foldl
    (fun newModel i =>
      match model.getRelation i with
      | none => newModel
      | some rel =>
        if (i : Int) = remove then
          let varCount := rel.getVariableCount
          let children := makeAllChildRelations rel (List.replicate varCount none) makeProject
          (List.range varCount).foldl
            (fun newModel j => newModel.addRelation (children.getD j none))
            newModel
        else
          newModel.addRelation (some rel))
    newModel

/-- The method `ocVBMManager::makeChildModel`.  Returns the model pointer (`none`
is `NULL`), the value written through `fromCache` (`none` when nothing is
written), and the manager state.  The parent `model` is only read and is
passed as the object it points to.  The model under construction is a local
object until it is offered to the cache; the object leaked by the early return
is unreachable and has no heap cell. -/
def ocVBMManager.makeChildModel (mgr : ocVBMManager) (model : ocModel) (remove : Int)
    (makeProject : Bool) : Option Nat × Option Bool × ocVBMManager :=
  let count : Int := model.getRelationCount
  if remove ≥ count then (none, none, mgr)
  else
    let built := makeChildModel.addRelations model remove makeProject ocModel.new
    let (newModel, mgr1) := mgr.alloc built
    match mgr1.addModel getPrintName newModel with
    | (false, mgr2) =>
      let name := getPrintName built.relations
      let cacheModel := mgr2.findModel getPrintName name
      (cacheModel, some true, mgr2.free newModel)
    | (true, mgr2) => (some newModel, some false, mgr2)

/-- Every cached address is the address of a live model object. -/
def ocVBMManager.CacheLive (mgr : ocVBMManager) : Prop :=
  ∀ a ∈ mgr.modelCache, a < mgr.heap.length

instance (mgr : ocVBMManager) : Decidable mgr.CacheLive := by
  unfold ocVBMManager.CacheLive; infer_instance

/-- The cache holds at most one model per canonical name. -/
def ocVBMManager.UniqueNames (mgr : ocVBMManager) : Prop :=
  (mgr.modelCache.map (mgr.nameOf getPrintName)).Nodup

instance (mgr : ocVBMManager) : Decidable (mgr.UniqueNames getPrintName) := by
  unfold ocVBMManager.UniqueNames; infer_instance

end Lattice

/-- The children of a relation, in slot order: slot `j` omits the variable at
position `j`. -/
def childRelations (rel : ocRelation) (makeProject : Bool) : List ocRelation :=
  (List.range rel.getVariableCount).map (fun j => getChildRelation rel j makeProject)

/-- One call of `makeChildModel`: the parent model, the index to decompose, the
projection flag. -/
structure ChildCall where
  model : ocModel
  remove : Int
  makeProject : Bool

/-- The index of a call is a valid relation index of its parent. -/
def ChildCall.Valid (c : ChildCall) : Prop :=
  0 ≤ c.remove ∧ c.remove < (c.model.getRelationCount : Int)

instance (c : ChildCall) : Decidable c.Valid := by
  unfold ChildCall.Valid; infer_instance

/-- The canonical name of the model a call builds. -/
def ChildCall.builtName {Name : Type} (getPrintName : List ocRelation → Name)
    (c : ChildCall) : Name :=
  getPrintName (makeChildModel.addRelations c.model c.remove c.makeProject ocModel.new).relations

/-- A sequence of `makeChildModel` calls, each on the state the previous one
left; returns the pointers returned, in call order, and the final state. -/
def ocVBMManager.runChildCalls {Name : Type} [DecidableEq Name]
    (getPrintName : List ocRelation → Name) (mgr : ocVBMManager) :
    List ChildCall → List (Option Nat) × ocVBMManager
  | [] => ([], mgr)
  | c :: cs =>
    let r := mgr.makeChildModel getPrintName c.model c.remove c.makeProject
    let rest := ocVBMManager.runChildCalls getPrintName r.2.2 cs
    (r.1 :: rest.1, rest.2)

/-- Modelled from the spec: `ocModel::getPrintName`, the canonical name as a
function of the sorted relation names; here the sorted list of the variable
lists of the relations.  Used where a concrete naming is needed. -/
def canonicalName (rels : List ocRelation) : List (List Nat) :=
  (rels.map (fun r => r.vars)).insertionSort (fun a b => a ≤ b)

/-- The model `ABC`: one relation over the variables 0, 1, 2. -/
def exampleABC : ocModel := ⟨[⟨[0, 1, 2]⟩], []⟩

/-- A manager with no variable list set up and an empty cache and heap. -/
def exampleEmptyManager : ocVBMManager := ⟨[], [], [], none, none, none⟩

/-- A manager whose cache holds the model `ABC` at address 0. -/
def exampleManagerABC : ocVBMManager := ⟨[], [exampleABC], [0], some 0, none, none⟩

/-- A manager whose cache holds the model `BC:AC:AB` at address 0. -/
def exampleManagerChild : ocVBMManager :=
  ⟨[], [⟨[⟨[1, 2]⟩, ⟨[0, 2]⟩, ⟨[0, 1]⟩], []⟩], [0], none, none, none⟩

/-- Two decomposition paths to the same model: relation 0 of `AB:CD` and
relation 1 of `CD:AB`. -/
def exampleCalls : List ChildCall :=
  [⟨⟨[⟨[0, 1]⟩, ⟨[2, 3]⟩], []⟩, 0, true⟩, ⟨⟨[⟨[2, 3]⟩, ⟨[0, 1]⟩], []⟩, 1, true⟩]

/-! ## Statistics primitives and reference models -/

/-- Modelled from the spec: attribute name of the transmission `T` (ocCore.h). -/
def ATTRIBUTE_T : String := "t"

/-- Modelled from the spec: the statistics primitives of `ocManagerBase`
(`computeDF`, `computeH`, `computeTransmission`) as pure numeric oracles of the
relations of a model. -/
structure ocStatistics where
  df : List ocRelation → ocDouble
  h : List ocRelation → ocDouble
  t : List ocRelation → ocDouble

/-- Reads an attribute through a model pointer; `none` when the pointer is `NULL`
or dangling. -/
def ocVBMManager.getAttribute (mgr : ocVBMManager) (model : Option Nat) (name : String) :
    Option ocDouble :=
  match model with
  | none => none
  | some a =>
    match mgr.heap[a]? with
    | none => none
    | some m => some (m.attrs.getAttribute name)

/-- Writes an attribute of the model object at address `model`. -/
def ocVBMManager.setAttribute (mgr : ocVBMManager) (model : Nat) (name : String)
    (v : ocDouble) : ocVBMManager :=
  match mgr.heap[model]? with
  | none => mgr
  | some m =>
    { mgr with heap := mgr.heap.set model { m with attrs := m.attrs.setAttribute name v } }

/-- Modelled from the spec: a statistic primitive of `ocManagerBase`.  The value
is cached on the attribute list of the model under a fixed name; a value
already present (not the negative sentinel) is returned without recomputation,
else the oracle value is stored and returned. -/
def ocVBMManager.cachedStatistic (mgr : ocVBMManager) (model : Nat) (name : String)
    (oracle : List ocRelation → ocDouble) : Option (ocDouble × ocVBMManager) :=
  match mgr.heap[model]? with
  | none => none
  | some m =>
    let v := m.attrs.getAttribute name
    if ocDouble.ge v (ocDouble.fin 0) then some (v, mgr)
    else some (oracle m.relations, mgr.setAttribute model name (oracle m.relations))

/-- Modelled from the spec: `ocManagerBase::computeDF`. -/
def ocVBMManager.computeDF (stats : ocStatistics) (mgr : ocVBMManager) (model : Nat) :
    Option (ocDouble × ocVBMManager) :=
  mgr.cachedStatistic model ATTRIBUTE_DF stats.df

/-- Modelled from the spec: `ocManagerBase::computeH`. -/
def ocVBMManager.computeH (stats : ocStatistics) (mgr : ocVBMManager) (model : Nat) :
    Option (ocDouble × ocVBMManager) :=
  mgr.cachedStatistic model ATTRIBUTE_H stats.h

/-- Modelled from the spec: `ocManagerBase::computeTransmission`. -/
def ocVBMManager.computeTransmission (stats : ocStatistics) (mgr : ocVBMManager)
    (model : Nat) : Option (ocDouble × ocVBMManager) :=
  mgr.cachedStatistic model ATTRIBUTE_T stats.t

/-- Modelled from the spec: `ocManagerBase::getRelation(varindices, varcount, ...)`;
the relation over the first `varcount` entries of the index buffer. -/
def getRelation (varindices : List Nat) (varcount : Nat) (_makeProject : Bool) : ocRelation :=
  ⟨varindices.take varcount⟩

/-- The body of the first loop of the directed branch of `makeReferenceModels`
(lines 134-135), on the buffer `varindices` and the counter `pos`. -/
def makeReferenceModels.collectStep (varList : ocVariableList) (st : List Nat × Nat)
    (i : Nat) : List Nat × Nat :=
  match varList.getVariable i with
  | none => st
  | some var => if !var.dv then (st.1.set st.2 i, st.2 + 1) else st

/-- The first loop of the directed branch of `makeReferenceModels` (lines
131-136): the indices of the independent variables are stored in `varindices`,
`pos` counting them.  Returns the buffer and `pos`. -/
def makeReferenceModels.collectIndependent (varList : ocVariableList)
    (varindices : List Nat) : List Nat × Nat :=
  (List.range varList.getVarCount).foldl (makeReferenceModels.collectStep varList)
    (varindices, 0)

/-- The body of the second loop of the directed branch of `makeReferenceModels`
(lines 142-147), on the buffer `varindices` and the model. -/
def makeReferenceModels.dependentStep (varList : ocVariableList) (st : List Nat × ocModel)
    (i : Nat) : List Nat × ocModel :=
  match varList.getVariable i with
  | none => st
  | some var =>
    if var.dv then
      let varindices := st.1.set 0 i
      (varindices, st.2.addRelation (some (getRelation varindices 1 true)))
    else st

/-- The second loop of the directed branch of `makeReferenceModels` (lines
141-148): a unary relation is added for each dependent variable.  Returns the
buffer and the model. -/
def makeReferenceModels.addDependent (varList : ocVariableList)
    (varindices : List Nat) (model : ocModel) : List Nat × ocModel :=
  (List.range varList.getVarCount).foldl (makeReferenceModels.dependentStep varList)
    (varindices, model)

/-- The body of the loop of the neutral branch of `makeReferenceModels` (lines
154-156). -/
def makeReferenceModels.unaryStep (st : List Nat × ocModel) (i : Nat) : List Nat × ocModel :=
  let varindices := st.1.set 0 i
  (varindices, st.2.addRelation (some (getRelation varindices 1 true)))

/-- The loop of the neutral branch of `makeReferenceModels` (lines 152-157): a
unary relation is added for each variable. -/
def makeReferenceModels.addUnary (varList : ocVariableList)
    (varindices : List Nat) (model : ocModel) : List Nat × ocModel :=
  (List.range varList.getVarCount).foldl makeReferenceModels.unaryStep (varindices, model)

/-- The bottom reference model built by `makeReferenceModels` (lines 124-158),
before it is offered to the cache.  The buffer `varindices` has `varCount`
slots. -/
def makeReferenceModels.bottom (varList : ocVariableList) : ocModel :=
  let varCount := varList.getVarCount
  let varindices : List Nat := List.replicate varCount 0
  if varList.isDirected then
    let model := ocModel.new
    let (varindices, pos) := makeReferenceModels.collectIndependent varList varindices
    let rel := getRelation varindices pos true
    let model := model.addRelation (some rel)
    (makeReferenceModels.addDependent varList varindices model).2
  else
    let model := ocModel.new
    (makeReferenceModels.addUnary varList varindices model).2

/-- The top reference of `makeReferenceModels` (lines 115-118): the model with
the single relation `top` is allocated, offered to the cache and becomes
`topRef`.  Returns its address and the state. -/
def makeReferenceModels.publishTop {Name : Type} [DecidableEq Name]
    (getPrintName : List ocRelation → Name) (mgr : ocVBMManager) (top : ocRelation) :
    Nat × ocVBMManager :=
  let (model, mgr) := mgr.alloc (ocModel.new.addRelation (some top))
  let mgr := (mgr.addModel getPrintName model).2
  (model, { mgr with topRef := some model })

/-- The bottom reference of `makeReferenceModels` (lines 124-160): the bottom
model is allocated, offered to the cache and becomes `bottomRef`.  Returns its
address and the state. -/
def makeReferenceModels.publishBottom {Name : Type} [DecidableEq Name]
    (getPrintName : List ocRelation → Name) (mgr : ocVBMManager) : Nat × ocVBMManager :=
  let (model, mgr) := mgr.alloc (makeReferenceModels.bottom mgr.varList)
  let mgr := (mgr.addModel getPrintName model).2
  (model, { mgr with bottomRef := some model })

/-- The method `ocVBMManager::makeReferenceModels`.  `computeStatistics` on the top relation
(line 166) writes attributes of that relation only, which are not part of the
manager state here.  The result is `none` when a pointer that is dereferenced
is not live. -/
def ocVBMManager.makeReferenceModels {Name : Type} [DecidableEq Name]
    (getPrintName : List ocRelation → Name) (stats : ocStatistics) (mgr : ocVBMManager)
    (top : ocRelation) : Option ocVBMManager :=
  let (topRef, mgr) := makeReferenceModels.publishTop getPrintName mgr top
  let (bottomRef, mgr) := makeReferenceModels.publishBottom getPrintName mgr
  match mgr.computeDF stats topRef with
  | none => none
  | some (_, mgr) =>
  match mgr.computeH stats topRef with
  | none => none
  | some (_, mgr) =>
  match mgr.computeDF stats bottomRef with
  | none => none
  | some (_, mgr) =>
  match mgr.computeH stats bottomRef with
  | none => none
  | some (_, mgr) =>
  some { mgr with refModel := if mgr.varList.isDirected then mgr.bottomRef else mgr.topRef }

/-- The indices of the independent variables of a variable list, ascending. -/
def ocVariableList.independentIndices (vl : ocVariableList) : List Nat :=
  (List.range vl.getVarCount).filter
    (fun i => match vl.getVariable i with | some var => !var.dv | none => false)

/-- The indices of the dependent variables of a variable list, ascending. -/
def ocVariableList.dependentIndices (vl : ocVariableList) : List Nat :=
  (List.range vl.getVarCount).filter
    (fun i => match vl.getVariable i with | some var => var.dv | none => false)

/-- The C library `strcasecmp`, as far as its result is tested against zero:
`0` when the two strings are equal up to ASCII case, `1` otherwise. -/
def strcasecmp (a b : String) : Int :=
  if a.toList.map Char.toLower = b.toList.map Char.toLower then 0 else 1

/-- The method `ocVBMManager::setRefModel`.  `makeModel` is `ocManagerBase::makeModel`, the
general construction of a model from its name, a parameter here.  Returns
`refModel` and the state. -/
def ocVBMManager.setRefModel
    (makeModel : ocVBMManager → String → Bool → Option Nat × ocVBMManager)
    (mgr : ocVBMManager) (name : String) : Option Nat × ocVBMManager :=
  if strcasecmp name "top" = 0 then
    (mgr.topRef, { mgr with refModel := mgr.topRef })
  else if strcasecmp name "bottom" = 0 then
    (mgr.bottomRef, { mgr with refModel := mgr.bottomRef })
  else
    let (model, mgr) := makeModel mgr name true
    (model, { mgr with refModel := model })

/-- The variable list `A, B, C` with `C` dependent (a directed system). -/
def exampleDirectedVars : ocVariableList := [⟨2, false⟩, ⟨2, false⟩, ⟨2, true⟩]

/-- The variable list `A, B, C` with no dependent variable (a neutral system). -/
def exampleNeutralVars : ocVariableList := [⟨2, false⟩, ⟨2, false⟩, ⟨2, false⟩]

/-- Two manager states that differ at most in the attribute lists of their
models: same variable list, cache, reference pointers and, address by
address, the same relations. -/
def ocVBMManager.SameModels (mgr mgr' : ocVBMManager) : Prop :=
  mgr'.varList = mgr.varList ∧ mgr'.modelCache = mgr.modelCache
  ∧ mgr'.topRef = mgr.topRef ∧ mgr'.bottomRef = mgr.bottomRef
  ∧ mgr'.refModel = mgr.refModel
  ∧ mgr'.heap.map (fun m => m.relations) = mgr.heap.map (fun m => m.relations)

/-! ## Information statistics -/

/-- The roundoff fix of lines 197-198 and 212-213:
`if (info <= 0.0) info = 0.0; if (info >= 1.0) info = 1.0;`. -/
def clampInfo (info : ocDouble) : ocDouble :=
  let info := if ocDouble.le info (ocDouble.fin 0) then ocDouble.fin 0 else info
  let info := if ocDouble.ge info (ocDouble.fin 1) then ocDouble.fin 1 else info
  info

/-- The method `ocVBMManager::computeExplainedInformation`.  The result is `none` when a
pointer that is dereferenced (`model`, `topRef`, `bottomRef`) is not live. -/
def ocVBMManager.computeExplainedInformation (stats : ocStatistics) (mgr : ocVBMManager)
    (model : Nat) : Option (ocDouble × ocVBMManager) :=
  match mgr.heap[model]? with
  | none => none
  | some _ =>
  match mgr.getAttribute mgr.topRef ATTRIBUTE_H with
  | none => none
  | some topH =>
  match mgr.getAttribute mgr.bottomRef ATTRIBUTE_H with
  | none => none
  | some botH =>
  match mgr.computeTransmission stats model with
  | none => none
  | some (modelT, mgr) =>
    let info := ocDouble.div (ocDouble.sub (ocDouble.sub botH topH) modelT)
      (ocDouble.sub botH topH)
    let info := clampInfo info
    some (info, mgr.setAttribute model ATTRIBUTE_EXPLAINED_I info)

/-- The method `ocVBMManager::computeUnexplainedInformation`.  The result is `none` when a
pointer that is dereferenced (`model`, `topRef`, `bottomRef`) is not live. -/
def ocVBMManager.computeUnexplainedInformation (stats : ocStatistics) (mgr : ocVBMManager)
    (model : Nat) : Option (ocDouble × ocVBMManager) :=
  match mgr.heap[model]? with
  | none => none
  | some _ =>
  match mgr.getAttribute mgr.topRef ATTRIBUTE_H with
  | none => none
  | some topH =>
  match mgr.getAttribute mgr.bottomRef ATTRIBUTE_H with
  | none => none
  | some botH =>
  match mgr.computeTransmission stats model with
  | none => none
  | some (modelT, mgr) =>
    let info := ocDouble.div modelT (ocDouble.sub botH topH)
    let info := clampInfo info
    some (info, mgr.setAttribute model ATTRIBUTE_UNEXPLAINED_I info)

/-- The rational `q` clamped into `[0, 1]`. -/
def clamp01 (q : ℚ) : ℚ := max 0 (min 1 q)

/-- A manager over three models: the top reference (address 0) with entropy
`topH`, the bottom reference (address 1) with entropy `botH`, and a model
(address 2) with no attribute set. -/
def exampleInfoManager (topH botH : ℚ) : ocVBMManager :=
  ⟨exampleNeutralVars,
    [⟨[⟨[0, 1, 2]⟩], [(ATTRIBUTE_H, ocDouble.fin topH)]⟩,
     ⟨[⟨[0]⟩, ⟨[1]⟩, ⟨[2]⟩], [(ATTRIBUTE_H, ocDouble.fin botH)]⟩,
     ⟨[⟨[0, 1]⟩, ⟨[2]⟩], []⟩],
    [2, 1, 0], some 0, some 1, some 0⟩

/-- Statistics oracles with the constant transmission `t`. -/
def exampleStatistics (t : ℚ) : ocStatistics :=
  ⟨fun _ => ocDouble.fin 1, fun _ => ocDouble.fin 1, fun _ => ocDouble.fin t⟩

/-! ## More double arithmetic and attribute names -/

/-- Multiplication of doubles (`*`). -/
def ocDouble.mul : ocDouble → ocDouble → ocDouble
  | ocDouble.fin a, ocDouble.fin b => ocDouble.fin (a * b)
  | ocDouble.nan, _ => ocDouble.nan
  | _, ocDouble.nan => ocDouble.nan
  | ocDouble.fin a, ocDouble.posInf =>
    if a = 0 then ocDouble.nan else if 0 < a then ocDouble.posInf else ocDouble.negInf
  | ocDouble.fin a, ocDouble.negInf =>
    if a = 0 then ocDouble.nan else if 0 < a then ocDouble.negInf else ocDouble.posInf
  | ocDouble.posInf, ocDouble.fin b =>
    if b = 0 then ocDouble.nan else if 0 < b then ocDouble.posInf else ocDouble.negInf
  | ocDouble.negInf, ocDouble.fin b =>
    if b = 0 then ocDouble.nan else if 0 < b then ocDouble.negInf else ocDouble.posInf
  | ocDouble.posInf, ocDouble.posInf => ocDouble.posInf
  | ocDouble.posInf, ocDouble.negInf => ocDouble.negInf
  | ocDouble.negInf, ocDouble.posInf => ocDouble.negInf
  | ocDouble.negInf, ocDouble.negInf => ocDouble.posInf

/-- The C library `fabs`. -/
def ocDouble.fabs : ocDouble → ocDouble
  | ocDouble.fin q => ocDouble.fin |q|
  | ocDouble.posInf => ocDouble.posInf
  | ocDouble.negInf => ocDouble.posInf
  | ocDouble.nan => ocDouble.nan

/-- Comparison `a < b`; false when either side is `NaN`. -/
def ocDouble.lt : ocDouble → ocDouble → Bool
  | ocDouble.nan, _ => false
  | _, ocDouble.nan => false
  | ocDouble.fin a, ocDouble.fin b => decide (a < b)
  | ocDouble.posInf, _ => false
  | _, ocDouble.negInf => false
  | ocDouble.negInf, _ => true
  | _, ocDouble.posInf => true

/-- Comparison `a > b`. -/
def ocDouble.gt (a b : ocDouble) : Bool := ocDouble.lt b a

/-- Modelled from the spec: attribute name of the DF difference to the reference
(ocCore.h). -/
def ATTRIBUTE_DDF : String := "ddf"
/-- Modelled from the spec: attribute name of the likelihood-ratio statistic (ocCore.h). -/
def ATTRIBUTE_LR : String := "lr"
/-- Modelled from the spec: attribute name of the L2 significance (ocCore.h). -/
def ATTRIBUTE_ALPHA : String := "alpha"
/-- Modelled from the spec: attribute name of the L2 power (ocCore.h). -/
def ATTRIBUTE_BETA : String := "beta"
/-- Modelled from the spec: attribute name of the Pearson statistic (ocCore.h). -/
def ATTRIBUTE_P2 : String := "p2"
/-- Modelled from the spec: attribute name of the Pearson significance (ocCore.h). -/
def ATTRIBUTE_P2_ALPHA : String := "p2_alpha"
/-- Modelled from the spec: attribute name of the Pearson power (ocCore.h). -/
def ATTRIBUTE_P2_BETA : String := "p2_beta"
/-- Modelled from the spec: attribute name of the conditional uncertainty (ocCore.h). -/
def ATTRIBUTE_COND_H : String := "cond_h"
/-- Modelled from the spec: attribute name of the conditional uncertainty
reduction (ocCore.h). -/
def ATTRIBUTE_COND_DH : String := "cond_dh"
/-- Modelled from the spec: attribute name of the percent conditional
uncertainty reduction (ocCore.h). -/
def ATTRIBUTE_COND_PCT_DH : String := "cond_pct_dh"
/-- Modelled from the spec: attribute name, on a relation, of the entropy of the
dependent variables (ocCore.h). -/
def ATTRIBUTE_DEP_H : String := "h_dep"
/-- Modelled from the spec: attribute name, on a relation, of the entropy of the
independent variables (ocCore.h). -/
def ATTRIBUTE_IND_H : String := "h_ind"
/-- Modelled from the spec: attribute name of the relation width (ocCore.h). -/
def ATTRIBUTE_REL_WIDTH : String := "rel_width"
/-- Modelled from the spec: attribute name of the BP transmission (ocCore.h). -/
def ATTRIBUTE_BP_T : String := "bp_t"
/-- Modelled from the spec: attribute name of the BP entropy estimate (ocCore.h). -/
def ATTRIBUTE_BP_H : String := "bp_h"
/-- Modelled from the spec: attribute name of the BP explained information (ocCore.h). -/
def ATTRIBUTE_BP_EXPLAINED_I : String := "bp_information"
/-- Modelled from the spec: attribute name of the BP unexplained information (ocCore.h). -/
def ATTRIBUTE_BP_UNEXPLAINED_I : String := "bp_unexplained"
/-- Modelled from the spec: attribute name of the BP likelihood-ratio statistic (ocCore.h). -/
def ATTRIBUTE_BP_LR : String := "bp_lr"
/-- Modelled from the spec: attribute name of the BP significance (ocCore.h). -/
def ATTRIBUTE_BP_ALPHA : String := "bp_alpha"
/-- Modelled from the spec: attribute name of the BP power (ocCore.h). -/
def ATTRIBUTE_BP_BETA : String := "bp_beta"
/-- Modelled from the spec: attribute name of the BP conditional uncertainty (ocCore.h). -/
def ATTRIBUTE_BP_COND_H : String := "bp_cond_h"
/-- Modelled from the spec: attribute name of the BP conditional uncertainty
reduction (ocCore.h). -/
def ATTRIBUTE_BP_COND_DH : String := "bp_cond_dh"
/-- Modelled from the spec: attribute name of the BP percent conditional
uncertainty reduction (ocCore.h). -/
def ATTRIBUTE_BP_COND_PCT_DH : String := "bp_cond_pct_dh"

/-! ## DF and L2 statistics -/

/-- The method `ocVBMManager::computeDDF`.  The result is `none` when a pointer
that is dereferenced (`model`, `refModel`) is not live. -/
def ocVBMManager.computeDDF (mgr : ocVBMManager) (model : Nat) :
    Option (ocDouble × ocVBMManager) :=
  match mgr.heap[model]? with
  | none => none
  | some attrs =>
  match mgr.getAttribute mgr.refModel ATTRIBUTE_DF with
  | none => none
  | some refDF =>
    let modelDF := attrs.attrs.getAttribute ATTRIBUTE_DF
    let df := ocDouble.sub refDF modelDF
    let df := ocDouble.fabs df
    some (df, mgr.setAttribute model ATTRIBUTE_DDF df)

/-- A manager over two models with their DF set: the top reference (address 0,
DF 7), which is the active reference, and the bottom reference (address 1,
DF 2). -/
def exampleDFManager : ocVBMManager :=
  ⟨exampleNeutralVars,
    [⟨[⟨[0, 1, 2]⟩], [(ATTRIBUTE_DF, ocDouble.fin 7)]⟩,
     ⟨[⟨[0]⟩, ⟨[1]⟩, ⟨[2]⟩], [(ATTRIBUTE_DF, ocDouble.fin 2)]⟩],
    [1, 0], some 0, some 1, some 0⟩

/-- The constant `M_LN2` of `math.h`: the double nearest to `ln 2`, as an exact
rational. -/
def M_LN2 : ℚ := 6243314768165359 / 9007199254740992

/-- Modelled from the spec: the distributional functions of ocMath, as pure
numeric oracles: `csa` (chi-squared tail probability), `ppchi` (chi-squared
quantile) and `chin2` (noncentral chi-squared CDF).  `ppchi` and `chin2` take
the error code their last argument points to and return, with their value,
the error code they leave there. -/
structure ocDistributions where
  csa : ocDouble → ocDouble → ocDouble
  ppchi : ocDouble → ocDouble → Int → ocDouble × Int
  chin2 : ocDouble → ocDouble → ocDouble → Int → ocDouble × Int

/-- Modelled from the spec: the configuration the statistics read: the sample
size of the input data (`sampleSize` of `ocManagerBase`) and the value of the
option `palpha` (`getOptionFloat("palpha", ...)`), `none` when it is not set. -/
structure ocOptions where
  sampleSize : ocDouble
  palpha : Option ocDouble

/-- The values the chi-squared block computes, and the lines it prints. -/
structure ocChiSquared where
  refDDF : ocDouble
  refModelL2 : ocDouble
  refL2Prob : ocDouble
  refL2Power : ocDouble
  output : List String

/-- The chi-squared block of `computeL2Statistics` (lines 264-296), which
`computeBPStatistics` repeats verbatim (lines 523-554): from the
transmissions and the degrees of freedom of the model and of the reference
to `refDDF`, `refModelL2`, `refL2Prob` and `refL2Power`. -/
def computeL2Statistics.chiSquared (dist : ocDistributions) (opts : ocOptions)
    (modelT refT modelDF refDF : ocDouble) : ocChiSquared :=
  let modelL2 := ocDouble.mul
    (ocDouble.mul (ocDouble.mul (ocDouble.fin 2) (ocDouble.fin M_LN2)) opts.sampleSize) modelT
  let refL2 := ocDouble.mul
    (ocDouble.mul (ocDouble.mul (ocDouble.fin 2) (ocDouble.fin M_LN2)) opts.sampleSize) refT
  let refModelL2 := ocDouble.sub refL2 modelL2
  let refDDF := ocDouble.sub modelDF refDF
  let (refDDF, refModelL2) :=
    if ocDouble.lt refDDF (ocDouble.fin 0) then (ocDouble.neg refDDF, ocDouble.neg refModelL2)
    else (refDDF, refModelL2)
  let refModelL2 :=
    if ocDouble.le refModelL2 (ocDouble.fin 0) then ocDouble.fin 0 else refModelL2
  let refL2Prob := dist.csa refModelL2 refDDF
  let errcode : Int := 0
  let alpha := match opts.palpha with
    | some a => a
    | none => ocDouble.fin 0
  let (critX2, errcode) :=
    if ocDouble.gt alpha (ocDouble.fin 0) then dist.ppchi alpha refDDF errcode
    else (refModelL2, errcode)
  let output :=
    if errcode ≠ 0 then ["ppchi: errcode=" ++ toString errcode ++ "\n"] else []
  let (c, _) := dist.chin2 critX2 refDDF refModelL2 errcode
  let refL2Power := ocDouble.sub (ocDouble.fin 1) c
  ⟨refDDF, refModelL2, refL2Prob, refL2Power, output⟩

/-- The method `ocVBMManager::computeDFStatistics`. -/
def ocVBMManager.computeDFStatistics (stats : ocStatistics) (mgr : ocVBMManager)
    (model : Nat) : Option ocVBMManager := do
  let (_, mgr) ← mgr.computeDF stats model
  let (_, mgr) ← mgr.computeDDF model
  pure mgr

/-- The method `ocVBMManager::computeInformationStatistics`. -/
def ocVBMManager.computeInformationStatistics (stats : ocStatistics) (mgr : ocVBMManager)
    (model : Nat) : Option ocVBMManager := do
  let (_, mgr) ← mgr.computeH stats model
  let (_, mgr) ← mgr.computeTransmission stats model
  let (_, mgr) ← mgr.computeExplainedInformation stats model
  let (_, mgr) ← mgr.computeUnexplainedInformation stats model
  pure mgr

/-- The method `ocVBMManager::computeL2Statistics`.  Returns the lines printed
and the state; `none` when a pointer that is dereferenced is not live. -/
def ocVBMManager.computeL2Statistics (stats : ocStatistics) (dist : ocDistributions)
    (opts : ocOptions) (mgr : ocVBMManager) (model : Nat) :
    Option (List String × ocVBMManager) := do
  let _ ← mgr.heap[model]?
  let mgr ← mgr.computeDFStatistics stats model
  let mgr ← mgr.computeInformationStatistics stats model
  let (modelT, mgr) ← mgr.computeTransmission stats model
  let refModel ← mgr.refModel
  let (refT, mgr) ← mgr.computeTransmission stats refModel
  let (modelDF, mgr) ← mgr.computeDF stats model
  let refModel ← mgr.refModel
  let (refDF, mgr) ← mgr.computeDF stats refModel
  let r := computeL2Statistics.chiSquared dist opts modelT refT modelDF refDF
  let mgr := mgr.setAttribute model ATTRIBUTE_DDF r.refDDF
  let mgr := mgr.setAttribute model ATTRIBUTE_LR r.refModelL2
  let mgr := mgr.setAttribute model ATTRIBUTE_ALPHA r.refL2Prob
  let mgr := mgr.setAttribute model ATTRIBUTE_BETA r.refL2Power
  pure (r.output, mgr)

/-! ## Reasoning about sequences of attribute updates -/

/-- The value a statistic primitive returns in a state, `none` when the model
pointer is not live. -/
def ocVBMManager.statValue (mgr : ocVBMManager) (model : Nat) (name : String)
    (oracle : List ocRelation → ocDouble) : Option ocDouble :=
  (mgr.cachedStatistic model name oracle).map Prod.fst

/-- The attribute names of the primitives `computeDF`, `computeH` and
`computeTransmission`, each with its oracle. -/
def ocStatistics.prim (stats : ocStatistics) (name : String) :
    Option (List ocRelation → ocDouble) :=
  if name = ATTRIBUTE_DF then some stats.df
  else if name = ATTRIBUTE_H then some stats.h
  else if name = ATTRIBUTE_T then some stats.t
  else none

/-- The state `mgr'` is reached from `mgr` by attribute updates only: writes of
attributes whose name is in `written` and is not the name of a primitive,
and calls of the statistic primitives listed by `prim`. -/
inductive ocVBMManager.Evolves (prim : String → Option (List ocRelation → ocDouble))
    (written : List String) : ocVBMManager → ocVBMManager → Prop where
  | refl (mgr : ocVBMManager) : ocVBMManager.Evolves prim written mgr mgr
  | set {mgr mgr' : ocVBMManager} (a : Nat) (name : String) (v : ocDouble) :
      ocVBMManager.Evolves prim written mgr mgr' → prim name = none → name ∈ written →
      ocVBMManager.Evolves prim written mgr (mgr'.setAttribute a name v)
  | stat {mgr mgr' mgr'' : ocVBMManager} (a : Nat) (name : String)
      (oracle : List ocRelation → ocDouble) (v : ocDouble) :
      ocVBMManager.Evolves prim written mgr mgr' → prim name = some oracle →
      mgr'.cachedStatistic a name oracle = some (v, mgr'') →
      ocVBMManager.Evolves prim written mgr mgr''

/-- The pointer `p` points to a live model object. -/
def ocVBMManager.Live (mgr : ocVBMManager) (p : Option Nat) : Prop :=
  ∃ a m, p = some a ∧ mgr.heap[a]? = some m

/-- The pointers the statistics of a model dereference are live: the model, the
active reference, the top and the bottom reference. -/
def ocVBMManager.RefsLive (mgr : ocVBMManager) (model : Nat) : Prop :=
  mgr.Live (some model) ∧ mgr.Live mgr.refModel ∧ mgr.Live mgr.topRef
    ∧ mgr.Live mgr.bottomRef

/-- The attribute names `computeL2Statistics` writes, the primitives apart. -/
def computeL2Statistics.written : List String :=
  [ATTRIBUTE_DDF, ATTRIBUTE_EXPLAINED_I, ATTRIBUTE_UNEXPLAINED_I, ATTRIBUTE_LR,
    ATTRIBUTE_ALPHA, ATTRIBUTE_BETA]

/-- A manager for the L2 statistics: the top reference `ABC` (address 0, the
active reference) with DF 7 and transmission 0, the bottom reference `A:B:C`
(address 1) with DF 3 and transmission 1, both with entropy set. -/
def exampleL2Manager : ocVBMManager :=
  ⟨exampleNeutralVars,
    [⟨[⟨[0, 1, 2]⟩], [(ATTRIBUTE_DF, ocDouble.fin 7), (ATTRIBUTE_H, ocDouble.fin 1),
        (ATTRIBUTE_T, ocDouble.fin 0)]⟩,
     ⟨[⟨[0]⟩, ⟨[1]⟩, ⟨[2]⟩], [(ATTRIBUTE_DF, ocDouble.fin 3), (ATTRIBUTE_H, ocDouble.fin 3),
        (ATTRIBUTE_T, ocDouble.fin 1)]⟩],
    [1, 0], some 0, some 1, some 0⟩

/-- Distribution oracles that never fail. -/
def exampleDistributions : ocDistributions :=
  ⟨fun _ _ => ocDouble.fin (1 / 2), fun _ _ e => (ocDouble.fin 4, e),
    fun _ _ _ e => (ocDouble.fin (1 / 4), e)⟩

/-- A sample of 100 observations, the option `palpha` not set. -/
def exampleOptions : ocOptions := ⟨ocDouble.fin 100, none⟩

/-! ## Tables and Pearson statistics -/

/-- Modelled from the spec: a table key (`ocKeySegment[keysize]`), the list of
its segments. -/
abbrev ocKey := List Nat

/-- Modelled from the spec: `ocTable`, a sparse key to mass representation: the
tuples in storage order. -/
abbrev ocTable := List (ocKey × ocDouble)

/-- Modelled from the spec: `ocTable::getTupleCount`. -/
def ocTable.getTupleCount (t : ocTable) : Nat := t.length

/-- Modelled from the spec: `ocTable::getKey`. -/
def ocTable.getKey (t : ocTable) (i : Nat) : Option ocKey := (t[i]?).map Prod.fst

/-- Modelled from the spec: `ocTable::getValue`. -/
def ocTable.getValue (t : ocTable) (i : Nat) : Option ocDouble := (t[i]?).map Prod.snd

/-- Modelled from the spec: `ocTable::setValue`. -/
def ocTable.setValue (t : ocTable) (i : Nat) (v : ocDouble) : ocTable :=
  match t[i]? with
  | none => t
  | some kv => t.set i (kv.1, v)

/-- Modelled from the spec: `ocTable::addTuple`; the tuple is added at the end. -/
def ocTable.addTuple (t : ocTable) (key : ocKey) (v : ocDouble) : ocTable := t ++ [(key, v)]

/-- Modelled from the spec: `ocTable::indexOf`; the index of the tuple of that
key, `none` (a negative index) when there is none. -/
def ocTable.indexOf (t : ocTable) (key : ocKey) : Option Nat :=
  match t.findIdx? (fun kv => decide (kv.1 = key)) with
  | some i => some i
  | none => none

/-- Modelled from the spec: the fit service of `ocManagerBase` and ocMath, as
pure oracles: the input data, the fitted table `makeFitTable` builds for a
model, as a function of its relations, and `ocPearsonChiSquared`. -/
structure ocFitService where
  inputData : ocTable
  makeFitTable : List ocRelation → ocTable
  ocPearsonChiSquared : ocTable → ocTable → ocDouble → ocDouble

/-- The fit state of the manager: the table `fitTable1` that `makeFitTable`
fills, and the number of `makeFitTable` calls made so far. -/
structure ocFitState where
  fitTable1 : Option ocTable
  makeFitTableCalls : Nat
deriving DecidableEq

/-- Modelled from the spec: `ocManagerBase::makeFitTable`; the fitted table of
the model is left in `fitTable1`.  The result is `none` when the model
pointer is not live. -/
def ocVBMManager.makeFitTable (fit : ocFitService) (mgr : ocVBMManager) (st : ocFitState)
    (model : Nat) : Option ocFitState :=
  match mgr.heap[model]? with
  | none => none
  | some m => some ⟨some (fit.makeFitTable m.relations), st.makeFitTableCalls + 1⟩

/-- The values the chi-squared block of `computePearsonStatistics` computes, and
the lines it prints. -/
structure ocPearson where
  refDDF : ocDouble
  refModelP2 : ocDouble
  refP2Prob : ocDouble
  refP2Power : ocDouble
  output : List String

/-- The chi-squared block of `computePearsonStatistics` (lines 318-335). -/
def computePearsonStatistics.chiSquared (dist : ocDistributions) (opts : ocOptions)
    (modelP2 refP2 modelDF refDF : ocDouble) : ocPearson :=
  let refDDF := ocDouble.sub modelDF refDF
  let refModelP2 := ocDouble.sub refP2 modelP2
  let refP2Prob := dist.csa refModelP2 refDDF
  let errcode : Int := 0
  let alpha := match opts.palpha with
    | some a => a
    | none => ocDouble.fin 0
  let (critX2, errcode) :=
    if ocDouble.gt alpha (ocDouble.fin 0) then dist.ppchi alpha refDDF errcode
    else (modelP2, errcode)
  let output1 :=
    if errcode ≠ 0 then ["ppchi: errcode=" ++ toString errcode ++ "\n"] else []
  let (c, errcode) := dist.chin2 critX2 refDDF modelP2 errcode
  let refP2Power := ocDouble.sub (ocDouble.fin 1) c
  let output2 :=
    if errcode ≠ 0 then ["chin2: errcode=" ++ toString errcode ++ "\n"] else []
  ⟨refDDF, refModelP2, refP2Prob, refP2Power, output1 ++ output2⟩

/-- The method `ocVBMManager::computePearsonStatistics`.  Returns the lines
printed, the fit state and the state; `none` when a pointer that is
dereferenced is not live. -/
def ocVBMManager.computePearsonStatistics (stats : ocStatistics) (dist : ocDistributions)
    (opts : ocOptions) (fit : ocFitService) (mgr : ocVBMManager) (st : ocFitState)
    (model : Option Nat) : Option (List String × ocFitState × ocVBMManager) :=
  match model, mgr.bottomRef with
  | none, _ => some ([], st, mgr)
  | _, none => some ([], st, mgr)
  | some model, some bottomRef => do
    let st ← mgr.makeFitTable fit st model
    let fitTable1 ← st.fitTable1
    let modelFitTable := fitTable1
    let st ← mgr.makeFitTable fit st bottomRef
    let fitTable1 ← st.fitTable1
    let modelP2 := fit.ocPearsonChiSquared fit.inputData modelFitTable opts.sampleSize
    let refP2 := fit.ocPearsonChiSquared fit.inputData fitTable1 opts.sampleSize
    let _ ← mgr.heap[model]?
    let (modelDF, mgr) ← mgr.computeDF stats model
    let refModel ← mgr.refModel
    let (refDF, mgr) ← mgr.computeDF stats refModel
    let r := computePearsonStatistics.chiSquared dist opts modelP2 refP2 modelDF refDF
    let mgr := mgr.setAttribute model ATTRIBUTE_P2 modelP2
    let mgr := mgr.setAttribute model ATTRIBUTE_P2_ALPHA r.refP2Prob
    let mgr := mgr.setAttribute model ATTRIBUTE_P2_BETA r.refP2Power
    pure (r.output, st, mgr)

/-- The attribute names `computePearsonStatistics` writes, the primitives apart. -/
def computePearsonStatistics.written : List String :=
  [ATTRIBUTE_P2, ATTRIBUTE_P2_ALPHA, ATTRIBUTE_P2_BETA]

/-- A fit service whose Pearson statistic is 5 on the fitted table of the model
`A:B:C` and 2 on every other table. -/
def exampleFitService : ocFitService :=
  ⟨[], fun rels => if rels.length = 3 then [([0], ocDouble.fin 1)] else [],
    fun _ t _ => if t.length = 1 then ocDouble.fin 5 else ocDouble.fin 2⟩

/-- Distribution oracles whose `csa` returns its second argument, the degrees of
freedom it is given, and which never fail. -/
def exampleRevealingDistributions : ocDistributions :=
  ⟨fun _ ddf => ddf, fun _ _ e => (ocDouble.fin 4, e),
    fun _ _ _ e => (ocDouble.fin (1 / 4), e)⟩

/-- A manager over three models with their DF set: the top reference `ABC`
(address 0, DF 7), which is the active reference, the bottom reference
`A:B:C` (address 1, DF 3), and the model `AB:C` (address 2, DF 4). -/
def examplePearsonManager : ocVBMManager :=
  ⟨exampleNeutralVars,
    [⟨[⟨[0, 1, 2]⟩], [(ATTRIBUTE_DF, ocDouble.fin 7), (ATTRIBUTE_H, ocDouble.fin 1),
        (ATTRIBUTE_T, ocDouble.fin 0)]⟩,
     ⟨[⟨[0]⟩, ⟨[1]⟩, ⟨[2]⟩], [(ATTRIBUTE_DF, ocDouble.fin 3), (ATTRIBUTE_H, ocDouble.fin 3),
        (ATTRIBUTE_T, ocDouble.fin 1)]⟩,
     ⟨[⟨[0, 1]⟩, ⟨[2]⟩], [(ATTRIBUTE_DF, ocDouble.fin 4), (ATTRIBUTE_H, ocDouble.fin 2),
        (ATTRIBUTE_T, ocDouble.fin (1 / 2))]⟩],
    [2, 1, 0], some 0, some 1, some 0⟩

/-- The primitive of that name has been computed for the model at address `a`:
its attribute holds the value `v`, which is either non-negative (so it is
found again) or the value of the oracle. -/
def ocVBMManager.Settled (mgr : ocVBMManager) (a : Nat) (name : String)
    (oracle : List ocRelation → ocDouble) (v : ocDouble) : Prop :=
  ∃ m, mgr.heap[a]? = some m ∧ m.attrs.getAttribute name = v
    ∧ (ocDouble.ge v (ocDouble.fin 0) = true ∨ oracle m.relations = v)

/-! ## Dependent statistics and the filter -/

/-- Modelled from the spec: `ocRelation::isIndOnly`; the relation contains only
independent variables. -/
def ocRelation.isIndOnly (rel : ocRelation) (varList : ocVariableList) : Bool :=
  rel.vars.all (fun i =>
    match varList.getVariable i with
    | some var => !var.dv
    | none => true)

/-- The method `ocVBMManager::getIndRelation`: the first relation of the bottom
reference that holds independent variables only.  The outer `none` is a dead
`bottomRef`, the inner `none` is `NULL`. -/
def ocVBMManager.getIndRelation (mgr : ocVBMManager) : Option (Option ocRelation) :=
  if !mgr.varList.isDirected then some none
  else
    match mgr.bottomRef with
    | none => none
    | some bottomRef =>
      match mgr.heap[bottomRef]? with
      | none => none
      | some bottom => some (bottom.relations.find? (fun indRel => indRel.isIndOnly mgr.varList))

/-- The method `ocVBMManager::computeDependentStatistics`.  The attribute lists
of the relations, which the manager state does not hold, are read through
`relAttrs`.  The result is `none` when a pointer that is dereferenced is not
live (`indRel` included). -/
def ocVBMManager.computeDependentStatistics (stats : ocStatistics)
    (relAttrs : ocRelation → ocAttributeList) (mgr : ocVBMManager) (model : Nat) :
    Option ocVBMManager :=
  if !mgr.varList.isDirected then some mgr
  else do
    let topRef ← mgr.topRef
    let top ← mgr.heap[topRef]?
    let rel0 ← top.getRelation 0
    let depH := (relAttrs rel0).getAttribute ATTRIBUTE_DEP_H
    let indRel ← mgr.getIndRelation
    let indRel ← indRel
    let indAttrs := relAttrs indRel
    let _ ← mgr.heap[model]?
    let indH := indAttrs.getAttribute ATTRIBUTE_H
    let bottomRef ← mgr.bottomRef
    let (refH, mgr) ← mgr.computeH stats bottomRef
    let (h, mgr) ← mgr.computeH stats model
    let condH := ocDouble.sub h indH
    let mgr := mgr.setAttribute model ATTRIBUTE_COND_H condH
    let mgr := mgr.setAttribute model ATTRIBUTE_COND_DH (ocDouble.sub refH h)
    let mgr := mgr.setAttribute model ATTRIBUTE_COND_PCT_DH
      (ocDouble.div (ocDouble.mul (ocDouble.fin 100) (ocDouble.sub refH h)) depH)
    pure mgr

/-- Modelled from the spec: the comparison operators of a filter (`RelOp` of
ocVBMManager.h). -/
inductive RelOp where
  | LESSTHAN
  | EQUALS
  | GREATERTHAN
deriving DecidableEq

/-- The filter fields of `ocVBMManager`: `filterAttr` (`none` is `NULL`),
`filterOp` and `filterValue`. -/
structure ocFilter where
  filterAttr : Option String
  filterOp : RelOp
  filterValue : ocDouble
deriving DecidableEq

/-- The filter fields as the constructor of `ocVBMManager` leaves them. -/
def ocFilter.init : ocFilter := ⟨none, RelOp.EQUALS, ocDouble.fin 0⟩

/-- The method `ocVBMManager::setFilter`. -/
def ocFilter.setFilter (_filter : ocFilter) (attrname : String) (attrvalue : ocDouble)
    (op : RelOp) : ocFilter :=
  ⟨some attrname, op, attrvalue⟩

/-- Modelled from the spec: `ocManagerBase::computeRelWidth`, a statistic
primitive with the oracle `relWidth`. -/
def ocVBMManager.computeRelWidth (relWidth : List ocRelation → ocDouble) (mgr : ocVBMManager)
    (model : Nat) : Option (ocDouble × ocVBMManager) :=
  mgr.cachedStatistic model ATTRIBUTE_REL_WIDTH relWidth

/-- The test of `applyFilter` (lines 617-626) on the attribute value `val`;
`epsilon` is `OC_COMPARE_EPSILON` of ocCore.h. -/
def ocFilter.test (filter : ocFilter) (epsilon : ocDouble) (val : ocDouble) : Bool :=
  match filter.filterOp with
  | RelOp.LESSTHAN => ocDouble.lt val filter.filterValue
  | RelOp.EQUALS => ocDouble.lt (ocDouble.fabs (ocDouble.sub val filter.filterValue)) epsilon
  | RelOp.GREATERTHAN => ocDouble.gt val filter.filterValue

/-- The method `ocVBMManager::applyFilter`.  Returns the verdict, the lines
printed and the state; `epsilon` is `OC_COMPARE_EPSILON` of ocCore.h. -/
def ocVBMManager.applyFilter (stats : ocStatistics) (dist : ocDistributions)
    (opts : ocOptions) (relWidth : List ocRelation → ocDouble)
    (relAttrs : ocRelation → ocAttributeList) (epsilon : ocDouble) (filter : ocFilter)
    (mgr : ocVBMManager) (model : Nat) : Option (Bool × List String × ocVBMManager) :=
  match filter.filterAttr with
  | none => some (true, [], mgr)
  | some filterAttr => do
    let (_, mgr) ← mgr.computeRelWidth relWidth model
    let (output, mgr) ← mgr.computeL2Statistics stats dist opts model
    let mgr ← mgr.computeDependentStatistics stats relAttrs model
    let val ← mgr.getAttribute (some model) filterAttr
    pure (filter.test epsilon val, output, mgr)

/-- The primitives of `ocStatistics.prim` and `computeRelWidth`. -/
def ocStatistics.primWidth (stats : ocStatistics) (relWidth : List ocRelation → ocDouble)
    (name : String) : Option (List ocRelation → ocDouble) :=
  if name = ATTRIBUTE_REL_WIDTH then some relWidth else stats.prim name

/-- The attribute names `computeDependentStatistics` writes, the primitives apart. -/
def computeDependentStatistics.written : List String :=
  [ATTRIBUTE_COND_H, ATTRIBUTE_COND_DH, ATTRIBUTE_COND_PCT_DH]

/-- What `computeDependentStatistics` needs in a directed system: the top
reference has a relation 0, and the bottom reference has a relation of
independent variables only. -/
def ocVBMManager.DependentReady (mgr : ocVBMManager) : Prop :=
  mgr.varList.isDirected = true →
    ∃ topRef top rel0 indRel, mgr.topRef = some topRef ∧ mgr.heap[topRef]? = some top
      ∧ top.getRelation 0 = some rel0 ∧ mgr.getIndRelation = some (some indRel)

/-- A neutral manager state for the filter: the top (address 0, active reference)
and the bottom (address 1), then three models with the cached DF values 2, 4, 6
at the addresses 2, 3 and 4. -/
def exampleFilterManager : ocVBMManager :=
  ⟨exampleNeutralVars,
    [⟨[⟨[0, 1, 2]⟩], [(ATTRIBUTE_DF, ocDouble.fin 7)]⟩,
     ⟨[⟨[0]⟩, ⟨[1]⟩, ⟨[2]⟩], [(ATTRIBUTE_DF, ocDouble.fin 3)]⟩,
     ⟨[⟨[0, 1]⟩, ⟨[2]⟩], [(ATTRIBUTE_DF, ocDouble.fin 2)]⟩,
     ⟨[⟨[0, 1]⟩, ⟨[1, 2]⟩], [(ATTRIBUTE_DF, ocDouble.fin 4)]⟩,
     ⟨[⟨[0, 1]⟩, ⟨[0, 2]⟩, ⟨[1, 2]⟩], [(ATTRIBUTE_DF, ocDouble.fin 6)]⟩],
    [4, 3, 2, 1, 0], some 0, some 1, some 0⟩

/-- Distribution oracles whose `chin2` fails: it returns the error code 3 on every
call; `ppchi` does not fail. -/
def exampleFailingDistributions : ocDistributions :=
  ⟨fun _ _ => ocDouble.fin (1 / 2), fun _ _ e => (ocDouble.fin 4, e),
    fun _ _ _ _ => (ocDouble.fin (1 / 4), 3)⟩

/-! ## BP transmission -/

/-- Modelled from the spec: what `computeBPT` takes from `ocManagerBase`, ocMath
and `ocRelation`, as pure oracles: the input data and its key size, the
projection table `rel->getTable()` and the mask `rel->getMask()` of a
relation, `(long)ocDegreesOfFreedom(rel)`, the sequence of visitor calls
`process(sign, rel)` that `doIntersectionProcessing` makes for the relations of
a model, and `log`. -/
structure ocBPService where
  inputData : ocTable
  keysize : Nat
  getTable : ocRelation → ocTable
  getMask : ocRelation → ocKey
  ocDegreesOfFreedom : ocRelation → Int
  doIntersectionProcessing : List ocRelation → List (Int × ocRelation)
  log : ocDouble → ocDouble

/-- One round of the loop `for (k = 0; k < keysize; k++) key[k] |= mask[k]`. -/
def orMask.step (mask : ocKey) (key : ocKey) (k : Nat) : ocKey :=
  match key[k]?, mask[k]? with
  | some a, some b => key.set k (a ||| b)
  | _, _ => key

/-- The loop `for (k = 0; k < keysize; k++) key[k] |= mask[k]` of `process`. -/
def orMask (keysize : Nat) (key mask : ocKey) : ocKey :=
  (List.range keysize).foldl (orMask.step mask) key

/-- The class `BPIntersectProcessor` of `computeBPT`.  The C integers are taken
as unbounded integers. -/
structure BPIntersectProcessor where
  qData : ocTable
  inputData : ocTable
  fullDimension : Int
  keysize : Nat
  relCount : Int
  originTerms : Int

/-- One round of the seeding loop of the constructor. -/
def BPIntersectProcessor.new.step (inData : ocTable) (qData : ocTable) (i : Nat) : ocTable :=
  match inData.getKey i with
  | some key => qData.addTuple key (ocDouble.fin 0)
  | none => qData

/-- The constructor `BPIntersectProcessor::BPIntersectProcessor`. -/
def BPIntersectProcessor.new (inData : ocTable) (keysize : Nat) (rels : Int)
    (fullDim : Int) : BPIntersectProcessor :=
  { inputData := inData
    keysize := keysize
    qData := (List.range inData.getTupleCount).foldl (BPIntersectProcessor.new.step inData) []
    originTerms := 0
    relCount := rels
    fullDimension := fullDim }

/-- One round of the loop of `process`: the cell `i` of `qData`. -/
def BPIntersectProcessor.process.step (bp : ocBPService) (keysize : Nat) (sign : Int)
    (rel : ocRelation) (relDimension : Int) (qData : ocTable) (i : Nat) : ocTable :=
  match qData[i]? with
  | none => qData
  | some (key, q) =>
    let key := orMask keysize key (bp.getMask rel)
    match (bp.getTable rel).indexOf key with
    | none => qData
    | some j =>
      match (bp.getTable rel).getValue j with
      | none => qData
      | some value =>
        let qi := ocDouble.mul (ocDouble.fin sign)
          (ocDouble.div value (ocDouble.fin relDimension))
        qData.setValue i (ocDouble.add qi q)

/-- The method `BPIntersectProcessor::process`.  The result is `none` when the
integer division that gives `relDimension` divides by zero. -/
def BPIntersectProcessor.process (bp : ocBPService) (p : BPIntersectProcessor) (sign : Int)
    (rel : ocRelation) : Option BPIntersectProcessor :=
  if bp.ocDegreesOfFreedom rel + 1 = 0 then none
  else
    let relDimension := Int.tdiv p.fullDimension (bp.ocDegreesOfFreedom rel + 1)
    some { p with
      qData := (List.range p.qData.getTupleCount).foldl
        (BPIntersectProcessor.process.step bp p.keysize sign rel relDimension) p.qData
      originTerms := p.originTerms + sign }

/-- One round of the loop of `correctOriginTerms`. -/
def BPIntersectProcessor.correctOriginTerms.step (originTerm : ocDouble) (qData : ocTable)
    (i : Nat) : ocTable :=
  match qData.getValue i with
  | some q => qData.setValue i (ocDouble.sub q originTerm)
  | none => qData

/-- The method `BPIntersectProcessor::correctOriginTerms`. -/
def BPIntersectProcessor.correctOriginTerms (p : BPIntersectProcessor) :
    BPIntersectProcessor :=
  let originTerm := ocDouble.div (ocDouble.fin (p.originTerms - 1))
    (ocDouble.fin p.fullDimension)
  { p with
    qData := (List.range p.qData.getTupleCount).foldl
      (BPIntersectProcessor.correctOriginTerms.step originTerm) p.qData }

/-- One round of the loop of `getTransmission`; `none` when a tuple that is read
does not exist. -/
def BPIntersectProcessor.getTransmission.step (bp : ocBPService) (p : BPIntersectProcessor)
    (t : Option ocDouble) (i : Nat) : Option ocDouble := do
  let t ← t
  let key ← p.inputData.getKey i
  let j ← p.qData.indexOf key
  let pv ← p.inputData.getValue i
  let q ← p.qData.getValue j
  if ocDouble.gt pv (ocDouble.fin 0) && ocDouble.gt q (ocDouble.fin 0) then
    pure (ocDouble.add t (ocDouble.mul pv (bp.log (ocDouble.div pv q))))
  else pure t

/-- The method `BPIntersectProcessor::getTransmission`; it returns the state
after `correctOriginTerms` too. -/
def BPIntersectProcessor.getTransmission (bp : ocBPService) (p : BPIntersectProcessor) :
    Option (ocDouble × BPIntersectProcessor) := do
  let p := p.correctOriginTerms
  let t ← (List.range p.inputData.getTupleCount).foldl
    (BPIntersectProcessor.getTransmission.step bp p) (some (ocDouble.fin 0))
  pure (ocDouble.div t (bp.log (ocDouble.fin 2)), p)

/-- The visitor calls `process(sign, rel)` in sequence. -/
def BPIntersectProcessor.run (bp : ocBPService) :
    List (Int × ocRelation) → BPIntersectProcessor → Option BPIntersectProcessor
  | [], p => some p
  | (sign, rel) :: calls, p =>
    match p.process bp sign rel with
    | none => none
    | some p => BPIntersectProcessor.run bp calls p

/-- The computation of `computeBPT` after the cache test (lines 483-495), as a
function of the relations of the model and the first relation of the top
reference. -/
def computeBPT.compute (bp : ocBPService) (rel0 : ocRelation) (relations : List ocRelation) :
    Option ocDouble := do
  let fullDimension := bp.ocDegreesOfFreedom rel0 + 1
  let relCount := relations.length
  let processor := BPIntersectProcessor.new bp.inputData bp.keysize relCount fullDimension
  let processor ← BPIntersectProcessor.run bp (bp.doIntersectionProcessing relations) processor
  let (modelT, _) ← processor.getTransmission bp
  pure modelT

/-- The method `ocVBMManager::computeBPT`.  The projections that
`makeProjection` forces are those the oracle `getTable` gives.  The result is
`none` on a dead pointer or a division by zero. -/
def ocVBMManager.computeBPT (bp : ocBPService) (mgr : ocVBMManager) (model : Nat) :
    Option (ocDouble × ocVBMManager) := do
  let m ← mgr.heap[model]?
  let modelT := m.attrs.getAttribute ATTRIBUTE_BP_T
  if ocDouble.ge modelT (ocDouble.fin 0) then pure (modelT, mgr)
  else do
    let topRef ← mgr.topRef
    let top ← mgr.heap[topRef]?
    let rel0 ← top.getRelation 0
    let modelT ← computeBPT.compute bp rel0 m.relations
    pure (modelT, mgr.setAttribute model ATTRIBUTE_BP_T modelT)

/-- The first part of `computeBPStatistics` (lines 500-516): the BP
transmission of the model, the estimated entropy `modelH`, and the BP
information attributes.  Returns `modelT`, `modelH` and the state. -/
def computeBPStatistics.information (stats : ocStatistics) (bp : ocBPService)
    (mgr : ocVBMManager) (model : Nat) : Option (ocDouble × ocDouble × ocVBMManager) := do
  let _ ← mgr.heap[model]?
  let (modelT, mgr) ← mgr.computeBPT bp model
  let topRef ← mgr.topRef
  let (topH, mgr) ← mgr.computeH stats topRef
  let bottomRef ← mgr.bottomRef
  let (botBPT, mgr) ← mgr.computeBPT bp bottomRef
  let (botStdT, mgr) ← mgr.computeTransmission stats bottomRef
  let modelH := ocDouble.add topH (ocDouble.div (ocDouble.mul modelT botStdT) botBPT)
  let mgr := mgr.setAttribute model ATTRIBUTE_BP_H modelH
  let info := clampInfo (ocDouble.div modelT botBPT)
  let mgr := mgr.setAttribute model ATTRIBUTE_BP_EXPLAINED_I
    (ocDouble.sub (ocDouble.fin 1) info)
  let mgr := mgr.setAttribute model ATTRIBUTE_BP_UNEXPLAINED_I info
  pure (modelT, modelH, mgr)

/-- The second part of `computeBPStatistics` (lines 518-560): the DF statistics
and the chi-squared block, which is that of `computeL2Statistics` on the BP
transmissions.  Returns the lines printed and the state. -/
def computeBPStatistics.significance (stats : ocStatistics) (dist : ocDistributions)
    (opts : ocOptions) (bp : ocBPService) (modelT : ocDouble) (mgr : ocVBMManager)
    (model : Nat) : Option (List String × ocVBMManager) := do
  let mgr ← mgr.computeDFStatistics stats model
  let refModel ← mgr.refModel
  let (refT, mgr) ← mgr.computeBPT bp refModel
  let (modelDF, mgr) ← mgr.computeDF stats model
  let refModel ← mgr.refModel
  let (refDF, mgr) ← mgr.computeDF stats refModel
  let r := computeL2Statistics.chiSquared dist opts modelT refT modelDF refDF
  let mgr := mgr.setAttribute model ATTRIBUTE_DDF r.refDDF
  let mgr := mgr.setAttribute model ATTRIBUTE_BP_LR r.refModelL2
  let mgr := mgr.setAttribute model ATTRIBUTE_BP_ALPHA r.refL2Prob
  let mgr := mgr.setAttribute model ATTRIBUTE_BP_BETA r.refL2Power
  pure (r.output, mgr)

/-- The last part of `computeBPStatistics` (lines 562-576): the dependent
statistics, for directed systems only. -/
def computeBPStatistics.dependent (stats : ocStatistics)
    (relAttrs : ocRelation → ocAttributeList) (modelH : ocDouble) (mgr : ocVBMManager)
    (model : Nat) : Option ocVBMManager :=
  if !mgr.varList.isDirected then some mgr
  else do
    let topRef ← mgr.topRef
    let top ← mgr.heap[topRef]?
    let rel0 ← top.getRelation 0
    let depH := (relAttrs rel0).getAttribute ATTRIBUTE_DEP_H
    let indH := (relAttrs rel0).getAttribute ATTRIBUTE_IND_H
    let bottomRef ← mgr.bottomRef
    let (refH, mgr) ← mgr.computeH stats bottomRef
    let condH := ocDouble.sub modelH indH
    let mgr := mgr.setAttribute model ATTRIBUTE_BP_COND_H condH
    let mgr := mgr.setAttribute model ATTRIBUTE_BP_COND_DH (ocDouble.sub refH modelH)
    let mgr := mgr.setAttribute model ATTRIBUTE_BP_COND_PCT_DH
      (ocDouble.div (ocDouble.mul (ocDouble.fin 100) (ocDouble.sub refH modelH)) depH)
    pure mgr

/-- The method `ocVBMManager::computeBPStatistics`, its three parts in sequence. -/
def ocVBMManager.computeBPStatistics (stats : ocStatistics) (dist : ocDistributions)
    (opts : ocOptions) (bp : ocBPService) (relAttrs : ocRelation → ocAttributeList)
    (mgr : ocVBMManager) (model : Nat) : Option (List String × ocVBMManager) := do
  let (modelT, modelH, mgr) ← computeBPStatistics.information stats bp mgr model
  let (output, mgr) ← computeBPStatistics.significance stats dist opts bp modelT mgr model
  let mgr ← computeBPStatistics.dependent stats relAttrs modelH mgr model
  pure (output, mgr)

/-- The term `sign * (value / relDimension)` that the visitor call `call` adds to
the cell of the key `x`: `value` is the value of the projection table of the
relation at the projection of `x`; there is none when the table has no such
tuple. -/
def BPIntersectProcessor.term (bp : ocBPService) (keysize : Nat) (fullDimension : Int)
    (x : ocKey) (call : Int × ocRelation) : Option ocDouble :=
  match (bp.getTable call.2).indexOf (orMask keysize x (bp.getMask call.2)) with
  | none => none
  | some j =>
    ((bp.getTable call.2).getValue j).map (fun value =>
      ocDouble.mul (ocDouble.fin call.1) (ocDouble.div value
        (ocDouble.fin (Int.tdiv fullDimension (bp.ocDegreesOfFreedom call.2 + 1)))))

/-- What one visitor call makes of the value `q` of the cell of the key `x`. -/
def BPIntersectProcessor.accumulate (bp : ocBPService) (keysize : Nat) (fullDimension : Int)
    (x : ocKey) (q : ocDouble) (call : Int × ocRelation) : ocDouble :=
  match BPIntersectProcessor.term bp keysize fullDimension x call with
  | some qi => ocDouble.add qi q
  | none => q

/-- The q value of the key `x` in the words of the specification: the sum of the
terms of the visited relations whose projection table holds the projection of
`x`, minus `(originTerms - 1) / fullDimension`, in double arithmetic. -/
def BPIntersectProcessor.qValue (bp : ocBPService) (keysize : Nat) (fullDimension : Int)
    (calls : List (Int × ocRelation)) (x : ocKey) : ocDouble :=
  ocDouble.sub
    (calls.foldl (BPIntersectProcessor.accumulate bp keysize fullDimension x) (ocDouble.fin 0))
    (ocDouble.div (ocDouble.fin (((calls.map Prod.fst).sum : Int) - 1))
      (ocDouble.fin fullDimension))

/-- The term of a visitor call as a rational number, for a finite projected
value; 0 when the projection table has no tuple for the projection of `x`. -/
def BPIntersectProcessor.termRat (bp : ocBPService) (keysize : Nat) (fullDimension : Int)
    (x : ocKey) (call : Int × ocRelation) : ℚ :=
  match (bp.getTable call.2).indexOf (orMask keysize x (bp.getMask call.2)) with
  | none => 0
  | some j =>
    match (bp.getTable call.2).getValue j with
    | some (ocDouble.fin value) =>
      call.1 * (value / (Int.tdiv fullDimension (bp.ocDegreesOfFreedom call.2 + 1) : Int))
    | _ => 0

/-- The q value of the key `x` in the words of the specification, as a rational
number. -/
def BPIntersectProcessor.qRat (bp : ocBPService) (keysize : Nat) (fullDimension : Int)
    (calls : List (Int × ocRelation)) (x : ocKey) : ℚ :=
  (calls.map (BPIntersectProcessor.termRat bp keysize fullDimension x)).sum
    - (((calls.map Prod.fst).sum : Int) - 1) / fullDimension

/-- The relation of the variable A alone, in a system of two binary variables A
and B. -/
def exampleRelA : ocRelation := ⟨[0]⟩

/-- The relation of the variable B alone. -/
def exampleRelB : ocRelation := ⟨[1]⟩

/-- A BP service for two binary variables A and B.  A key is one segment with
two bits for each variable (A above B), all ones standing for a variable that
is left out.  The input data is normalized and holds the four joint
states; the projection tables hold the marginal sums; the traversal of the
model A:B visits A and B with the sign +1. -/
def exampleBPService : ocBPService :=
  { inputData := [([0], ocDouble.fin (1 / 10)), ([1], ocDouble.fin (2 / 10)),
      ([4], ocDouble.fin (2 / 10)), ([5], ocDouble.fin (5 / 10))]
    keysize := 1
    getTable := fun rel =>
      if rel = exampleRelA then [([3], ocDouble.fin (3 / 10)), ([7], ocDouble.fin (7 / 10))]
      else if rel = exampleRelB then
        [([12], ocDouble.fin (3 / 10)), ([13], ocDouble.fin (7 / 10))]
      else [([0], ocDouble.fin (1 / 10)), ([1], ocDouble.fin (2 / 10)),
        ([4], ocDouble.fin (2 / 10)), ([5], ocDouble.fin (5 / 10))]
    getMask := fun rel =>
      if rel = exampleRelA then [3] else if rel = exampleRelB then [12] else [0]
    ocDegreesOfFreedom := fun rel =>
      if rel = exampleRelA then 1 else if rel = exampleRelB then 1 else 3
    doIntersectionProcessing := fun _ => [(1, exampleRelA), (1, exampleRelB)]
    log := fun x => x }

/-- A manager state for the BP transmission of two binary variables A and B: the
top AB (address 0, active reference) and the model A:B (address 1, bottom
reference), no attribute computed. -/
def exampleBPManager : ocVBMManager :=
  ⟨[⟨2, false⟩, ⟨2, false⟩], [⟨[⟨[0, 1]⟩], []⟩, ⟨[exampleRelA, exampleRelB], []⟩],
    [1, 0], some 0, some 1, some 0⟩

/-- Writing the value `v` under `name` on the model at `a` changes nothing: the
attribute is there with that value (or the pointer is dead). -/
def ocVBMManager.Holds (mgr : ocVBMManager) (a : Nat) (name : String) (v : ocDouble) : Prop :=
  mgr.setAttribute a name v = mgr

/-- A call of the primitive returns `v` and leaves the state as it is. -/
def ocVBMManager.StatDone (mgr : ocVBMManager) (a : Nat) (name : String)
    (oracle : List ocRelation → ocDouble) (v : ocDouble) : Prop :=
  mgr.cachedStatistic a name oracle = some (v, mgr)

/-- A call of `computeBPT` returns `v` and leaves the state as it is. -/
def ocVBMManager.BptDone (bp : ocBPService) (mgr : ocVBMManager) (a : Nat) (v : ocDouble) :
    Prop :=
  mgr.computeBPT bp a = some (v, mgr)

/-- The state `mgr'` is reached from `mgr` by calls of the primitives and of
`computeBPT` and by writes of other attributes, all under names in `names`. -/
inductive ocVBMManager.Runs (stats : ocStatistics) (bp : ocBPService) (names : List String) :
    ocVBMManager → ocVBMManager → Prop
  | refl (mgr : ocVBMManager) : ocVBMManager.Runs stats bp names mgr mgr
  | set {mgr mgr' : ocVBMManager} (a : Nat) (name : String) (v : ocDouble) :
      ocVBMManager.Runs stats bp names mgr mgr' → name ∈ names → stats.prim name = none →
      name ≠ ATTRIBUTE_BP_T →
      ocVBMManager.Runs stats bp names mgr (mgr'.setAttribute a name v)
  | stat {mgr mgr' mgr'' : ocVBMManager} (a : Nat) (name : String)
      (oracle : List ocRelation → ocDouble) (v : ocDouble) :
      ocVBMManager.Runs stats bp names mgr mgr' → name ∈ names →
      stats.prim name = some oracle →
      mgr'.cachedStatistic a name oracle = some (v, mgr'') →
      ocVBMManager.Runs stats bp names mgr mgr''
  | bpt {mgr mgr' mgr'' : ocVBMManager} (a : Nat) (v : ocDouble) :
      ocVBMManager.Runs stats bp names mgr mgr' → ATTRIBUTE_BP_T ∈ names →
      mgr'.computeBPT bp a = some (v, mgr'') →
      ocVBMManager.Runs stats bp names mgr mgr''

/-- The transmission `computeBPT` computes for the model `m` when it is not
cached: `computeBPT.compute` on the first relation of the top reference. -/
def ocVBMManager.bptValue (bp : ocBPService) (mgr : ocVBMManager) (m : ocModel) :
    Option ocDouble :=
  match mgr.topRef with
  | none => none
  | some topRef =>
    match mgr.heap[topRef]? with
    | none => none
    | some top =>
      match top.getRelation 0 with
      | none => none
      | some rel0 => computeBPT.compute bp rel0 m.relations

/-- The information statistics of the model are settled: the primitives are done
and the two writes change nothing, for the entropies `topH` and `botH` that
are read through the references. -/
def ocVBMManager.InformationSettled (stats : ocStatistics) (mgr : ocVBMManager) (model : Nat)
    (modelH modelT topH botH : ocDouble) : Prop :=
  mgr.Live (some model)
  ∧ mgr.StatDone model ATTRIBUTE_H stats.h modelH
  ∧ mgr.StatDone model ATTRIBUTE_T stats.t modelT
  ∧ mgr.getAttribute mgr.topRef ATTRIBUTE_H = some topH
  ∧ mgr.getAttribute mgr.bottomRef ATTRIBUTE_H = some botH
  ∧ mgr.Holds model ATTRIBUTE_EXPLAINED_I
      (clampInfo (ocDouble.div (ocDouble.sub (ocDouble.sub botH topH) modelT)
        (ocDouble.sub botH topH)))
  ∧ mgr.Holds model ATTRIBUTE_UNEXPLAINED_I
      (clampInfo (ocDouble.div modelT (ocDouble.sub botH topH)))

/-! ## Theorems: lattice generation -/

/-- A loop storing `g r` at slot `r`, for the indices of `idxs` in turn, leaves
`g i` at every visited slot in range and the other slots untouched. -/
theorem foldl_set_getElem? {α : Type} (g : Nat → α) (idxs : List Nat) (buf : List α) (i : Nat) :
    (idxs.foldl (fun b r => b.set r (g r)) buf)[i]? =
      (if i ∈ idxs ∧ i < buf.length then some (g i) else buf[i]?) := by
  induction idxs generalizing buf with
  | nil => simp
  | cons r rest ih =>
    rw [List.foldl_cons, ih, List.length_set, List.getElem?_set]
    by_cases hir : r = i
    · subst hir
      by_cases hlt : r < buf.length
      · simp [hlt]
      · have : buf[r]? = none := by simp at hlt; simp [hlt]
        simp [hlt, this]
    · have hir2 : i ≠ r := fun h => hir h.symm
      simp [hir, hir2]

/-- The slots filled by `makeAllChildRelations`, on a buffer of `order` slots. -/
theorem makeAllChildRelations_eq (rel : ocRelation) (children : List (Option ocRelation))
    (makeProject : Bool) (hlen : children.length = rel.getVariableCount) :
    makeAllChildRelations rel children makeProject =
      (List.range rel.getVariableCount).map
        (fun r => some (getChildRelation rel r makeProject)) := by
  apply List.ext_getElem?
  intro i
  unfold makeAllChildRelations
  simp only []
  rw [foldl_set_getElem? (fun r => some (getChildRelation rel r makeProject))]
  by_cases hi : i < rel.getVariableCount
  · simp [hi, hlen, List.getElem?_range hi]
  · have h1 : children[i]? = none := by
      apply List.getElem?_eq_none; omega
    have h2 : (List.range rel.getVariableCount)[i]? = none := by
      apply List.getElem?_eq_none; simp; omega
    simp [hi, h1, h2]

/-- The inner loop of `makeChildModel`: the children are appended in slot order. -/
theorem addChildren_relations (f : Nat → ocRelation) (k : Nat) (m : ocModel) :
    ((List.range k).foldl
        (fun newModel j =>
          newModel.addRelation (((List.range k).map (fun r => some (f r))).getD j none)) m).relations
      = m.relations ++ (List.range k).map f
    ∧ ((List.range k).foldl
        (fun newModel j =>
          newModel.addRelation (((List.range k).map (fun r => some (f r))).getD j none)) m).attrs
      = m.attrs := by
  have key : ∀ n, n ≤ k →
      ((List.range n).foldl
        (fun newModel j =>
          newModel.addRelation (((List.range k).map (fun r => some (f r))).getD j none)) m)
      = ⟨m.relations ++ (List.range n).map f, m.attrs⟩ := by
    intro n
    induction n with
    | zero => intro _; simp
    | succ n ih =>
      intro hn
      have hlt : n < k := hn
      rw [List.range_succ, List.foldl_append, ih (by omega)]
      simp [ocModel.addRelation, List.getD_eq_getElem?_getD, List.getElem?_range hlt]
  rw [key k (le_refl k)]
  simp

/-- The relation loop of `makeChildModel` after its first `n` iterations. -/
theorem addRelations_prefix (model : ocModel) (r : Nat) (R : ocRelation)
    (hR : model.relations[r]? = some R) (mp : Bool) (init : ocModel) (n : Nat)
    (hn : n ≤ model.relations.length) :
    (List.range n).foldl
      (fun newModel i =>
        match model.getRelation i with
        | none => newModel
        | some rel =>
          if (i : Int) = (r : Int) then
            let varCount := rel.getVariableCount
            let children := makeAllChildRelations rel (List.replicate varCount none) mp
            (List.range varCount).foldl
              (fun newModel j => newModel.addRelation (children.getD j none))
              newModel
          else
            newModel.addRelation (some rel))
      init
    = ⟨init.relations ++
        (if n ≤ r then model.relations.take n
         else model.relations.take r ++ childRelations R mp
                ++ (model.relations.take n).drop (r + 1)),
       init.attrs⟩ := by
  induction n with
  | zero => simp
  | succ n ih =>
    have hlt : n < model.relations.length := hn
    rw [List.range_succ, List.foldl_append, ih (by omega)]
    have hget : model.getRelation n = some model.relations[n] := by
      simp [ocModel.getRelation, List.getElem?_eq_getElem hlt]
    simp only [List.foldl_cons, List.foldl_nil, hget]
    by_cases hnr : n = r
    · subst hnr
      have hRn : model.relations[n] = R := by
        rw [List.getElem?_eq_getElem hlt] at hR
        exact Option.some.inj hR
      rw [hRn]
      simp only [if_true, le_refl]
      rw [makeAllChildRelations_eq R _ mp (by simp)]
      have h := addChildren_relations (fun j => getChildRelation R j mp) R.getVariableCount
        ⟨init.relations ++ List.take n model.relations, init.attrs⟩
      have hd : List.drop (n + 1) (List.take (n + 1) model.relations) = [] := by
        simp
      rw [if_neg (by omega), hd]
      cases hfold : (List.range R.getVariableCount).foldl
          (fun newModel j =>
            newModel.addRelation
              (((List.range R.getVariableCount).map
                (fun r => some (getChildRelation R r mp))).getD j none))
          (⟨init.relations ++ List.take n model.relations, init.attrs⟩ : ocModel) with
      | mk rels attrs =>
        rw [hfold] at h
        simp only at h
        simp [h.1, h.2, childRelations]
    · have hne : ¬ ((n : Int) = (r : Int)) := by omega
      simp only [hne, if_false, ocModel.addRelation]
      have hts : List.take (n + 1) model.relations
          = List.take n model.relations ++ [model.relations[n]] := by
        rw [List.take_succ, List.getElem?_eq_getElem hlt]; rfl
      by_cases hle : n ≤ r
      · have hlt2 : n + 1 ≤ r := by omega
        rw [if_pos hle, if_pos hlt2, hts, List.append_assoc]
      · have h1 : ¬ (n + 1 ≤ r) := by omega
        have h2 : r + 1 ≤ (List.take n model.relations).length := by
          simp; omega
        rw [if_neg hle, if_neg h1, hts, List.drop_append_of_le_length h2]
        simp [List.append_assoc]

/-- Two predicates that agree on the members of a list find the same element. -/
theorem find?_congr_mem {α : Type} (l : List α) (p q : α → Bool)
    (h : ∀ a ∈ l, p a = q a) : l.find? p = l.find? q := by
  induction l with
  | nil => rfl
  | cons x xs ih =>
    have hx : p x = q x := h x (List.mem_cons_self x xs)
    have hxs : ∀ a ∈ xs, p a = q a := fun a ha => h a (List.mem_cons_of_mem x ha)
    simp only [List.find?_cons, hx, ih hxs]

/-- Allocating a new object does not change the name read at a live address. -/
theorem nameOf_alloc {Name : Type} (getPrintName : List ocRelation → Name)
    (mgr : ocVBMManager) (m : ocModel) (a : Nat) (ha : a < mgr.heap.length) :
    (mgr.alloc m).2.nameOf getPrintName a = mgr.nameOf getPrintName a := by
  simp [ocVBMManager.nameOf, ocVBMManager.alloc, List.getElem?_append_left ha]

/-- The name read at the address of a freshly allocated object is the name of that object. -/
theorem nameOf_alloc_new {Name : Type} (getPrintName : List ocRelation → Name)
    (mgr : ocVBMManager) (m : ocModel) :
    (mgr.alloc m).2.nameOf getPrintName mgr.heap.length = some (getPrintName m.relations) := by
  simp [ocVBMManager.nameOf, ocVBMManager.alloc]

/-- With a live cache, allocation does not change what `findModel` finds. -/
theorem findModel_alloc {Name : Type} [DecidableEq Name]
    (getPrintName : List ocRelation → Name) (mgr : ocVBMManager) (hlive : mgr.CacheLive) (m : ocModel) (name : Name) :
    (mgr.alloc m).2.findModel getPrintName name = mgr.findModel getPrintName name := by
  unfold ocVBMManager.findModel
  have hc : (mgr.alloc m).2.modelCache = mgr.modelCache := rfl
  rw [hc]
  apply find?_congr_mem
  intro a ha
  rw [nameOf_alloc getPrintName mgr m a (hlive a ha)]

/-- Freeing the object allocated last restores the manager. -/
theorem free_alloc (mgr : ocVBMManager) (m : ocModel) :
    (mgr.alloc m).2.free mgr.heap.length = mgr := by
  simp [ocVBMManager.alloc, ocVBMManager.free]

/-- The two outcomes of `makeChildModel` for an index below the relation count:
publish when the name is not cached, fetch when it is. -/
theorem makeChildModel_eq {Name : Type} [DecidableEq Name]
    (getPrintName : List ocRelation → Name) (mgr : ocVBMManager) (hlive : mgr.CacheLive) (model : ocModel)
    (remove : Int) (mp : Bool) (hr : remove < (model.getRelationCount : Int)) :
    mgr.makeChildModel getPrintName model remove mp =
      match mgr.findModel getPrintName
          (getPrintName (makeChildModel.addRelations model remove mp ocModel.new).relations) with
      | some cached => (some cached, some true, mgr)
      | none =>
        (some mgr.heap.length, some false,
          { mgr with
            heap := mgr.heap ++ [makeChildModel.addRelations model remove mp ocModel.new]
            modelCache := mgr.heap.length :: mgr.modelCache }) := by
  unfold ocVBMManager.makeChildModel
  have hnot : ¬ (remove ≥ (model.getRelationCount : Int)) := by omega
  simp only [hnot, if_false]
  generalize makeChildModel.addRelations model remove mp ocModel.new = built
  have hfa := findModel_alloc getPrintName mgr hlive built (getPrintName built.relations)
  have hheap : (mgr.alloc built).2.heap[mgr.heap.length]? = some built := by
    simp [ocVBMManager.alloc]
  have hfst : (mgr.alloc built).1 = mgr.heap.length := rfl
  cases hfind : mgr.findModel getPrintName (getPrintName built.relations) with
  | some cached =>
    rw [hfind] at hfa
    simp only [ocVBMManager.addModel, hfst, hheap, hfa, free_alloc]
  | none =>
    rw [hfind] at hfa
    simp only [ocVBMManager.addModel, hfst, hheap, hfa]
    simp [ocVBMManager.alloc]

/-- A call with an index at or above the relation count returns `NULL`, writes
nothing through `fromCache` and leaves the manager as it was. -/
theorem makeChildModel_high {Name : Type} [DecidableEq Name]
    (getPrintName : List ocRelation → Name) (mgr : ocVBMManager) (model : ocModel)
    (remove : Int) (mp : Bool) (hr : (model.getRelationCount : Int) ≤ remove) :
    mgr.makeChildModel getPrintName model remove mp = (none, none, mgr) := by
  unfold ocVBMManager.makeChildModel
  simp [hr]

/-- The lookup `findModel` finds nothing exactly when no cached address carries the name. -/
theorem findModel_eq_none {Name : Type} [DecidableEq Name]
    (getPrintName : List ocRelation → Name) (mgr : ocVBMManager) (name : Name) :
    mgr.findModel getPrintName name = none ↔
      ∀ a ∈ mgr.modelCache, mgr.nameOf getPrintName a ≠ some name := by
  simp [ocVBMManager.findModel, List.find?_eq_none]

/-- A model found by `findModel` is cached and carries the name. -/
theorem findModel_some {Name : Type} [DecidableEq Name]
    (getPrintName : List ocRelation → Name) (mgr : ocVBMManager) (name : Name) (a : Nat)
    (h : mgr.findModel getPrintName name = some a) :
    a ∈ mgr.modelCache ∧ mgr.nameOf getPrintName a = some name := by
  unfold ocVBMManager.findModel at h
  refine ⟨List.mem_of_find?_eq_some h, ?_⟩
  have := List.find?_some h
  simpa using this

/-- Every call of `makeChildModel` keeps the cache live. -/
theorem makeChildModel_live {Name : Type} [DecidableEq Name]
    (getPrintName : List ocRelation → Name) (mgr : ocVBMManager) (hlive : mgr.CacheLive)
    (model : ocModel) (remove : Int) (mp : Bool) :
    (mgr.makeChildModel getPrintName model remove mp).2.2.CacheLive := by
  by_cases hr : remove < (model.getRelationCount : Int)
  · rw [makeChildModel_eq getPrintName mgr hlive model remove mp hr]
    cases mgr.findModel getPrintName
        (getPrintName (makeChildModel.addRelations model remove mp ocModel.new).relations) with
    | some cached => exact hlive
    | none =>
      intro a ha
      simp only [List.mem_cons] at ha
      simp only [List.length_append, List.length_singleton]
      rcases ha with rfl | ha
      · omega
      · have := hlive a ha; omega
  · rw [makeChildModel_high getPrintName mgr model remove mp (by omega)]
    exact hlive

/-- Every call of `makeChildModel` keeps what `findModel` already finds. -/
theorem makeChildModel_find_mono {Name : Type} [DecidableEq Name]
    (getPrintName : List ocRelation → Name) (mgr : ocVBMManager) (hlive : mgr.CacheLive)
    (model : ocModel) (remove : Int) (mp : Bool) (name : Name) (a : Nat)
    (hfind : mgr.findModel getPrintName name = some a) :
    (mgr.makeChildModel getPrintName model remove mp).2.2.findModel getPrintName name
      = some a := by
  by_cases hr : remove < (model.getRelationCount : Int)
  · rw [makeChildModel_eq getPrintName mgr hlive model remove mp hr]
    cases hb : mgr.findModel getPrintName
        (getPrintName (makeChildModel.addRelations model remove mp ocModel.new).relations) with
    | some cached => exact hfind
    | none =>
      have hne : getPrintName (makeChildModel.addRelations model remove mp ocModel.new).relations
          ≠ name := by
        intro h
        rw [h, hfind] at hb
        exact Option.noConfusion hb
      have hfa := findModel_alloc getPrintName mgr hlive
        (makeChildModel.addRelations model remove mp ocModel.new) name
      rw [hfind] at hfa
      simp only [ocVBMManager.findModel, ocVBMManager.alloc] at hfa
      simp only [ocVBMManager.findModel, List.find?_cons]
      have hnew : ocVBMManager.nameOf getPrintName
          { mgr with
            heap := mgr.heap ++ [makeChildModel.addRelations model remove mp ocModel.new]
            modelCache := mgr.heap.length :: mgr.modelCache } mgr.heap.length
          = some (getPrintName
              (makeChildModel.addRelations model remove mp ocModel.new).relations) := by
        simp [ocVBMManager.nameOf]
      rw [hnew]
      have hd : decide (some (getPrintName
          (makeChildModel.addRelations model remove mp ocModel.new).relations) = some name)
          = false := by
        simp [hne]
      rw [hd]
      exact hfa
  · rw [makeChildModel_high getPrintName mgr model remove mp (by omega)]
    exact hfind

/-- A call with an index below the relation count returns a model, and it is the
one the cache then finds under the name of the built model. -/
theorem makeChildModel_result {Name : Type} [DecidableEq Name]
    (getPrintName : List ocRelation → Name) (mgr : ocVBMManager) (hlive : mgr.CacheLive)
    (model : ocModel) (remove : Int) (mp : Bool)
    (hr : remove < (model.getRelationCount : Int)) :
    ∃ a, (mgr.makeChildModel getPrintName model remove mp).1 = some a ∧
      (mgr.makeChildModel getPrintName model remove mp).2.2.findModel getPrintName
        (getPrintName (makeChildModel.addRelations model remove mp ocModel.new).relations)
        = some a := by
  rw [makeChildModel_eq getPrintName mgr hlive model remove mp hr]
  cases hb : mgr.findModel getPrintName
      (getPrintName (makeChildModel.addRelations model remove mp ocModel.new).relations) with
  | some cached => exact ⟨cached, rfl, hb⟩
  | none =>
    refine ⟨mgr.heap.length, rfl, ?_⟩
    simp [ocVBMManager.findModel, List.find?_cons, ocVBMManager.nameOf]

/-- Every call of `makeChildModel` keeps the cache at one model per name at most. -/
theorem makeChildModel_unique {Name : Type} [DecidableEq Name]
    (getPrintName : List ocRelation → Name) (mgr : ocVBMManager) (hlive : mgr.CacheLive)
    (huniq : mgr.UniqueNames getPrintName) (model : ocModel) (remove : Int) (mp : Bool) :
    (mgr.makeChildModel getPrintName model remove mp).2.2.UniqueNames getPrintName := by
  by_cases hr : remove < (model.getRelationCount : Int)
  · rw [makeChildModel_eq getPrintName mgr hlive model remove mp hr]
    cases hb : mgr.findModel getPrintName
        (getPrintName (makeChildModel.addRelations model remove mp ocModel.new).relations) with
    | some cached => exact huniq
    | none =>
      rw [findModel_eq_none] at hb
      unfold ocVBMManager.UniqueNames at huniq ⊢
      have hold : ∀ a ∈ mgr.modelCache,
          ocVBMManager.nameOf getPrintName
            { mgr with
              heap := mgr.heap ++ [makeChildModel.addRelations model remove mp ocModel.new]
              modelCache := mgr.heap.length :: mgr.modelCache } a
          = mgr.nameOf getPrintName a := by
        intro a ha
        simp [ocVBMManager.nameOf, List.getElem?_append_left (hlive a ha)]
      have hmap : List.map
          (ocVBMManager.nameOf getPrintName
            { mgr with
              heap := mgr.heap ++ [makeChildModel.addRelations model remove mp ocModel.new]
              modelCache := mgr.heap.length :: mgr.modelCache }) mgr.modelCache
          = List.map (mgr.nameOf getPrintName) mgr.modelCache :=
        List.map_congr_left hold
      simp only [List.map_cons, List.nodup_cons]
      rw [hmap]
      refine ⟨?_, huniq⟩
      have hnew : ocVBMManager.nameOf getPrintName
          { mgr with
            heap := mgr.heap ++ [makeChildModel.addRelations model remove mp ocModel.new]
            modelCache := mgr.heap.length :: mgr.modelCache } mgr.heap.length
          = some (getPrintName
              (makeChildModel.addRelations model remove mp ocModel.new).relations) := by
        simp [ocVBMManager.nameOf]
      rw [hnew]
      intro hmem
      rcases List.mem_map.mp hmem with ⟨a, ha, hna⟩
      exact hb a ha hna
  · rw [makeChildModel_high getPrintName mgr model remove mp (by omega)]
    exact huniq

/-- A run of calls keeps the cache live. -/
theorem runChildCalls_live {Name : Type} [DecidableEq Name]
    (getPrintName : List ocRelation → Name) (calls : List ChildCall) (mgr : ocVBMManager)
    (hlive : mgr.CacheLive) : (mgr.runChildCalls getPrintName calls).2.CacheLive := by
  induction calls generalizing mgr with
  | nil => exact hlive
  | cons c cs ih =>
    exact ih _ (makeChildModel_live getPrintName mgr hlive c.model c.remove c.makeProject)

/-- A run of calls keeps the cache at one model per name at most. -/
theorem runChildCalls_unique {Name : Type} [DecidableEq Name]
    (getPrintName : List ocRelation → Name) (calls : List ChildCall) (mgr : ocVBMManager)
    (hlive : mgr.CacheLive) (huniq : mgr.UniqueNames getPrintName) :
    (mgr.runChildCalls getPrintName calls).2.UniqueNames getPrintName := by
  induction calls generalizing mgr with
  | nil => exact huniq
  | cons c cs ih =>
    exact ih _ (makeChildModel_live getPrintName mgr hlive c.model c.remove c.makeProject)
      (makeChildModel_unique getPrintName mgr hlive huniq c.model c.remove c.makeProject)

/-- A run of calls keeps what `findModel` already finds. -/
theorem runChildCalls_find_mono {Name : Type} [DecidableEq Name]
    (getPrintName : List ocRelation → Name) (calls : List ChildCall) (mgr : ocVBMManager)
    (hlive : mgr.CacheLive) (name : Name) (a : Nat)
    (hfind : mgr.findModel getPrintName name = some a) :
    (mgr.runChildCalls getPrintName calls).2.findModel getPrintName name = some a := by
  induction calls generalizing mgr with
  | nil => exact hfind
  | cons c cs ih =>
    exact ih _ (makeChildModel_live getPrintName mgr hlive c.model c.remove c.makeProject)
      (makeChildModel_find_mono getPrintName mgr hlive c.model c.remove c.makeProject name a hfind)

/-- In a run, a call that builds a model whose name the cache already held
returns the cached model. -/
theorem runChildCalls_fetch {Name : Type} [DecidableEq Name]
    (getPrintName : List ocRelation → Name) (calls : List ChildCall) (mgr : ocVBMManager)
    (hlive : mgr.CacheLive) (j : Nat) (cj : ChildCall) (hj : calls[j]? = some cj)
    (hv : cj.remove < (cj.model.getRelationCount : Int)) (a : Nat)
    (hfind : mgr.findModel getPrintName (cj.builtName getPrintName) = some a) :
    (mgr.runChildCalls getPrintName calls).1[j]? = some (some a) := by
  induction calls generalizing mgr j with
  | nil => simp at hj
  | cons c cs ih =>
    cases j with
    | zero =>
      simp only [List.getElem?_cons_zero, Option.some.injEq] at hj
      subst hj
      simp only [ocVBMManager.runChildCalls, List.getElem?_cons_zero]
      rw [makeChildModel_eq getPrintName mgr hlive c.model c.remove c.makeProject hv]
      unfold ChildCall.builtName at hfind
      rw [hfind]
    | succ j =>
      simp only [List.getElem?_cons_succ] at hj
      simp only [ocVBMManager.runChildCalls, List.getElem?_cons_succ]
      exact ih _ (makeChildModel_live getPrintName mgr hlive c.model c.remove c.makeProject)
        j hj (makeChildModel_find_mono getPrintName mgr hlive c.model c.remove c.makeProject
          _ a hfind)

/-- In a run, two calls that build models of the same canonical name return the
same model, which the final cache finds under that name. -/
theorem runChildCalls_same {Name : Type} [DecidableEq Name]
    (getPrintName : List ocRelation → Name) (calls : List ChildCall) (mgr : ocVBMManager)
    (hlive : mgr.CacheLive) (i j : Nat) (hij : i ≤ j) (ci cj : ChildCall)
    (hi : calls[i]? = some ci) (hj : calls[j]? = some cj)
    (hvi : ci.remove < (ci.model.getRelationCount : Int))
    (hvj : cj.remove < (cj.model.getRelationCount : Int))
    (hname : ci.builtName getPrintName = cj.builtName getPrintName) :
    ∃ a, (mgr.runChildCalls getPrintName calls).1[i]? = some (some a) ∧
      (mgr.runChildCalls getPrintName calls).1[j]? = some (some a) ∧
      (mgr.runChildCalls getPrintName calls).2.findModel getPrintName
        (ci.builtName getPrintName) = some a := by
  induction calls generalizing mgr i j with
  | nil => simp at hi
  | cons c cs ih =>
    have hlive1 := makeChildModel_live getPrintName mgr hlive c.model c.remove c.makeProject
    cases i with
    | zero =>
      simp only [List.getElem?_cons_zero, Option.some.injEq] at hi
      subst hi
      obtain ⟨a, hres, hfind⟩ :=
        makeChildModel_result getPrintName mgr hlive c.model c.remove c.makeProject hvi
      have hfinal := runChildCalls_find_mono getPrintName cs _ hlive1 _ a hfind
      refine ⟨a, ?_, ?_, ?_⟩
      · simp only [ocVBMManager.runChildCalls, List.getElem?_cons_zero, hres]
      · cases j with
        | zero => simp only [ocVBMManager.runChildCalls, List.getElem?_cons_zero, hres]
        | succ j =>
          simp only [List.getElem?_cons_succ] at hj
          simp only [ocVBMManager.runChildCalls, List.getElem?_cons_succ]
          apply runChildCalls_fetch getPrintName cs _ hlive1 j cj hj hvj a
          rw [← hname]
          exact hfind
      · exact hfinal
    | succ i =>
      cases j with
      | zero => omega
      | succ j =>
        simp only [List.getElem?_cons_succ] at hi hj
        simp only [ocVBMManager.runChildCalls, List.getElem?_cons_succ]
        exact ih _ hlive1 i j (by omega) hi hj

/-- C1: the model built by `makeChildModel` at a valid index `r` has the relation
sequence `R_0..R_{r-1}`, the children of `R_r` (all `order(R_r)` of them, as
`makeAllChildRelations` fills them), `R_{r+1}..R_{n-1}`: the other relations
are those of the parent, in the same order, so it has `n - 1 + order(R_r)`
relations; and this built model is the object a publishing call returns. -/
theorem makeChildModel_relation_sequence {Name : Type} [DecidableEq Name]
    (getPrintName : List ocRelation → Name) (model : ocModel) (r : Nat) (R : ocRelation)
    (mp : Bool) (hR : model.getRelation r = some R) :
    (makeChildModel.addRelations model (r : Int) mp ocModel.new).relations
        = model.relations.take r ++ childRelations R mp ++ model.relations.drop (r + 1)
    ∧ makeAllChildRelations R (List.replicate R.getVariableCount none) mp
        = (childRelations R mp).map some
    ∧ (childRelations R mp).length = R.getVariableCount
    ∧ (makeChildModel.addRelations model (r : Int) mp ocModel.new).relations.length
        = model.getRelationCount - 1 + R.getVariableCount
    ∧ ∀ (mgr : ocVBMManager) (a : Nat) (mgr' : ocVBMManager),
        mgr.makeChildModel getPrintName model (r : Int) mp = (some a, some false, mgr') →
        mgr'.heap[a]? = some (makeChildModel.addRelations model (r : Int) mp ocModel.new) := by
  have hlt : r < model.relations.length := by
    unfold ocModel.getRelation at hR
    by_contra hge
    rw [List.getElem?_eq_none (by omega)] at hR
    exact Option.noConfusion hR
  have hseq : (makeChildModel.addRelations model (r : Int) mp ocModel.new).relations
      = model.relations.take r ++ childRelations R mp ++ model.relations.drop (r + 1) := by
    unfold makeChildModel.addRelations
    rw [ocModel.getRelationCount,
      addRelations_prefix model r R hR mp ocModel.new model.relations.length (le_refl _)]
    simp [ocModel.new, if_neg (show ¬ model.relations.length ≤ r by omega)]
  have hclen : (childRelations R mp).length = R.getVariableCount := by
    simp [childRelations]
  refine ⟨hseq, ?_, hclen, ?_, ?_⟩
  · rw [makeAllChildRelations_eq R _ mp (by simp)]
    simp [childRelations]
  · rw [hseq]
    simp only [List.length_append, List.length_take, List.length_drop, hclen,
      ocModel.getRelationCount]
    omega
  · intro mgr a mgr' hcall
    unfold ocVBMManager.makeChildModel at hcall
    have hnot : ¬ ((r : Int) ≥ (model.getRelationCount : Int)) := by
      simp only [ocModel.getRelationCount]; omega
    simp only [hnot, if_false] at hcall
    generalize makeChildModel.addRelations model (r : Int) mp ocModel.new = built at hcall ⊢
    have hheap : (mgr.alloc built).2.heap[mgr.heap.length]? = some built := by
      simp [ocVBMManager.alloc]
    have hfst : (mgr.alloc built).1 = mgr.heap.length := rfl
    simp only [ocVBMManager.addModel, hfst, hheap] at hcall
    cases hfind : (mgr.alloc built).2.findModel getPrintName (getPrintName built.relations) with
    | some cached =>
      rw [hfind] at hcall
      simp at hcall
    | none =>
      rw [hfind] at hcall
      simp only [Prod.mk.injEq, Option.some.injEq] at hcall
      obtain ⟨ha, _, hm⟩ := hcall
      subst ha
      subst hm
      simp [ocVBMManager.alloc]

/-- Witness of C1: decomposing relation 0 of the model `ABC:DE`. -/
theorem makeChildModel_relation_sequence_witness :
    (⟨[⟨[0, 1, 2]⟩, ⟨[3, 4]⟩], []⟩ : ocModel).getRelation 0 = some ⟨[0, 1, 2]⟩
    ∧ (makeChildModel.addRelations ⟨[⟨[0, 1, 2]⟩, ⟨[3, 4]⟩], []⟩ ((0 : Nat) : Int) true
        ocModel.new).relations
        = List.take 0 [⟨[0, 1, 2]⟩, ⟨[3, 4]⟩] ++ childRelations ⟨[0, 1, 2]⟩ true
          ++ List.drop (0 + 1) [⟨[0, 1, 2]⟩, ⟨[3, 4]⟩] :=
  ⟨by decide,
    (makeChildModel_relation_sequence canonicalName ⟨[⟨[0, 1, 2]⟩, ⟨[3, 4]⟩], []⟩ 0
      ⟨[0, 1, 2]⟩ true (by decide)).1⟩

/-- C2: `makeChildModel` is publish-or-fetch.  At a valid index, on a live cache:
if the cache holds no model of the built canonical name, the built model is
allocated, added to the cache and returned with `fromCache = false`; if it
holds one, that cached instance is returned with `fromCache = true` and the
manager (cache and heap) is left as it was. -/
theorem makeChildModel_publish_or_fetch {Name : Type} [DecidableEq Name]
    (getPrintName : List ocRelation → Name) (mgr : ocVBMManager) (model : ocModel)
    (remove : Int) (mp : Bool) (hlive : mgr.CacheLive) (h0 : 0 ≤ remove)
    (hr : remove < (model.getRelationCount : Int)) :
    (mgr.findModel getPrintName
        (getPrintName (makeChildModel.addRelations model remove mp ocModel.new).relations) = none →
      mgr.heap.length ∉ mgr.modelCache ∧
      mgr.makeChildModel getPrintName model remove mp =
        (some mgr.heap.length, some false,
          { mgr with
            heap := mgr.heap ++ [makeChildModel.addRelations model remove mp ocModel.new]
            modelCache := mgr.heap.length :: mgr.modelCache }))
    ∧ (∀ cached : Nat,
        mgr.findModel getPrintName
          (getPrintName (makeChildModel.addRelations model remove mp ocModel.new).relations)
          = some cached →
        mgr.makeChildModel getPrintName model remove mp = (some cached, some true, mgr)) := by
  have _ := h0
  have heq := makeChildModel_eq getPrintName mgr hlive model remove mp hr
  constructor
  · intro hnone
    rw [hnone] at heq
    refine ⟨?_, heq⟩
    intro hmem
    have := hlive _ hmem
    omega
  · intro cached hsome
    rw [hsome] at heq
    exact heq

/-- Witness of C2: the child of `ABC` is fetched from a cache that holds it. -/
theorem makeChildModel_publish_or_fetch_witness :
    exampleManagerChild.CacheLive ∧ (0 : Int) ≤ 0
    ∧ (0 : Int) < (exampleABC.getRelationCount : Int)
    ∧ exampleManagerChild.makeChildModel canonicalName exampleABC 0 true
        = (some 0, some true, exampleManagerChild) :=
  ⟨by decide, by decide, by decide,
    (makeChildModel_publish_or_fetch canonicalName exampleManagerChild exampleABC 0 true
      (by decide) (by decide) (by decide)).2 0 (by decide)⟩

/-- C3, at the failing input: with the out-of-range index `remove = -1`,
`makeChildModel` does not return `NULL`.  On a cache that holds the parent `ABC`
it returns the parent with `fromCache = true`; on an empty cache it publishes a
copy of the parent and returns it with `fromCache = false`. -/
theorem makeChildModel_negative_index :
    exampleManagerABC.makeChildModel canonicalName exampleABC (-1) true
        = (some 0, some true, exampleManagerABC)
    ∧ (exampleEmptyManager.makeChildModel canonicalName exampleABC (-1) true).1 = some 0
    ∧ (exampleEmptyManager.makeChildModel canonicalName exampleABC (-1) true).2.1 = some false
    ∧ (exampleEmptyManager.makeChildModel canonicalName exampleABC (-1) true).2.2.modelCache = [0]
    ∧ (exampleEmptyManager.makeChildModel canonicalName exampleABC (-1) true).2.2.heap
        = [exampleABC] := by
  refine ⟨?_, ?_, ?_, ?_, ?_⟩
  · have h := makeChildModel_eq canonicalName exampleManagerABC (by decide) exampleABC (-1) true
      (by decide)
    rw [h]
    have hf : exampleManagerABC.findModel canonicalName
        (canonicalName (makeChildModel.addRelations exampleABC (-1) true ocModel.new).relations)
        = some 0 := by decide
    rw [hf]
  · decide
  · decide
  · decide
  · decide

/-- The part of C3 the code does implement: an index at or above the relation
count returns `NULL`, and neither the cache nor the heap changes. -/
theorem makeChildModel_index_too_large {Name : Type} [DecidableEq Name]
    (getPrintName : List ocRelation → Name) (mgr : ocVBMManager) (model : ocModel)
    (remove : Int) (mp : Bool) (hr : (model.getRelationCount : Int) ≤ remove) :
    (mgr.makeChildModel getPrintName model remove mp).1 = none
    ∧ (mgr.makeChildModel getPrintName model remove mp).2.2 = mgr := by
  rw [makeChildModel_high getPrintName mgr model remove mp hr]
  exact ⟨rfl, rfl⟩

/-- A negative index is treated as no index at all: on a live cache the call
returns a model instead of `NULL`. -/
theorem makeChildModel_negative_returns {Name : Type} [DecidableEq Name]
    (getPrintName : List ocRelation → Name) (mgr : ocVBMManager) (hlive : mgr.CacheLive)
    (model : ocModel) (remove : Int) (mp : Bool) (hneg : remove < 0) :
    ∃ a, (mgr.makeChildModel getPrintName model remove mp).1 = some a := by
  obtain ⟨a, ha, _⟩ := makeChildModel_result getPrintName mgr hlive model remove mp
    (by have : (0 : Int) ≤ (model.getRelationCount : Int) := Int.natCast_nonneg _
        omega)
  exact ⟨a, ha⟩

/-- C4: canonical identity.  Start from a live cache with at most one model per
canonical name and run any sequence of `makeChildModel` calls.  The cache still
holds at most one model per name; and any two calls of the run, at valid
indices, whose built models have the same canonical name return the same model
instance, which is the one the cache finds under that name.  (With `i = j` and
the run cut after call `i`: the model a call returns is the one the cache then
finds under its name.) -/
theorem makeChildModel_canonical_identity {Name : Type} [DecidableEq Name]
    (getPrintName : List ocRelation → Name) (mgr : ocVBMManager) (calls : List ChildCall)
    (hlive : mgr.CacheLive) (huniq : mgr.UniqueNames getPrintName) :
    (mgr.runChildCalls getPrintName calls).2.UniqueNames getPrintName
    ∧ ∀ (i j : Nat) (ci cj : ChildCall), i ≤ j →
        calls[i]? = some ci → calls[j]? = some cj → ci.Valid → cj.Valid →
        ci.builtName getPrintName = cj.builtName getPrintName →
        ∃ a, (mgr.runChildCalls getPrintName calls).1[i]? = some (some a)
          ∧ (mgr.runChildCalls getPrintName calls).1[j]? = some (some a)
          ∧ (mgr.runChildCalls getPrintName calls).2.findModel getPrintName
              (ci.builtName getPrintName) = some a := by
  refine ⟨runChildCalls_unique getPrintName calls mgr hlive huniq, ?_⟩
  intro i j ci cj hij hi hj hvi hvj hname
  exact runChildCalls_same getPrintName calls mgr hlive i j hij ci cj hi hj hvi.2 hvj.2 hname

/-- Witness of C4: the two paths of `exampleCalls`, from the empty cache, leave a
cache with one model per name. -/
theorem makeChildModel_canonical_identity_witness :
    exampleEmptyManager.CacheLive ∧ exampleEmptyManager.UniqueNames canonicalName
    ∧ (exampleEmptyManager.runChildCalls canonicalName exampleCalls).2.UniqueNames
        canonicalName :=
  ⟨by decide, by decide,
    (makeChildModel_canonical_identity canonicalName exampleEmptyManager exampleCalls
      (by decide) (by decide)).1⟩

/-- The two paths of `exampleCalls` return the same instance: the first call
publishes the model at address 0, the second fetches it. -/
theorem exampleCalls_same_instance :
    (exampleEmptyManager.runChildCalls canonicalName exampleCalls).1 = [some 0, some 0] := by
  decide

/-- In a list without duplicates, erasing position `r` removes exactly the
element at position `r`. -/
theorem mem_eraseIdx_nodup {l : List Nat} (hnd : l.Nodup) (r : Nat) (hr : r < l.length)
    (v : Nat) : v ∈ l.eraseIdx r ↔ v ∈ l ∧ v ≠ l[r] := by
  rw [List.mem_eraseIdx_iff_getElem]
  constructor
  · rintro ⟨i, hi, hne, rfl⟩
    refine ⟨List.getElem_mem _, ?_⟩
    intro heq
    exact hne ((List.Nodup.getElem_inj_iff hnd).mp heq)
  · rintro ⟨hmem, hne⟩
    obtain ⟨i, hi, rfl⟩ := List.getElem_of_mem hmem
    refine ⟨i, hi, ?_, rfl⟩
    intro hir
    subst hir
    exact hne rfl

/-- C5: children completeness.  For a relation of order `k` (its variables
distinct) `makeAllChildRelations` fills exactly the `k` slots of the buffer;
the child in slot `r` has order `k - 1`, is the parent with the variable at
position `r` omitted, so it lacks exactly that one variable of the parent; and
no other slot holds the same child, so each single-variable omission occurs
exactly once. -/
theorem makeAllChildRelations_complete (rel : ocRelation)
    (children : List (Option ocRelation)) (mp : Bool)
    (hlen : children.length = rel.getVariableCount) (hnd : rel.vars.Nodup) :
    (makeAllChildRelations rel children mp).length = rel.getVariableCount
    ∧ ∀ (r : Nat) (hr : r < rel.vars.length),
        ∃ child : ocRelation,
          (makeAllChildRelations rel children mp)[r]? = some (some child)
          ∧ child.getVariableCount = rel.getVariableCount - 1
          ∧ child.vars = rel.vars.eraseIdx r
          ∧ (∀ v, v ∈ child.vars ↔ v ∈ rel.vars ∧ v ≠ rel.vars[r])
          ∧ ∀ s, s < rel.getVariableCount → s ≠ r →
              (makeAllChildRelations rel children mp)[s]? ≠ some (some child) := by
  rw [makeAllChildRelations_eq rel children mp hlen]
  refine ⟨by simp, ?_⟩
  intro r hr
  have hr2 : r < rel.getVariableCount := hr
  refine ⟨getChildRelation rel r mp, ?_, ?_, rfl, ?_, ?_⟩
  · simp [List.getElem?_range hr2]
  · simp [getChildRelation, ocRelation.getVariableCount, List.length_eraseIdx, hr]
  · intro v
    exact mem_eraseIdx_nodup hnd r hr v
  · intro s hs hsr heq
    have hs2 : s < rel.vars.length := hs
    simp only [List.getElem?_map, List.getElem?_range hs, Option.map_some',
      Option.some.injEq] at heq
    have hv : (getChildRelation rel s mp).vars = (getChildRelation rel r mp).vars := by
      rw [heq]
    simp only [getChildRelation] at hv
    have h1 : rel.vars[r] ∈ rel.vars.eraseIdx s :=
      (mem_eraseIdx_nodup hnd s hs2 _).mpr
        ⟨List.getElem_mem _, fun h => hsr ((List.Nodup.getElem_inj_iff hnd).mp h).symm⟩
    rw [hv] at h1
    exact ((mem_eraseIdx_nodup hnd r hr _).mp h1).2 rfl

/-- Witness of C5: the children of `ABC`. -/
theorem makeAllChildRelations_complete_witness :
    (List.replicate 3 (none : Option ocRelation)).length
        = (⟨[0, 1, 2]⟩ : ocRelation).getVariableCount
    ∧ (⟨[0, 1, 2]⟩ : ocRelation).vars.Nodup
    ∧ (makeAllChildRelations ⟨[0, 1, 2]⟩ (List.replicate 3 none) true).length
        = (⟨[0, 1, 2]⟩ : ocRelation).getVariableCount :=
  ⟨by decide, by decide,
    (makeAllChildRelations_complete ⟨[0, 1, 2]⟩ (List.replicate 3 none) true
      (by decide) (by decide)).1⟩

/-- C6, at the failing input `ABC`: slot `r` of the children omits position `r`,
so the sequence `children[0], children[1], children[2]` is `BC, AC, AB`, in
ascending order of the omitted position, and it is not in ascending
variable-lexicographic order (`BC` comes after `AC`, which comes after `AB`). -/
theorem makeAllChildRelations_not_sorted :
    makeAllChildRelations ⟨[0, 1, 2]⟩ (List.replicate 3 none) true
        = [some ⟨[1, 2]⟩, some ⟨[0, 2]⟩, some ⟨[0, 1]⟩]
    ∧ ([0, 1] : List Nat) < [0, 2] ∧ ([0, 2] : List Nat) < [1, 2]
    ∧ ¬ (((makeAllChildRelations ⟨[0, 1, 2]⟩ (List.replicate 3 none) true).map
          (fun c => (c.getD ⟨[]⟩).vars)).Pairwise (fun a b => a ≤ b)) := by
  decide

/-- In a strictly increasing list, omitting a later position gives a
lexicographically smaller list than omitting an earlier one. -/
theorem eraseIdx_lt_of_lt (l : List Nat) (hs : l.Pairwise (fun a b => a < b)) (r s : Nat)
    (hrs : r < s) (hsl : s < l.length) : l.eraseIdx s < l.eraseIdx r := by
  induction l generalizing r s with
  | nil => simp at hsl
  | cons x xs ih =>
    cases s with
    | zero => omega
    | succ s =>
      have hsl2 : s < xs.length := by simpa using hsl
      cases r with
      | zero =>
        cases xs with
        | nil => simp at hsl2
        | cons y ys =>
          have hxy : x < y := by
            have := (List.pairwise_cons.mp hs).1 y (List.mem_cons_self y ys)
            exact this
          simp only [List.eraseIdx_cons_succ, List.eraseIdx_cons_zero]
          exact List.Lex.rel hxy
      | succ r =>
        simp only [List.eraseIdx_cons_succ]
        exact List.Lex.cons (ih (List.pairwise_cons.mp hs).2 r s (by omega) hsl2)

/-- For every relation whose variables are strictly increasing, the children
come out in descending variable-lexicographic order: a later slot holds a
smaller child. -/
theorem makeAllChildRelations_descending (rel : ocRelation)
    (hsorted : rel.vars.Pairwise (fun a b => a < b)) (mp : Bool) (r s : Nat)
    (hrs : r < s) (hs : s < rel.getVariableCount) :
    ∃ cr cs : ocRelation,
      (makeAllChildRelations rel (List.replicate rel.getVariableCount none) mp)[r]?
          = some (some cr)
      ∧ (makeAllChildRelations rel (List.replicate rel.getVariableCount none) mp)[s]?
          = some (some cs)
      ∧ cs.vars < cr.vars := by
  rw [makeAllChildRelations_eq rel _ mp (by simp)]
  refine ⟨getChildRelation rel r mp, getChildRelation rel s mp, ?_, ?_, ?_⟩
  · simp [List.getElem?_range (show r < rel.getVariableCount by omega)]
  · simp [List.getElem?_range hs]
  · exact eraseIdx_lt_of_lt rel.vars hsorted r s hrs hs

/-! ## Theorems: reference models -/

/-- Storing at slot `pos` and reading one slot further than `pos` appends the
stored value to the first `pos` slots. -/
theorem take_succ_set (buf : List Nat) (pos i : Nat) (h : pos < buf.length) :
    (buf.set pos i).take (pos + 1) = buf.take pos ++ [i] := by
  rw [List.take_succ, List.getElem?_set_self h, List.set_take,
    List.set_eq_of_length_le (by simp)]
  rfl

/-- One iteration of the first directed loop keeps its invariant: `pos` counts
the independent variables seen, and the buffer holds their indices in its
first `pos` slots. -/
theorem collectStep_invariant (vl : ocVariableList) (st : List Nat × Nat) (n : Nat)
    (hn : n < vl.getVarCount) (h1 : st.1.length = vl.getVarCount) (h2 : st.2 ≤ n)
    (h3 : st.1.take st.2 = (List.range n).filter
        (fun i => match vl.getVariable i with | some var => !var.dv | none => false)) :
    (makeReferenceModels.collectStep vl st n).1.length = vl.getVarCount
    ∧ (makeReferenceModels.collectStep vl st n).2 ≤ n + 1
    ∧ (makeReferenceModels.collectStep vl st n).1.take
          (makeReferenceModels.collectStep vl st n).2
        = (List.range (n + 1)).filter
          (fun i => match vl.getVariable i with | some var => !var.dv | none => false) := by
  rw [List.range_succ, List.filter_append]
  unfold makeReferenceModels.collectStep
  cases hv : vl.getVariable n with
  | none =>
    refine ⟨h1, by simp only []; omega, ?_⟩
    simp [h3, List.filter_cons, hv]
  | some var =>
    cases hdv : var.dv with
    | true =>
      refine ⟨by simpa [hdv] using h1, by simp [hdv]; omega, ?_⟩
      simp [h3, List.filter_cons, hv, hdv]
    | false =>
      have hpos : st.2 < st.1.length := by omega
      refine ⟨by simp [hdv, h1], by simp [hdv]; omega, ?_⟩
      simp only [Bool.not_false, if_true, List.filter_cons, hv, hdv, List.filter_nil]
      rw [take_succ_set st.1 st.2 n hpos, h3]

/-- The first directed loop after `n` iterations. -/
theorem collectIndependent_prefix (vl : ocVariableList) (buf : List Nat)
    (hbuf : buf.length = vl.getVarCount) (n : Nat) (hn : n ≤ vl.getVarCount) :
    ((List.range n).foldl (makeReferenceModels.collectStep vl) (buf, 0)).1.length
        = vl.getVarCount
    ∧ ((List.range n).foldl (makeReferenceModels.collectStep vl) (buf, 0)).2 ≤ n
    ∧ ((List.range n).foldl (makeReferenceModels.collectStep vl) (buf, 0)).1.take
          ((List.range n).foldl (makeReferenceModels.collectStep vl) (buf, 0)).2
        = (List.range n).filter
          (fun i => match vl.getVariable i with | some var => !var.dv | none => false) := by
  induction n with
  | zero => simp [hbuf]
  | succ n ih =>
    obtain ⟨h1, h2, h3⟩ := ih (by omega)
    have hstep := collectStep_invariant vl _ n (by omega) h1 h2 h3
    rw [List.range_succ, List.foldl_append]
    simpa only [List.foldl_cons, List.foldl_nil, ← List.range_succ] using hstep

/-- One iteration of the second directed loop: a dependent variable adds its
unary relation, an independent one adds nothing; the buffer keeps its size. -/
theorem dependentStep_invariant (vl : ocVariableList) (st : List Nat × ocModel) (n : Nat)
    (hn : n < vl.getVarCount) (h1 : st.1.length = vl.getVarCount) (rels : List ocRelation)
    (attrs : ocAttributeList) (h2 : st.2 = ⟨rels ++ ((List.range n).filter
        (fun i => match vl.getVariable i with | some var => var.dv | none => false)).map
          (fun i => ⟨[i]⟩), attrs⟩) :
    (makeReferenceModels.dependentStep vl st n).1.length = vl.getVarCount
    ∧ (makeReferenceModels.dependentStep vl st n).2 = ⟨rels ++ ((List.range (n + 1)).filter
        (fun i => match vl.getVariable i with | some var => var.dv | none => false)).map
          (fun i => ⟨[i]⟩), attrs⟩ := by
  rw [List.range_succ, List.filter_append]
  unfold makeReferenceModels.dependentStep
  cases hv : vl.getVariable n with
  | none =>
    refine ⟨h1, ?_⟩
    simp [h2, List.filter_cons, hv]
  | some var =>
    cases hdv : var.dv with
    | false =>
      refine ⟨by simpa [hdv] using h1, ?_⟩
      simp [h2, List.filter_cons, hv, hdv]
    | true =>
      have hpos : 0 < st.1.length := by omega
      refine ⟨by simp [hdv, h1], ?_⟩
      have ht : (st.1.set 0 n).take 1 = [n] := by
        have := take_succ_set st.1 0 n hpos
        simpa using this
      simp [h2, List.filter_cons, hv, hdv, getRelation, ocModel.addRelation, ht]

/-- The second directed loop after `n` iterations. -/
theorem addDependent_prefix (vl : ocVariableList) (buf : List Nat)
    (hbuf : buf.length = vl.getVarCount) (model : ocModel) (n : Nat)
    (hn : n ≤ vl.getVarCount) :
    ((List.range n).foldl (makeReferenceModels.dependentStep vl) (buf, model)).1.length
        = vl.getVarCount
    ∧ ((List.range n).foldl (makeReferenceModels.dependentStep vl) (buf, model)).2
        = ⟨model.relations ++ ((List.range n).filter
            (fun i => match vl.getVariable i with | some var => var.dv | none => false)).map
              (fun i => ⟨[i]⟩), model.attrs⟩ := by
  induction n with
  | zero => simp [hbuf]
  | succ n ih =>
    obtain ⟨h1, h2⟩ := ih (by omega)
    have hstep := dependentStep_invariant vl _ n (by omega) h1 model.relations model.attrs h2
    rw [List.range_succ, List.foldl_append]
    simpa only [List.foldl_cons, List.foldl_nil, ← List.range_succ] using hstep

/-- The neutral loop after `n` iterations: one unary relation per variable below
`n`, in index order. -/
theorem addUnary_prefix (buf : List Nat) (model : ocModel) (n : Nat) (hn : n ≤ buf.length) :
    ((List.range n).foldl makeReferenceModels.unaryStep (buf, model)).1.length = buf.length
    ∧ ((List.range n).foldl makeReferenceModels.unaryStep (buf, model)).2
        = ⟨model.relations ++ (List.range n).map (fun i => ⟨[i]⟩), model.attrs⟩ := by
  induction n with
  | zero => simp
  | succ n ih =>
    obtain ⟨h1, h2⟩ := ih (by omega)
    rw [List.range_succ, List.foldl_append]
    simp only [List.foldl_cons, List.foldl_nil, makeReferenceModels.unaryStep]
    have hpos : 0 < ((List.range n).foldl makeReferenceModels.unaryStep (buf, model)).1.length := by
      omega
    have ht := take_succ_set _ 0 n hpos
    simp only [List.take_zero, List.nil_append, Nat.zero_add] at ht
    refine ⟨by simp [h1], ?_⟩
    simp [h2, getRelation, ocModel.addRelation, ht]

/-- The relation `SameModels` is reflexive. -/
theorem ocVBMManager.SameModels.refl (mgr : ocVBMManager) : mgr.SameModels mgr :=
  ⟨rfl, rfl, rfl, rfl, rfl, rfl⟩

/-- The relation `SameModels` is transitive. -/
theorem ocVBMManager.SameModels.trans {m1 m2 m3 : ocVBMManager} (h12 : m1.SameModels m2)
    (h23 : m2.SameModels m3) : m1.SameModels m3 := by
  obtain ⟨a1, a2, a3, a4, a5, a6⟩ := h12
  obtain ⟨b1, b2, b3, b4, b5, b6⟩ := h23
  exact ⟨b1.trans a1, b2.trans a2, b3.trans a3, b4.trans a4, b5.trans a5, b6.trans a6⟩

/-- Writing an attribute changes attribute lists only. -/
theorem setAttribute_sameModels (mgr : ocVBMManager) (model : Nat) (name : String)
    (v : ocDouble) : mgr.SameModels (mgr.setAttribute model name v) := by
  unfold ocVBMManager.setAttribute
  cases hm : mgr.heap[model]? with
  | none => exact ocVBMManager.SameModels.refl mgr
  | some m =>
    refine ⟨rfl, rfl, rfl, rfl, rfl, ?_⟩
    simp only []
    apply List.ext_getElem?
    intro i
    simp only [List.getElem?_map, List.getElem?_set]
    by_cases hi : model = i
    · subst hi
      have hlt : model < mgr.heap.length := by
        by_contra hge
        rw [List.getElem?_eq_none (by omega)] at hm
        exact Option.noConfusion hm
      simp [hlt, hm]
    · simp [hi]

/-- A statistic primitive changes attribute lists only, and it returns when the
pointer is live. -/
theorem cachedStatistic_sameModels (mgr : ocVBMManager) (model : Nat) (name : String)
    (oracle : List ocRelation → ocDouble) (hlive : model < mgr.heap.length) :
    ∃ v mgr', mgr.cachedStatistic model name oracle = some (v, mgr')
      ∧ mgr.SameModels mgr' := by
  unfold ocVBMManager.cachedStatistic
  rw [List.getElem?_eq_getElem hlive]
  simp only []
  split
  · exact ⟨_, _, rfl, ocVBMManager.SameModels.refl mgr⟩
  · exact ⟨_, _, rfl, setAttribute_sameModels mgr model name _⟩

/-- States with the same models have heaps of the same size. -/
theorem ocVBMManager.SameModels.length_eq {m1 m2 : ocVBMManager} (h : m1.SameModels m2) :
    m2.heap.length = m1.heap.length := by
  have := congrArg List.length h.2.2.2.2.2
  simpa using this

/-- The bottom reference model in closed form: for a directed system the
relation of the independent variables, then one unary relation per dependent
variable; for a neutral system one unary relation per variable. -/
theorem bottom_relations (vl : ocVariableList) :
    (makeReferenceModels.bottom vl).relations =
      if vl.isDirected then
        (⟨vl.independentIndices⟩ : ocRelation) :: vl.dependentIndices.map (fun i => ⟨[i]⟩)
      else (List.range vl.getVarCount).map (fun i => ⟨[i]⟩) := by
  unfold makeReferenceModels.bottom
  simp only []
  split
  · have h1 := collectIndependent_prefix vl (List.replicate vl.getVarCount 0) (by simp)
      vl.getVarCount (le_refl _)
    obtain ⟨hlen, _, htake⟩ := h1
    have h2 := addDependent_prefix vl
      (makeReferenceModels.collectIndependent vl (List.replicate vl.getVarCount 0)).1 hlen
      (ocModel.new.addRelation (some (getRelation
        (makeReferenceModels.collectIndependent vl (List.replicate vl.getVarCount 0)).1
        (makeReferenceModels.collectIndependent vl (List.replicate vl.getVarCount 0)).2 true)))
      vl.getVarCount (le_refl _)
    unfold makeReferenceModels.addDependent
    rw [h2.2]
    simp only [ocModel.addRelation, ocModel.new, getRelation, List.nil_append,
      List.singleton_append]
    unfold makeReferenceModels.collectIndependent
    rw [htake]
    rfl
  · have h := addUnary_prefix (List.replicate vl.getVarCount 0) ocModel.new vl.getVarCount
      (by simp)
    unfold makeReferenceModels.addUnary
    rw [h.2]
    simp [ocModel.new]

/-- Offering a model to the cache changes the cache at most. -/
theorem addModel_frame {Name : Type} [DecidableEq Name]
    (getPrintName : List ocRelation → Name) (mgr : ocVBMManager) (model : Nat) :
    (mgr.addModel getPrintName model).2.heap = mgr.heap
    ∧ (mgr.addModel getPrintName model).2.varList = mgr.varList
    ∧ (mgr.addModel getPrintName model).2.topRef = mgr.topRef
    ∧ (mgr.addModel getPrintName model).2.bottomRef = mgr.bottomRef
    ∧ (mgr.addModel getPrintName model).2.refModel = mgr.refModel := by
  unfold ocVBMManager.addModel
  cases mgr.heap[model]? with
  | none => exact ⟨rfl, rfl, rfl, rfl, rfl⟩
  | some m =>
    simp only []
    cases mgr.findModel getPrintName (getPrintName m.relations) with
    | none => exact ⟨rfl, rfl, rfl, rfl, rfl⟩
    | some _ => exact ⟨rfl, rfl, rfl, rfl, rfl⟩

/-- The state after the top reference is set up. -/
theorem publishTop_frame {Name : Type} [DecidableEq Name]
    (getPrintName : List ocRelation → Name) (mgr : ocVBMManager) (top : ocRelation) :
    (makeReferenceModels.publishTop getPrintName mgr top).1 = mgr.heap.length
    ∧ (makeReferenceModels.publishTop getPrintName mgr top).2.heap
        = mgr.heap ++ [⟨[top], []⟩]
    ∧ (makeReferenceModels.publishTop getPrintName mgr top).2.varList = mgr.varList
    ∧ (makeReferenceModels.publishTop getPrintName mgr top).2.topRef = some mgr.heap.length := by
  unfold makeReferenceModels.publishTop
  simp only [ocVBMManager.alloc]
  obtain ⟨a1, a2, _, _, _⟩ := addModel_frame getPrintName
    { mgr with heap := mgr.heap ++ [ocModel.new.addRelation (some top)] } mgr.heap.length
  exact ⟨trivial, a1, a2, trivial⟩

/-- The state after the bottom reference is set up. -/
theorem publishBottom_frame {Name : Type} [DecidableEq Name]
    (getPrintName : List ocRelation → Name) (mgr : ocVBMManager) :
    (makeReferenceModels.publishBottom getPrintName mgr).1 = mgr.heap.length
    ∧ (makeReferenceModels.publishBottom getPrintName mgr).2.heap
        = mgr.heap ++ [makeReferenceModels.bottom mgr.varList]
    ∧ (makeReferenceModels.publishBottom getPrintName mgr).2.varList = mgr.varList
    ∧ (makeReferenceModels.publishBottom getPrintName mgr).2.topRef = mgr.topRef
    ∧ (makeReferenceModels.publishBottom getPrintName mgr).2.bottomRef
        = some mgr.heap.length := by
  unfold makeReferenceModels.publishBottom
  simp only [ocVBMManager.alloc]
  obtain ⟨a1, a2, a3, _, _⟩ := addModel_frame getPrintName
    { mgr with heap := mgr.heap ++ [makeReferenceModels.bottom mgr.varList] } mgr.heap.length
  exact ⟨trivial, a1, a2, a3, trivial⟩

/-- The state `makeReferenceModels` returns: it always returns; the top model is
allocated first and the bottom model next, both pointers are set, and the
active reference is chosen by the directedness of the variable list. -/
theorem makeReferenceModels_result {Name : Type} [DecidableEq Name]
    (getPrintName : List ocRelation → Name) (stats : ocStatistics) (mgr : ocVBMManager)
    (top : ocRelation) :
    ∃ mgr', mgr.makeReferenceModels getPrintName stats top = some mgr'
      ∧ mgr'.varList = mgr.varList
      ∧ mgr'.topRef = some mgr.heap.length
      ∧ mgr'.bottomRef = some (mgr.heap.length + 1)
      ∧ mgr'.refModel = (if mgr.varList.isDirected then mgr'.bottomRef else mgr'.topRef)
      ∧ mgr'.heap.map (fun m => m.relations)
          = mgr.heap.map (fun m => m.relations)
            ++ [[top], (makeReferenceModels.bottom mgr.varList).relations] := by
  unfold ocVBMManager.makeReferenceModels
  obtain ⟨t1, t2, t3, t4⟩ := publishTop_frame getPrintName mgr top
  generalize makeReferenceModels.publishTop getPrintName mgr top = p1 at t1 t2 t3 t4 ⊢
  obtain ⟨ta, m1⟩ := p1
  simp only at t1 t2 t3 t4 ⊢
  subst t1
  obtain ⟨b1, b2, b3, b4, b5⟩ := publishBottom_frame getPrintName m1
  generalize makeReferenceModels.publishBottom getPrintName m1 = p2 at b1 b2 b3 b4 b5 ⊢
  obtain ⟨ba, m2⟩ := p2
  simp only at b1 b2 b3 b4 b5 ⊢
  subst b1
  have hlen2 : m2.heap.length = mgr.heap.length + 2 := by simp [b2, t2]
  obtain ⟨v3, m3, e3, s3⟩ := cachedStatistic_sameModels m2 mgr.heap.length ATTRIBUTE_DF
    stats.df (by omega)
  obtain ⟨v4, m4, e4, s4⟩ := cachedStatistic_sameModels m3 mgr.heap.length ATTRIBUTE_H
    stats.h (by rw [s3.length_eq]; omega)
  obtain ⟨v5, m5, e5, s5⟩ := cachedStatistic_sameModels m4 m1.heap.length ATTRIBUTE_DF
    stats.df (by rw [s4.length_eq, s3.length_eq, hlen2, t2]; simp)
  obtain ⟨v6, m6, e6, s6⟩ := cachedStatistic_sameModels m5 m1.heap.length ATTRIBUTE_H
    stats.h (by rw [s5.length_eq, s4.length_eq, s3.length_eq, hlen2, t2]; simp)
  have sall : m2.SameModels m6 := (s3.trans s4).trans (s5.trans s6)
  obtain ⟨c1, _, c3, c4, _, c6⟩ := sall
  refine ⟨{ m6 with
    refModel := if m6.varList.isDirected then m6.bottomRef else m6.topRef }, ?_, ?_, ?_, ?_, ?_, ?_⟩
  · simp only [ocVBMManager.computeDF, ocVBMManager.computeH, e3, e4, e5, e6]
  · simp only [c1, b3, t3]
  · simp only [c3, b4, t4]
  · simp only [c4, b5, t2]; simp
  · simp only [c1, b3, t3]
  · simp only [c6, b2, t2, t3]; simp [ocModel.new, ocModel.addRelation]

/-- C7: after `makeReferenceModels` (which always returns) the bottom reference
is, for a neutral system, exactly one unary relation per variable in
variable-index order, and for a directed system exactly one relation of all
independent variables followed by one unary relation per dependent variable.
Directed `A, B, C` with `C` dependent gives `{A,B}`, `{C}`; neutral `A, B, C`
gives `{A}`, `{B}`, `{C}`. -/
theorem makeReferenceModels_bottom {Name : Type} [DecidableEq Name]
    (getPrintName : List ocRelation → Name) (stats : ocStatistics) (mgr : ocVBMManager)
    (top : ocRelation) :
    (∃ mgr' b bottom, mgr.makeReferenceModels getPrintName stats top = some mgr'
      ∧ mgr'.bottomRef = some b ∧ mgr'.heap[b]? = some bottom
      ∧ bottom.relations =
          if mgr.varList.isDirected then
            (⟨mgr.varList.independentIndices⟩ : ocRelation)
              :: mgr.varList.dependentIndices.map (fun i => ⟨[i]⟩)
          else (List.range mgr.varList.getVarCount).map (fun i => ⟨[i]⟩))
    ∧ exampleDirectedVars.isDirected = true
    ∧ exampleDirectedVars.independentIndices = [0, 1]
    ∧ exampleDirectedVars.dependentIndices = [2]
    ∧ (makeReferenceModels.bottom exampleDirectedVars).relations = [⟨[0, 1]⟩, ⟨[2]⟩]
    ∧ exampleNeutralVars.isDirected = false
    ∧ (makeReferenceModels.bottom exampleNeutralVars).relations
        = [⟨[0]⟩, ⟨[1]⟩, ⟨[2]⟩] := by
  refine ⟨?_, by decide, by decide, by decide, by decide, by decide, by decide⟩
  obtain ⟨mgr', hres, _, _, hbot, _, hheap⟩ :=
    makeReferenceModels_result getPrintName stats mgr top
  have hget : (mgr'.heap.map (fun m => m.relations))[mgr.heap.length + 1]?
      = some (makeReferenceModels.bottom mgr.varList).relations := by
    rw [hheap, List.getElem?_append_right (by simp)]
    simp
  rw [List.getElem?_map] at hget
  cases hb : mgr'.heap[mgr.heap.length + 1]? with
  | none => rw [hb] at hget; exact Option.noConfusion hget
  | some bottom =>
    rw [hb] at hget
    simp only [Option.map_some', Option.some.injEq] at hget
    exact ⟨mgr', mgr.heap.length + 1, bottom, hres, hbot, hb,
      hget.trans (bottom_relations mgr.varList)⟩

/-- Comparing up to case against `"bottom"` excludes `"top"`. -/
theorem strcasecmp_bottom_ne_top (name : String) (h : strcasecmp name "bottom" = 0) :
    ¬ (strcasecmp name "top" = 0) := by
  unfold strcasecmp at h ⊢
  by_cases hb : name.toList.map Char.toLower = "bottom".toList.map Char.toLower
  · have hne : ¬ (name.toList.map Char.toLower = "top".toList.map Char.toLower) := by
      rw [hb]; decide
    rw [if_neg hne]
    decide
  · rw [if_neg hb] at h
    exact absurd h (by decide)

/-- C8: after `makeReferenceModels` the top reference is the model with the
single given relation, and the active reference is the bottom reference for a
directed variable list and the top reference for a neutral one; afterwards
`setRefModel` with a name equal to `top` (resp. `bottom`) up to case selects
and returns exactly `topRef` (resp. `bottomRef`). -/
theorem makeReferenceModels_references {Name : Type} [DecidableEq Name]
    (getPrintName : List ocRelation → Name) (stats : ocStatistics) (mgr : ocVBMManager)
    (top : ocRelation) :
    ∃ mgr' t b topModel, mgr.makeReferenceModels getPrintName stats top = some mgr'
      ∧ mgr'.topRef = some t ∧ mgr'.bottomRef = some b ∧ t ≠ b
      ∧ mgr'.heap[t]? = some topModel ∧ topModel.relations = [top]
      ∧ mgr'.refModel = (if mgr.varList.isDirected then some b else some t)
      ∧ (∀ (makeModel : ocVBMManager → String → Bool → Option Nat × ocVBMManager)
            (name : String), strcasecmp name "top" = 0 →
          mgr'.setRefModel makeModel name = (some t, { mgr' with refModel := some t }))
      ∧ (∀ (makeModel : ocVBMManager → String → Bool → Option Nat × ocVBMManager)
            (name : String), strcasecmp name "bottom" = 0 →
          mgr'.setRefModel makeModel name = (some b, { mgr' with refModel := some b }))
      ∧ strcasecmp "top" "top" = 0 ∧ strcasecmp "TOP" "top" = 0
      ∧ strcasecmp "Bottom" "bottom" = 0 ∧ strcasecmp "BOTTOM" "bottom" = 0 := by
  obtain ⟨mgr', hres, _, htop, hbot, href, hheap⟩ :=
    makeReferenceModels_result getPrintName stats mgr top
  have hget : (mgr'.heap.map (fun m => m.relations))[mgr.heap.length]? = some [top] := by
    rw [hheap, List.getElem?_append_right (by simp)]
    simp
  rw [List.getElem?_map] at hget
  cases ht : mgr'.heap[mgr.heap.length]? with
  | none => rw [ht] at hget; exact Option.noConfusion hget
  | some topModel =>
    rw [ht] at hget
    simp only [Option.map_some', Option.some.injEq] at hget
    refine ⟨mgr', mgr.heap.length, mgr.heap.length + 1, topModel, hres, htop, hbot,
      by omega, ht, hget, ?_, ?_, ?_, by decide, by decide, by decide, by decide⟩
    · rw [href, hbot, htop]
    · intro makeModel name hname
      simp [ocVBMManager.setRefModel, hname, htop]
    · intro makeModel name hname
      have hnt := strcasecmp_bottom_ne_top name hname
      simp [ocVBMManager.setRefModel, hname, hnt, hbot]

/-! ## Theorems: information statistics -/

/-- The roundoff fix on a finite value is the clamp into `[0, 1]`. -/
theorem clampInfo_fin (q : ℚ) : clampInfo (ocDouble.fin q) = ocDouble.fin (clamp01 q) := by
  unfold clampInfo clamp01
  by_cases h0 : q ≤ 0
  · have h1 : ¬ ((1 : ℚ) ≤ 0) := by norm_num
    have hmin : min 1 q = q := min_eq_right (le_trans h0 (by norm_num))
    simp [ocDouble.le, ocDouble.ge, h0, h1, hmin]
  · by_cases h1 : (1 : ℚ) ≤ q
    · have hmin : min 1 q = 1 := min_eq_left h1
      simp [ocDouble.le, ocDouble.ge, h0, h1, hmin]
    · have hmin : min 1 q = q := min_eq_right (le_of_lt (not_le.mp h1))
      have hmax : max 0 q = q := max_eq_right (le_of_lt (not_le.mp h0))
      simp [ocDouble.le, ocDouble.ge, h0, h1, hmin, hmax]

/-- The clamp into `[0, 1]` lies in `[0, 1]` and fixes the values of `[0, 1]`. -/
theorem clamp01_bounds (q : ℚ) :
    0 ≤ clamp01 q ∧ clamp01 q ≤ 1 ∧ (0 ≤ q → q ≤ 1 → clamp01 q = q) := by
  unfold clamp01
  refine ⟨le_max_left _ _, max_le (by norm_num) (min_le_left _ _), ?_⟩
  intro h0 h1
  rw [min_eq_right h1, max_eq_right h0]

/-- The clamps of `x` and of `1 - x` add up to one. -/
theorem clamp01_add (x : ℚ) : clamp01 (1 - x) + clamp01 x = 1 := by
  unfold clamp01
  rcases le_total x 0 with h0 | h0
  · rw [min_eq_left (by linarith : (1 : ℚ) ≤ 1 - x), min_eq_right (by linarith : x ≤ 1),
      max_eq_right (by norm_num : (0 : ℚ) ≤ 1), max_eq_left h0]
    norm_num
  · rcases le_total x 1 with h1 | h1
    · rw [min_eq_right (by linarith : 1 - x ≤ 1), min_eq_right h1,
        max_eq_right (by linarith : (0 : ℚ) ≤ 1 - x), max_eq_right h0]
      ring
    · rw [min_eq_right (by linarith : 1 - x ≤ 1), min_eq_left h1,
        max_eq_left (by linarith : 1 - x ≤ (0 : ℚ)), max_eq_right (by norm_num : (0 : ℚ) ≤ 1)]
      norm_num

/-- The explained information on finite inputs with a nonzero entropy gap. -/
theorem explained_value (ht hb T : ℚ) (hne : hb ≠ ht) :
    clampInfo (ocDouble.div
        (ocDouble.sub (ocDouble.sub (ocDouble.fin hb) (ocDouble.fin ht)) (ocDouble.fin T))
        (ocDouble.sub (ocDouble.fin hb) (ocDouble.fin ht)))
      = ocDouble.fin (clamp01 ((hb - ht - T) / (hb - ht))) := by
  have hg : hb + -ht ≠ 0 := by
    intro h; apply hne; linarith
  simp only [ocDouble.sub, ocDouble.neg, ocDouble.add, ocDouble.div, if_neg hg]
  rw [clampInfo_fin]
  simp only [sub_eq_add_neg]

/-- The unexplained information on finite inputs with a nonzero entropy gap. -/
theorem unexplained_value (ht hb T : ℚ) (hne : hb ≠ ht) :
    clampInfo (ocDouble.div (ocDouble.fin T)
        (ocDouble.sub (ocDouble.fin hb) (ocDouble.fin ht)))
      = ocDouble.fin (clamp01 (T / (hb - ht))) := by
  have hg : hb + -ht ≠ 0 := by
    intro h; apply hne; linarith
  simp only [ocDouble.sub, ocDouble.neg, ocDouble.add, ocDouble.div, if_neg hg]
  rw [clampInfo_fin]
  simp only [sub_eq_add_neg]

/-- An attribute just written reads back. -/
theorem getAttribute_setAttribute_self (attrs : ocAttributeList) (name : String)
    (v : ocDouble) : (attrs.setAttribute name v).getAttribute name = v := by
  induction attrs with
  | nil => simp [ocAttributeList.setAttribute, ocAttributeList.getAttribute]
  | cons kv rest ih =>
    unfold ocAttributeList.setAttribute
    by_cases hk : kv.1 = name
    · simp [hk, ocAttributeList.getAttribute]
    · have hb : (kv.1 == name) = false := by simpa using hk
      simp only [hb, Bool.false_eq_true, if_false]
      unfold ocAttributeList.getAttribute at ih ⊢
      simp only [List.find?_cons, hb]
      exact ih

/-- Writing an attribute does not change the attributes of other names. -/
theorem getAttribute_setAttribute_ne (attrs : ocAttributeList) (name other : String)
    (v : ocDouble) (hne : name ≠ other) :
    (attrs.setAttribute name v).getAttribute other = attrs.getAttribute other := by
  induction attrs with
  | nil =>
    have hb : (name == other) = false := by simpa using hne
    simp [ocAttributeList.setAttribute, ocAttributeList.getAttribute, hb]
  | cons kv rest ih =>
    unfold ocAttributeList.setAttribute
    by_cases hk : kv.1 = name
    · have hb : (name == other) = false := by simpa using hne
      have hb2 : (kv.1 == other) = false := by rw [hk]; exact hb
      simp [hk, ocAttributeList.getAttribute, List.find?_cons, hb]
    · have hb : (kv.1 == name) = false := by simpa using hk
      simp only [hb, Bool.false_eq_true, if_false]
      unfold ocAttributeList.getAttribute at ih ⊢
      simp only [List.find?_cons]
      cases hko : (kv.1 == other) with
      | true => rfl
      | false => exact ih

/-- Through a live pointer, an attribute just written reads back. -/
theorem mgr_getAttribute_setAttribute_self (mgr : ocVBMManager) (a : Nat) (m : ocModel)
    (hm : mgr.heap[a]? = some m) (name : String) (v : ocDouble) :
    (mgr.setAttribute a name v).getAttribute (some a) name = some v := by
  have hlt : a < mgr.heap.length := by
    by_contra hge
    rw [List.getElem?_eq_none (by omega)] at hm
    exact Option.noConfusion hm
  simp [ocVBMManager.setAttribute, ocVBMManager.getAttribute, hm, hlt,
    getAttribute_setAttribute_self]

/-- Writing an attribute of one name does not change what is read under another
name, through any pointer. -/
theorem mgr_getAttribute_setAttribute_ne (mgr : ocVBMManager) (a : Nat) (name other : String)
    (v : ocDouble) (hne : name ≠ other) (p : Option Nat) :
    (mgr.setAttribute a name v).getAttribute p other = mgr.getAttribute p other := by
  unfold ocVBMManager.setAttribute
  cases hm : mgr.heap[a]? with
  | none => rfl
  | some m =>
    cases p with
    | none => rfl
    | some b =>
      have hlt : a < mgr.heap.length := by
        by_contra hge
        rw [List.getElem?_eq_none (by omega)] at hm
        exact Option.noConfusion hm
      simp only [ocVBMManager.getAttribute, List.getElem?_set]
      by_cases hab : a = b
      · subst hab
        simp [hlt, hm, getAttribute_setAttribute_ne _ _ _ _ hne]
      · simp [hab]

/-- Writing an attribute keeps every live pointer live, with the same relations. -/
theorem setAttribute_heap (mgr : ocVBMManager) (a : Nat) (name : String) (v : ocDouble)
    (b : Nat) (m : ocModel) (hm : mgr.heap[b]? = some m) :
    ∃ m', (mgr.setAttribute a name v).heap[b]? = some m' ∧ m'.relations = m.relations := by
  unfold ocVBMManager.setAttribute
  cases ha : mgr.heap[a]? with
  | none => exact ⟨m, hm, rfl⟩
  | some ma =>
    simp only [List.getElem?_set]
    by_cases hab : a = b
    · subst hab
      have hlt : a < mgr.heap.length := by
        by_contra hge
        rw [List.getElem?_eq_none (by omega)] at hm
        exact Option.noConfusion hm
      rw [hm] at ha
      simp only [Option.some.injEq] at ha
      subst ha
      exact ⟨{ m with attrs := m.attrs.setAttribute name v }, by simp [hlt], rfl⟩
    · exact ⟨m, by simp [hab, hm], rfl⟩

/-- What a returning statistic primitive leaves behind: the model is live, the
value is the attribute of that name, and it is either non-negative (so it is
found again) or the oracle value. -/
theorem cachedStatistic_post (mgr : ocVBMManager) (model : Nat) (name : String)
    (oracle : List ocRelation → ocDouble) (v : ocDouble) (mgrT : ocVBMManager)
    (h : mgr.cachedStatistic model name oracle = some (v, mgrT)) :
    ∃ m mT, mgr.heap[model]? = some m ∧ mgrT.heap[model]? = some mT
      ∧ mT.relations = m.relations
      ∧ mT.attrs.getAttribute name = v
      ∧ (ocDouble.ge v (ocDouble.fin 0) = true ∨ oracle mT.relations = v)
      ∧ (mgrT = mgr ∨ mgrT = mgr.setAttribute model name v) := by
  unfold ocVBMManager.cachedStatistic at h
  cases hm : mgr.heap[model]? with
  | none => rw [hm] at h; exact Option.noConfusion h
  | some m =>
    rw [hm] at h
    simp only [] at h
    by_cases hge : ocDouble.ge (m.attrs.getAttribute name) (ocDouble.fin 0) = true
    · rw [if_pos hge] at h
      simp only [Option.some.injEq, Prod.mk.injEq] at h
      obtain ⟨hv, hmgr⟩ := h
      subst hv
      subst hmgr
      exact ⟨m, m, rfl, hm, rfl, rfl, Or.inl hge, Or.inl rfl⟩
    · rw [if_neg hge] at h
      simp only [Option.some.injEq, Prod.mk.injEq] at h
      obtain ⟨hv, hmgr⟩ := h
      subst hv
      subst hmgr
      have hlt : model < mgr.heap.length := by
        by_contra hge2
        rw [List.getElem?_eq_none (by omega)] at hm
        exact Option.noConfusion hm
      refine ⟨m, { m with attrs := m.attrs.setAttribute name (oracle m.relations) }, rfl, ?_,
        rfl, getAttribute_setAttribute_self _ _ _, Or.inr rfl, Or.inr rfl⟩
      simp [ocVBMManager.setAttribute, hm, hlt]

/-- A statistic primitive returns the same value again in any state where the
model has the same relations and the same attribute of that name. -/
theorem cachedStatistic_again (mgr : ocVBMManager) (model : Nat) (name : String)
    (oracle : List ocRelation → ocDouble) (v : ocDouble) (m : ocModel)
    (hm : mgr.heap[model]? = some m) (hattr : m.attrs.getAttribute name = v)
    (hv : ocDouble.ge v (ocDouble.fin 0) = true ∨ oracle m.relations = v) :
    ∃ mgr', mgr.cachedStatistic model name oracle = some (v, mgr')
      ∧ (mgr' = mgr ∨ mgr' = mgr.setAttribute model name v) := by
  unfold ocVBMManager.cachedStatistic
  rw [hm]
  simp only [hattr]
  by_cases hge : ocDouble.ge v (ocDouble.fin 0) = true
  · rw [if_pos hge]
    exact ⟨mgr, rfl, Or.inl rfl⟩
  · rw [if_neg hge]
    have ho : oracle m.relations = v := by
      rcases hv with h | h
      · exact absurd h hge
      · exact h
    rw [ho]
    exact ⟨_, rfl, Or.inr rfl⟩

/-- Reading an attribute through a live pointer at the object. -/
theorem mgr_getAttribute_some (mgr : ocVBMManager) (a : Nat) (m : ocModel)
    (hm : mgr.heap[a]? = some m) (name : String) :
    mgr.getAttribute (some a) name = some (m.attrs.getAttribute name) := by
  simp [ocVBMManager.getAttribute, hm]

/-- Reading an attribute through a pointer that returns a value: the object is
live and holds the value. -/
theorem mgr_getAttribute_inv (mgr : ocVBMManager) (a : Nat) (name : String) (v : ocDouble)
    (h : mgr.getAttribute (some a) name = some v) :
    ∃ m, mgr.heap[a]? = some m ∧ m.attrs.getAttribute name = v := by
  unfold ocVBMManager.getAttribute at h
  simp only [] at h
  cases hm : mgr.heap[a]? with
  | none => rw [hm] at h; exact Option.noConfusion h
  | some m =>
    rw [hm] at h
    exact ⟨m, rfl, Option.some.inj h⟩

/-- A statistic primitive keeps the reference pointers and every attribute of
another name. -/
theorem cachedStatistic_frame (mgr : ocVBMManager) (model : Nat) (name : String)
    (oracle : List ocRelation → ocDouble) (v : ocDouble) (mgrT : ocVBMManager)
    (h : mgr.cachedStatistic model name oracle = some (v, mgrT)) :
    mgrT.topRef = mgr.topRef ∧ mgrT.bottomRef = mgr.bottomRef
    ∧ ∀ (p : Option Nat) (other : String), name ≠ other →
        mgrT.getAttribute p other = mgr.getAttribute p other := by
  obtain ⟨m, mT, _, _, _, _, _, hcase⟩ := cachedStatistic_post mgr model name oracle v mgrT h
  rcases hcase with rfl | rfl
  · exact ⟨rfl, rfl, fun _ _ _ => rfl⟩
  · have hs := setAttribute_sameModels mgr model name v
    exact ⟨hs.2.2.1, hs.2.2.2.1,
      fun p other hne => mgr_getAttribute_setAttribute_ne mgr model name other v hne p⟩

/-- The call `computeExplainedInformation` on finite inputs with a nonzero
entropy gap: the clamped value is returned and written. -/
theorem computeExplainedInformation_eq (stats : ocStatistics) (mgr : ocVBMManager)
    (model : Nat) (ht hb T : ℚ) (mgrT : ocVBMManager)
    (htop : mgr.getAttribute mgr.topRef ATTRIBUTE_H = some (ocDouble.fin ht))
    (hbot : mgr.getAttribute mgr.bottomRef ATTRIBUTE_H = some (ocDouble.fin hb))
    (hT : mgr.computeTransmission stats model = some (ocDouble.fin T, mgrT))
    (hne : hb ≠ ht) :
    mgr.computeExplainedInformation stats model
      = some (ocDouble.fin (clamp01 ((hb - ht - T) / (hb - ht))),
          mgrT.setAttribute model ATTRIBUTE_EXPLAINED_I
            (ocDouble.fin (clamp01 ((hb - ht - T) / (hb - ht))))) := by
  obtain ⟨m, _, hm, _⟩ := cachedStatistic_post mgr model ATTRIBUTE_T stats.t _ mgrT hT
  unfold ocVBMManager.computeExplainedInformation
  simp only [hm, htop, hbot, hT, explained_value ht hb T hne]

/-- The call `computeUnexplainedInformation` on finite inputs with a nonzero
entropy gap: the clamped value is returned and written. -/
theorem computeUnexplainedInformation_eq (stats : ocStatistics) (mgr : ocVBMManager)
    (model : Nat) (ht hb T : ℚ) (mgrT : ocVBMManager)
    (htop : mgr.getAttribute mgr.topRef ATTRIBUTE_H = some (ocDouble.fin ht))
    (hbot : mgr.getAttribute mgr.bottomRef ATTRIBUTE_H = some (ocDouble.fin hb))
    (hT : mgr.computeTransmission stats model = some (ocDouble.fin T, mgrT))
    (hne : hb ≠ ht) :
    mgr.computeUnexplainedInformation stats model
      = some (ocDouble.fin (clamp01 (T / (hb - ht))),
          mgrT.setAttribute model ATTRIBUTE_UNEXPLAINED_I
            (ocDouble.fin (clamp01 (T / (hb - ht))))) := by
  obtain ⟨m, _, hm, _⟩ := cachedStatistic_post mgr model ATTRIBUTE_T stats.t _ mgrT hT
  unfold ocVBMManager.computeUnexplainedInformation
  simp only [hm, htop, hbot, hT, unexplained_value ht hb T hne]

/-- The value written by an information statistic reads back from the model. -/
theorem information_stored (stats : ocStatistics) (mgr : ocVBMManager) (model : Nat)
    (T : ocDouble) (mgrT : ocVBMManager)
    (hT : mgr.computeTransmission stats model = some (T, mgrT)) (name : String)
    (v : ocDouble) :
    (mgrT.setAttribute model name v).getAttribute (some model) name = some v := by
  obtain ⟨_, mT, _, hmT, _⟩ := cachedStatistic_post mgr model ATTRIBUTE_T stats.t _ mgrT hT
  exact mgr_getAttribute_setAttribute_self mgrT model mT hmT name v

/-- After an information statistic has written its attribute, the entropies of
the references read as before and the transmission of the model is computed
to the same value. -/
theorem information_state_after (stats : ocStatistics) (mgr : ocVBMManager) (model : Nat)
    (T : ocDouble) (mgrT : ocVBMManager)
    (hT : mgr.computeTransmission stats model = some (T, mgrT)) (name : String)
    (hnH : name ≠ ATTRIBUTE_H) (hnT : name ≠ ATTRIBUTE_T) (v : ocDouble) :
    (mgrT.setAttribute model name v).getAttribute (mgrT.setAttribute model name v).topRef
        ATTRIBUTE_H = mgr.getAttribute mgr.topRef ATTRIBUTE_H
    ∧ (mgrT.setAttribute model name v).getAttribute (mgrT.setAttribute model name v).bottomRef
        ATTRIBUTE_H = mgr.getAttribute mgr.bottomRef ATTRIBUTE_H
    ∧ ∃ mgr2, (mgrT.setAttribute model name v).computeTransmission stats model
        = some (T, mgr2) := by
  obtain ⟨f1, f2, f3⟩ := cachedStatistic_frame mgr model ATTRIBUTE_T stats.t T mgrT hT
  have hs := setAttribute_sameModels mgrT model name v
  refine ⟨?_, ?_, ?_⟩
  · rw [hs.2.2.1, f1, mgr_getAttribute_setAttribute_ne mgrT model name ATTRIBUTE_H v hnH,
      f3 _ _ (by decide)]
  · rw [hs.2.2.2.1, f2, mgr_getAttribute_setAttribute_ne mgrT model name ATTRIBUTE_H v hnH,
      f3 _ _ (by decide)]
  · obtain ⟨m, mT, _, hmT, _, hattr, hv, _⟩ :=
      cachedStatistic_post mgr model ATTRIBUTE_T stats.t T mgrT hT
    obtain ⟨m', hm', hrel⟩ := setAttribute_heap mgrT model name v model mT hmT
    have hread := mgr_getAttribute_setAttribute_ne mgrT model name ATTRIBUTE_T v hnT (some model)
    rw [mgr_getAttribute_some _ model m' hm', mgr_getAttribute_some _ model mT hmT] at hread
    have hattr' : m'.attrs.getAttribute ATTRIBUTE_T = T := by
      rw [Option.some.inj hread, hattr]
    obtain ⟨mgr2, h2, _⟩ := cachedStatistic_again (mgrT.setAttribute model name v) model
      ATTRIBUTE_T stats.t T m' hm' hattr' (by rw [hrel]; exact hv)
    exact ⟨mgr2, h2⟩

/-- With equal entropies and zero transmission the explained information is
`0/0`, which the roundoff fix leaves as `NaN`. -/
theorem explained_nan (h : ℚ) :
    clampInfo (ocDouble.div
        (ocDouble.sub (ocDouble.sub (ocDouble.fin h) (ocDouble.fin h)) (ocDouble.fin 0))
        (ocDouble.sub (ocDouble.fin h) (ocDouble.fin h))) = ocDouble.nan := by
  simp [ocDouble.sub, ocDouble.neg, ocDouble.add, ocDouble.div, clampInfo, ocDouble.le,
    ocDouble.ge]

/-- With equal entropies and zero transmission the unexplained information is
`0/0`, which the roundoff fix leaves as `NaN`. -/
theorem unexplained_nan (h : ℚ) :
    clampInfo (ocDouble.div (ocDouble.fin 0)
        (ocDouble.sub (ocDouble.fin h) (ocDouble.fin h))) = ocDouble.nan := by
  simp [ocDouble.sub, ocDouble.neg, ocDouble.add, ocDouble.div, clampInfo, ocDouble.le,
    ocDouble.ge]

/-- C9, counterexample: with `H_bottom = H_top = 1` and `T = 0` both calls return
`NaN` (`0/0`, which no comparison of the roundoff fix catches), and their sum
is `NaN`, not `1`. -/
theorem information_sum_counterexample :
    ((exampleInfoManager 1 1).computeExplainedInformation (exampleStatistics 0) 2).map Prod.fst
        = some ocDouble.nan
    ∧ ((exampleInfoManager 1 1).computeUnexplainedInformation (exampleStatistics 0) 2).map
        Prod.fst = some ocDouble.nan
    ∧ ocDouble.add ocDouble.nan ocDouble.nan ≠ ocDouble.fin 1 := by
  have hm : (exampleInfoManager 1 1).heap[2]? = some ⟨[⟨[0, 1]⟩, ⟨[2]⟩], []⟩ := rfl
  have htop : (exampleInfoManager 1 1).getAttribute (exampleInfoManager 1 1).topRef ATTRIBUTE_H
      = some (ocDouble.fin 1) := rfl
  have hbot : (exampleInfoManager 1 1).getAttribute (exampleInfoManager 1 1).bottomRef
      ATTRIBUTE_H = some (ocDouble.fin 1) := rfl
  have hT : (exampleInfoManager 1 1).computeTransmission (exampleStatistics 0) 2
      = some (ocDouble.fin 0,
          (exampleInfoManager 1 1).setAttribute 2 ATTRIBUTE_T (ocDouble.fin 0)) := rfl
  refine ⟨?_, ?_, by decide⟩
  · unfold ocVBMManager.computeExplainedInformation
    simp only [hm, htop, hbot, hT, explained_nan, Option.map_some']
  · unfold ocVBMManager.computeUnexplainedInformation
    simp only [hm, htop, hbot, hT, unexplained_nan, Option.map_some']

/-- C9 (amended): whenever `H_bottom ≠ H_top` (entropies and transmission finite,
arithmetic exact), `computeExplainedInformation(M) +
computeUnexplainedInformation(M) = 1`, for every transmission `T`, inside or
outside `[0, H_bottom - H_top]`; this holds for the two calls made in the same
state and for the second call made in the state the first one leaves. -/
theorem information_sum_eq_one (stats : ocStatistics) (mgr : ocVBMManager) (model : Nat)
    (ht hb T : ℚ) (mgrT : ocVBMManager)
    (htop : mgr.getAttribute mgr.topRef ATTRIBUTE_H = some (ocDouble.fin ht))
    (hbot : mgr.getAttribute mgr.bottomRef ATTRIBUTE_H = some (ocDouble.fin hb))
    (hT : mgr.computeTransmission stats model = some (ocDouble.fin T, mgrT))
    (hne : hb ≠ ht) :
    ∃ (e u : ℚ) (m1 m2 m3 : ocVBMManager),
      mgr.computeExplainedInformation stats model = some (ocDouble.fin e, m1)
      ∧ mgr.computeUnexplainedInformation stats model = some (ocDouble.fin u, m2)
      ∧ m1.computeUnexplainedInformation stats model = some (ocDouble.fin u, m3)
      ∧ e + u = 1
      ∧ ocDouble.add (ocDouble.fin e) (ocDouble.fin u) = ocDouble.fin 1 := by
  have he := computeExplainedInformation_eq stats mgr model ht hb T mgrT htop hbot hT hne
  have hu := computeUnexplainedInformation_eq stats mgr model ht hb T mgrT htop hbot hT hne
  obtain ⟨a1, a2, mgr2, a3⟩ := information_state_after stats mgr model (ocDouble.fin T) mgrT hT
    ATTRIBUTE_EXPLAINED_I (by decide) (by decide)
    (ocDouble.fin (clamp01 ((hb - ht - T) / (hb - ht))))
  have hu2 := computeUnexplainedInformation_eq stats _ model ht hb T mgr2
    (a1.trans htop) (a2.trans hbot) a3 hne
  have hg : hb - ht ≠ 0 := sub_ne_zero.mpr hne
  have hsum : clamp01 ((hb - ht - T) / (hb - ht)) + clamp01 (T / (hb - ht)) = 1 := by
    have hx : (hb - ht - T) / (hb - ht) = 1 - T / (hb - ht) := by
      field_simp
    rw [hx]
    exact clamp01_add _
  refine ⟨_, _, _, _, _, he, hu, hu2, hsum, ?_⟩
  simp only [ocDouble.add, hsum]

/-- Witness of C9: entropies 1 and 3, transmission 5 (above the entropy gap). -/
theorem information_sum_eq_one_witness :
    (exampleInfoManager 1 3).getAttribute (exampleInfoManager 1 3).topRef ATTRIBUTE_H
        = some (ocDouble.fin 1)
    ∧ (exampleInfoManager 1 3).getAttribute (exampleInfoManager 1 3).bottomRef ATTRIBUTE_H
        = some (ocDouble.fin 3)
    ∧ (exampleInfoManager 1 3).computeTransmission (exampleStatistics 5) 2
        = some (ocDouble.fin 5,
            (exampleInfoManager 1 3).setAttribute 2 ATTRIBUTE_T (ocDouble.fin 5))
    ∧ (3 : ℚ) ≠ 1
    ∧ ∃ (e u : ℚ) (m1 m2 m3 : ocVBMManager),
      (exampleInfoManager 1 3).computeExplainedInformation (exampleStatistics 5) 2
        = some (ocDouble.fin e, m1)
      ∧ (exampleInfoManager 1 3).computeUnexplainedInformation (exampleStatistics 5) 2
        = some (ocDouble.fin u, m2)
      ∧ m1.computeUnexplainedInformation (exampleStatistics 5) 2 = some (ocDouble.fin u, m3)
      ∧ e + u = 1
      ∧ ocDouble.add (ocDouble.fin e) (ocDouble.fin u) = ocDouble.fin 1 :=
  ⟨rfl, rfl, rfl, by norm_num,
    information_sum_eq_one (exampleStatistics 5) (exampleInfoManager 1 3) 2 1 3 5 _
      rfl rfl rfl (by norm_num)⟩

/-- C10, counterexample: with `H_bottom = H_top = 2` and `T = 0` the value
`computeExplainedInformation` returns and stores is `NaN`, which is not in
`[0, 1]`: neither `0 <= NaN` nor `NaN <= 1` holds; the same for
`computeUnexplainedInformation`. -/
theorem information_clamp_counterexample :
    (exampleInfoManager 2 2).computeExplainedInformation (exampleStatistics 0) 2
        = some (ocDouble.nan,
            ((exampleInfoManager 2 2).setAttribute 2 ATTRIBUTE_T (ocDouble.fin 0)).setAttribute 2
              ATTRIBUTE_EXPLAINED_I ocDouble.nan)
    ∧ (exampleInfoManager 2 2).computeUnexplainedInformation (exampleStatistics 0) 2
        = some (ocDouble.nan,
            ((exampleInfoManager 2 2).setAttribute 2 ATTRIBUTE_T (ocDouble.fin 0)).setAttribute 2
              ATTRIBUTE_UNEXPLAINED_I ocDouble.nan)
    ∧ (((exampleInfoManager 2 2).setAttribute 2 ATTRIBUTE_T (ocDouble.fin 0)).setAttribute 2
          ATTRIBUTE_EXPLAINED_I ocDouble.nan).getAttribute (some 2) ATTRIBUTE_EXPLAINED_I
        = some ocDouble.nan
    ∧ ocDouble.le (ocDouble.fin 0) ocDouble.nan = false
    ∧ ocDouble.le ocDouble.nan (ocDouble.fin 1) = false := by
  have hm : (exampleInfoManager 2 2).heap[2]? = some ⟨[⟨[0, 1]⟩, ⟨[2]⟩], []⟩ := rfl
  have htop : (exampleInfoManager 2 2).getAttribute (exampleInfoManager 2 2).topRef ATTRIBUTE_H
      = some (ocDouble.fin 2) := rfl
  have hbot : (exampleInfoManager 2 2).getAttribute (exampleInfoManager 2 2).bottomRef
      ATTRIBUTE_H = some (ocDouble.fin 2) := rfl
  have hT : (exampleInfoManager 2 2).computeTransmission (exampleStatistics 0) 2
      = some (ocDouble.fin 0,
          (exampleInfoManager 2 2).setAttribute 2 ATTRIBUTE_T (ocDouble.fin 0)) := rfl
  refine ⟨?_, ?_, rfl, rfl, rfl⟩
  · unfold ocVBMManager.computeExplainedInformation
    simp only [hm, htop, hbot, hT, explained_nan]
  · unfold ocVBMManager.computeUnexplainedInformation
    simp only [hm, htop, hbot, hT, unexplained_nan]

/-- C10 (amended): whenever `H_bottom ≠ H_top` (entropies and transmission
finite, arithmetic exact), `computeExplainedInformation` returns, and stores
under the explained-information attribute of the model, the value
`(H_bottom - H_top - T) / (H_bottom - H_top)` clamped into `[0, 1]`, and
`computeUnexplainedInformation` returns and stores `T / (H_bottom - H_top)`
clamped into `[0, 1]`; both results lie in `[0, 1]` and equal the unclamped
formula whenever that already lies in `[0, 1]`. -/
theorem information_clamped (stats : ocStatistics) (mgr : ocVBMManager) (model : Nat)
    (ht hb T : ℚ) (mgrT : ocVBMManager)
    (htop : mgr.getAttribute mgr.topRef ATTRIBUTE_H = some (ocDouble.fin ht))
    (hbot : mgr.getAttribute mgr.bottomRef ATTRIBUTE_H = some (ocDouble.fin hb))
    (hT : mgr.computeTransmission stats model = some (ocDouble.fin T, mgrT))
    (hne : hb ≠ ht) :
    ∃ (e u : ℚ) (m1 m2 : ocVBMManager),
      e = max 0 (min 1 ((hb - ht - T) / (hb - ht)))
      ∧ u = max 0 (min 1 (T / (hb - ht)))
      ∧ mgr.computeExplainedInformation stats model = some (ocDouble.fin e, m1)
      ∧ m1.getAttribute (some model) ATTRIBUTE_EXPLAINED_I = some (ocDouble.fin e)
      ∧ mgr.computeUnexplainedInformation stats model = some (ocDouble.fin u, m2)
      ∧ m2.getAttribute (some model) ATTRIBUTE_UNEXPLAINED_I = some (ocDouble.fin u)
      ∧ 0 ≤ e ∧ e ≤ 1 ∧ 0 ≤ u ∧ u ≤ 1
      ∧ (0 ≤ (hb - ht - T) / (hb - ht) → (hb - ht - T) / (hb - ht) ≤ 1 →
          e = (hb - ht - T) / (hb - ht))
      ∧ (0 ≤ T / (hb - ht) → T / (hb - ht) ≤ 1 → u = T / (hb - ht)) := by
  have he := computeExplainedInformation_eq stats mgr model ht hb T mgrT htop hbot hT hne
  have hu := computeUnexplainedInformation_eq stats mgr model ht hb T mgrT htop hbot hT hne
  obtain ⟨e0, e1, e2⟩ := clamp01_bounds ((hb - ht - T) / (hb - ht))
  obtain ⟨u0, u1, u2⟩ := clamp01_bounds (T / (hb - ht))
  exact ⟨_, _, _, _, rfl, rfl, he,
    information_stored stats mgr model _ mgrT hT _ _, hu,
    information_stored stats mgr model _ mgrT hT _ _, e0, e1, u0, u1, e2, u2⟩

/-- Witness of C10: entropies 1 and 3, transmission 1/2. -/
theorem information_clamped_witness :
    (exampleInfoManager 1 3).getAttribute (exampleInfoManager 1 3).topRef ATTRIBUTE_H
        = some (ocDouble.fin 1)
    ∧ (exampleInfoManager 1 3).getAttribute (exampleInfoManager 1 3).bottomRef ATTRIBUTE_H
        = some (ocDouble.fin 3)
    ∧ (exampleInfoManager 1 3).computeTransmission (exampleStatistics (1 / 2)) 2
        = some (ocDouble.fin (1 / 2),
            (exampleInfoManager 1 3).setAttribute 2 ATTRIBUTE_T (ocDouble.fin (1 / 2)))
    ∧ (3 : ℚ) ≠ 1
    ∧ ∃ (e u : ℚ) (m1 m2 : ocVBMManager),
      e = max 0 (min 1 ((3 - 1 - 1 / 2) / (3 - 1)))
      ∧ u = max 0 (min 1 ((1 / 2) / (3 - 1)))
      ∧ (exampleInfoManager 1 3).computeExplainedInformation (exampleStatistics (1 / 2)) 2
          = some (ocDouble.fin e, m1)
      ∧ m1.getAttribute (some 2) ATTRIBUTE_EXPLAINED_I = some (ocDouble.fin e)
      ∧ (exampleInfoManager 1 3).computeUnexplainedInformation (exampleStatistics (1 / 2)) 2
          = some (ocDouble.fin u, m2)
      ∧ m2.getAttribute (some 2) ATTRIBUTE_UNEXPLAINED_I = some (ocDouble.fin u)
      ∧ 0 ≤ e ∧ e ≤ 1 ∧ 0 ≤ u ∧ u ≤ 1
      ∧ (0 ≤ ((3 : ℚ) - 1 - 1 / 2) / (3 - 1) → ((3 : ℚ) - 1 - 1 / 2) / (3 - 1) ≤ 1 →
          e = (3 - 1 - 1 / 2) / (3 - 1))
      ∧ (0 ≤ ((1 : ℚ) / 2) / (3 - 1) → ((1 : ℚ) / 2) / (3 - 1) ≤ 1 →
          u = (1 / 2) / (3 - 1)) :=
  ⟨rfl, rfl, rfl, by norm_num,
    information_clamped (exampleStatistics (1 / 2)) (exampleInfoManager 1 3) 2 1 3 (1 / 2) _
      rfl rfl rfl (by norm_num)⟩

/-! ## Theorems: DF and L2 statistics -/

/-- C11: for every model and whichever reference is active, with finite DF
attributes, `computeDDF` returns and stores under the DDF attribute
`|DF(reference) - DF(model)|`; the value is non-negative, is the same
whichever DF is larger (it equals `|DF(model) - DF(reference)|`), and is `0`
when the model is the reference. -/
theorem computeDDF_abs (mgr : ocVBMManager) (model : Nat) (dr dm : ℚ)
    (href : mgr.getAttribute mgr.refModel ATTRIBUTE_DF = some (ocDouble.fin dr))
    (hmodel : mgr.getAttribute (some model) ATTRIBUTE_DF = some (ocDouble.fin dm)) :
    ∃ mgr', mgr.computeDDF model = some (ocDouble.fin |dr - dm|, mgr')
      ∧ mgr'.getAttribute (some model) ATTRIBUTE_DDF = some (ocDouble.fin |dr - dm|)
      ∧ 0 ≤ |dr - dm| ∧ |dr - dm| = |dm - dr|
      ∧ (mgr.refModel = some model → |dr - dm| = 0) := by
  obtain ⟨m, hm, hattr⟩ := mgr_getAttribute_inv mgr model ATTRIBUTE_DF _ hmodel
  refine ⟨mgr.setAttribute model ATTRIBUTE_DDF (ocDouble.fin |dr - dm|), ?_, ?_, abs_nonneg _,
    abs_sub_comm _ _, ?_⟩
  · unfold ocVBMManager.computeDDF
    simp only [hm, href, hattr, ocDouble.sub, ocDouble.neg, ocDouble.add, ocDouble.fabs,
      sub_eq_add_neg]
  · exact mgr_getAttribute_setAttribute_self mgr model m hm _ _
  · intro hself
    rw [hself, hmodel] at href
    have : dm = dr := by
      have h := Option.some.inj href
      exact ocDouble.fin.inj h
    rw [this, sub_self, abs_zero]

/-- Witness of C11: the bottom reference (DF 2) against the top reference (DF 7). -/
theorem computeDDF_abs_witness :
    exampleDFManager.getAttribute exampleDFManager.refModel ATTRIBUTE_DF
        = some (ocDouble.fin 7)
    ∧ exampleDFManager.getAttribute (some 1) ATTRIBUTE_DF = some (ocDouble.fin 2)
    ∧ ∃ mgr', exampleDFManager.computeDDF 1 = some (ocDouble.fin |7 - 2|, mgr')
      ∧ mgr'.getAttribute (some 1) ATTRIBUTE_DDF = some (ocDouble.fin |7 - 2|)
      ∧ (0 : ℚ) ≤ |7 - 2| ∧ |(7 : ℚ) - 2| = |2 - 7|
      ∧ (exampleDFManager.refModel = some 1 → |(7 : ℚ) - 2| = 0) :=
  ⟨rfl, rfl, computeDDF_abs exampleDFManager 1 7 2 rfl rfl⟩

/-- The value a primitive returns, read off the model object. -/
theorem statValue_eq (mgr : ocVBMManager) (a : Nat) (name : String)
    (oracle : List ocRelation → ocDouble) (m : ocModel) (hm : mgr.heap[a]? = some m) :
    mgr.statValue a name oracle
      = some (if ocDouble.ge (m.attrs.getAttribute name) (ocDouble.fin 0) = true
          then m.attrs.getAttribute name else oracle m.relations) := by
  unfold ocVBMManager.statValue ocVBMManager.cachedStatistic
  rw [hm]
  simp only []
  split <;> rfl

/-- The value a primitive returns is not changed by writing an attribute of
another name, or an attribute of another model. -/
theorem statValue_setAttribute (mgr : ocVBMManager) (b : Nat) (written : String)
    (w : ocDouble) (a : Nat) (name : String) (oracle : List ocRelation → ocDouble)
    (hne : written ≠ name ∨ b ≠ a) :
    (mgr.setAttribute b written w).statValue a name oracle = mgr.statValue a name oracle := by
  cases hm : mgr.heap[a]? with
  | none =>
    have hlen := (setAttribute_sameModels mgr b written w).length_eq
    have h1 : (mgr.setAttribute b written w).heap[a]? = none := by
      apply List.getElem?_eq_none
      rw [hlen]
      by_contra hlt
      rw [List.getElem?_eq_getElem (by omega)] at hm
      exact Option.noConfusion hm
    simp [ocVBMManager.statValue, ocVBMManager.cachedStatistic, hm, h1]
  | some m =>
    rcases hne with hne | hne
    · obtain ⟨m', hm', hrel⟩ := setAttribute_heap mgr b written w a m hm
      have hread := mgr_getAttribute_setAttribute_ne mgr b written name w hne (some a)
      rw [mgr_getAttribute_some _ a m' hm', mgr_getAttribute_some _ a m hm] at hread
      rw [statValue_eq _ a name oracle m' hm', statValue_eq _ a name oracle m hm,
        Option.some.inj hread, hrel]
    · have h1 : (mgr.setAttribute b written w).heap[a]? = some m := by
        unfold ocVBMManager.setAttribute
        cases hb : mgr.heap[b]? with
        | none => exact hm
        | some mb => simp [List.getElem?_set, hne, hm]
      rw [statValue_eq _ a name oracle m h1, statValue_eq _ a name oracle m hm]

/-- A call of a primitive does not change the value any primitive returns,
provided each name has one oracle. -/
theorem statValue_cachedStatistic (mgr : ocVBMManager) (b : Nat) (name' : String)
    (oracle' : List ocRelation → ocDouble) (v : ocDouble) (mgr' : ocVBMManager)
    (h : mgr.cachedStatistic b name' oracle' = some (v, mgr'))
    (a : Nat) (name : String) (oracle : List ocRelation → ocDouble)
    (hfun : name' = name → oracle' = oracle) :
    mgr'.statValue a name oracle = mgr.statValue a name oracle := by
  obtain ⟨m, mT, hm, hmT, hrel, hattr, hv, hcase⟩ := cachedStatistic_post mgr b name' oracle' v mgr' h
  rcases hcase with rfl | rfl
  · rfl
  · by_cases hn : name' = name
    · by_cases hb : b = a
      · subst hb
        subst hn
        have ho := hfun rfl
        subst ho
        have h1 : mgr.statValue b name' oracle' = some v := by
          unfold ocVBMManager.statValue; rw [h]; rfl
        rw [h1, statValue_eq _ b name' oracle' mT hmT, hattr]
        rcases hv with hv | hv
        · rw [if_pos hv]
        · rw [hv]; simp
      · exact statValue_setAttribute mgr b name' v a name oracle (Or.inr hb)
    · exact statValue_setAttribute mgr b name' v a name oracle (Or.inl hn)

/-- Attribute updates compose. -/
theorem ocVBMManager.Evolves.andThen {prim : String → Option (List ocRelation → ocDouble)}
    {written : List String} {m1 m2 m3 : ocVBMManager}
    (h12 : ocVBMManager.Evolves prim written m1 m2)
    (h23 : ocVBMManager.Evolves prim written m2 m3) :
    ocVBMManager.Evolves prim written m1 m3 := by
  induction h23 with
  | refl => exact h12
  | set a name v _ hp hw ih => exact ocVBMManager.Evolves.set a name v ih hp hw
  | stat a name oracle v _ hp hc ih => exact ocVBMManager.Evolves.stat a name oracle v ih hp hc

/-- Attribute updates may be counted under a larger set of written names. -/
theorem ocVBMManager.Evolves.mono {prim : String → Option (List ocRelation → ocDouble)}
    {written written' : List String} {m1 m2 : ocVBMManager}
    (h : ocVBMManager.Evolves prim written m1 m2) (hsub : ∀ n ∈ written, n ∈ written') :
    ocVBMManager.Evolves prim written' m1 m2 := by
  induction h with
  | refl => exact ocVBMManager.Evolves.refl _
  | set a name v _ hp hw ih => exact ocVBMManager.Evolves.set a name v ih hp (hsub _ hw)
  | stat a name oracle v _ hp hc ih => exact ocVBMManager.Evolves.stat a name oracle v ih hp hc

/-- Attribute updates change attribute lists only. -/
theorem ocVBMManager.Evolves.sameModels {prim : String → Option (List ocRelation → ocDouble)}
    {written : List String} {m1 m2 : ocVBMManager}
    (h : ocVBMManager.Evolves prim written m1 m2) : m1.SameModels m2 := by
  induction h with
  | refl => exact ocVBMManager.SameModels.refl _
  | set a name v _ _ _ ih => exact ih.trans (setAttribute_sameModels _ a name v)
  | @stat mgr' mgr'' a name oracle v _ _ hc ih =>
    obtain ⟨_, _, _, _, _, _, _, hcase⟩ := cachedStatistic_post _ a name oracle v _ hc
    rcases hcase with rfl | rfl
    · exact ih
    · exact ih.trans (setAttribute_sameModels _ a name v)

/-- Attribute updates do not change the value a primitive returns. -/
theorem ocVBMManager.Evolves.statValue_same
    {prim : String → Option (List ocRelation → ocDouble)}
    {written : List String} {m1 m2 : ocVBMManager}
    (h : ocVBMManager.Evolves prim written m1 m2) (a : Nat) (name : String)
    (oracle : List ocRelation → ocDouble) (hp : prim name = some oracle) :
    m2.statValue a name oracle = m1.statValue a name oracle := by
  induction h with
  | refl => rfl
  | set b name' v _ hp' _ ih =>
    rw [← ih]
    apply statValue_setAttribute
    left
    intro heq
    rw [heq, hp] at hp'
    exact Option.noConfusion hp'
  | stat b name' oracle' v _ hp' hc ih =>
    rw [← ih]
    apply statValue_cachedStatistic _ b name' oracle' v _ hc
    intro heq
    rw [heq, hp] at hp'
    exact (Option.some.inj hp').symm

/-- Attribute updates leave every attribute that is neither written nor the
name of a primitive as it was. -/
theorem ocVBMManager.Evolves.getAttribute_eq
    {prim : String → Option (List ocRelation → ocDouble)}
    {written : List String} {m1 m2 : ocVBMManager}
    (h : ocVBMManager.Evolves prim written m1 m2) (p : Option Nat) (name : String)
    (hp : prim name = none) (hw : name ∉ written) :
    m2.getAttribute p name = m1.getAttribute p name := by
  induction h with
  | refl => rfl
  | set b name' v _ _ hw' ih =>
    rw [← ih]
    apply mgr_getAttribute_setAttribute_ne
    intro heq
    exact hw (heq ▸ hw')
  | stat b name' oracle' v _ hp' hc ih =>
    rw [← ih]
    exact (cachedStatistic_frame _ b name' oracle' v _ hc).2.2 p name (by
      intro heq
      rw [heq, hp] at hp'
      exact Option.noConfusion hp')

/-- States with the same models have the same live addresses, with the same
relations. -/
theorem ocVBMManager.SameModels.heap {m1 m2 : ocVBMManager} (h : m1.SameModels m2) (a : Nat)
    (m : ocModel) (hm : m1.heap[a]? = some m) :
    ∃ m', m2.heap[a]? = some m' ∧ m'.relations = m.relations := by
  have hmap := h.2.2.2.2.2
  have h1 : (m1.heap.map (fun m => m.relations))[a]? = some m.relations := by
    rw [List.getElem?_map, hm]; rfl
  rw [← hmap, List.getElem?_map] at h1
  cases hm2 : m2.heap[a]? with
  | none => rw [hm2] at h1; exact Option.noConfusion h1
  | some m' =>
    rw [hm2] at h1
    exact ⟨m', rfl, Option.some.inj h1⟩

/-- States with the same models have the same live pointers. -/
theorem ocVBMManager.SameModels.live {m1 m2 : ocVBMManager} (h : m1.SameModels m2)
    (p : Option Nat) (hl : m1.Live p) : m2.Live p := by
  obtain ⟨a, m, hp, hm⟩ := hl
  obtain ⟨m', hm', _⟩ := h.heap a m hm
  exact ⟨a, m', hp, hm'⟩

/-- An attribute read through a live pointer returns. -/
theorem getAttribute_of_live (mgr : ocVBMManager) (p : Option Nat) (hl : mgr.Live p)
    (name : String) : ∃ v, mgr.getAttribute p name = some v := by
  obtain ⟨a, m, hp, hm⟩ := hl
  subst hp
  exact ⟨_, mgr_getAttribute_some mgr a m hm name⟩

/-- A primitive called on a live model returns, and is an attribute update. -/
theorem cachedStatistic_evolves (prim : String → Option (List ocRelation → ocDouble))
    (written : List String) (mgr : ocVBMManager) (a : Nat) (name : String)
    (oracle : List ocRelation → ocDouble) (hp : prim name = some oracle)
    (hl : mgr.Live (some a)) :
    ∃ v mgr', mgr.cachedStatistic a name oracle = some (v, mgr')
      ∧ mgr.statValue a name oracle = some v
      ∧ ocVBMManager.Evolves prim written mgr mgr' := by
  obtain ⟨a', m, hp', hm⟩ := hl
  cases hp'
  have hlt : a < mgr.heap.length := by
    by_contra hge
    rw [List.getElem?_eq_none (by omega)] at hm
    exact Option.noConfusion hm
  obtain ⟨v, mgr', hc, _⟩ := cachedStatistic_sameModels mgr a name oracle hlt
  refine ⟨v, mgr', hc, ?_, ocVBMManager.Evolves.stat a name oracle v
    (ocVBMManager.Evolves.refl mgr) hp hc⟩
  unfold ocVBMManager.statValue
  rw [hc]
  rfl

/-- The call `computeDDF` on a live model with a live reference returns, and is
an attribute update. -/
theorem computeDDF_evolves (prim : String → Option (List ocRelation → ocDouble))
    (written : List String) (hp : prim ATTRIBUTE_DDF = none) (hw : ATTRIBUTE_DDF ∈ written)
    (mgr : ocVBMManager) (model : Nat)
    (hl : mgr.Live (some model)) (hr : mgr.Live mgr.refModel) :
    ∃ v mgr', mgr.computeDDF model = some (v, mgr')
      ∧ ocVBMManager.Evolves prim written mgr mgr' := by
  obtain ⟨a', m, hp', hm⟩ := hl
  cases hp'
  obtain ⟨refDF, href⟩ := getAttribute_of_live mgr mgr.refModel hr ATTRIBUTE_DF
  unfold ocVBMManager.computeDDF
  simp only [hm, href]
  exact ⟨_, _, rfl, ocVBMManager.Evolves.set model ATTRIBUTE_DDF _
    (ocVBMManager.Evolves.refl mgr) hp hw⟩

/-- The call `computeExplainedInformation` on a live model with live top and
bottom references returns, and is an attribute update. -/
theorem computeExplainedInformation_evolves (stats : ocStatistics) (written : List String)
    (hw : ATTRIBUTE_EXPLAINED_I ∈ written) (mgr : ocVBMManager) (model : Nat)
    (hl : mgr.Live (some model)) (ht : mgr.Live mgr.topRef) (hb : mgr.Live mgr.bottomRef) :
    ∃ v mgr', mgr.computeExplainedInformation stats model = some (v, mgr')
      ∧ ocVBMManager.Evolves stats.prim written mgr mgr' := by
  obtain ⟨topH, htop⟩ := getAttribute_of_live mgr mgr.topRef ht ATTRIBUTE_H
  obtain ⟨botH, hbot⟩ := getAttribute_of_live mgr mgr.bottomRef hb ATTRIBUTE_H
  obtain ⟨T, mgrT, hT, _, hev⟩ := cachedStatistic_evolves stats.prim written mgr model
    ATTRIBUTE_T stats.t rfl hl
  obtain ⟨a', m, hp', hm⟩ := hl
  cases hp'
  unfold ocVBMManager.computeExplainedInformation
  simp only [hm, htop, hbot, ocVBMManager.computeTransmission, hT]
  exact ⟨_, _, rfl, ocVBMManager.Evolves.set model ATTRIBUTE_EXPLAINED_I _ hev rfl hw⟩

/-- The call `computeUnexplainedInformation` on a live model with live top and
bottom references returns, and is an attribute update. -/
theorem computeUnexplainedInformation_evolves (stats : ocStatistics) (written : List String)
    (hw : ATTRIBUTE_UNEXPLAINED_I ∈ written) (mgr : ocVBMManager) (model : Nat)
    (hl : mgr.Live (some model)) (ht : mgr.Live mgr.topRef) (hb : mgr.Live mgr.bottomRef) :
    ∃ v mgr', mgr.computeUnexplainedInformation stats model = some (v, mgr')
      ∧ ocVBMManager.Evolves stats.prim written mgr mgr' := by
  obtain ⟨topH, htop⟩ := getAttribute_of_live mgr mgr.topRef ht ATTRIBUTE_H
  obtain ⟨botH, hbot⟩ := getAttribute_of_live mgr mgr.bottomRef hb ATTRIBUTE_H
  obtain ⟨T, mgrT, hT, _, hev⟩ := cachedStatistic_evolves stats.prim written mgr model
    ATTRIBUTE_T stats.t rfl hl
  obtain ⟨a', m, hp', hm⟩ := hl
  cases hp'
  unfold ocVBMManager.computeUnexplainedInformation
  simp only [hm, htop, hbot, ocVBMManager.computeTransmission, hT]
  exact ⟨_, _, rfl, ocVBMManager.Evolves.set model ATTRIBUTE_UNEXPLAINED_I _ hev rfl hw⟩

/-- Attribute updates keep the pointers of the statistics live. -/
theorem ocVBMManager.Evolves.refsLive {prim : String → Option (List ocRelation → ocDouble)}
    {written : List String} {m1 m2 : ocVBMManager}
    (h : ocVBMManager.Evolves prim written m1 m2) (model : Nat) (hl : m1.RefsLive model) :
    m2.RefsLive model := by
  have hs := h.sameModels
  obtain ⟨h1, h2, h3, h4⟩ := hl
  refine ⟨hs.live _ h1, ?_, ?_, ?_⟩
  · rw [hs.2.2.2.2.1]; exact hs.live _ h2
  · rw [hs.2.2.1]; exact hs.live _ h3
  · rw [hs.2.2.2.1]; exact hs.live _ h4

/-- The call `computeDFStatistics` returns on live pointers, and is an attribute
update. -/
theorem computeDFStatistics_evolves (stats : ocStatistics) (written : List String)
    (hw : ATTRIBUTE_DDF ∈ written) (mgr : ocVBMManager) (model : Nat)
    (hl : mgr.RefsLive model) :
    ∃ mgr', mgr.computeDFStatistics stats model = some mgr'
      ∧ ocVBMManager.Evolves stats.prim written mgr mgr' := by
  obtain ⟨v1, s1, h1, _, e1⟩ := cachedStatistic_evolves stats.prim written mgr model
    ATTRIBUTE_DF stats.df rfl hl.1
  have l1 := e1.refsLive model hl
  obtain ⟨v2, s2, h2, e2⟩ := computeDDF_evolves stats.prim written rfl hw s1 model l1.1 l1.2.1
  refine ⟨s2, ?_, e1.andThen e2⟩
  unfold ocVBMManager.computeDFStatistics
  simp only [ocVBMManager.computeDF, h1, h2, Option.bind_eq_bind, Option.some_bind,
    Option.pure_def]

/-- The call `computeInformationStatistics` returns on live pointers, and is an
attribute update. -/
theorem computeInformationStatistics_evolves (stats : ocStatistics) (written : List String)
    (hwe : ATTRIBUTE_EXPLAINED_I ∈ written) (hwu : ATTRIBUTE_UNEXPLAINED_I ∈ written)
    (mgr : ocVBMManager) (model : Nat) (hl : mgr.RefsLive model) :
    ∃ mgr', mgr.computeInformationStatistics stats model = some mgr'
      ∧ ocVBMManager.Evolves stats.prim written mgr mgr' := by
  obtain ⟨v1, s1, h1, _, e1⟩ := cachedStatistic_evolves stats.prim written mgr model
    ATTRIBUTE_H stats.h rfl hl.1
  have l1 := e1.refsLive model hl
  obtain ⟨v2, s2, h2, _, e2⟩ := cachedStatistic_evolves stats.prim written s1 model
    ATTRIBUTE_T stats.t rfl l1.1
  have l2 := e2.refsLive model l1
  obtain ⟨v3, s3, h3, e3⟩ := computeExplainedInformation_evolves stats written hwe s2 model
    l2.1 l2.2.2.1 l2.2.2.2
  have l3 := e3.refsLive model l2
  obtain ⟨v4, s4, h4, e4⟩ := computeUnexplainedInformation_evolves stats written hwu s3 model
    l3.1 l3.2.2.1 l3.2.2.2
  refine ⟨s4, ?_, ((e1.andThen e2).andThen e3).andThen e4⟩
  unfold ocVBMManager.computeInformationStatistics
  simp only [ocVBMManager.computeH, ocVBMManager.computeTransmission, h1, h2, h3, h4,
    Option.bind_eq_bind, Option.some_bind, Option.pure_def]

/-- After a primitive has returned, its attribute is settled. -/
theorem cachedStatistic_settled (mgr : ocVBMManager) (a : Nat) (name : String)
    (oracle : List ocRelation → ocDouble) (v : ocDouble) (mgr' : ocVBMManager)
    (h : mgr.cachedStatistic a name oracle = some (v, mgr')) :
    mgr'.Settled a name oracle v := by
  obtain ⟨_, mT, _, hmT, _, hattr, hv, _⟩ := cachedStatistic_post mgr a name oracle v mgr' h
  exact ⟨mT, hmT, hattr, hv⟩

/-- A settled attribute is what the primitive returns, and what is read. -/
theorem ocVBMManager.Settled.values {mgr : ocVBMManager} {a : Nat} {name : String}
    {oracle : List ocRelation → ocDouble} {v : ocDouble}
    (h : mgr.Settled a name oracle v) :
    mgr.statValue a name oracle = some v ∧ mgr.getAttribute (some a) name = some v := by
  obtain ⟨m, hm, hattr, hv⟩ := h
  refine ⟨?_, by rw [mgr_getAttribute_some mgr a m hm, hattr]⟩
  rw [statValue_eq mgr a name oracle m hm, hattr]
  rcases hv with hv | hv
  · rw [if_pos hv]
  · rw [hv]; simp

/-- Writing an attribute of another name, or of another model, keeps a settled
attribute settled. -/
theorem ocVBMManager.Settled.setAttribute {mgr : ocVBMManager} {a : Nat} {name : String}
    {oracle : List ocRelation → ocDouble} {v : ocDouble}
    (h : mgr.Settled a name oracle v) (b : Nat) (written : String) (w : ocDouble)
    (hne : written ≠ name ∨ b ≠ a) :
    (mgr.setAttribute b written w).Settled a name oracle v := by
  obtain ⟨m, hm, hattr, hv⟩ := h
  rcases hne with hne | hne
  · obtain ⟨m', hm', hrel⟩ := setAttribute_heap mgr b written w a m hm
    have hread := mgr_getAttribute_setAttribute_ne mgr b written name w hne (some a)
    rw [mgr_getAttribute_some _ a m' hm', mgr_getAttribute_some _ a m hm] at hread
    exact ⟨m', hm', (Option.some.inj hread).trans hattr, by rw [hrel]; exact hv⟩
  · have h1 : (mgr.setAttribute b written w).heap[a]? = some m := by
      unfold ocVBMManager.setAttribute
      cases hb : mgr.heap[b]? with
      | none => exact hm
      | some mb => simp [List.getElem?_set, hne, hm]
    exact ⟨m, h1, hattr, hv⟩

/-- Attribute updates keep a settled attribute settled. -/
theorem ocVBMManager.Evolves.settled {prim : String → Option (List ocRelation → ocDouble)}
    {written : List String} {m1 m2 : ocVBMManager}
    (h : ocVBMManager.Evolves prim written m1 m2) (a : Nat) (name : String)
    (oracle : List ocRelation → ocDouble) (hp : prim name = some oracle) (v : ocDouble)
    (hs : m1.Settled a name oracle v) : m2.Settled a name oracle v := by
  induction h with
  | refl => exact hs
  | set b name' w _ hp' _ ih =>
    apply ih.setAttribute
    left
    intro heq
    rw [heq, hp] at hp'
    exact Option.noConfusion hp'
  | @stat mgr' mgr'' b name' oracle' w _ hp' hc ih =>
    obtain ⟨mb, mT, hmb, hmT, hrel, hattr, hv, hcase⟩ :=
      cachedStatistic_post mgr' b name' oracle' w mgr'' hc
    rcases hcase with rfl | rfl
    · exact ih
    · by_cases hn : name' = name
      · by_cases hb : b = a
        · subst hb
          subst hn
          have ho : oracle' = oracle := by
            rw [hp] at hp'; exact (Option.some.inj hp').symm
          subst ho
          have h1 := ih.values.1
          have h2 : mgr'.statValue b name' oracle' = some w := by
            unfold ocVBMManager.statValue; rw [hc]; rfl
          rw [h1] at h2
          cases h2
          exact ⟨mT, hmT, hattr, hv⟩
        · exact ih.setAttribute b name' w (Or.inr hb)
      · exact ih.setAttribute b name' w (Or.inl hn)

/-- What `computeL2Statistics` does on live pointers: it returns; the values it
takes from the primitives are those the primitives return in the initial
state; the four attributes are written last, with the values of the
chi-squared block. -/
theorem computeL2Statistics_spec (stats : ocStatistics) (dist : ocDistributions)
    (opts : ocOptions) (mgr : ocVBMManager) (model ref : Nat)
    (hl : mgr.RefsLive model) (href : mgr.refModel = some ref) :
    ∃ modelT refT modelDF refDF mgrP,
      mgr.statValue model ATTRIBUTE_T stats.t = some modelT
      ∧ mgr.statValue ref ATTRIBUTE_T stats.t = some refT
      ∧ mgr.statValue model ATTRIBUTE_DF stats.df = some modelDF
      ∧ mgr.statValue ref ATTRIBUTE_DF stats.df = some refDF
      ∧ ocVBMManager.Evolves stats.prim computeL2Statistics.written mgr mgrP
      ∧ mgr.computeL2Statistics stats dist opts model
        = some ((computeL2Statistics.chiSquared dist opts modelT refT modelDF refDF).output,
            (((mgrP.setAttribute model ATTRIBUTE_DDF
                (computeL2Statistics.chiSquared dist opts modelT refT modelDF refDF).refDDF
              ).setAttribute model ATTRIBUTE_LR
                (computeL2Statistics.chiSquared dist opts modelT refT modelDF refDF).refModelL2
              ).setAttribute model ATTRIBUTE_ALPHA
                (computeL2Statistics.chiSquared dist opts modelT refT modelDF refDF).refL2Prob
              ).setAttribute model ATTRIBUTE_BETA
                (computeL2Statistics.chiSquared dist opts modelT refT modelDF refDF).refL2Power)
      ∧ mgrP.Settled model ATTRIBUTE_T stats.t modelT
      ∧ mgrP.Settled ref ATTRIBUTE_T stats.t refT
      ∧ mgrP.Settled model ATTRIBUTE_DF stats.df modelDF
      ∧ mgrP.Settled ref ATTRIBUTE_DF stats.df refDF := by
  obtain ⟨s1, h1, e1⟩ := computeDFStatistics_evolves stats computeL2Statistics.written
    (by decide) mgr model hl
  have l1 := e1.refsLive model hl
  obtain ⟨s2, h2, e2'⟩ := computeInformationStatistics_evolves stats
    computeL2Statistics.written (by decide) (by decide) s1 model l1
  have e2 := e1.andThen e2'
  have l2 := e2.refsLive model hl
  obtain ⟨modelT, s3, h3, v3, e3'⟩ := cachedStatistic_evolves stats.prim
    computeL2Statistics.written s2 model ATTRIBUTE_T stats.t rfl l2.1
  have e3 := e2.andThen e3'
  have l3 := e3.refsLive model hl
  have r3 : s3.refModel = some ref := by rw [e3.sameModels.2.2.2.2.1, href]
  obtain ⟨refT, s4, h4, v4, e4'⟩ := cachedStatistic_evolves stats.prim
    computeL2Statistics.written s3 ref ATTRIBUTE_T stats.t rfl (r3 ▸ l3.2.1)
  have e4 := e3.andThen e4'
  have l4 := e4.refsLive model hl
  obtain ⟨modelDF, s5, h5, v5, e5'⟩ := cachedStatistic_evolves stats.prim
    computeL2Statistics.written s4 model ATTRIBUTE_DF stats.df rfl l4.1
  have e5 := e4.andThen e5'
  have l5 := e5.refsLive model hl
  have r5 : s5.refModel = some ref := by rw [e5.sameModels.2.2.2.2.1, href]
  obtain ⟨refDF, s6, h6, v6, e6'⟩ := cachedStatistic_evolves stats.prim
    computeL2Statistics.written s5 ref ATTRIBUTE_DF stats.df rfl (r5 ▸ l5.2.1)
  have e6 := e5.andThen e6'
  obtain ⟨_, m, hp, hm⟩ := hl.1
  cases hp
  have g3 := cachedStatistic_settled _ _ _ _ _ _ h3
  have g4 := cachedStatistic_settled _ _ _ _ _ _ h4
  have g5 := cachedStatistic_settled _ _ _ _ _ _ h5
  have g6 := cachedStatistic_settled _ _ _ _ _ _ h6
  refine ⟨modelT, refT, modelDF, refDF, s6, ?_, ?_, ?_, ?_, e6, ?_,
    ((e4'.andThen e5').andThen e6').settled model ATTRIBUTE_T stats.t rfl _ g3,
    (e5'.andThen e6').settled ref ATTRIBUTE_T stats.t rfl _ g4,
    e6'.settled model ATTRIBUTE_DF stats.df rfl _ g5, g6⟩
  · rw [← v3, e2.statValue_same model ATTRIBUTE_T stats.t rfl]
  · rw [← v4, e3.statValue_same ref ATTRIBUTE_T stats.t rfl]
  · rw [← v5, e4.statValue_same model ATTRIBUTE_DF stats.df rfl]
  · rw [← v6, e5.statValue_same ref ATTRIBUTE_DF stats.df rfl]
  · unfold ocVBMManager.computeL2Statistics
    simp only [hm, h1, h2, ocVBMManager.computeTransmission, ocVBMManager.computeDF, h3, h4,
      h5, h6, r3, r5, Option.bind_eq_bind, Option.some_bind, Option.pure_def]

/-- The sign correction and the clamp of the chi-squared block on finite
inputs: `refDDF` is `|DF(model) - DF(reference)|` and `refModelL2` is
`max 0 (s * (L2(reference) - L2(model)))`, `s` being `-1` when
`DF(model) < DF(reference)` and `1` otherwise. -/
theorem chiSquared_fin (dist : ocDistributions) (opts : ocOptions) (N tm tr dm dr : ℚ)
    (hN : opts.sampleSize = ocDouble.fin N) :
    (computeL2Statistics.chiSquared dist opts (ocDouble.fin tm) (ocDouble.fin tr)
        (ocDouble.fin dm) (ocDouble.fin dr)).refDDF = ocDouble.fin |dm - dr|
    ∧ (computeL2Statistics.chiSquared dist opts (ocDouble.fin tm) (ocDouble.fin tr)
        (ocDouble.fin dm) (ocDouble.fin dr)).refModelL2
      = ocDouble.fin (max 0 ((if dm < dr then -1 else 1)
          * (2 * M_LN2 * N * tr - 2 * M_LN2 * N * tm))) := by
  unfold computeL2Statistics.chiSquared
  simp only [hN, ocDouble.mul, ocDouble.sub, ocDouble.neg, ocDouble.add, ocDouble.lt]
  by_cases hlt : dm < dr
  · have h1 : dm + -dr < 0 := by linarith
    have habs : |dm - dr| = -(dm + -dr) := by
      rw [abs_of_neg (by linarith)]; ring
    simp only [h1, decide_True, if_true, hlt, ocDouble.le]
    refine ⟨by rw [habs], ?_⟩
    by_cases hle : -(2 * M_LN2 * N * tr + -(2 * M_LN2 * N * tm)) ≤ 0
    · simp only [hle, decide_True, if_true]
      rw [max_eq_left (by linarith)]
    · simp only [hle, decide_False, Bool.false_eq_true, if_false]
      rw [max_eq_right (by linarith)]
      congr 1
      ring
  · have h1 : ¬ (dm + -dr < 0) := by linarith
    have habs : |dm - dr| = dm + -dr := by
      rw [abs_of_nonneg (by linarith)]; ring
    simp only [h1, decide_False, Bool.false_eq_true, if_false, hlt, ocDouble.le]
    refine ⟨by rw [habs], ?_⟩
    by_cases hle : 2 * M_LN2 * N * tr + -(2 * M_LN2 * N * tm) ≤ 0
    · simp only [hle, decide_True, if_true]
      rw [max_eq_left (by linarith)]
    · simp only [hle, decide_False, Bool.false_eq_true, if_false]
      rw [max_eq_right (by linarith)]
      congr 1
      ring

/-- The significance, the power and the output of the chi-squared block in terms
of its `refDDF` and `refModelL2`: the critical value is `refModelL2` itself
unless `palpha` is set and positive, in which case it is the `ppchi`
quantile; only a nonzero error code left by `ppchi` is printed. -/
theorem chiSquared_prob_power (dist : ocDistributions) (opts : ocOptions)
    (modelT refT modelDF refDF : ocDouble) :
    (computeL2Statistics.chiSquared dist opts modelT refT modelDF refDF).refL2Prob
      = dist.csa
          (computeL2Statistics.chiSquared dist opts modelT refT modelDF refDF).refModelL2
          (computeL2Statistics.chiSquared dist opts modelT refT modelDF refDF).refDDF
    ∧ (∀ alpha, opts.palpha = some alpha → ocDouble.gt alpha (ocDouble.fin 0) = true →
        (computeL2Statistics.chiSquared dist opts modelT refT modelDF refDF).refL2Power
          = ocDouble.sub (ocDouble.fin 1)
              (dist.chin2
                (dist.ppchi alpha
                  (computeL2Statistics.chiSquared dist opts modelT refT modelDF refDF).refDDF
                  0).1
                (computeL2Statistics.chiSquared dist opts modelT refT modelDF refDF).refDDF
                (computeL2Statistics.chiSquared dist opts modelT refT modelDF refDF).refModelL2
                (dist.ppchi alpha
                  (computeL2Statistics.chiSquared dist opts modelT refT modelDF refDF).refDDF
                  0).2).1
        ∧ (computeL2Statistics.chiSquared dist opts modelT refT modelDF refDF).output
          = if (dist.ppchi alpha
                (computeL2Statistics.chiSquared dist opts modelT refT modelDF refDF).refDDF
                0).2 ≠ 0
            then ["ppchi: errcode=" ++ toString (dist.ppchi alpha
                (computeL2Statistics.chiSquared dist opts modelT refT modelDF refDF).refDDF
                0).2 ++ "\n"]
            else [])
    ∧ ((opts.palpha = none
          ∨ ∃ alpha, opts.palpha = some alpha ∧ ocDouble.gt alpha (ocDouble.fin 0) = false) →
        (computeL2Statistics.chiSquared dist opts modelT refT modelDF refDF).refL2Power
          = ocDouble.sub (ocDouble.fin 1)
              (dist.chin2
                (computeL2Statistics.chiSquared dist opts modelT refT modelDF refDF).refModelL2
                (computeL2Statistics.chiSquared dist opts modelT refT modelDF refDF).refDDF
                (computeL2Statistics.chiSquared dist opts modelT refT modelDF refDF).refModelL2
                0).1
        ∧ (computeL2Statistics.chiSquared dist opts modelT refT modelDF refDF).output = []) := by
  refine ⟨rfl, ?_, ?_⟩
  · intro alpha ha hpos
    unfold computeL2Statistics.chiSquared
    simp only [ha, hpos, if_true]
    constructor <;> first | rfl | trivial
  · intro h
    have hnot : ocDouble.gt (match opts.palpha with
        | some a => a
        | none => ocDouble.fin 0) (ocDouble.fin 0) = false := by
      rcases h with h | ⟨alpha, h, hg⟩
      · rw [h]; rfl
      · rw [h]; exact hg
    unfold computeL2Statistics.chiSquared
    simp only [hnot, Bool.false_eq_true, if_false]
    constructor <;> first | rfl | trivial

/-- Writing an attribute keeps a live pointer live. -/
theorem live_setAttribute (mgr : ocVBMManager) (a : Nat) (name : String) (v : ocDouble)
    (p : Option Nat) (hl : mgr.Live p) : (mgr.setAttribute a name v).Live p :=
  (setAttribute_sameModels mgr a name v).live p hl

/-- Through a live pointer, an attribute just written reads back. -/
theorem getAttribute_setAttribute_live (mgr : ocVBMManager) (a : Nat) (name : String)
    (v : ocDouble) (hl : mgr.Live (some a)) :
    (mgr.setAttribute a name v).getAttribute (some a) name = some v := by
  obtain ⟨a', m, hp, hm⟩ := hl
  cases hp
  exact mgr_getAttribute_setAttribute_self mgr a m hm name v

/-- Four attributes of distinct names written in a row all read back. -/
theorem getAttribute_four (mgr : ocVBMManager) (a : Nat) (hl : mgr.Live (some a))
    (n1 n2 n3 n4 : String) (v1 v2 v3 v4 : ocDouble)
    (h12 : n2 ≠ n1) (h13 : n3 ≠ n1) (h14 : n4 ≠ n1) (h23 : n3 ≠ n2) (h24 : n4 ≠ n2)
    (h34 : n4 ≠ n3) :
    ((((mgr.setAttribute a n1 v1).setAttribute a n2 v2).setAttribute a n3 v3).setAttribute
        a n4 v4).getAttribute (some a) n1 = some v1
    ∧ ((((mgr.setAttribute a n1 v1).setAttribute a n2 v2).setAttribute a n3 v3).setAttribute
        a n4 v4).getAttribute (some a) n2 = some v2
    ∧ ((((mgr.setAttribute a n1 v1).setAttribute a n2 v2).setAttribute a n3 v3).setAttribute
        a n4 v4).getAttribute (some a) n3 = some v3
    ∧ ((((mgr.setAttribute a n1 v1).setAttribute a n2 v2).setAttribute a n3 v3).setAttribute
        a n4 v4).getAttribute (some a) n4 = some v4 := by
  have l1 := live_setAttribute mgr a n1 v1 _ hl
  have l2 := live_setAttribute _ a n2 v2 _ l1
  have l3 := live_setAttribute _ a n3 v3 _ l2
  refine ⟨?_, ?_, ?_, ?_⟩
  · rw [mgr_getAttribute_setAttribute_ne _ a n4 n1 v4 h14,
      mgr_getAttribute_setAttribute_ne _ a n3 n1 v3 h13,
      mgr_getAttribute_setAttribute_ne _ a n2 n1 v2 h12]
    exact getAttribute_setAttribute_live mgr a n1 v1 hl
  · rw [mgr_getAttribute_setAttribute_ne _ a n4 n2 v4 h24,
      mgr_getAttribute_setAttribute_ne _ a n3 n2 v3 h23]
    exact getAttribute_setAttribute_live _ a n2 v2 l1
  · rw [mgr_getAttribute_setAttribute_ne _ a n4 n3 v4 h34]
    exact getAttribute_setAttribute_live _ a n3 v3 l2
  · exact getAttribute_setAttribute_live _ a n4 v4 l3

/-- C12: L2 sign-consistency.  On live pointers, with finite sample size `N` and
finite transmissions and degrees of freedom of the model and of the
reference (the values `computeTransmission` and `computeDF` return),
`computeL2Statistics` returns and stores `DDF = |DF(model) - DF(reference)|`
and `LR = max 0 (s * (L2(reference) - L2(model)))`, where
`L2(x) = 2 * M_LN2 * N * T(x)` and `s` is `-1` when `DF(model) < DF(reference)`
and `1` otherwise; both are non-negative, and they are the arguments of the
`csa` call whose value is stored as the significance. -/
theorem computeL2Statistics_sign (stats : ocStatistics) (dist : ocDistributions)
    (opts : ocOptions) (mgr : ocVBMManager) (model ref : Nat) (N tm tr dm dr : ℚ)
    (hl : mgr.RefsLive model) (href : mgr.refModel = some ref)
    (hN : opts.sampleSize = ocDouble.fin N)
    (htm : mgr.statValue model ATTRIBUTE_T stats.t = some (ocDouble.fin tm))
    (htr : mgr.statValue ref ATTRIBUTE_T stats.t = some (ocDouble.fin tr))
    (hdm : mgr.statValue model ATTRIBUTE_DF stats.df = some (ocDouble.fin dm))
    (hdr : mgr.statValue ref ATTRIBUTE_DF stats.df = some (ocDouble.fin dr)) :
    ∃ (output : List String) (mgr' : ocVBMManager) (ddf lr : ℚ),
      mgr.computeL2Statistics stats dist opts model = some (output, mgr')
      ∧ ddf = |dm - dr|
      ∧ lr = max 0 ((if dm < dr then -1 else 1) * (2 * M_LN2 * N * tr - 2 * M_LN2 * N * tm))
      ∧ mgr'.getAttribute (some model) ATTRIBUTE_DDF = some (ocDouble.fin ddf)
      ∧ mgr'.getAttribute (some model) ATTRIBUTE_LR = some (ocDouble.fin lr)
      ∧ mgr'.getAttribute (some model) ATTRIBUTE_ALPHA
          = some (dist.csa (ocDouble.fin lr) (ocDouble.fin ddf))
      ∧ 0 ≤ ddf ∧ 0 ≤ lr := by
  obtain ⟨modelT, refT, modelDF, refDF, mgrP, a1, a2, a3, a4, ev, hcall, _⟩ :=
    computeL2Statistics_spec stats dist opts mgr model ref hl href
  rw [htm] at a1; rw [htr] at a2; rw [hdm] at a3; rw [hdr] at a4
  cases a1; cases a2; cases a3; cases a4
  obtain ⟨c1, c2⟩ := chiSquared_fin dist opts N tm tr dm dr hN
  obtain ⟨c3, _, _⟩ := chiSquared_prob_power dist opts (ocDouble.fin tm) (ocDouble.fin tr)
    (ocDouble.fin dm) (ocDouble.fin dr)
  obtain ⟨r1, r2, r3, _⟩ := getAttribute_four mgrP model (ev.refsLive model hl).1
    ATTRIBUTE_DDF ATTRIBUTE_LR ATTRIBUTE_ALPHA ATTRIBUTE_BETA
    (computeL2Statistics.chiSquared dist opts (ocDouble.fin tm) (ocDouble.fin tr)
      (ocDouble.fin dm) (ocDouble.fin dr)).refDDF
    (computeL2Statistics.chiSquared dist opts (ocDouble.fin tm) (ocDouble.fin tr)
      (ocDouble.fin dm) (ocDouble.fin dr)).refModelL2
    (computeL2Statistics.chiSquared dist opts (ocDouble.fin tm) (ocDouble.fin tr)
      (ocDouble.fin dm) (ocDouble.fin dr)).refL2Prob
    (computeL2Statistics.chiSquared dist opts (ocDouble.fin tm) (ocDouble.fin tr)
      (ocDouble.fin dm) (ocDouble.fin dr)).refL2Power
    (by decide) (by decide) (by decide) (by decide) (by decide) (by decide)
  refine ⟨_, _, _, _, hcall, rfl, rfl, ?_, ?_, ?_, abs_nonneg _, le_max_left _ _⟩
  · rw [r1, c1]
  · rw [r2, c2]
  · rw [r3, c3, c1, c2]

/-- The pointers of `exampleL2Manager` are live, for either of its models. -/
theorem exampleL2Manager_live : exampleL2Manager.RefsLive 1 ∧ exampleL2Manager.RefsLive 0 :=
  ⟨⟨⟨1, _, rfl, rfl⟩, ⟨0, _, rfl, rfl⟩, ⟨0, _, rfl, rfl⟩, ⟨1, _, rfl, rfl⟩⟩,
   ⟨⟨0, _, rfl, rfl⟩, ⟨0, _, rfl, rfl⟩, ⟨0, _, rfl, rfl⟩, ⟨1, _, rfl, rfl⟩⟩⟩

/-- Witness of C12: the bottom reference (DF 3, T 1) against the top reference
(DF 7, T 0), sample size 100. -/
theorem computeL2Statistics_sign_witness :
    exampleL2Manager.RefsLive 1 ∧ exampleL2Manager.refModel = some 0
    ∧ exampleOptions.sampleSize = ocDouble.fin 100
    ∧ exampleL2Manager.statValue 1 ATTRIBUTE_T (exampleStatistics 5).t = some (ocDouble.fin 1)
    ∧ exampleL2Manager.statValue 0 ATTRIBUTE_T (exampleStatistics 5).t = some (ocDouble.fin 0)
    ∧ exampleL2Manager.statValue 1 ATTRIBUTE_DF (exampleStatistics 5).df
        = some (ocDouble.fin 3)
    ∧ exampleL2Manager.statValue 0 ATTRIBUTE_DF (exampleStatistics 5).df
        = some (ocDouble.fin 7)
    ∧ ∃ (output : List String) (mgr' : ocVBMManager) (ddf lr : ℚ),
      exampleL2Manager.computeL2Statistics (exampleStatistics 5) exampleDistributions
          exampleOptions 1 = some (output, mgr')
      ∧ ddf = |3 - 7|
      ∧ lr = max 0 ((if (3 : ℚ) < 7 then -1 else 1)
          * (2 * M_LN2 * 100 * 0 - 2 * M_LN2 * 100 * 1))
      ∧ mgr'.getAttribute (some 1) ATTRIBUTE_DDF = some (ocDouble.fin ddf)
      ∧ mgr'.getAttribute (some 1) ATTRIBUTE_LR = some (ocDouble.fin lr)
      ∧ mgr'.getAttribute (some 1) ATTRIBUTE_ALPHA
          = some (exampleDistributions.csa (ocDouble.fin lr) (ocDouble.fin ddf))
      ∧ 0 ≤ ddf ∧ 0 ≤ lr :=
  ⟨exampleL2Manager_live.1, rfl, rfl, rfl, rfl, rfl, rfl,
    computeL2Statistics_sign (exampleStatistics 5) exampleDistributions exampleOptions
      exampleL2Manager 1 0 100 1 0 3 7 exampleL2Manager_live.1 rfl rfl rfl rfl rfl rfl⟩

/-- C17: on live pointers and finite inputs, `computeL2Statistics` stores the
significance `alpha = csa(refModelL2, refDDF)` and the power
`beta = 1 - chin2(criticalValue, refDDF, refModelL2)`, where `refDDF` and
`refModelL2` are the sign-corrected, clamped values (the stored DDF and LR),
and `criticalValue` is `refModelL2` itself when the option `palpha` is unset
or not positive, and `ppchi(palpha, refDDF)` when `palpha > 0`. -/
theorem computeL2Statistics_alpha_beta (stats : ocStatistics) (dist : ocDistributions)
    (opts : ocOptions) (mgr : ocVBMManager) (model ref : Nat) (N tm tr dm dr : ℚ)
    (hl : mgr.RefsLive model) (href : mgr.refModel = some ref)
    (hN : opts.sampleSize = ocDouble.fin N)
    (htm : mgr.statValue model ATTRIBUTE_T stats.t = some (ocDouble.fin tm))
    (htr : mgr.statValue ref ATTRIBUTE_T stats.t = some (ocDouble.fin tr))
    (hdm : mgr.statValue model ATTRIBUTE_DF stats.df = some (ocDouble.fin dm))
    (hdr : mgr.statValue ref ATTRIBUTE_DF stats.df = some (ocDouble.fin dr)) :
    ∃ (output : List String) (mgr' : ocVBMManager) (refDDF refModelL2 : ocDouble),
      mgr.computeL2Statistics stats dist opts model = some (output, mgr')
      ∧ refDDF = ocDouble.fin |dm - dr|
      ∧ refModelL2 = ocDouble.fin (max 0 ((if dm < dr then -1 else 1)
          * (2 * M_LN2 * N * tr - 2 * M_LN2 * N * tm)))
      ∧ mgr'.getAttribute (some model) ATTRIBUTE_DDF = some refDDF
      ∧ mgr'.getAttribute (some model) ATTRIBUTE_LR = some refModelL2
      ∧ mgr'.getAttribute (some model) ATTRIBUTE_ALPHA = some (dist.csa refModelL2 refDDF)
      ∧ ((opts.palpha = none
            ∨ ∃ alpha, opts.palpha = some alpha ∧ ocDouble.gt alpha (ocDouble.fin 0) = false) →
          mgr'.getAttribute (some model) ATTRIBUTE_BETA
            = some (ocDouble.sub (ocDouble.fin 1)
                (dist.chin2 refModelL2 refDDF refModelL2 0).1))
      ∧ (∀ alpha, opts.palpha = some alpha → ocDouble.gt alpha (ocDouble.fin 0) = true →
          mgr'.getAttribute (some model) ATTRIBUTE_BETA
            = some (ocDouble.sub (ocDouble.fin 1)
                (dist.chin2 (dist.ppchi alpha refDDF 0).1 refDDF refModelL2
                  (dist.ppchi alpha refDDF 0).2).1)) := by
  obtain ⟨modelT, refT, modelDF, refDF, mgrP, a1, a2, a3, a4, ev, hcall, _⟩ :=
    computeL2Statistics_spec stats dist opts mgr model ref hl href
  rw [htm] at a1; rw [htr] at a2; rw [hdm] at a3; rw [hdr] at a4
  cases a1; cases a2; cases a3; cases a4
  obtain ⟨c1, c2⟩ := chiSquared_fin dist opts N tm tr dm dr hN
  obtain ⟨c3, c4, c5⟩ := chiSquared_prob_power dist opts (ocDouble.fin tm) (ocDouble.fin tr)
    (ocDouble.fin dm) (ocDouble.fin dr)
  obtain ⟨r1, r2, r3, r4⟩ := getAttribute_four mgrP model (ev.refsLive model hl).1
    ATTRIBUTE_DDF ATTRIBUTE_LR ATTRIBUTE_ALPHA ATTRIBUTE_BETA
    (computeL2Statistics.chiSquared dist opts (ocDouble.fin tm) (ocDouble.fin tr)
      (ocDouble.fin dm) (ocDouble.fin dr)).refDDF
    (computeL2Statistics.chiSquared dist opts (ocDouble.fin tm) (ocDouble.fin tr)
      (ocDouble.fin dm) (ocDouble.fin dr)).refModelL2
    (computeL2Statistics.chiSquared dist opts (ocDouble.fin tm) (ocDouble.fin tr)
      (ocDouble.fin dm) (ocDouble.fin dr)).refL2Prob
    (computeL2Statistics.chiSquared dist opts (ocDouble.fin tm) (ocDouble.fin tr)
      (ocDouble.fin dm) (ocDouble.fin dr)).refL2Power
    (by decide) (by decide) (by decide) (by decide) (by decide) (by decide)
  refine ⟨_, _, _, _, hcall, rfl, rfl, ?_, ?_, ?_, ?_, ?_⟩
  · rw [r1, c1]
  · rw [r2, c2]
  · rw [r3, c3, c1, c2]
  · intro h
    rw [r4, (c5 h).1, c1, c2]
  · intro alpha ha hpos
    rw [r4, (c4 alpha ha hpos).1, c1, c2]

/-- Witness of C17: the bottom reference against the top reference, `palpha` not
set. -/
theorem computeL2Statistics_alpha_beta_witness :
    exampleL2Manager.RefsLive 1 ∧ exampleL2Manager.refModel = some 0
    ∧ exampleOptions.sampleSize = ocDouble.fin 100
    ∧ exampleL2Manager.statValue 1 ATTRIBUTE_T (exampleStatistics 5).t = some (ocDouble.fin 1)
    ∧ exampleL2Manager.statValue 0 ATTRIBUTE_T (exampleStatistics 5).t = some (ocDouble.fin 0)
    ∧ exampleL2Manager.statValue 1 ATTRIBUTE_DF (exampleStatistics 5).df
        = some (ocDouble.fin 3)
    ∧ exampleL2Manager.statValue 0 ATTRIBUTE_DF (exampleStatistics 5).df
        = some (ocDouble.fin 7)
    ∧ ∃ (output : List String) (mgr' : ocVBMManager) (refDDF refModelL2 : ocDouble),
      exampleL2Manager.computeL2Statistics (exampleStatistics 5) exampleDistributions
          exampleOptions 1 = some (output, mgr')
      ∧ refDDF = ocDouble.fin |3 - 7|
      ∧ refModelL2 = ocDouble.fin (max 0 ((if (3 : ℚ) < 7 then -1 else 1)
          * (2 * M_LN2 * 100 * 0 - 2 * M_LN2 * 100 * 1)))
      ∧ mgr'.getAttribute (some 1) ATTRIBUTE_DDF = some refDDF
      ∧ mgr'.getAttribute (some 1) ATTRIBUTE_LR = some refModelL2
      ∧ mgr'.getAttribute (some 1) ATTRIBUTE_ALPHA
          = some (exampleDistributions.csa refModelL2 refDDF)
      ∧ ((exampleOptions.palpha = none
            ∨ ∃ alpha, exampleOptions.palpha = some alpha
                ∧ ocDouble.gt alpha (ocDouble.fin 0) = false) →
          mgr'.getAttribute (some 1) ATTRIBUTE_BETA
            = some (ocDouble.sub (ocDouble.fin 1)
                (exampleDistributions.chin2 refModelL2 refDDF refModelL2 0).1))
      ∧ (∀ alpha, exampleOptions.palpha = some alpha →
          ocDouble.gt alpha (ocDouble.fin 0) = true →
          mgr'.getAttribute (some 1) ATTRIBUTE_BETA
            = some (ocDouble.sub (ocDouble.fin 1)
                (exampleDistributions.chin2 (exampleDistributions.ppchi alpha refDDF 0).1
                  refDDF refModelL2 (exampleDistributions.ppchi alpha refDDF 0).2).1)) :=
  ⟨⟨⟨1, _, rfl, rfl⟩, ⟨0, _, rfl, rfl⟩, ⟨0, _, rfl, rfl⟩, ⟨1, _, rfl, rfl⟩⟩,
    rfl, rfl, rfl, rfl, rfl, rfl,
    computeL2Statistics_alpha_beta (exampleStatistics 5) exampleDistributions exampleOptions
      exampleL2Manager 1 0 100 1 0 3 7
      ⟨⟨1, _, rfl, rfl⟩, ⟨0, _, rfl, rfl⟩, ⟨0, _, rfl, rfl⟩, ⟨1, _, rfl, rfl⟩⟩
      rfl rfl rfl rfl rfl rfl⟩

/-- What `computePearsonStatistics` does on live pointers: it returns, after two
`makeFitTable` calls; the Pearson statistic of the model is taken on the
fitted table of the model and that of the reference on the fitted table of
the bottom reference; the three attributes are written last, with the
values of the chi-squared block. -/
theorem computePearsonStatistics_spec (stats : ocStatistics) (dist : ocDistributions)
    (opts : ocOptions) (fit : ocFitService) (mgr : ocVBMManager) (st : ocFitState)
    (model ref bottom : Nat) (m mb : ocModel)
    (hl : mgr.RefsLive model) (href : mgr.refModel = some ref)
    (hbot : mgr.bottomRef = some bottom) (hm : mgr.heap[model]? = some m)
    (hmb : mgr.heap[bottom]? = some mb) :
    ∃ modelDF refDF mgrP,
      mgr.statValue model ATTRIBUTE_DF stats.df = some modelDF
      ∧ mgr.statValue ref ATTRIBUTE_DF stats.df = some refDF
      ∧ ocVBMManager.Evolves stats.prim computePearsonStatistics.written mgr mgrP
      ∧ mgr.computePearsonStatistics stats dist opts fit st (some model)
        = some ((computePearsonStatistics.chiSquared dist opts
              (fit.ocPearsonChiSquared fit.inputData (fit.makeFitTable m.relations)
                opts.sampleSize)
              (fit.ocPearsonChiSquared fit.inputData (fit.makeFitTable mb.relations)
                opts.sampleSize) modelDF refDF).output,
            ⟨some (fit.makeFitTable mb.relations), st.makeFitTableCalls + 2⟩,
            ((mgrP.setAttribute model ATTRIBUTE_P2
                (fit.ocPearsonChiSquared fit.inputData (fit.makeFitTable m.relations)
                  opts.sampleSize)
              ).setAttribute model ATTRIBUTE_P2_ALPHA
                (computePearsonStatistics.chiSquared dist opts
                  (fit.ocPearsonChiSquared fit.inputData (fit.makeFitTable m.relations)
                    opts.sampleSize)
                  (fit.ocPearsonChiSquared fit.inputData (fit.makeFitTable mb.relations)
                    opts.sampleSize) modelDF refDF).refP2Prob
              ).setAttribute model ATTRIBUTE_P2_BETA
                (computePearsonStatistics.chiSquared dist opts
                  (fit.ocPearsonChiSquared fit.inputData (fit.makeFitTable m.relations)
                    opts.sampleSize)
                  (fit.ocPearsonChiSquared fit.inputData (fit.makeFitTable mb.relations)
                    opts.sampleSize) modelDF refDF).refP2Power) := by
  obtain ⟨modelDF, s1, h1, v1, e1⟩ := cachedStatistic_evolves stats.prim
    computePearsonStatistics.written mgr model ATTRIBUTE_DF stats.df rfl hl.1
  have l1 := e1.refsLive model hl
  have r1 : s1.refModel = some ref := by rw [e1.sameModels.2.2.2.2.1, href]
  obtain ⟨refDF, s2, h2, v2, e2'⟩ := cachedStatistic_evolves stats.prim
    computePearsonStatistics.written s1 ref ATTRIBUTE_DF stats.df rfl (r1 ▸ l1.2.1)
  refine ⟨modelDF, refDF, s2, v1, ?_, e1.andThen e2', ?_⟩
  · rw [← v2, e1.statValue_same ref ATTRIBUTE_DF stats.df rfl]
  · unfold ocVBMManager.computePearsonStatistics
    simp only [hbot, ocVBMManager.makeFitTable, hm, hmb, ocVBMManager.computeDF, h1, h2, r1,
      Option.bind_eq_bind, Option.some_bind, Option.pure_def]

/-- The chi-squared block of `computePearsonStatistics` on finite inputs: no sign
correction and no clamp; `csa` is given `P2(reference) - P2(model)` and
`DF(model) - DF(reference)` as they are. -/
theorem pearson_chiSquared_fin (dist : ocDistributions) (opts : ocOptions)
    (pm pr dm dr : ℚ) :
    (computePearsonStatistics.chiSquared dist opts (ocDouble.fin pm) (ocDouble.fin pr)
        (ocDouble.fin dm) (ocDouble.fin dr)).refDDF = ocDouble.fin (dm - dr)
    ∧ (computePearsonStatistics.chiSquared dist opts (ocDouble.fin pm) (ocDouble.fin pr)
        (ocDouble.fin dm) (ocDouble.fin dr)).refModelP2 = ocDouble.fin (pr - pm)
    ∧ (computePearsonStatistics.chiSquared dist opts (ocDouble.fin pm) (ocDouble.fin pr)
        (ocDouble.fin dm) (ocDouble.fin dr)).refP2Prob
      = dist.csa (ocDouble.fin (pr - pm)) (ocDouble.fin (dm - dr)) := by
  unfold computePearsonStatistics.chiSquared
  simp only [ocDouble.sub, ocDouble.neg, ocDouble.add, sub_eq_add_neg]
  exact ⟨trivial, trivial, trivial⟩

/-- Three attributes of distinct names written in a row all read back. -/
theorem getAttribute_three (mgr : ocVBMManager) (a : Nat) (hl : mgr.Live (some a))
    (n1 n2 n3 : String) (v1 v2 v3 : ocDouble)
    (h12 : n2 ≠ n1) (h13 : n3 ≠ n1) (h23 : n3 ≠ n2) :
    (((mgr.setAttribute a n1 v1).setAttribute a n2 v2).setAttribute a n3 v3).getAttribute
        (some a) n1 = some v1
    ∧ (((mgr.setAttribute a n1 v1).setAttribute a n2 v2).setAttribute a n3 v3).getAttribute
        (some a) n2 = some v2
    ∧ (((mgr.setAttribute a n1 v1).setAttribute a n2 v2).setAttribute a n3 v3).getAttribute
        (some a) n3 = some v3 := by
  have l1 := live_setAttribute mgr a n1 v1 _ hl
  have l2 := live_setAttribute _ a n2 v2 _ l1
  refine ⟨?_, ?_, ?_⟩
  · rw [mgr_getAttribute_setAttribute_ne _ a n3 n1 v3 h13,
      mgr_getAttribute_setAttribute_ne _ a n2 n1 v2 h12]
    exact getAttribute_setAttribute_live mgr a n1 v1 hl
  · rw [mgr_getAttribute_setAttribute_ne _ a n3 n2 v3 h23]
    exact getAttribute_setAttribute_live _ a n2 v2 l1
  · exact getAttribute_setAttribute_live _ a n3 v3 l2

/-- C13, at the failing input: the model `AB:C` (DF 4, Pearson statistic 2)
against the top reference (DF 7), the bottom reference having Pearson
statistic 5.  `computePearsonStatistics` makes no sign correction and no
clamp: `csa` receives `refModelP2 = 5 - 2 = 3` and the negative
`refDDF = 4 - 7 = -3` (the stored significance is what the `csa` oracle, which
returns its second argument, makes of them), where the discipline of
`computeL2Statistics` gives `refDDF = 3` on the same degrees of freedom. -/
theorem computePearsonStatistics_no_sign_correction :
    (∃ (output : List String) (st : ocFitState) (mgr' : ocVBMManager),
      examplePearsonManager.computePearsonStatistics (exampleStatistics 5)
          exampleRevealingDistributions exampleOptions exampleFitService ⟨none, 0⟩ (some 2)
        = some (output, st, mgr')
      ∧ mgr'.getAttribute (some 2) ATTRIBUTE_P2_ALPHA
          = some (exampleRevealingDistributions.csa (ocDouble.fin 3) (ocDouble.fin (-3)))
      ∧ mgr'.getAttribute (some 2) ATTRIBUTE_P2_ALPHA = some (ocDouble.fin (-3)))
    ∧ (computePearsonStatistics.chiSquared exampleRevealingDistributions exampleOptions
        (ocDouble.fin 2) (ocDouble.fin 5) (ocDouble.fin 4) (ocDouble.fin 7)).refDDF
        = ocDouble.fin (-3)
    ∧ (computePearsonStatistics.chiSquared exampleRevealingDistributions exampleOptions
        (ocDouble.fin 2) (ocDouble.fin 5) (ocDouble.fin 4) (ocDouble.fin 7)).refModelP2
        = ocDouble.fin 3
    ∧ (computeL2Statistics.chiSquared exampleRevealingDistributions exampleOptions
        (ocDouble.fin 2) (ocDouble.fin 5) (ocDouble.fin 4) (ocDouble.fin 7)).refDDF
        = ocDouble.fin 3 := by
  have hlive : examplePearsonManager.RefsLive 2 :=
    ⟨⟨2, _, rfl, rfl⟩, ⟨0, _, rfl, rfl⟩, ⟨0, _, rfl, rfl⟩, ⟨1, _, rfl, rfl⟩⟩
  obtain ⟨p1, p2, p3⟩ := pearson_chiSquared_fin exampleRevealingDistributions exampleOptions
    2 5 4 7
  have e1 : ((5 : ℚ) - 2) = 3 := by norm_num
  have e2 : ((4 : ℚ) - 7) = -3 := by norm_num
  rw [e1, e2] at p3
  rw [e2] at p1
  rw [e1] at p2
  refine ⟨?_, p1, p2, ?_⟩
  · obtain ⟨modelDF, refDF, mgrP, a1, a2, ev, hcall⟩ :=
      computePearsonStatistics_spec (exampleStatistics 5) exampleRevealingDistributions
        exampleOptions exampleFitService examplePearsonManager ⟨none, 0⟩ 2 0 1
        ⟨[⟨[0, 1]⟩, ⟨[2]⟩], [(ATTRIBUTE_DF, ocDouble.fin 4), (ATTRIBUTE_H, ocDouble.fin 2),
          (ATTRIBUTE_T, ocDouble.fin (1 / 2))]⟩
        ⟨[⟨[0]⟩, ⟨[1]⟩, ⟨[2]⟩], [(ATTRIBUTE_DF, ocDouble.fin 3), (ATTRIBUTE_H, ocDouble.fin 3),
          (ATTRIBUTE_T, ocDouble.fin 1)]⟩
        hlive rfl rfl rfl rfl
    have b1 : examplePearsonManager.statValue 2 ATTRIBUTE_DF (exampleStatistics 5).df
        = some (ocDouble.fin 4) := rfl
    have b2 : examplePearsonManager.statValue 0 ATTRIBUTE_DF (exampleStatistics 5).df
        = some (ocDouble.fin 7) := rfl
    rw [b1] at a1; rw [b2] at a2
    cases a1; cases a2
    have hm2 : exampleFitService.ocPearsonChiSquared exampleFitService.inputData
        (exampleFitService.makeFitTable [⟨[0, 1]⟩, ⟨[2]⟩]) exampleOptions.sampleSize
        = ocDouble.fin 2 := by decide
    have hm5 : exampleFitService.ocPearsonChiSquared exampleFitService.inputData
        (exampleFitService.makeFitTable [⟨[0]⟩, ⟨[1]⟩, ⟨[2]⟩]) exampleOptions.sampleSize
        = ocDouble.fin 5 := by decide
    simp only [hm2, hm5] at hcall
    obtain ⟨_, r2, _⟩ := getAttribute_three mgrP 2 (ev.refsLive 2 hlive).1
      ATTRIBUTE_P2 ATTRIBUTE_P2_ALPHA ATTRIBUTE_P2_BETA (ocDouble.fin 2)
      (computePearsonStatistics.chiSquared exampleRevealingDistributions exampleOptions
        (ocDouble.fin 2) (ocDouble.fin 5) (ocDouble.fin 4) (ocDouble.fin 7)).refP2Prob
      (computePearsonStatistics.chiSquared exampleRevealingDistributions exampleOptions
        (ocDouble.fin 2) (ocDouble.fin 5) (ocDouble.fin 4) (ocDouble.fin 7)).refP2Power
      (by decide) (by decide) (by decide)
    refine ⟨_, _, _, hcall, ?_, ?_⟩
    · rw [r2, p3]
    · rw [r2, p3]; rfl
  · have h := (chiSquared_fin exampleRevealingDistributions exampleOptions 100 2 5 4 7 rfl).1
    rw [h]
    norm_num

/-! ## Theorems: dependent statistics and the filter -/

/-- An evolution stays one when more primitives are known. -/
theorem ocVBMManager.Evolves.lift {prim prim' : String → Option (List ocRelation → ocDouble)}
    {written : List String} {m1 m2 : ocVBMManager}
    (h : ocVBMManager.Evolves prim written m1 m2)
    (hp : ∀ n o, prim n = some o → prim' n = some o)
    (hw : ∀ n ∈ written, prim' n = none) :
    ocVBMManager.Evolves prim' written m1 m2 := by
  induction h with
  | refl => exact ocVBMManager.Evolves.refl _
  | set a name v _ _ hmem ih => exact ocVBMManager.Evolves.set a name v ih (hw _ hmem) hmem
  | stat a name oracle v _ hpn hc ih =>
    exact ocVBMManager.Evolves.stat a name oracle v ih (hp _ _ hpn) hc

/-- The call `computeL2Statistics` returns on live pointers and is an attribute
update that leaves the degrees of freedom of the model settled. -/
theorem computeL2Statistics_evolves (stats : ocStatistics) (dist : ocDistributions)
    (opts : ocOptions) (mgr : ocVBMManager) (model : Nat) (hl : mgr.RefsLive model) :
    ∃ output mgr' modelDF, mgr.computeL2Statistics stats dist opts model = some (output, mgr')
      ∧ ocVBMManager.Evolves stats.prim computeL2Statistics.written mgr mgr'
      ∧ mgr.statValue model ATTRIBUTE_DF stats.df = some modelDF
      ∧ mgr'.Settled model ATTRIBUTE_DF stats.df modelDF := by
  obtain ⟨ref, _, href, _⟩ := hl.2.1
  obtain ⟨modelT, refT, modelDF, refDF, mgrP, _, _, a3, _, ev, hcall, _, _, s3, _⟩ :=
    computeL2Statistics_spec stats dist opts mgr model ref hl href
  have e1 : ocVBMManager.Evolves stats.prim computeL2Statistics.written mgrP _ :=
    ocVBMManager.Evolves.set model ATTRIBUTE_BETA
      (computeL2Statistics.chiSquared dist opts modelT refT modelDF refDF).refL2Power
      (ocVBMManager.Evolves.set model ATTRIBUTE_ALPHA
        (computeL2Statistics.chiSquared dist opts modelT refT modelDF refDF).refL2Prob
        (ocVBMManager.Evolves.set model ATTRIBUTE_LR
          (computeL2Statistics.chiSquared dist opts modelT refT modelDF refDF).refModelL2
          (ocVBMManager.Evolves.set model ATTRIBUTE_DDF
            (computeL2Statistics.chiSquared dist opts modelT refT modelDF refDF).refDDF
            (ocVBMManager.Evolves.refl mgrP) rfl (by decide))
          rfl (by decide))
        rfl (by decide))
      rfl (by decide)
  exact ⟨_, _, modelDF, hcall, ev.andThen e1, a3,
    e1.settled model ATTRIBUTE_DF stats.df rfl _ s3⟩

/-- States with the same models have the same relation of independent variables. -/
theorem ocVBMManager.SameModels.getIndRelation {m1 m2 : ocVBMManager}
    (h : m1.SameModels m2) : m2.getIndRelation = m1.getIndRelation := by
  obtain ⟨hv, _, _, hb, _, hh⟩ := h
  have hrel : ∀ a : Nat, (m2.heap[a]?).map (fun (m : ocModel) => m.relations)
      = (m1.heap[a]?).map (fun (m : ocModel) => m.relations) := by
    intro a
    rw [← List.getElem?_map, ← List.getElem?_map, hh]
  unfold ocVBMManager.getIndRelation
  rw [hv, hb]
  split
  · rfl
  · cases hbr : m1.bottomRef with
    | none => rfl
    | some b =>
      have hb' := hrel b
      cases h1 : m1.heap[b]? with
      | none =>
        cases h2 : m2.heap[b]? with
        | none => simp only [h1, h2]
        | some x => rw [h1, h2] at hb'; exact Option.noConfusion hb'
      | some y =>
        cases h2 : m2.heap[b]? with
        | none => rw [h1, h2] at hb'; exact Option.noConfusion hb'
        | some x =>
          rw [h1, h2] at hb'
          have hxy : x.relations = y.relations := Option.some.inj hb'
          simp only [h1, h2, hxy]

/-- States with the same models are ready for the dependent statistics together. -/
theorem ocVBMManager.SameModels.dependentReady {m1 m2 : ocVBMManager}
    (h : m1.SameModels m2) (hr : m1.DependentReady) : m2.DependentReady := by
  intro hd
  rw [h.1] at hd
  obtain ⟨topRef, top, rel0, indRel, h1, h2, h3, h4⟩ := hr hd
  obtain ⟨top', h2', hrel⟩ := h.heap topRef top h2
  refine ⟨topRef, top', rel0, indRel, by rw [h.2.2.1, h1], h2', ?_,
    by rw [h.getIndRelation, h4]⟩
  unfold ocModel.getRelation at h3 ⊢
  rw [hrel]
  exact h3

/-- The call `computeDependentStatistics` returns when the pointers are live and
the references are ready, and is an attribute update. -/
theorem computeDependentStatistics_evolves (stats : ocStatistics)
    (relAttrs : ocRelation → ocAttributeList) (written : List String)
    (hw : ∀ n ∈ computeDependentStatistics.written, n ∈ written)
    (mgr : ocVBMManager) (model : Nat) (hl : mgr.RefsLive model)
    (hr : mgr.DependentReady) :
    ∃ mgr', mgr.computeDependentStatistics stats relAttrs model = some mgr'
      ∧ ocVBMManager.Evolves stats.prim written mgr mgr' := by
  cases hd : mgr.varList.isDirected with
  | false =>
    refine ⟨mgr, ?_, ocVBMManager.Evolves.refl _⟩
    unfold ocVBMManager.computeDependentStatistics
    simp [hd]
  | true =>
    obtain ⟨topRef, top, rel0, indRel, h1, h2, h3, h4⟩ := hr hd
    obtain ⟨b, bm, hb, hbm⟩ := hl.2.2.2
    obtain ⟨a', m, hp', hm⟩ := hl.1
    cases hp'
    obtain ⟨refH, s1, c1, _, e1⟩ := cachedStatistic_evolves stats.prim written mgr b
      ATTRIBUTE_H stats.h rfl ⟨b, bm, rfl, hbm⟩
    have l1 := e1.refsLive model hl
    obtain ⟨h, s2, c2, _, e2⟩ := cachedStatistic_evolves stats.prim written s1 model
      ATTRIBUTE_H stats.h rfl l1.1
    refine ⟨_, ?_, ocVBMManager.Evolves.set model ATTRIBUTE_COND_PCT_DH
      (ocDouble.div (ocDouble.mul (ocDouble.fin 100) (ocDouble.sub refH h))
        ((relAttrs rel0).getAttribute ATTRIBUTE_DEP_H))
      (ocVBMManager.Evolves.set model ATTRIBUTE_COND_DH (ocDouble.sub refH h)
        (ocVBMManager.Evolves.set model ATTRIBUTE_COND_H
          (ocDouble.sub h ((relAttrs indRel).getAttribute ATTRIBUTE_H))
          (e1.andThen e2) rfl (hw _ (by decide)))
        rfl (hw _ (by decide)))
      rfl (hw _ (by decide))⟩
    unfold ocVBMManager.computeDependentStatistics
    simp only [hd, h1, h2, h3, h4, hm, hb, ocVBMManager.computeH, c1, c2,
      Option.bind_eq_bind, Option.some_bind, Option.pure_def, Bool.not_true,
      Bool.false_eq_true, if_false]

/-- C15: in a neutral system (no dependent variable) `computeDependentStatistics`
returns the manager state it was given, for every model (live or not), every
statistics oracle and whatever the attribute lists of the relations hold: no
attribute is written and nothing else in the state changes. -/
theorem computeDependentStatistics_neutral (stats : ocStatistics)
    (relAttrs : ocRelation → ocAttributeList) (mgr : ocVBMManager) (model : Nat)
    (hneutral : mgr.varList.isDirected = false) :
    mgr.computeDependentStatistics stats relAttrs model = some mgr := by
  unfold ocVBMManager.computeDependentStatistics
  simp [hneutral]

theorem computeDependentStatistics_neutral_witness :
    exampleL2Manager.varList.isDirected = false
    ∧ exampleL2Manager.computeDependentStatistics (exampleStatistics 1) (fun _ => []) 1
      = some exampleL2Manager :=
  ⟨by decide, computeDependentStatistics_neutral (exampleStatistics 1) (fun _ => [])
    exampleL2Manager 1 (by decide)⟩

/-- The prerequisite statistics of `applyFilter` return on live pointers and
ready references; the attribute read afterwards exists, and the degrees of
freedom of the model are the attribute `df` of the state reached. -/
theorem applyFilter_prerequisites (stats : ocStatistics) (dist : ocDistributions)
    (opts : ocOptions) (relWidth : List ocRelation → ocDouble)
    (relAttrs : ocRelation → ocAttributeList) (mgr : ocVBMManager) (model : Nat)
    (attr : String) (hl : mgr.RefsLive model) (hr : mgr.DependentReady) :
    ∃ w mgr1 output mgr2 mgr3 val modelDF,
      mgr.computeRelWidth relWidth model = some (w, mgr1)
      ∧ mgr1.computeL2Statistics stats dist opts model = some (output, mgr2)
      ∧ mgr2.computeDependentStatistics stats relAttrs model = some mgr3
      ∧ mgr3.getAttribute (some model) attr = some val
      ∧ mgr.statValue model ATTRIBUTE_DF stats.df = some modelDF
      ∧ mgr3.getAttribute (some model) ATTRIBUTE_DF = some modelDF := by
  obtain ⟨w, mgr1, c0, _, e0⟩ := cachedStatistic_evolves (stats.primWidth relWidth) []
    mgr model ATTRIBUTE_REL_WIDTH relWidth rfl hl.1
  have l1 := e0.refsLive model hl
  have r1 := e0.sameModels.dependentReady hr
  obtain ⟨output, mgr2, modelDF, c1, e1, hs, hset⟩ :=
    computeL2Statistics_evolves stats dist opts mgr1 model l1
  have l2 := e1.refsLive model l1
  have r2 := e1.sameModels.dependentReady r1
  obtain ⟨mgr3, c2, e2⟩ := computeDependentStatistics_evolves stats relAttrs
    computeDependentStatistics.written (fun _ hn => hn) mgr2 model l2 r2
  have l3 := e2.refsLive model l2
  obtain ⟨val, hval⟩ := getAttribute_of_live mgr3 (some model) l3.1 attr
  refine ⟨w, mgr1, output, mgr2, mgr3, val, modelDF, c0, c1, c2, hval, ?_,
    (e2.settled model ATTRIBUTE_DF stats.df rfl _ hset).values.2⟩
  rw [← e0.statValue_same model ATTRIBUTE_DF stats.df rfl]
  exact hs

/-- C16: `applyFilter`.  (1) Without a configured filter the model passes: the
verdict is true, nothing is printed and the state is returned as it was, so no
statistic is computed.  (2) With a filter on the attribute `attr`, on live
pointers and ready references, the relation width, the L2 statistics and the
dependent statistics are computed in this order and all return; with `val` the
attribute `attr` of the model in the state they leave, the verdict is
`val < filterValue` for LESSTHAN, `fabs (val - filterValue) < epsilon` for
EQUALS and `val > filterValue` for GREATERTHAN.  (3) With the filter
`df > 3`, a model whose degrees of freedom are the finite value `d` passes
exactly when `3 < d`. -/
theorem applyFilter_verdict (stats : ocStatistics) (dist : ocDistributions)
    (opts : ocOptions) (relWidth : List ocRelation → ocDouble)
    (relAttrs : ocRelation → ocAttributeList) (epsilon : ocDouble) (filter : ocFilter)
    (mgr : ocVBMManager) (model : Nat) :
    (filter.filterAttr = none →
      mgr.applyFilter stats dist opts relWidth relAttrs epsilon filter model
        = some (true, [], mgr))
    ∧ (∀ attr, filter.filterAttr = some attr → mgr.RefsLive model → mgr.DependentReady →
        ∃ w mgr1 output mgr2 mgr3 val,
          mgr.computeRelWidth relWidth model = some (w, mgr1)
          ∧ mgr1.computeL2Statistics stats dist opts model = some (output, mgr2)
          ∧ mgr2.computeDependentStatistics stats relAttrs model = some mgr3
          ∧ mgr3.getAttribute (some model) attr = some val
          ∧ mgr.applyFilter stats dist opts relWidth relAttrs epsilon filter model
            = some ((match filter.filterOp with
                | RelOp.LESSTHAN => ocDouble.lt val filter.filterValue
                | RelOp.EQUALS =>
                  ocDouble.lt (ocDouble.fabs (ocDouble.sub val filter.filterValue)) epsilon
                | RelOp.GREATERTHAN => ocDouble.gt val filter.filterValue),
              output, mgr3))
    ∧ (∀ d : ℚ, filter = ⟨some ATTRIBUTE_DF, RelOp.GREATERTHAN, ocDouble.fin 3⟩ →
        mgr.RefsLive model → mgr.DependentReady →
        mgr.statValue model ATTRIBUTE_DF stats.df = some (ocDouble.fin d) →
        (mgr.applyFilter stats dist opts relWidth relAttrs epsilon filter model).map
          Prod.fst = some (decide (3 < d))) := by
  refine ⟨?_, ?_, ?_⟩
  · intro hnone
    unfold ocVBMManager.applyFilter
    rw [hnone]
  · intro attr hattr hl hr
    obtain ⟨w, mgr1, output, mgr2, mgr3, val, _, c0, c1, c2, hval, _, _⟩ :=
      applyFilter_prerequisites stats dist opts relWidth relAttrs mgr model attr hl hr
    refine ⟨w, mgr1, output, mgr2, mgr3, val, c0, c1, c2, hval, ?_⟩
    unfold ocVBMManager.applyFilter
    simp only [hattr, c0, c1, c2, hval, Option.bind_eq_bind, Option.some_bind,
      Option.pure_def, ocFilter.test]
  · intro d hf hl hr hd
    obtain ⟨w, mgr1, output, mgr2, mgr3, val, modelDF, c0, c1, c2, hval, hs, hdf⟩ :=
      applyFilter_prerequisites stats dist opts relWidth relAttrs mgr model ATTRIBUTE_DF
        hl hr
    rw [hd] at hs
    cases hs
    subst hf
    unfold ocVBMManager.applyFilter
    simp only [c0, c1, c2, hdf, Option.bind_eq_bind, Option.some_bind,
      Option.pure_def, ocFilter.test, Option.map_some', ocDouble.gt, ocDouble.lt]

theorem exampleFilterManager_live :
    exampleFilterManager.RefsLive 2 ∧ exampleFilterManager.RefsLive 3
    ∧ exampleFilterManager.RefsLive 4 ∧ exampleFilterManager.DependentReady :=
  ⟨⟨⟨2, _, rfl, rfl⟩, ⟨0, _, rfl, rfl⟩, ⟨0, _, rfl, rfl⟩, ⟨1, _, rfl, rfl⟩⟩,
   ⟨⟨3, _, rfl, rfl⟩, ⟨0, _, rfl, rfl⟩, ⟨0, _, rfl, rfl⟩, ⟨1, _, rfl, rfl⟩⟩,
   ⟨⟨4, _, rfl, rfl⟩, ⟨0, _, rfl, rfl⟩, ⟨0, _, rfl, rfl⟩, ⟨1, _, rfl, rfl⟩⟩,
   fun h => absurd h (by decide)⟩

theorem applyFilter_verdict_witness :
    (exampleFilterManager.getAttribute (some 2) ATTRIBUTE_DF = some (ocDouble.fin 2)
      ∧ exampleFilterManager.getAttribute (some 3) ATTRIBUTE_DF = some (ocDouble.fin 4)
      ∧ exampleFilterManager.getAttribute (some 4) ATTRIBUTE_DF = some (ocDouble.fin 6))
    ∧ (exampleFilterManager.applyFilter (exampleStatistics 1) exampleDistributions
        exampleOptions (fun _ => ocDouble.fin 1) (fun _ => []) (ocDouble.fin (1 / 1000))
        ((ocFilter.init).setFilter ATTRIBUTE_DF (ocDouble.fin 3) RelOp.GREATERTHAN) 2).map
          Prod.fst = some false
    ∧ (exampleFilterManager.applyFilter (exampleStatistics 1) exampleDistributions
        exampleOptions (fun _ => ocDouble.fin 1) (fun _ => []) (ocDouble.fin (1 / 1000))
        ((ocFilter.init).setFilter ATTRIBUTE_DF (ocDouble.fin 3) RelOp.GREATERTHAN) 3).map
          Prod.fst = some true
    ∧ (exampleFilterManager.applyFilter (exampleStatistics 1) exampleDistributions
        exampleOptions (fun _ => ocDouble.fin 1) (fun _ => []) (ocDouble.fin (1 / 1000))
        ((ocFilter.init).setFilter ATTRIBUTE_DF (ocDouble.fin 3) RelOp.GREATERTHAN) 4).map
          Prod.fst = some true :=
  ⟨⟨rfl, rfl, rfl⟩,
    (applyFilter_verdict (exampleStatistics 1) exampleDistributions exampleOptions
      (fun _ => ocDouble.fin 1) (fun _ => []) (ocDouble.fin (1 / 1000))
      ((ocFilter.init).setFilter ATTRIBUTE_DF (ocDouble.fin 3) RelOp.GREATERTHAN)
      exampleFilterManager 2).2.2 2 rfl exampleFilterManager_live.1
      exampleFilterManager_live.2.2.2 rfl,
    (applyFilter_verdict (exampleStatistics 1) exampleDistributions exampleOptions
      (fun _ => ocDouble.fin 1) (fun _ => []) (ocDouble.fin (1 / 1000))
      ((ocFilter.init).setFilter ATTRIBUTE_DF (ocDouble.fin 3) RelOp.GREATERTHAN)
      exampleFilterManager 3).2.2 4 rfl exampleFilterManager_live.2.1
      exampleFilterManager_live.2.2.2 rfl,
    (applyFilter_verdict (exampleStatistics 1) exampleDistributions exampleOptions
      (fun _ => ocDouble.fin 1) (fun _ => []) (ocDouble.fin (1 / 1000))
      ((ocFilter.init).setFilter ATTRIBUTE_DF (ocDouble.fin 3) RelOp.GREATERTHAN)
      exampleFilterManager 4).2.2 6 rfl exampleFilterManager_live.2.2.1
      exampleFilterManager_live.2.2.2 rfl⟩

/-! ## Theorems: error codes of the distribution routines -/

/-- C18, failing input: the bottom reference against the top reference, `palpha`
not set, with a `chin2` that returns the error code 3 on every call.
The call `computeL2Statistics` returns and writes `alpha` and `beta` with the
values the routines returned, but it prints nothing: the error code of `chin2`
is not reported. -/
theorem computeL2Statistics_chin2_error_silent :
    (∀ critX2 df lambda errcode,
      (exampleFailingDistributions.chin2 critX2 df lambda errcode).2 = 3)
    ∧ ∃ mgr', exampleL2Manager.computeL2Statistics (exampleStatistics 5)
          exampleFailingDistributions exampleOptions 1 = some ([], mgr')
      ∧ mgr'.getAttribute (some 1) ATTRIBUTE_ALPHA = some (ocDouble.fin (1 / 2))
      ∧ mgr'.getAttribute (some 1) ATTRIBUTE_BETA
          = some (ocDouble.sub (ocDouble.fin 1) (ocDouble.fin (1 / 4))) := by
  refine ⟨fun _ _ _ _ => rfl, ?_⟩
  have hl : exampleL2Manager.RefsLive 1 :=
    ⟨⟨1, _, rfl, rfl⟩, ⟨0, _, rfl, rfl⟩, ⟨0, _, rfl, rfl⟩, ⟨1, _, rfl, rfl⟩⟩
  obtain ⟨modelT, refT, modelDF, refDF, mgrP, _, _, _, _, ev, hcall, _⟩ :=
    computeL2Statistics_spec (exampleStatistics 5) exampleFailingDistributions
      exampleOptions exampleL2Manager 1 0 hl rfl
  obtain ⟨c3, _, c5⟩ := chiSquared_prob_power exampleFailingDistributions exampleOptions
    modelT refT modelDF refDF
  obtain ⟨_, _, r3, r4⟩ := getAttribute_four mgrP 1 (ev.refsLive 1 hl).1
    ATTRIBUTE_DDF ATTRIBUTE_LR ATTRIBUTE_ALPHA ATTRIBUTE_BETA
    (computeL2Statistics.chiSquared exampleFailingDistributions exampleOptions
      modelT refT modelDF refDF).refDDF
    (computeL2Statistics.chiSquared exampleFailingDistributions exampleOptions
      modelT refT modelDF refDF).refModelL2
    (computeL2Statistics.chiSquared exampleFailingDistributions exampleOptions
      modelT refT modelDF refDF).refL2Prob
    (computeL2Statistics.chiSquared exampleFailingDistributions exampleOptions
      modelT refT modelDF refDF).refL2Power
    (by decide) (by decide) (by decide) (by decide) (by decide) (by decide)
  rw [(c5 (Or.inl rfl)).2] at hcall
  refine ⟨_, hcall, ?_, ?_⟩
  · rw [r3, c3]; rfl
  · rw [r4, (c5 (Or.inl rfl)).1]; rfl

/-! ## Theorems: BP transmission -/

/-- Arithmetic of finite doubles is that of the rational numbers. -/
theorem ocDouble_fin_arith (a b : ℚ) :
    ocDouble.add (ocDouble.fin a) (ocDouble.fin b) = ocDouble.fin (a + b)
    ∧ ocDouble.sub (ocDouble.fin a) (ocDouble.fin b) = ocDouble.fin (a - b)
    ∧ ocDouble.mul (ocDouble.fin a) (ocDouble.fin b) = ocDouble.fin (a * b)
    ∧ (b ≠ 0 → ocDouble.div (ocDouble.fin a) (ocDouble.fin b) = ocDouble.fin (a / b)) := by
  refine ⟨rfl, ?_, rfl, ?_⟩
  · simp [ocDouble.sub, ocDouble.neg, ocDouble.add, sub_eq_add_neg]
  · intro hb
    simp [ocDouble.div, hb]

/-- A loop over the indices of a list that rewrites the cell it visits from that
cell alone is a map. -/
theorem pointwise_loop {α : Type} (step : List α → Nat → List α) (f : α → α)
    (hstep : ∀ (acc : List α) (i : Nat) (a : α), acc[i]? = some a →
      step acc i = acc.set i (f a))
    (l : List α) (k : Nat) (hk : k ≤ l.length) :
    (List.range k).foldl step l = (l.take k).map f ++ l.drop k := by
  induction k with
  | zero => simp
  | succ k ih =>
    have hlt : k < l.length := by omega
    rw [List.range_succ, List.foldl_append, List.foldl_cons, List.foldl_nil, ih (by omega)]
    have hlen : ((l.take k).map f).length = k := by simp; omega
    have hget : ((l.take k).map f ++ l.drop k)[k]? = some l[k] := by
      rw [List.getElem?_append_right (by omega), hlen]
      simp [hlt]
    rw [hstep _ k _ hget, List.set_append_right _ _ (by omega), hlen, Nat.sub_self,
      List.drop_eq_getElem_cons hlt, List.set_cons_zero, List.take_succ,
      List.getElem?_eq_getElem hlt]
    simp only [Option.toList, List.map_append, List.map_cons, List.map_nil,
      List.append_assoc, List.singleton_append]

/-- The whole loop of `pointwise_loop`. -/
theorem pointwise_loop_all {α : Type} (step : List α → Nat → List α) (f : α → α)
    (hstep : ∀ (acc : List α) (i : Nat) (a : α), acc[i]? = some a →
      step acc i = acc.set i (f a))
    (l : List α) :
    (List.range l.length).foldl step l = l.map f := by
  rw [pointwise_loop step f hstep l l.length (le_refl _)]
  simp

/-- The constructor seeds `qData` with the keys of the input data, in their
order, each with the value 0. -/
theorem new_qData (inData : ocTable) (keysize : Nat) (rels fullDim : Int) :
    (BPIntersectProcessor.new inData keysize rels fullDim).qData
      = inData.map (fun kv => (kv.1, ocDouble.fin 0)) := by
  have h : ∀ k, k ≤ inData.length →
      (List.range k).foldl (BPIntersectProcessor.new.step inData) []
        = (inData.take k).map (fun kv => (kv.1, ocDouble.fin 0)) := by
    intro k
    induction k with
    | zero => intro _; rfl
    | succ k ih =>
      intro hk
      have hlt : k < inData.length := by omega
      rw [List.range_succ, List.foldl_append, List.foldl_cons, List.foldl_nil, ih (by omega),
        List.take_succ, List.getElem?_eq_getElem hlt]
      simp only [BPIntersectProcessor.new.step, ocTable.getKey, ocTable.addTuple,
        List.getElem?_eq_getElem hlt, Option.map_some', Option.toList, List.map_append,
        List.map_cons, List.map_nil]
  unfold BPIntersectProcessor.new
  simp only [ocTable.getTupleCount]
  rw [h inData.length (le_refl _), List.take_length]

/-- Writing a cell with the value it holds leaves the list. -/
theorem set_self_of_getElem? {α : Type} (l : List α) (i : Nat) (a : α)
    (h : l[i]? = some a) : l.set i a = l := by
  apply List.ext_getElem?
  intro j
  rw [List.getElem?_set]
  split
  · next hij =>
    subst hij
    split
    · exact h.symm
    · next hlen => rw [List.getElem?_eq_none (by omega)]
  · rfl

/-- One visitor call maps every cell of `qData` by `accumulate`. -/
theorem process_eq (bp : ocBPService) (p : BPIntersectProcessor) (sign : Int)
    (rel : ocRelation) (hdf : bp.ocDegreesOfFreedom rel + 1 ≠ 0) :
    p.process bp sign rel = some { p with
      qData := p.qData.map (fun kv => (kv.1,
        BPIntersectProcessor.accumulate bp p.keysize p.fullDimension kv.1 kv.2 (sign, rel)))
      originTerms := p.originTerms + sign } := by
  unfold BPIntersectProcessor.process
  rw [if_neg hdf]
  simp only [ocTable.getTupleCount]
  rw [pointwise_loop_all _ (fun kv => (kv.1,
    BPIntersectProcessor.accumulate bp p.keysize p.fullDimension kv.1 kv.2 (sign, rel)))]
  intro acc i a ha
  obtain ⟨key, q⟩ := a
  unfold BPIntersectProcessor.process.step
  simp only [ha, BPIntersectProcessor.accumulate, BPIntersectProcessor.term]
  cases hidx : (bp.getTable rel).indexOf (orMask p.keysize key (bp.getMask rel)) with
  | none =>
    simp only []
    exact (set_self_of_getElem? acc i _ ha).symm
  | some j =>
    simp only []
    cases hval : (bp.getTable rel).getValue j with
    | none =>
      simp only [Option.map_none']
      exact (set_self_of_getElem? acc i _ ha).symm
    | some value =>
      simp only [Option.map_some', ocTable.setValue, ha]

/-- A sequence of visitor calls maps every cell of `qData` by the fold of
`accumulate` over the calls, and adds the signs to `originTerms`. -/
theorem run_eq (bp : ocBPService) (calls : List (Int × ocRelation)) :
    ∀ (p : BPIntersectProcessor),
      (∀ call ∈ calls, bp.ocDegreesOfFreedom call.2 + 1 ≠ 0) →
      BPIntersectProcessor.run bp calls p = some { p with
        qData := p.qData.map (fun kv => (kv.1,
          calls.foldl (BPIntersectProcessor.accumulate bp p.keysize p.fullDimension kv.1)
            kv.2))
        originTerms := p.originTerms + (calls.map Prod.fst).sum } := by
  induction calls with
  | nil =>
    intro p _
    simp [BPIntersectProcessor.run]
  | cons call calls ih =>
    intro p hdf
    obtain ⟨sign, rel⟩ := call
    unfold BPIntersectProcessor.run
    rw [process_eq bp p sign rel (hdf (sign, rel) (List.mem_cons_self _ _))]
    simp only []
    rw [ih _ (fun call hc => hdf call (List.mem_cons_of_mem _ hc))]
    simp only [List.map_map, List.foldl_cons, List.map_cons, List.sum_cons, add_assoc]
    rfl

/-- The origin correction subtracts the origin term from every cell. -/
theorem correctOriginTerms_eq (p : BPIntersectProcessor) :
    p.correctOriginTerms = { p with
      qData := p.qData.map (fun kv => (kv.1, ocDouble.sub kv.2
        (ocDouble.div (ocDouble.fin (p.originTerms - 1)) (ocDouble.fin p.fullDimension)))) } := by
  unfold BPIntersectProcessor.correctOriginTerms
  simp only [ocTable.getTupleCount]
  rw [pointwise_loop_all _ (fun kv => (kv.1, ocDouble.sub kv.2
    (ocDouble.div (ocDouble.fin (p.originTerms - 1)) (ocDouble.fin p.fullDimension))))]
  intro acc i a ha
  simp [BPIntersectProcessor.correctOriginTerms.step, ocTable.getValue, ocTable.setValue, ha]

/-- The fold of `accumulate` over calls with finite projected values and
nonzero relation dimensions is the rational sum of the terms. -/
theorem accumulate_fin (bp : ocBPService) (keysize : Nat) (fullDimension : Int) (x : ocKey)
    (calls : List (Int × ocRelation)) :
    (∀ call ∈ calls, Int.tdiv fullDimension (bp.ocDegreesOfFreedom call.2 + 1) ≠ 0) →
    (∀ call ∈ calls, ∀ j value, (bp.getTable call.2).getValue j = some value →
      ∃ r, value = ocDouble.fin r) →
    ∀ a : ℚ, calls.foldl (BPIntersectProcessor.accumulate bp keysize fullDimension x)
        (ocDouble.fin a)
      = ocDouble.fin (a
          + (calls.map (BPIntersectProcessor.termRat bp keysize fullDimension x)).sum) := by
  induction calls with
  | nil => intro _ _ a; simp
  | cons call calls ih =>
    intro hdim hfin a
    have hd := hdim call (List.mem_cons_self _ _)
    have hf := hfin call (List.mem_cons_self _ _)
    have hstep : BPIntersectProcessor.accumulate bp keysize fullDimension x (ocDouble.fin a) call
        = ocDouble.fin (a + BPIntersectProcessor.termRat bp keysize fullDimension x call) := by
      unfold BPIntersectProcessor.accumulate BPIntersectProcessor.term
        BPIntersectProcessor.termRat
      cases hidx : (bp.getTable call.2).indexOf (orMask keysize x (bp.getMask call.2)) with
      | none => simp
      | some j =>
        cases hval : (bp.getTable call.2).getValue j with
        | none => simp [hval]
        | some value =>
          obtain ⟨r, rfl⟩ := hf j value hval
          have hd' : ((Int.tdiv fullDimension (bp.ocDegreesOfFreedom call.2 + 1) : Int) : ℚ)
              ≠ 0 := by exact_mod_cast hd
          simp only [hval, Option.map_some']
          rw [(ocDouble_fin_arith r _).2.2.2 hd', (ocDouble_fin_arith _ _).2.2.1,
            (ocDouble_fin_arith _ _).1, add_comm]
    rw [List.foldl_cons, hstep,
      ih (fun c hc => hdim c (List.mem_cons_of_mem _ hc))
        (fun c hc => hfin c (List.mem_cons_of_mem _ hc))]
    simp [add_assoc]

/-- C19: the q table of the BP processor.  The constructor seeds `qData` with
the keys of the input data, in their order, each with the value 0.  When no
visited relation makes the integer division of `process` divide by zero, the
visitor calls `process(sign_i, rel_i)` all return, `originTerms` is the sum
of the signs, and after `correctOriginTerms` (the first step of
`getTransmission`) `qData` has exactly the keys of the input data, the cell
of the key `x` holding the sum of the terms `sign_i * (proj_i(x) / relDim_i)`
of the visited relations whose projection table holds the projection of `x`,
minus `(originTerms - 1) / fullDimension`, with
`relDim_i = fullDimension / (DF(rel_i) + 1)`.  For finite projected values
and nonzero dimensions this is the rational number `qRat`. -/
theorem BPIntersectProcessor_qData (bp : ocBPService) (inData : ocTable) (keysize : Nat)
    (rels fullDim : Int) (calls : List (Int × ocRelation))
    (hdf : ∀ call ∈ calls, bp.ocDegreesOfFreedom call.2 + 1 ≠ 0) :
    (BPIntersectProcessor.new inData keysize rels fullDim).qData
      = inData.map (fun kv => (kv.1, ocDouble.fin 0))
    ∧ ∃ p, BPIntersectProcessor.run bp calls
          (BPIntersectProcessor.new inData keysize rels fullDim) = some p
      ∧ p.originTerms = (calls.map Prod.fst).sum
      ∧ p.correctOriginTerms.qData = inData.map (fun kv =>
          (kv.1, BPIntersectProcessor.qValue bp keysize fullDim calls kv.1))
      ∧ ((∀ call ∈ calls, Int.tdiv fullDim (bp.ocDegreesOfFreedom call.2 + 1) ≠ 0) →
          fullDim ≠ 0 →
          (∀ call ∈ calls, ∀ j value, (bp.getTable call.2).getValue j = some value →
            ∃ r, value = ocDouble.fin r) →
          p.correctOriginTerms.qData = inData.map (fun kv =>
            (kv.1, ocDouble.fin (BPIntersectProcessor.qRat bp keysize fullDim calls kv.1)))) := by
  refine ⟨new_qData inData keysize rels fullDim, _,
    run_eq bp calls (BPIntersectProcessor.new inData keysize rels fullDim) hdf, ?_, ?_, ?_⟩
  · simp [BPIntersectProcessor.new]
  · rw [correctOriginTerms_eq]
    simp only [new_qData, List.map_map]
    apply List.map_congr_left
    intro kv _
    simp [BPIntersectProcessor.qValue, BPIntersectProcessor.new]
  · intro hdim hfull hfin
    rw [correctOriginTerms_eq]
    simp only [new_qData, List.map_map]
    apply List.map_congr_left
    intro kv _
    have hfull' : (fullDim : ℚ) ≠ 0 := by exact_mod_cast hfull
    simp [BPIntersectProcessor.qRat, BPIntersectProcessor.new,
      accumulate_fin bp keysize fullDim kv.1 calls hdim hfin 0, ocDouble.sub, ocDouble.div,
      ocDouble.add, ocDouble.neg, hfull', sub_eq_add_neg]

/-- The projection tables of the example hold finite values only. -/
theorem exampleBPService_finite :
    ∀ call ∈ [((1 : Int), exampleRelA), (1, exampleRelB)], ∀ j value,
      (exampleBPService.getTable call.2).getValue j = some value →
      ∃ r, value = ocDouble.fin r := by
  intro call hc j value hv
  simp only [List.mem_cons, List.mem_singleton, List.not_mem_nil, or_false] at hc
  rcases hc with rfl | rfl
  · match j with
    | 0 => exact ⟨_, (Option.some.inj hv).symm⟩
    | 1 => exact ⟨_, (Option.some.inj hv).symm⟩
    | (n + 2) => exact Option.noConfusion hv
  · match j with
    | 0 => exact ⟨_, (Option.some.inj hv).symm⟩
    | 1 => exact ⟨_, (Option.some.inj hv).symm⟩
    | (n + 2) => exact Option.noConfusion hv

/-- Witness of C19: two binary variables, the relations A and B visited with the
sign +1; the corrected q values are 1/20, 1/4, 1/4 and 9/20. -/
theorem BPIntersectProcessor_qData_witness :
    (∀ call ∈ [((1 : Int), exampleRelA), (1, exampleRelB)],
      exampleBPService.ocDegreesOfFreedom call.2 + 1 ≠ 0)
    ∧ (∀ call ∈ [((1 : Int), exampleRelA), (1, exampleRelB)],
      Int.tdiv 4 (exampleBPService.ocDegreesOfFreedom call.2 + 1) ≠ 0)
    ∧ (List.map (BPIntersectProcessor.qRat exampleBPService 1 4
          [(1, exampleRelA), (1, exampleRelB)]) [[0], [1], [4], [5]]
        = [1 / 20, 1 / 4, 1 / 4, 9 / 20])
    ∧ (BPIntersectProcessor.new exampleBPService.inputData 1 2 4).qData
      = exampleBPService.inputData.map (fun kv => (kv.1, ocDouble.fin 0))
    ∧ ∃ p, BPIntersectProcessor.run exampleBPService [(1, exampleRelA), (1, exampleRelB)]
          (BPIntersectProcessor.new exampleBPService.inputData 1 2 4) = some p
      ∧ p.originTerms = ([((1 : Int), exampleRelA), (1, exampleRelB)].map Prod.fst).sum
      ∧ p.correctOriginTerms.qData = exampleBPService.inputData.map (fun kv =>
          (kv.1, BPIntersectProcessor.qValue exampleBPService 1 4
            [(1, exampleRelA), (1, exampleRelB)] kv.1))
      ∧ p.correctOriginTerms.qData = exampleBPService.inputData.map (fun kv =>
            (kv.1, ocDouble.fin (BPIntersectProcessor.qRat exampleBPService 1 4
              [(1, exampleRelA), (1, exampleRelB)] kv.1))) :=
  ⟨by decide, by decide,
    by
      simp only [BPIntersectProcessor.qRat, BPIntersectProcessor.termRat, List.map_cons,
        List.map_nil, List.sum_cons, List.sum_nil]
      have hA : ∀ x : ocKey, orMask 1 x (exampleBPService.getMask exampleRelA)
          = orMask 1 x [3] := fun _ => rfl
      have hB : ∀ x : ocKey, orMask 1 x (exampleBPService.getMask exampleRelB)
          = orMask 1 x [12] := fun _ => rfl
      have ht : Int.tdiv 4 2 = 2 := by decide
      simp +decide [hA, hB, exampleBPService, orMask, orMask.step, ocTable.indexOf,
        ocTable.getValue, exampleRelA, exampleRelB]
      rw [ht]
      norm_num,
    (BPIntersectProcessor_qData exampleBPService exampleBPService.inputData 1 2 4
      [(1, exampleRelA), (1, exampleRelB)] (by decide)).1,
    match (BPIntersectProcessor_qData exampleBPService exampleBPService.inputData 1 2 4
      [(1, exampleRelA), (1, exampleRelB)] (by decide)).2 with
    | ⟨p, h1, h2, h3, h4⟩ =>
      ⟨p, h1, h2, h3, h4 (by decide) (by decide) exampleBPService_finite⟩⟩

/-! ## Theorems: the origin correction -/

/-- A key that a table holds has an index, and the index has a value. -/
theorem indexOf_of_mem (t : ocTable) (key : ocKey) (h : ∃ kv ∈ t, kv.1 = key) :
    ∃ j v, t.indexOf key = some j ∧ t.getValue j = some v := by
  obtain ⟨kv, hkv, hk⟩ := h
  have hex : ∃ x, x ∈ t ∧ (fun kv : ocKey × ocDouble => decide (kv.1 = key)) x = true :=
    ⟨kv, hkv, by simp [hk]⟩
  have hlt := List.findIdx_lt_length_of_exists hex
  refine ⟨List.findIdx (fun kv : ocKey × ocDouble => decide (kv.1 = key)) t,
    (t[List.findIdx (fun kv : ocKey × ocDouble => decide (kv.1 = key)) t]).2, ?_, ?_⟩
  · unfold ocTable.indexOf
    rw [List.findIdx?_eq_some_of_exists hex]
  · unfold ocTable.getValue
    rw [List.getElem?_eq_getElem hlt]
    rfl

/-- The loop of `getTransmission` returns when `qData` holds the keys of the
input data. -/
theorem getTransmission_loop (bp : ocBPService) (p : BPIntersectProcessor)
    (hkeys : p.qData.map Prod.fst = p.inputData.map Prod.fst) (idxs : List Nat)
    (hidx : ∀ i ∈ idxs, i < p.inputData.length) :
    ∀ t0 : ocDouble, ∃ t, idxs.foldl (BPIntersectProcessor.getTransmission.step bp p) (some t0)
      = some t := by
  induction idxs with
  | nil => intro t0; exact ⟨t0, rfl⟩
  | cons i rest ih =>
    intro t0
    have hi : i < p.inputData.length := hidx i (List.mem_cons_self _ _)
    have hmem : ∃ kv ∈ p.qData, kv.1 = (p.inputData[i]).1 := by
      have h1 : (p.inputData[i]).1 ∈ p.inputData.map Prod.fst :=
        List.mem_map.mpr ⟨_, List.getElem_mem _, rfl⟩
      rw [← hkeys] at h1
      obtain ⟨kv, hkv, hk⟩ := List.mem_map.mp h1
      exact ⟨kv, hkv, hk⟩
    obtain ⟨j, v, hj, hv⟩ := indexOf_of_mem p.qData _ hmem
    have hstep : ∃ t1, BPIntersectProcessor.getTransmission.step bp p (some t0) i = some t1 := by
      unfold BPIntersectProcessor.getTransmission.step
      simp only [ocTable.getKey, ocTable.getValue, List.getElem?_eq_getElem hi,
        Option.map_some', Option.bind_eq_bind, Option.some_bind, hj, Option.pure_def]
      unfold ocTable.getValue at hv
      rw [hv]
      simp only [Option.some_bind]
      split
      · exact ⟨_, rfl⟩
      · exact ⟨_, rfl⟩
    obtain ⟨t1, ht1⟩ := hstep
    rw [List.foldl_cons, ht1]
    exact ih (fun k hk => hidx k (List.mem_cons_of_mem _ hk)) t1

/-- The method `getTransmission` returns when `qData` holds the keys of the input
data, and leaves the state of `correctOriginTerms`. -/
theorem getTransmission_returns (bp : ocBPService) (p : BPIntersectProcessor)
    (hkeys : p.qData.map Prod.fst = p.inputData.map Prod.fst) :
    ∃ t, p.getTransmission bp = some (t, p.correctOriginTerms) := by
  have hk' : p.correctOriginTerms.qData.map Prod.fst
      = p.correctOriginTerms.inputData.map Prod.fst := by
    rw [correctOriginTerms_eq]
    simp only [List.map_map]
    rw [← hkeys]
    apply List.map_congr_left
    intro kv _
    rfl
  obtain ⟨t, ht⟩ := getTransmission_loop bp p.correctOriginTerms hk'
    (List.range p.correctOriginTerms.inputData.getTupleCount)
    (fun i hi => List.mem_range.mp hi) (ocDouble.fin 0)
  refine ⟨ocDouble.div t (bp.log (ocDouble.fin 2)), ?_⟩
  unfold BPIntersectProcessor.getTransmission
  simp only [ht, Option.bind_eq_bind, Option.some_bind, Option.pure_def]

/-- The visitor calls keep the keys of `qData` and the input data. -/
theorem run_keys (bp : ocBPService) (calls : List (Int × ocRelation))
    (p : BPIntersectProcessor)
    (hdf : ∀ call ∈ calls, bp.ocDegreesOfFreedom call.2 + 1 ≠ 0) :
    ∃ p', BPIntersectProcessor.run bp calls p = some p'
      ∧ p'.qData.map Prod.fst = p.qData.map Prod.fst ∧ p'.inputData = p.inputData := by
  refine ⟨_, run_eq bp calls p hdf, ?_, rfl⟩
  simp only [List.map_map]
  apply List.map_congr_left
  intro kv _
  rfl

/-- The computation of `computeBPT` returns when no visited relation makes the
integer division of `process` divide by zero. -/
theorem computeBPT_compute_returns (bp : ocBPService) (rel0 : ocRelation)
    (relations : List ocRelation)
    (hdf : ∀ call ∈ bp.doIntersectionProcessing relations,
      bp.ocDegreesOfFreedom call.2 + 1 ≠ 0) :
    ∃ modelT, computeBPT.compute bp rel0 relations = some modelT := by
  obtain ⟨p', hrun, hk, hin⟩ := run_keys bp (bp.doIntersectionProcessing relations)
    (BPIntersectProcessor.new bp.inputData bp.keysize relations.length
      (bp.ocDegreesOfFreedom rel0 + 1)) hdf
  have hkeys : p'.qData.map Prod.fst = p'.inputData.map Prod.fst := by
    rw [hk, hin, new_qData, List.map_map]
    apply List.map_congr_left
    intro kv _
    rfl
  obtain ⟨t, ht⟩ := getTransmission_returns bp p' hkeys
  refine ⟨t, ?_⟩
  unfold computeBPT.compute
  simp only [hrun, ht, Option.bind_eq_bind, Option.some_bind, Option.pure_def]

/-- A cached BP transmission is returned with the state as it was. -/
theorem computeBPT_cached (bp : ocBPService) (mgr : ocVBMManager) (model : Nat) (m : ocModel)
    (hm : mgr.heap[model]? = some m)
    (hge : ocDouble.ge (m.attrs.getAttribute ATTRIBUTE_BP_T) (ocDouble.fin 0) = true) :
    mgr.computeBPT bp model = some (m.attrs.getAttribute ATTRIBUTE_BP_T, mgr) := by
  unfold ocVBMManager.computeBPT
  simp only [hm, Option.bind_eq_bind, Option.some_bind, hge, if_true, Option.pure_def]

/-- C22: memoization of `computeBPT`.  When the attribute of the BP transmission
of the model is present (not below 0), `computeBPT` returns that value with the
manager state as it was, whatever the projection and traversal oracles are:
nothing is projected, processed or written.  Otherwise, on a live top
reference and when no visited relation makes `process` divide by zero, the
transmission is computed, stored under that attribute and returned; when it
is not below 0 a repeated call returns the same value and leaves the state. -/
theorem computeBPT_memoized (bp : ocBPService) (mgr : ocVBMManager) (model : Nat)
    (m : ocModel) (hm : mgr.heap[model]? = some m) :
    (ocDouble.ge (m.attrs.getAttribute ATTRIBUTE_BP_T) (ocDouble.fin 0) = true →
      ∀ bp', mgr.computeBPT bp' model = some (m.attrs.getAttribute ATTRIBUTE_BP_T, mgr))
    ∧ (ocDouble.ge (m.attrs.getAttribute ATTRIBUTE_BP_T) (ocDouble.fin 0) = false →
      ∀ topRef top rel0, mgr.topRef = some topRef → mgr.heap[topRef]? = some top →
        top.getRelation 0 = some rel0 →
        (∀ call ∈ bp.doIntersectionProcessing m.relations,
          bp.ocDegreesOfFreedom call.2 + 1 ≠ 0) →
        ∃ modelT, computeBPT.compute bp rel0 m.relations = some modelT
          ∧ mgr.computeBPT bp model
            = some (modelT, mgr.setAttribute model ATTRIBUTE_BP_T modelT)
          ∧ (mgr.setAttribute model ATTRIBUTE_BP_T modelT).getAttribute (some model)
              ATTRIBUTE_BP_T = some modelT
          ∧ (ocDouble.ge modelT (ocDouble.fin 0) = true →
              ∀ bp', (mgr.setAttribute model ATTRIBUTE_BP_T modelT).computeBPT bp' model
                = some (modelT, mgr.setAttribute model ATTRIBUTE_BP_T modelT))) := by
  refine ⟨fun hge bp' => computeBPT_cached bp' mgr model m hm hge, ?_⟩
  intro hlt topRef top rel0 h1 h2 h3 hdf
  obtain ⟨modelT, hc⟩ := computeBPT_compute_returns bp rel0 m.relations hdf
  have hread := mgr_getAttribute_setAttribute_self mgr model m hm ATTRIBUTE_BP_T modelT
  refine ⟨modelT, hc, ?_, hread, ?_⟩
  · unfold ocVBMManager.computeBPT
    simp only [hm, Option.bind_eq_bind, Option.some_bind, hlt, Bool.false_eq_true, if_false,
      h1, h2, h3, hc, Option.pure_def]
  · intro hge bp'
    obtain ⟨m', hm', hattr⟩ := mgr_getAttribute_inv _ model ATTRIBUTE_BP_T modelT hread
    have := computeBPT_cached bp' _ model m' hm' (by rw [hattr]; exact hge)
    rw [hattr] at this
    exact this

/-- Witness of C22: the model A:B of two binary variables, its BP transmission
not yet computed. -/
theorem computeBPT_memoized_witness :
    exampleBPManager.heap[1]? = some ⟨[exampleRelA, exampleRelB], []⟩
    ∧ ocDouble.ge ((⟨[exampleRelA, exampleRelB], []⟩ : ocModel).attrs.getAttribute
        ATTRIBUTE_BP_T) (ocDouble.fin 0) = false
    ∧ ∃ modelT, computeBPT.compute exampleBPService ⟨[0, 1]⟩ [exampleRelA, exampleRelB]
          = some modelT
      ∧ exampleBPManager.computeBPT exampleBPService 1
          = some (modelT, exampleBPManager.setAttribute 1 ATTRIBUTE_BP_T modelT)
      ∧ (exampleBPManager.setAttribute 1 ATTRIBUTE_BP_T modelT).getAttribute (some 1)
          ATTRIBUTE_BP_T = some modelT
      ∧ (ocDouble.ge modelT (ocDouble.fin 0) = true →
          ∀ bp', (exampleBPManager.setAttribute 1 ATTRIBUTE_BP_T modelT).computeBPT bp' 1
            = some (modelT, exampleBPManager.setAttribute 1 ATTRIBUTE_BP_T modelT)) :=
  ⟨rfl, rfl,
    (computeBPT_memoized exampleBPService exampleBPManager 1 ⟨[exampleRelA, exampleRelB], []⟩
      rfl).2 rfl 0 ⟨[⟨[0, 1]⟩], []⟩ ⟨[0, 1]⟩ rfl rfl rfl (by decide)⟩

/-! ## Theorems: the dependent statistics of a directed system -/

/-- After `makeReferenceModels` the bottom reference is a live model whose
relations are those of `makeReferenceModels.bottom`. -/
theorem makeReferenceModels_bottom_model {Name : Type} [DecidableEq Name]
    (getPrintName : List ocRelation → Name) (stats : ocStatistics) (mgr : ocVBMManager)
    (top : ocRelation) :
    ∃ mgr' b bottom, mgr.makeReferenceModels getPrintName stats top = some mgr'
      ∧ mgr'.varList = mgr.varList
      ∧ mgr'.bottomRef = some b ∧ mgr'.heap[b]? = some bottom
      ∧ bottom.relations = (makeReferenceModels.bottom mgr.varList).relations := by
  obtain ⟨mgr', hres, hvl, _, hbot, _, hheap⟩ :=
    makeReferenceModels_result getPrintName stats mgr top
  have hget : (mgr'.heap.map (fun m => m.relations))[mgr.heap.length + 1]?
      = some (makeReferenceModels.bottom mgr.varList).relations := by
    rw [hheap, List.getElem?_append_right (by simp)]
    simp
  rw [List.getElem?_map] at hget
  cases hb : mgr'.heap[mgr.heap.length + 1]? with
  | none => rw [hb] at hget; exact Option.noConfusion hget
  | some bottom =>
    rw [hb] at hget
    simp only [Option.map_some', Option.some.injEq] at hget
    exact ⟨mgr', mgr.heap.length + 1, bottom, hres, hvl, hbot, hb, hget⟩

/-- In a list of lists whose concatenation has no duplicates, a member of the
concatenation is in exactly one of the lists. -/
theorem filter_mem_length_one (L : List (List Nat)) (i : Nat) (hnd : L.flatten.Nodup)
    (hi : i ∈ L.flatten) : (L.filter (fun l => decide (i ∈ l))).length = 1 := by
  induction L with
  | nil => simp at hi
  | cons l L ih =>
    rw [List.flatten_cons] at hnd hi
    obtain ⟨_, hndL, hdisj⟩ := List.nodup_append.mp hnd
    by_cases hil : i ∈ l
    · have hnone : L.filter (fun l => decide (i ∈ l)) = [] := by
        rw [List.filter_eq_nil_iff]
        intro l' hl' hmem
        have hmem' : i ∈ l' := by simpa using hmem
        exact hdisj hil (List.mem_flatten.mpr ⟨l', hl', hmem'⟩)
      simp [List.filter_cons, hil, hnone]
    · have hiL : i ∈ L.flatten := by
        rcases List.mem_append.mp hi with h | h
        · exact absurd h hil
        · exact h
      simp [List.filter_cons, hil, ih hndL hiL]

/-- The variables of the relations of the bottom model, in sequence, are a
rearrangement of all the variable indices. -/
theorem bottom_perm (vl : ocVariableList) :
    ((makeReferenceModels.bottom vl).relations.map ocRelation.vars).flatten.Perm
      (List.range vl.getVarCount) := by
  rw [bottom_relations]
  have hsingle : ∀ l : List Nat,
      (l.map (ocRelation.vars ∘ fun i => (⟨[i]⟩ : ocRelation))).flatten = l := by
    intro l
    induction l with
    | nil => rfl
    | cons a t ih => simp only [List.map_cons, List.flatten_cons, ih]; rfl
  split
  · simp only [List.map_cons, List.flatten_cons, List.map_map]
    rw [hsingle]
    have hdep : vl.dependentIndices = (List.range vl.getVarCount).filter
        (fun i => !(match vl.getVariable i with | some var => !var.dv | none => false)) := by
      unfold ocVariableList.dependentIndices
      apply List.filter_congr
      intro i hi
      have hlt : i < vl.length := List.mem_range.mp hi
      simp [ocVariableList.getVariable, List.getElem?_eq_getElem hlt]
    rw [hdep]
    exact List.filter_append_perm _ _
  · simp only [List.map_map]
    rw [hsingle]

/-- In a directed system no relation of the bottom model mixes dependent with
independent variables. -/
theorem bottom_unmixed (vl : ocVariableList) (hdir : vl.isDirected = true) :
    ∀ r ∈ (makeReferenceModels.bottom vl).relations,
      (∀ i ∈ r.vars, ∃ var, vl.getVariable i = some var ∧ var.dv = false)
      ∨ (∀ i ∈ r.vars, ∃ var, vl.getVariable i = some var ∧ var.dv = true) := by
  intro r hr
  rw [bottom_relations, if_pos hdir] at hr
  rcases List.mem_cons.mp hr with rfl | hr
  · left
    intro i hi
    have hp := (List.mem_filter.mp hi).2
    cases hv : vl.getVariable i with
    | none => simp [hv] at hp
    | some var => exact ⟨var, rfl, by simpa [hv] using hp⟩
  · right
    obtain ⟨j, hj, rfl⟩ := List.mem_map.mp hr
    intro i hi
    have hij : i = j := by simpa using hi
    subst hij
    have hp := (List.mem_filter.mp hj).2
    cases hv : vl.getVariable i with
    | none => simp [hv] at hp
    | some var => exact ⟨var, rfl, by simpa [hv] using hp⟩

/-- C23: the bottom reference is a partition of the variables.  After
`makeReferenceModels`, for every variable list, every variable index occurs
in exactly one relation of the bottom reference, the relations hold
variable indices only and are pairwise disjoint; in a directed system every
relation holds independent variables only or dependent variables only. -/
theorem makeReferenceModels_bottom_partition {Name : Type} [DecidableEq Name]
    (getPrintName : List ocRelation → Name) (stats : ocStatistics) (mgr : ocVBMManager)
    (top : ocRelation) :
    ∃ mgr' b bottom, mgr.makeReferenceModels getPrintName stats top = some mgr'
      ∧ mgr'.bottomRef = some b ∧ mgr'.heap[b]? = some bottom
      ∧ (∀ i, i < mgr.varList.getVarCount →
          (bottom.relations.filter (fun r => decide (i ∈ r.vars))).length = 1)
      ∧ (∀ r ∈ bottom.relations, ∀ i ∈ r.vars, i < mgr.varList.getVarCount)
      ∧ bottom.relations.Pairwise (fun r s => ∀ i, i ∈ r.vars → i ∉ s.vars)
      ∧ (mgr.varList.isDirected = true → ∀ r ∈ bottom.relations,
          (∀ i ∈ r.vars, ∃ var, mgr.varList.getVariable i = some var ∧ var.dv = false)
          ∨ (∀ i ∈ r.vars, ∃ var, mgr.varList.getVariable i = some var ∧ var.dv = true)) := by
  obtain ⟨mgr', b, bottom, hres, _, hbot, hb, hrel⟩ :=
    makeReferenceModels_bottom_model getPrintName stats mgr top
  have hperm := bottom_perm mgr.varList
  rw [← hrel] at hperm
  have hnd : (bottom.relations.map ocRelation.vars).flatten.Nodup :=
    hperm.nodup_iff.mpr (List.nodup_range _)
  refine ⟨mgr', b, bottom, hres, hbot, hb, ?_, ?_, ?_, ?_⟩
  · intro i hi
    have hmem : i ∈ (bottom.relations.map ocRelation.vars).flatten :=
      hperm.mem_iff.mpr (List.mem_range.mpr hi)
    have h1 := filter_mem_length_one _ i hnd hmem
    rw [List.filter_map, List.length_map] at h1
    exact h1
  · intro r hr i hi
    have hmem : i ∈ (bottom.relations.map ocRelation.vars).flatten :=
      List.mem_flatten.mpr ⟨r.vars, List.mem_map.mpr ⟨r, hr, rfl⟩, hi⟩
    exact List.mem_range.mp (hperm.mem_iff.mp hmem)
  · have hpw := (List.nodup_flatten.mp hnd).2
    rw [List.pairwise_map] at hpw
    exact hpw.imp (fun hd i hi hj => hd hi hj)
  · intro hdir r hr
    rw [hrel] at hr
    exact bottom_unmixed mgr.varList hdir r hr

/-- Witness of C23: the directed example (A and B independent, Z dependent). -/
theorem makeReferenceModels_bottom_partition_witness :
    exampleDirectedVars.isDirected = true
    ∧ ∃ mgr' b bottom,
      (⟨exampleDirectedVars, [], [], none, none, none⟩ : ocVBMManager).makeReferenceModels
          canonicalName (exampleStatistics 1) ⟨[0, 1, 2]⟩ = some mgr'
      ∧ mgr'.bottomRef = some b ∧ mgr'.heap[b]? = some bottom
      ∧ (∀ i, i < exampleDirectedVars.getVarCount →
          (bottom.relations.filter (fun r => decide (i ∈ r.vars))).length = 1)
      ∧ (∀ r ∈ bottom.relations, ∀ i ∈ r.vars, i < exampleDirectedVars.getVarCount)
      ∧ bottom.relations.Pairwise (fun r s => ∀ i, i ∈ r.vars → i ∉ s.vars)
      ∧ (∀ r ∈ bottom.relations,
          (∀ i ∈ r.vars, ∃ var, exampleDirectedVars.getVariable i = some var
            ∧ var.dv = false)
          ∨ (∀ i ∈ r.vars, ∃ var, exampleDirectedVars.getVariable i = some var
            ∧ var.dv = true)) :=
  ⟨by decide,
    match makeReferenceModels_bottom_partition canonicalName (exampleStatistics 1)
      (⟨exampleDirectedVars, [], [], none, none, none⟩ : ocVBMManager) ⟨[0, 1, 2]⟩ with
    | ⟨mgr', b, bottom, h1, h2, h3, h4, h5, h6, h7⟩ =>
      ⟨mgr', b, bottom, h1, h2, h3, h4, h5, h6, h7 (by decide)⟩⟩

/-! ## Theorems: the relation of the independent variables -/

/-- After `makeReferenceModels` the two references are live models with the
relations built for them, and the active reference is one of them. -/
theorem makeReferenceModels_models {Name : Type} [DecidableEq Name]
    (getPrintName : List ocRelation → Name) (stats : ocStatistics) (mgr : ocVBMManager)
    (top : ocRelation) :
    ∃ mgr' t b topModel bottom, mgr.makeReferenceModels getPrintName stats top = some mgr'
      ∧ mgr'.varList = mgr.varList
      ∧ mgr'.topRef = some t ∧ mgr'.heap[t]? = some topModel ∧ topModel.relations = [top]
      ∧ mgr'.bottomRef = some b ∧ mgr'.heap[b]? = some bottom
      ∧ bottom.relations = (makeReferenceModels.bottom mgr.varList).relations
      ∧ mgr'.refModel = (if mgr.varList.isDirected then some b else some t) := by
  obtain ⟨mgr', hres, hvl, htop, hbot, href, hheap⟩ :=
    makeReferenceModels_result getPrintName stats mgr top
  have hgetT : (mgr'.heap.map (fun m => m.relations))[mgr.heap.length]? = some [top] := by
    rw [hheap, List.getElem?_append_right (by simp)]
    simp
  have hgetB : (mgr'.heap.map (fun m => m.relations))[mgr.heap.length + 1]?
      = some (makeReferenceModels.bottom mgr.varList).relations := by
    rw [hheap, List.getElem?_append_right (by simp)]
    simp
  rw [List.getElem?_map] at hgetT hgetB
  cases ht : mgr'.heap[mgr.heap.length]? with
  | none => rw [ht] at hgetT; exact Option.noConfusion hgetT
  | some topModel =>
    cases hb : mgr'.heap[mgr.heap.length + 1]? with
    | none => rw [hb] at hgetB; exact Option.noConfusion hgetB
    | some bottom =>
      rw [ht] at hgetT
      rw [hb] at hgetB
      simp only [Option.map_some', Option.some.injEq] at hgetT hgetB
      refine ⟨mgr', _, _, topModel, bottom, hres, hvl, htop, ht, hgetT, hbot, hb, hgetB, ?_⟩
      rw [href, hbot, htop]

/-- The relation of the independent indices holds independent variables only. -/
theorem isIndOnly_independentIndices (vl : ocVariableList) :
    (⟨vl.independentIndices⟩ : ocRelation).isIndOnly vl = true := by
  unfold ocRelation.isIndOnly
  rw [List.all_eq_true]
  intro i hi
  have hp := (List.mem_filter.mp hi).2
  cases hv : vl.getVariable i with
  | none => rfl
  | some var => simpa [hv] using hp

/-- The independent indices are the indices of the independent variables. -/
theorem mem_independentIndices (vl : ocVariableList) (i : Nat) :
    i ∈ vl.independentIndices ↔ ∃ var, vl.getVariable i = some var ∧ var.dv = false := by
  unfold ocVariableList.independentIndices
  rw [List.mem_filter]
  constructor
  · rintro ⟨_, hp⟩
    cases hv : vl.getVariable i with
    | none => simp [hv] at hp
    | some var => exact ⟨var, rfl, by simpa [hv] using hp⟩
  · rintro ⟨var, hv, hdv⟩
    refine ⟨?_, by simp [hv, hdv]⟩
    unfold ocVariableList.getVariable at hv
    have hlt : i < vl.length := by
      by_contra hge
      rw [List.getElem?_eq_none (by omega)] at hv
      exact Option.noConfusion hv
    exact List.mem_range.mpr hlt

/-- C24: the lookup of the relation of the independent variables is safe.  After
`makeReferenceModels`, in a directed system with at least one independent
variable `getIndRelation` returns a relation (not `NULL`): relation 0 of the
bottom reference, which is not empty and holds exactly the independent
variables; so `computeDependentStatistics` returns for every live model.  In
a neutral system `getIndRelation` returns `NULL`. -/
theorem getIndRelation_safe {Name : Type} [DecidableEq Name]
    (getPrintName : List ocRelation → Name) (stats : ocStatistics) (mgr : ocVBMManager)
    (top : ocRelation) :
    ∃ mgr' b bottom, mgr.makeReferenceModels getPrintName stats top = some mgr'
      ∧ mgr'.bottomRef = some b ∧ mgr'.heap[b]? = some bottom
      ∧ (mgr.varList.isDirected = true → (∃ var ∈ mgr.varList, var.dv = false) →
          ∃ rel, mgr'.getIndRelation = some (some rel)
            ∧ bottom.getRelation 0 = some rel
            ∧ rel.vars ≠ []
            ∧ (∀ i, i ∈ rel.vars ↔
                ∃ var, mgr.varList.getVariable i = some var ∧ var.dv = false)
            ∧ ∀ (relAttrs : ocRelation → ocAttributeList) (model : Nat),
                mgr'.Live (some model) →
                ∃ mgr'', mgr'.computeDependentStatistics stats relAttrs model = some mgr'')
      ∧ (mgr.varList.isDirected = false → mgr'.getIndRelation = some none) := by
  obtain ⟨mgr', t, b, topModel, bottom, hres, hvl, htop, ht, htrel, hbot, hb, hbrel, href⟩ :=
    makeReferenceModels_models getPrintName stats mgr top
  refine ⟨mgr', b, bottom, hres, hbot, hb, ?_, ?_⟩
  · intro hdir hex
    have hrels : bottom.relations = (⟨mgr.varList.independentIndices⟩ : ocRelation)
        :: mgr.varList.dependentIndices.map (fun i => ⟨[i]⟩) := by
      rw [hbrel, bottom_relations, if_pos hdir]
    have hind : mgr'.getIndRelation = some (some ⟨mgr.varList.independentIndices⟩) := by
      unfold ocVBMManager.getIndRelation
      simp only [hvl, hdir, hbot, hb, hrels, Bool.not_true, Bool.false_eq_true, if_false,
        List.find?_cons, isIndOnly_independentIndices]
    refine ⟨⟨mgr.varList.independentIndices⟩, hind, ?_, ?_, ?_, ?_⟩
    · unfold ocModel.getRelation
      rw [hrels]
      simp
    · obtain ⟨var, hmem, hdv⟩ := hex
      obtain ⟨i, hi, hget⟩ := List.getElem_of_mem hmem
      have hin : i ∈ mgr.varList.independentIndices :=
        (mem_independentIndices mgr.varList i).mpr
          ⟨var, by
            unfold ocVariableList.getVariable
            rw [List.getElem?_eq_getElem hi, hget], hdv⟩
      exact List.ne_nil_of_mem hin
    · exact mem_independentIndices mgr.varList
    · intro relAttrs model hlive
      have hl : mgr'.RefsLive model := by
        refine ⟨hlive, ?_, ⟨t, topModel, htop, ht⟩, ⟨b, bottom, hbot, hb⟩⟩
        rw [href, if_pos hdir]
        exact ⟨b, bottom, rfl, hb⟩
      have hr : mgr'.DependentReady := by
        intro _
        refine ⟨t, topModel, top, ⟨mgr.varList.independentIndices⟩, htop, ht, ?_, hind⟩
        unfold ocModel.getRelation
        rw [htrel]
        simp
      obtain ⟨mgr'', hcall, _⟩ := computeDependentStatistics_evolves stats relAttrs
        computeDependentStatistics.written (fun _ hn => hn) mgr' model hl hr
      exact ⟨mgr'', hcall⟩
  · intro hneutral
    unfold ocVBMManager.getIndRelation
    simp [hvl, hneutral]

/-- Witness of C24: the directed example (A and B independent, Z dependent). -/
theorem getIndRelation_safe_witness :
    exampleDirectedVars.isDirected = true
    ∧ (∃ var ∈ exampleDirectedVars, var.dv = false)
    ∧ ∃ mgr' b bottom,
      (⟨exampleDirectedVars, [], [], none, none, none⟩ : ocVBMManager).makeReferenceModels
          canonicalName (exampleStatistics 1) ⟨[0, 1, 2]⟩ = some mgr'
      ∧ mgr'.bottomRef = some b ∧ mgr'.heap[b]? = some bottom
      ∧ ∃ rel, mgr'.getIndRelation = some (some rel)
        ∧ bottom.getRelation 0 = some rel
        ∧ rel.vars ≠ []
        ∧ (∀ i, i ∈ rel.vars ↔
            ∃ var, exampleDirectedVars.getVariable i = some var ∧ var.dv = false)
        ∧ ∀ (relAttrs : ocRelation → ocAttributeList) (model : Nat),
            mgr'.Live (some model) →
            ∃ mgr'', mgr'.computeDependentStatistics (exampleStatistics 1) relAttrs model
              = some mgr'' :=
  ⟨by decide, ⟨⟨2, false⟩, by decide, rfl⟩,
    match getIndRelation_safe canonicalName (exampleStatistics 1)
      (⟨exampleDirectedVars, [], [], none, none, none⟩ : ocVBMManager) ⟨[0, 1, 2]⟩ with
    | ⟨mgr', b, bottom, h1, h2, h3, h4, _⟩ =>
      ⟨mgr', b, bottom, h1, h2, h3, h4 (by decide) ⟨⟨2, false⟩, by decide, rfl⟩⟩⟩

/-! ## Theorems: repeated calls -/

/-- Writing an attribute twice with one value is writing it once. -/
theorem attrs_setAttribute_twice (l : ocAttributeList) (n : String) (v : ocDouble) :
    (l.setAttribute n v).setAttribute n v = l.setAttribute n v := by
  induction l with
  | nil => simp [ocAttributeList.setAttribute]
  | cons kv rest ih =>
    by_cases h : (kv.1 == n) = true
    · simp [ocAttributeList.setAttribute, h]
    · simp only [ocAttributeList.setAttribute, h, if_false, Bool.false_eq_true]
      rw [ih]

/-- A write that changes nothing still changes nothing after a write under
another name. -/
theorem attrs_setAttribute_absorb (l : ocAttributeList) (n n' : String) (v w : ocDouble)
    (hne : n' ≠ n) (h : l.setAttribute n v = l) :
    (l.setAttribute n' w).setAttribute n v = l.setAttribute n' w := by
  induction l with
  | nil => simp [ocAttributeList.setAttribute] at h
  | cons kv rest ih =>
    by_cases h1 : (kv.1 == n) = true
    · have hk : kv.1 = n := by simpa using h1
      have h2 : ¬ (kv.1 == n') = true := by
        intro hc
        have : kv.1 = n' := by simpa using hc
        exact hne (this.symm.trans hk)
      simp only [ocAttributeList.setAttribute, h1, if_true] at h
      simp only [ocAttributeList.setAttribute, h2, if_false, Bool.false_eq_true, h1, if_true]
      have hkv : (n, v) = kv := (List.cons.inj h).1
      rw [hkv]
    · simp only [ocAttributeList.setAttribute, h1, if_false, Bool.false_eq_true] at h
      have hrest : ocAttributeList.setAttribute rest n v = rest := (List.cons.inj h).2
      by_cases h2 : (kv.1 == n') = true
      · have hn : ¬ ((n' == n) = true) := by simpa using hne
        simp only [ocAttributeList.setAttribute, h2, if_true, hn, if_false,
          Bool.false_eq_true]
        rw [hrest]
      · simp only [ocAttributeList.setAttribute, h2, if_false, Bool.false_eq_true, h1]
        rw [ih hrest]

/-- What it is for a write to change nothing, on the attribute list. -/
theorem holds_iff (mgr : ocVBMManager) (a : Nat) (name : String) (v : ocDouble) :
    mgr.Holds a name v ↔ ∀ m, mgr.heap[a]? = some m → m.attrs.setAttribute name v = m.attrs := by
  unfold ocVBMManager.Holds ocVBMManager.setAttribute
  cases hm : mgr.heap[a]? with
  | none => simp
  | some m =>
    simp only [Option.some.injEq, forall_eq']
    constructor
    · intro h
      have hheap : mgr.heap.set a { m with attrs := m.attrs.setAttribute name v } = mgr.heap :=
        congrArg ocVBMManager.heap h
      have hlt : a < mgr.heap.length := by
        by_contra hge
        rw [List.getElem?_eq_none (by omega)] at hm
        exact Option.noConfusion hm
      have hget := congrArg (fun l => l[a]?) hheap
      simp only [List.getElem?_set_self hlt, hm, Option.some.injEq] at hget
      exact congrArg ocModel.attrs hget
    · intro h
      rw [h]
      have : mgr.heap.set a { m with attrs := m.attrs } = mgr.heap :=
        set_self_of_getElem? mgr.heap a _ hm
      rw [this]

/-- The model at an address after a write. -/
theorem setAttribute_getElem? (mgr : ocVBMManager) (b : Nat) (name : String) (w : ocDouble)
    (a : Nat) :
    (mgr.setAttribute b name w).heap[a]?
      = if a = b then (mgr.heap[a]?).map
          (fun m => { m with attrs := m.attrs.setAttribute name w })
        else mgr.heap[a]? := by
  unfold ocVBMManager.setAttribute
  cases hb : mgr.heap[b]? with
  | none =>
    simp only []
    split
    · next hab => subst hab; rw [hb]; rfl
    · rfl
  | some mb =>
    simp only []
    split
    · next hab =>
      subst hab
      have hlt : a < mgr.heap.length := by
        by_contra hge
        rw [List.getElem?_eq_none (by omega)] at hb
        exact Option.noConfusion hb
      rw [List.getElem?_set_self hlt, hb]
      rfl
    · next hab =>
      rw [List.getElem?_set_ne (fun h => hab h.symm)]

/-- A write just made changes nothing when made again. -/
theorem holds_setAttribute_self (mgr : ocVBMManager) (a : Nat) (name : String)
    (v : ocDouble) : (mgr.setAttribute a name v).Holds a name v := by
  rw [holds_iff]
  intro m' hm'
  rw [setAttribute_getElem?, if_pos rfl] at hm'
  cases hm : mgr.heap[a]? with
  | none => rw [hm] at hm'; exact Option.noConfusion hm'
  | some m =>
    rw [hm] at hm'
    have := Option.some.inj hm'
    subst this
    exact attrs_setAttribute_twice m.attrs name v

/-- A write that changes nothing still changes nothing after a write to another
attribute or another model. -/
theorem holds_setAttribute_other (mgr : ocVBMManager) (a : Nat) (name : String)
    (v : ocDouble) (b : Nat) (name' : String) (w : ocDouble)
    (hne : name' ≠ name ∨ b ≠ a) (h : mgr.Holds a name v) :
    (mgr.setAttribute b name' w).Holds a name v := by
  rw [holds_iff] at h ⊢
  intro m' hm'
  rw [setAttribute_getElem?] at hm'
  by_cases hab : a = b
  · rw [if_pos hab] at hm'
    cases hm : mgr.heap[a]? with
    | none => rw [hm] at hm'; exact Option.noConfusion hm'
    | some m =>
      rw [hm] at hm'
      have := Option.some.inj hm'
      subst this
      have hn : name' ≠ name := by
        rcases hne with hn | hn
        · exact hn
        · exact absurd hab.symm hn
      exact attrs_setAttribute_absorb m.attrs name name' v w hn (h m hm)
  · rw [if_neg hab] at hm'
    exact h m' hm'

/-- What it is for a primitive to be done. -/
theorem statDone_iff (mgr : ocVBMManager) (a : Nat) (name : String)
    (oracle : List ocRelation → ocDouble) (v : ocDouble) :
    mgr.StatDone a name oracle v ↔ ∃ m, mgr.heap[a]? = some m
      ∧ ((ocDouble.ge (m.attrs.getAttribute name) (ocDouble.fin 0) = true
          ∧ v = m.attrs.getAttribute name)
        ∨ (ocDouble.ge (m.attrs.getAttribute name) (ocDouble.fin 0) = false
          ∧ v = oracle m.relations ∧ mgr.Holds a name v)) := by
  unfold ocVBMManager.StatDone ocVBMManager.cachedStatistic ocVBMManager.Holds
  cases hm : mgr.heap[a]? with
  | none => simp
  | some m =>
    simp only [Option.some.injEq, exists_eq_left']
    cases hge : ocDouble.ge (m.attrs.getAttribute name) (ocDouble.fin 0) with
    | true =>
      simp only [if_true, Option.some.injEq, Prod.mk.injEq, and_true, true_and,
        Bool.true_eq_false, false_and, or_false]
      exact eq_comm
    | false =>
      simp only [Bool.false_eq_true, if_false, Option.some.injEq, Prod.mk.injEq, false_and,
        true_and, false_or]
      constructor
      · rintro ⟨h1, h2⟩
        refine ⟨h1.symm, ?_⟩
        rw [← h1]
        exact h2
      · rintro ⟨h1, h2⟩
        refine ⟨h1.symm, ?_⟩
        rw [← h1]
        exact h2

/-- After a call of a primitive the primitive is done. -/
theorem statDone_after (mgr : ocVBMManager) (a : Nat) (name : String)
    (oracle : List ocRelation → ocDouble) (v : ocDouble) (mgr' : ocVBMManager)
    (h : mgr.cachedStatistic a name oracle = some (v, mgr')) :
    mgr'.StatDone a name oracle v := by
  unfold ocVBMManager.cachedStatistic at h
  cases hm : mgr.heap[a]? with
  | none => rw [hm] at h; exact Option.noConfusion h
  | some m =>
    rw [hm] at h
    simp only [] at h
    cases hge : ocDouble.ge (m.attrs.getAttribute name) (ocDouble.fin 0) with
    | true =>
      rw [hge, if_pos rfl] at h
      obtain ⟨hv, hmgr⟩ := Prod.mk.inj (Option.some.inj h)
      subst hmgr
      rw [statDone_iff]
      exact ⟨m, hm, Or.inl ⟨hge, hv.symm⟩⟩
    | false =>
      rw [hge] at h
      simp only [Bool.false_eq_true, if_false] at h
      obtain ⟨hv, hmgr⟩ := Prod.mk.inj (Option.some.inj h)
      subst hmgr
      rw [statDone_iff]
      refine ⟨{ m with attrs := m.attrs.setAttribute name (oracle m.relations) }, ?_, ?_⟩
      · rw [setAttribute_getElem?, if_pos rfl, hm]
        rfl
      · simp only [getAttribute_setAttribute_self]
        rw [← hv]
        cases hge' : ocDouble.ge (oracle m.relations) (ocDouble.fin 0) with
        | true => exact Or.inl ⟨rfl, rfl⟩
        | false => exact Or.inr ⟨rfl, rfl, holds_setAttribute_self mgr a name _⟩

/-- A primitive that is done is still done after a write to another attribute or
another model. -/
theorem statDone_setAttribute_other (mgr : ocVBMManager) (a : Nat) (name : String)
    (oracle : List ocRelation → ocDouble) (v : ocDouble) (b : Nat) (name' : String)
    (w : ocDouble) (hne : name' ≠ name ∨ b ≠ a) (h : mgr.StatDone a name oracle v) :
    (mgr.setAttribute b name' w).StatDone a name oracle v := by
  rw [statDone_iff] at h ⊢
  obtain ⟨m, hm, hcase⟩ := h
  by_cases hab : a = b
  · have hn : name' ≠ name := by
      rcases hne with hn | hn
      · exact hn
      · exact absurd hab.symm hn
    refine ⟨{ m with attrs := m.attrs.setAttribute name' w }, ?_, ?_⟩
    · rw [setAttribute_getElem?, if_pos hab, hm]
      rfl
    · simp only [getAttribute_setAttribute_ne m.attrs name' name w hn]
      rcases hcase with ⟨h1, h2⟩ | ⟨h1, h2, h3⟩
      · exact Or.inl ⟨h1, h2⟩
      · exact Or.inr ⟨h1, h2, holds_setAttribute_other mgr a name v b name' w hne h3⟩
  · refine ⟨m, ?_, ?_⟩
    · rw [setAttribute_getElem?, if_neg hab, hm]
    · rcases hcase with ⟨h1, h2⟩ | ⟨h1, h2, h3⟩
      · exact Or.inl ⟨h1, h2⟩
      · exact Or.inr ⟨h1, h2, holds_setAttribute_other mgr a name v b name' w hne h3⟩

/-- The method `computeBPT` as a cache test followed by `bptValue`. -/
theorem computeBPT_eq (bp : ocBPService) (mgr : ocVBMManager) (a : Nat) :
    mgr.computeBPT bp a
      = match mgr.heap[a]? with
        | none => none
        | some m =>
          if ocDouble.ge (m.attrs.getAttribute ATTRIBUTE_BP_T) (ocDouble.fin 0) then
            some (m.attrs.getAttribute ATTRIBUTE_BP_T, mgr)
          else (mgr.bptValue bp m).map (fun v => (v, mgr.setAttribute a ATTRIBUTE_BP_T v)) := by
  unfold ocVBMManager.computeBPT ocVBMManager.bptValue
  cases hm : mgr.heap[a]? with
  | none => rfl
  | some m =>
    simp only [Option.bind_eq_bind, Option.some_bind, Option.pure_def]
    split
    · rfl
    · cases htop : mgr.topRef with
      | none => rfl
      | some topRef =>
        simp only [Option.some_bind]
        cases hheap : mgr.heap[topRef]? with
        | none => rfl
        | some top =>
          simp only [Option.some_bind]
          cases hrel : top.getRelation 0 with
          | none => rfl
          | some rel0 =>
            simp only [Option.some_bind]
            cases hc : computeBPT.compute bp rel0 m.relations with
            | none => rfl
            | some modelT => rfl

/-- The value `bptValue` does not change with a write of an attribute. -/
theorem bptValue_setAttribute (bp : ocBPService) (mgr : ocVBMManager) (b : Nat)
    (name : String) (w : ocDouble) (m m' : ocModel) (hrel : m'.relations = m.relations) :
    (mgr.setAttribute b name w).bptValue bp m' = mgr.bptValue bp m := by
  have hs := setAttribute_sameModels mgr b name w
  unfold ocVBMManager.bptValue
  rw [hs.2.2.1, hrel]
  cases htop : mgr.topRef with
  | none => rfl
  | some topRef =>
    simp only []
    rw [setAttribute_getElem?]
    by_cases htb : topRef = b
    · rw [if_pos htb]
      cases hheap : mgr.heap[topRef]? with
      | none => rfl
      | some top => rfl
    · rw [if_neg htb]

/-- What it is for `computeBPT` to be done. -/
theorem bptDone_iff (bp : ocBPService) (mgr : ocVBMManager) (a : Nat) (v : ocDouble) :
    mgr.BptDone bp a v ↔ ∃ m, mgr.heap[a]? = some m
      ∧ ((ocDouble.ge (m.attrs.getAttribute ATTRIBUTE_BP_T) (ocDouble.fin 0) = true
          ∧ v = m.attrs.getAttribute ATTRIBUTE_BP_T)
        ∨ (ocDouble.ge (m.attrs.getAttribute ATTRIBUTE_BP_T) (ocDouble.fin 0) = false
          ∧ mgr.bptValue bp m = some v ∧ mgr.Holds a ATTRIBUTE_BP_T v)) := by
  unfold ocVBMManager.BptDone ocVBMManager.Holds
  rw [computeBPT_eq]
  cases hm : mgr.heap[a]? with
  | none => simp
  | some m =>
    simp only [Option.some.injEq, exists_eq_left']
    cases hge : ocDouble.ge (m.attrs.getAttribute ATTRIBUTE_BP_T) (ocDouble.fin 0) with
    | true =>
      simp only [if_true, Option.some.injEq, Prod.mk.injEq, and_true, true_and,
        Bool.true_eq_false, false_and, or_false]
      exact eq_comm
    | false =>
      simp only [Bool.false_eq_true, if_false, false_and, true_and, false_or]
      cases hval : mgr.bptValue bp m with
      | none => simp
      | some modelT =>
        simp only [Option.map_some', Option.some.injEq, Prod.mk.injEq]
        constructor
        · rintro ⟨h1, h2⟩
          subst h1
          exact ⟨rfl, h2⟩
        · rintro ⟨h1, h2⟩
          subst h1
          exact ⟨rfl, h2⟩

/-- A call of `computeBPT` leaves the state or writes the transmission. -/
theorem computeBPT_post (bp : ocBPService) (mgr : ocVBMManager) (a : Nat) (v : ocDouble)
    (mgr' : ocVBMManager) (h : mgr.computeBPT bp a = some (v, mgr')) :
    mgr' = mgr ∨ mgr' = mgr.setAttribute a ATTRIBUTE_BP_T v := by
  rw [computeBPT_eq] at h
  cases hm : mgr.heap[a]? with
  | none => rw [hm] at h; exact Option.noConfusion h
  | some m =>
    rw [hm] at h
    simp only [] at h
    split at h
    · exact Or.inl (Prod.mk.inj (Option.some.inj h)).2.symm
    · cases hval : mgr.bptValue bp m with
      | none => rw [hval] at h; exact Option.noConfusion h
      | some modelT =>
        rw [hval] at h
        obtain ⟨h1, h2⟩ := Prod.mk.inj (Option.some.inj h)
        subst h1
        exact Or.inr h2.symm

/-- After a call of `computeBPT` it is done. -/
theorem bptDone_after (bp : ocBPService) (mgr : ocVBMManager) (a : Nat) (v : ocDouble)
    (mgr' : ocVBMManager) (h : mgr.computeBPT bp a = some (v, mgr')) :
    mgr'.BptDone bp a v := by
  rw [computeBPT_eq] at h
  cases hm : mgr.heap[a]? with
  | none => rw [hm] at h; exact Option.noConfusion h
  | some m =>
    rw [hm] at h
    simp only [] at h
    cases hge : ocDouble.ge (m.attrs.getAttribute ATTRIBUTE_BP_T) (ocDouble.fin 0) with
    | true =>
      rw [hge, if_pos rfl] at h
      obtain ⟨hv, hmgr⟩ := Prod.mk.inj (Option.some.inj h)
      subst hmgr
      rw [bptDone_iff]
      exact ⟨m, hm, Or.inl ⟨hge, hv.symm⟩⟩
    | false =>
      rw [hge] at h
      simp only [Bool.false_eq_true, if_false] at h
      cases hval : mgr.bptValue bp m with
      | none => rw [hval] at h; exact Option.noConfusion h
      | some modelT =>
        rw [hval] at h
        obtain ⟨hv, hmgr⟩ := Prod.mk.inj (Option.some.inj h)
        subst hmgr
        subst hv
        rw [bptDone_iff]
        refine ⟨{ m with attrs := m.attrs.setAttribute ATTRIBUTE_BP_T modelT }, ?_, ?_⟩
        · rw [setAttribute_getElem?, if_pos rfl, hm]
          rfl
        · have hattr : ({ m with attrs := m.attrs.setAttribute ATTRIBUTE_BP_T modelT }
              : ocModel).attrs.getAttribute ATTRIBUTE_BP_T = modelT :=
            getAttribute_setAttribute_self m.attrs ATTRIBUTE_BP_T modelT
          rw [hattr]
          cases hge' : ocDouble.ge modelT (ocDouble.fin 0) with
          | true => exact Or.inl ⟨rfl, rfl⟩
          | false =>
            exact Or.inr ⟨rfl,
              (bptValue_setAttribute bp mgr a ATTRIBUTE_BP_T modelT m
                { m with attrs := m.attrs.setAttribute ATTRIBUTE_BP_T modelT } rfl).trans hval,
              holds_setAttribute_self mgr a ATTRIBUTE_BP_T _⟩

/-- A `computeBPT` that is done is still done after a write to another attribute
or another model. -/
theorem bptDone_setAttribute_other (bp : ocBPService) (mgr : ocVBMManager) (a : Nat)
    (v : ocDouble) (b : Nat) (name' : String) (w : ocDouble)
    (hne : name' ≠ ATTRIBUTE_BP_T ∨ b ≠ a) (h : mgr.BptDone bp a v) :
    (mgr.setAttribute b name' w).BptDone bp a v := by
  rw [bptDone_iff] at h ⊢
  obtain ⟨m, hm, hcase⟩ := h
  by_cases hab : a = b
  · have hn : name' ≠ ATTRIBUTE_BP_T := by
      rcases hne with hn | hn
      · exact hn
      · exact absurd hab.symm hn
    refine ⟨{ m with attrs := m.attrs.setAttribute name' w }, ?_, ?_⟩
    · rw [setAttribute_getElem?, if_pos hab, hm]
      rfl
    · have hattr : ({ m with attrs := m.attrs.setAttribute name' w }
          : ocModel).attrs.getAttribute ATTRIBUTE_BP_T
          = m.attrs.getAttribute ATTRIBUTE_BP_T :=
        getAttribute_setAttribute_ne m.attrs name' ATTRIBUTE_BP_T w hn
      rw [hattr]
      rcases hcase with ⟨h1, h2⟩ | ⟨h1, h2, h3⟩
      · exact Or.inl ⟨h1, h2⟩
      · exact Or.inr ⟨h1,
          (bptValue_setAttribute bp mgr b name' w m
            { m with attrs := m.attrs.setAttribute name' w } rfl).trans h2,
          holds_setAttribute_other mgr a ATTRIBUTE_BP_T v b name' w hne h3⟩
  · refine ⟨m, ?_, ?_⟩
    · rw [setAttribute_getElem?, if_neg hab, hm]
    · rcases hcase with ⟨h1, h2⟩ | ⟨h1, h2, h3⟩
      · exact Or.inl ⟨h1, h2⟩
      · exact Or.inr ⟨h1, (bptValue_setAttribute bp mgr b name' w m m rfl).trans h2,
          holds_setAttribute_other mgr a ATTRIBUTE_BP_T v b name' w hne h3⟩

/-- Runs compose. -/
theorem ocVBMManager.Runs.followedBy {stats : ocStatistics} {bp : ocBPService}
    {names : List String} {m1 m2 m3 : ocVBMManager}
    (h12 : ocVBMManager.Runs stats bp names m1 m2)
    (h23 : ocVBMManager.Runs stats bp names m2 m3) :
    ocVBMManager.Runs stats bp names m1 m3 := by
  induction h23 with
  | refl => exact h12
  | set a name v _ hn hp hb ih => exact ocVBMManager.Runs.set a name v ih hn hp hb
  | stat a name oracle v _ hn hp hc ih => exact ocVBMManager.Runs.stat a name oracle v ih hn hp hc
  | bpt a v _ hn hc ih => exact ocVBMManager.Runs.bpt a v ih hn hc

/-- A run under some names is a run under more names. -/
theorem ocVBMManager.Runs.more {stats : ocStatistics} {bp : ocBPService}
    {names names' : List String} {m1 m2 : ocVBMManager}
    (h : ocVBMManager.Runs stats bp names m1 m2) (hsub : ∀ n ∈ names, n ∈ names') :
    ocVBMManager.Runs stats bp names' m1 m2 := by
  induction h with
  | refl => exact ocVBMManager.Runs.refl _
  | set a name v _ hn hp hb ih => exact ocVBMManager.Runs.set a name v ih (hsub _ hn) hp hb
  | stat a name oracle v _ hn hp hc ih =>
    exact ocVBMManager.Runs.stat a name oracle v ih (hsub _ hn) hp hc
  | bpt a v _ hn hc ih => exact ocVBMManager.Runs.bpt a v ih (hsub _ hn) hc

/-- A run keeps the models and the references. -/
theorem ocVBMManager.Runs.same {stats : ocStatistics} {bp : ocBPService}
    {names : List String} {m1 m2 : ocVBMManager}
    (h : ocVBMManager.Runs stats bp names m1 m2) : m1.SameModels m2 := by
  induction h with
  | refl => exact ocVBMManager.SameModels.refl _
  | set a name v _ _ _ _ ih => exact ih.trans (setAttribute_sameModels _ a name v)
  | @stat mgr' mgr'' a name oracle v _ _ _ hc ih =>
    obtain ⟨_, _, _, _, _, _, _, hcase⟩ := cachedStatistic_post _ a name oracle v _ hc
    rcases hcase with rfl | rfl
    · exact ih
    · exact ih.trans (setAttribute_sameModels _ a name v)
  | @bpt mgr' mgr'' a v _ _ hc ih =>
    rcases computeBPT_post bp _ a v _ hc with rfl | rfl
    · exact ih
    · exact ih.trans (setAttribute_sameModels _ a ATTRIBUTE_BP_T v)

/-- A run leaves what is read under a name it does not use. -/
theorem ocVBMManager.Runs.reads {stats : ocStatistics} {bp : ocBPService}
    {names : List String} {m1 m2 : ocVBMManager}
    (h : ocVBMManager.Runs stats bp names m1 m2) (p : Option Nat) (n : String)
    (hn : n ∉ names) : m2.getAttribute p n = m1.getAttribute p n := by
  induction h with
  | refl => rfl
  | set a name v _ hmem _ _ ih =>
    rw [mgr_getAttribute_setAttribute_ne _ a name n v (fun h => hn (h ▸ hmem)) p]
    exact ih
  | @stat mgr' mgr'' a name oracle v _ hmem _ hc ih =>
    rw [(cachedStatistic_frame _ a name oracle v _ hc).2.2 p n (fun h => hn (h ▸ hmem))]
    exact ih
  | @bpt mgr' mgr'' a v _ hmem hc ih =>
    rcases computeBPT_post bp _ a v _ hc with rfl | rfl
    · exact ih
    · rw [mgr_getAttribute_setAttribute_ne _ a ATTRIBUTE_BP_T n v (fun h => hn (h ▸ hmem)) p]
      exact ih

/-- A run leaves a write that changes nothing, under a name it does not use. -/
theorem ocVBMManager.Runs.holds {stats : ocStatistics} {bp : ocBPService}
    {names : List String} {m1 m2 : ocVBMManager}
    (h : ocVBMManager.Runs stats bp names m1 m2) (a : Nat) (n : String) (v : ocDouble)
    (hn : n ∉ names) (hh : m1.Holds a n v) : m2.Holds a n v := by
  induction h with
  | refl => exact hh
  | set b name w _ hmem _ _ ih =>
    exact holds_setAttribute_other _ a n v b name w (Or.inl (fun h => hn (h ▸ hmem))) ih
  | @stat mgr' mgr'' b name oracle w _ hmem _ hc ih =>
    obtain ⟨_, _, _, _, _, _, _, hcase⟩ := cachedStatistic_post _ b name oracle w _ hc
    rcases hcase with rfl | rfl
    · exact ih
    · exact holds_setAttribute_other _ a n v b name w (Or.inl (fun h => hn (h ▸ hmem))) ih
  | @bpt mgr' mgr'' b w _ hmem hc ih =>
    rcases computeBPT_post bp _ b w _ hc with rfl | rfl
    · exact ih
    · exact holds_setAttribute_other _ a n v b ATTRIBUTE_BP_T w
        (Or.inl (fun h => hn (h ▸ hmem))) ih

/-- A run leaves a primitive that is done. -/
theorem ocVBMManager.Runs.statDone {stats : ocStatistics} {bp : ocBPService}
    {names : List String} {m1 m2 : ocVBMManager}
    (h : ocVBMManager.Runs stats bp names m1 m2) (a : Nat) (n : String)
    (oracle : List ocRelation → ocDouble) (v : ocDouble)
    (hp : stats.prim n = some oracle) (hd : m1.StatDone a n oracle v) :
    m2.StatDone a n oracle v := by
  have hnb : n ≠ ATTRIBUTE_BP_T := by
    intro hc
    rw [hc] at hp
    exact Option.noConfusion hp
  induction h with
  | refl => exact hd
  | set b name w _ _ hpn _ ih =>
    refine statDone_setAttribute_other _ a n oracle v b name w (Or.inl ?_) ih
    intro hc
    rw [hc, hp] at hpn
    exact Option.noConfusion hpn
  | @stat mgr' mgr'' b name oracle' w _ _ hpn hc ih =>
    by_cases hcell : name = n ∧ b = a
    · obtain ⟨h1, h2⟩ := hcell
      subst h1 h2
      rw [hp] at hpn
      have ho : oracle = oracle' := Option.some.inj hpn
      subst ho
      have hd' : mgr'.cachedStatistic b name oracle = some (v, mgr') := ih
      rw [hd'] at hc
      obtain ⟨_, h2⟩ := Prod.mk.inj (Option.some.inj hc)
      rw [← h2]
      exact ih
    · obtain ⟨_, _, _, _, _, _, _, hcase⟩ := cachedStatistic_post _ b name oracle' w _ hc
      rcases hcase with rfl | rfl
      · exact ih
      · refine statDone_setAttribute_other _ a n oracle v b name w ?_ ih
        by_cases hname : name = n
        · exact Or.inr (fun hb => hcell ⟨hname, hb⟩)
        · exact Or.inl hname
  | @bpt mgr' mgr'' b w _ _ hc ih =>
    rcases computeBPT_post bp _ b w _ hc with rfl | rfl
    · exact ih
    · exact statDone_setAttribute_other _ a n oracle v b ATTRIBUTE_BP_T w
        (Or.inl (fun h => hnb h.symm)) ih

/-- A run leaves a `computeBPT` that is done. -/
theorem ocVBMManager.Runs.bptDone {stats : ocStatistics} {bp : ocBPService}
    {names : List String} {m1 m2 : ocVBMManager}
    (h : ocVBMManager.Runs stats bp names m1 m2) (a : Nat) (v : ocDouble)
    (hd : m1.BptDone bp a v) : m2.BptDone bp a v := by
  induction h with
  | refl => exact hd
  | set b name w _ _ _ hb ih =>
    exact bptDone_setAttribute_other bp _ a v b name w (Or.inl hb) ih
  | @stat mgr' mgr'' b name oracle' w _ _ hpn hc ih =>
    obtain ⟨_, _, _, _, _, _, _, hcase⟩ := cachedStatistic_post _ b name oracle' w _ hc
    rcases hcase with rfl | rfl
    · exact ih
    · refine bptDone_setAttribute_other bp _ a v b name w (Or.inl ?_) ih
      intro hcn
      rw [hcn] at hpn
      exact Option.noConfusion hpn
  | @bpt mgr' mgr'' b w _ _ hc ih =>
    by_cases hba : b = a
    · subst hba
      have hd' : mgr'.computeBPT bp b = some (v, mgr') := ih
      rw [hd'] at hc
      obtain ⟨_, h2⟩ := Prod.mk.inj (Option.some.inj hc)
      rw [← h2]
      exact ih
    · rcases computeBPT_post bp _ b w _ hc with rfl | rfl
      · exact ih
      · exact bptDone_setAttribute_other bp _ a v b ATTRIBUTE_BP_T w (Or.inr hba) ih

/-- A primitive that is done has its value as the attribute. -/
theorem statDone_read (mgr : ocVBMManager) (a : Nat) (name : String)
    (oracle : List ocRelation → ocDouble) (v : ocDouble) (h : mgr.StatDone a name oracle v) :
    mgr.getAttribute (some a) name = some v := by
  rw [statDone_iff] at h
  obtain ⟨m, hm, hcase⟩ := h
  rw [mgr_getAttribute_some mgr a m hm]
  rcases hcase with ⟨_, h2⟩ | ⟨_, _, h3⟩
  · rw [h2]
  · rw [holds_iff] at h3
    have := getAttribute_setAttribute_self m.attrs name v
    rw [h3 m hm] at this
    rw [this]

/-- A call of a primitive is a run, after which the primitive is done. -/
theorem stat_step (stats : ocStatistics) (bp : ocBPService) (names : List String)
    (mgr : ocVBMManager) (a : Nat) (name : String) (oracle : List ocRelation → ocDouble)
    (v : ocDouble) (mgr' : ocVBMManager) (hn : name ∈ names)
    (hp : stats.prim name = some oracle)
    (h : mgr.cachedStatistic a name oracle = some (v, mgr')) :
    ocVBMManager.Runs stats bp names mgr mgr' ∧ mgr'.StatDone a name oracle v :=
  ⟨ocVBMManager.Runs.stat a name oracle v (ocVBMManager.Runs.refl mgr) hn hp h,
    statDone_after mgr a name oracle v mgr' h⟩

/-- A call of `computeBPT` is a run, after which it is done. -/
theorem bpt_step (stats : ocStatistics) (bp : ocBPService) (names : List String)
    (mgr : ocVBMManager) (a : Nat) (v : ocDouble) (mgr' : ocVBMManager)
    (hn : ATTRIBUTE_BP_T ∈ names) (h : mgr.computeBPT bp a = some (v, mgr')) :
    ocVBMManager.Runs stats bp names mgr mgr' ∧ mgr'.BptDone bp a v :=
  ⟨ocVBMManager.Runs.bpt a v (ocVBMManager.Runs.refl mgr) hn h, bptDone_after bp mgr a v mgr' h⟩

/-- A write is a run, after which the write changes nothing. -/
theorem set_step (stats : ocStatistics) (bp : ocBPService) (names : List String)
    (mgr : ocVBMManager) (a : Nat) (name : String) (v : ocDouble) (hn : name ∈ names)
    (hp : stats.prim name = none) (hb : name ≠ ATTRIBUTE_BP_T) :
    ocVBMManager.Runs stats bp names mgr (mgr.setAttribute a name v)
      ∧ (mgr.setAttribute a name v).Holds a name v :=
  ⟨ocVBMManager.Runs.set a name v (ocVBMManager.Runs.refl mgr) hn hp hb,
    holds_setAttribute_self mgr a name v⟩

/-- What a call of `computeDDF` that returns has done. -/
theorem computeDDF_run (mgr : ocVBMManager) (model : Nat) (v : ocDouble)
    (mgr' : ocVBMManager) (h : mgr.computeDDF model = some (v, mgr')) :
    ∃ m refDF, mgr.heap[model]? = some m
      ∧ mgr.getAttribute mgr.refModel ATTRIBUTE_DF = some refDF
      ∧ v = ocDouble.fabs (ocDouble.sub refDF (m.attrs.getAttribute ATTRIBUTE_DF))
      ∧ mgr' = mgr.setAttribute model ATTRIBUTE_DDF v := by
  unfold ocVBMManager.computeDDF at h
  cases hm : mgr.heap[model]? with
  | none => rw [hm] at h; exact Option.noConfusion h
  | some m =>
    rw [hm] at h
    simp only [] at h
    cases hr : mgr.getAttribute mgr.refModel ATTRIBUTE_DF with
    | none => rw [hr] at h; exact Option.noConfusion h
    | some refDF =>
      rw [hr] at h
      obtain ⟨h1, h2⟩ := Prod.mk.inj (Option.some.inj h)
      refine ⟨m, refDF, rfl, rfl, h1.symm, ?_⟩
      rw [← h2, ← h1]

/-- A call of `computeDDF` whose write changes nothing returns and leaves the
state. -/
theorem computeDDF_fixed (mgr : ocVBMManager) (model : Nat) (refDF modelDF : ocDouble)
    (hmodel : mgr.getAttribute (some model) ATTRIBUTE_DF = some modelDF)
    (href : mgr.getAttribute mgr.refModel ATTRIBUTE_DF = some refDF)
    (hh : mgr.Holds model ATTRIBUTE_DDF (ocDouble.fabs (ocDouble.sub refDF modelDF))) :
    mgr.computeDDF model = some (ocDouble.fabs (ocDouble.sub refDF modelDF), mgr) := by
  obtain ⟨m, hm, hattr⟩ := mgr_getAttribute_inv mgr model ATTRIBUTE_DF modelDF hmodel
  unfold ocVBMManager.computeDDF
  simp only [hm, href, hattr]
  unfold ocVBMManager.Holds at hh
  rw [hh]

/-- Idempotence of `computeDDF`: a second call returns the value of the first and
leaves the state the first call left. -/
theorem computeDDF_again (mgr : ocVBMManager) (model : Nat) (v : ocDouble)
    (mgr' : ocVBMManager) (h : mgr.computeDDF model = some (v, mgr')) :
    mgr'.computeDDF model = some (v, mgr') := by
  obtain ⟨m, refDF, hm, hr, hv, hmgr⟩ := computeDDF_run mgr model v mgr' h
  subst hmgr
  have hs := setAttribute_sameModels mgr model ATTRIBUTE_DDF v
  have h1 : (mgr.setAttribute model ATTRIBUTE_DDF v).getAttribute (some model) ATTRIBUTE_DF
      = some (m.attrs.getAttribute ATTRIBUTE_DF) := by
    rw [mgr_getAttribute_setAttribute_ne mgr model ATTRIBUTE_DDF ATTRIBUTE_DF v (by decide)]
    exact mgr_getAttribute_some mgr model m hm ATTRIBUTE_DF
  have h2 : (mgr.setAttribute model ATTRIBUTE_DDF v).getAttribute
      (mgr.setAttribute model ATTRIBUTE_DDF v).refModel ATTRIBUTE_DF = some refDF := by
    rw [hs.2.2.2.2.1,
      mgr_getAttribute_setAttribute_ne mgr model ATTRIBUTE_DDF ATTRIBUTE_DF v (by decide)]
    exact hr
  have h3 := computeDDF_fixed _ model refDF _ h1 h2
    (by rw [← hv]; exact holds_setAttribute_self mgr model ATTRIBUTE_DDF v)
  rw [← hv] at h3
  exact h3

/-- What a call of `computeExplainedInformation` that returns has done. -/
theorem computeExplainedInformation_run (stats : ocStatistics) (mgr : ocVBMManager)
    (model : Nat) (info : ocDouble) (mgr' : ocVBMManager)
    (h : mgr.computeExplainedInformation stats model = some (info, mgr')) :
    ∃ m topH botH modelT s, mgr.heap[model]? = some m
      ∧ mgr.getAttribute mgr.topRef ATTRIBUTE_H = some topH
      ∧ mgr.getAttribute mgr.bottomRef ATTRIBUTE_H = some botH
      ∧ mgr.cachedStatistic model ATTRIBUTE_T stats.t = some (modelT, s)
      ∧ info = clampInfo (ocDouble.div (ocDouble.sub (ocDouble.sub botH topH) modelT)
          (ocDouble.sub botH topH))
      ∧ mgr' = s.setAttribute model ATTRIBUTE_EXPLAINED_I info := by
  unfold ocVBMManager.computeExplainedInformation at h
  cases hm : mgr.heap[model]? with
  | none => rw [hm] at h; exact Option.noConfusion h
  | some m =>
    rw [hm] at h
    simp only [] at h
    cases ht : mgr.getAttribute mgr.topRef ATTRIBUTE_H with
    | none => rw [ht] at h; exact Option.noConfusion h
    | some topH =>
      rw [ht] at h
      simp only [] at h
      cases hb : mgr.getAttribute mgr.bottomRef ATTRIBUTE_H with
      | none => rw [hb] at h; exact Option.noConfusion h
      | some botH =>
        rw [hb] at h
        simp only [] at h
        cases hc : mgr.computeTransmission stats model with
        | none => rw [hc] at h; exact Option.noConfusion h
        | some r =>
          obtain ⟨modelT, s⟩ := r
          rw [hc] at h
          obtain ⟨h1, h2⟩ := Prod.mk.inj (Option.some.inj h)
          refine ⟨m, topH, botH, modelT, s, rfl, rfl, rfl, hc, h1.symm, ?_⟩
          rw [← h2, ← h1]

/-- A call of `computeExplainedInformation` whose primitive is done and whose
write changes nothing returns and leaves the state. -/
theorem computeExplainedInformation_fixed (stats : ocStatistics) (mgr : ocVBMManager)
    (model : Nat) (topH botH modelT : ocDouble) (hl : mgr.Live (some model))
    (ht : mgr.getAttribute mgr.topRef ATTRIBUTE_H = some topH)
    (hb : mgr.getAttribute mgr.bottomRef ATTRIBUTE_H = some botH)
    (hd : mgr.StatDone model ATTRIBUTE_T stats.t modelT)
    (hh : mgr.Holds model ATTRIBUTE_EXPLAINED_I
      (clampInfo (ocDouble.div (ocDouble.sub (ocDouble.sub botH topH) modelT)
        (ocDouble.sub botH topH)))) :
    mgr.computeExplainedInformation stats model
      = some (clampInfo (ocDouble.div (ocDouble.sub (ocDouble.sub botH topH) modelT)
          (ocDouble.sub botH topH)), mgr) := by
  obtain ⟨a', m, hp', hm⟩ := hl
  cases hp'
  unfold ocVBMManager.StatDone at hd
  unfold ocVBMManager.Holds at hh
  unfold ocVBMManager.computeExplainedInformation
  simp only [hm, ht, hb, ocVBMManager.computeTransmission, hd, hh]

/-- What a call of `computeUnexplainedInformation` that returns has done. -/
theorem computeUnexplainedInformation_run (stats : ocStatistics) (mgr : ocVBMManager)
    (model : Nat) (info : ocDouble) (mgr' : ocVBMManager)
    (h : mgr.computeUnexplainedInformation stats model = some (info, mgr')) :
    ∃ m topH botH modelT s, mgr.heap[model]? = some m
      ∧ mgr.getAttribute mgr.topRef ATTRIBUTE_H = some topH
      ∧ mgr.getAttribute mgr.bottomRef ATTRIBUTE_H = some botH
      ∧ mgr.cachedStatistic model ATTRIBUTE_T stats.t = some (modelT, s)
      ∧ info = clampInfo (ocDouble.div modelT (ocDouble.sub botH topH))
      ∧ mgr' = s.setAttribute model ATTRIBUTE_UNEXPLAINED_I info := by
  unfold ocVBMManager.computeUnexplainedInformation at h
  cases hm : mgr.heap[model]? with
  | none => rw [hm] at h; exact Option.noConfusion h
  | some m =>
    rw [hm] at h
    simp only [] at h
    cases ht : mgr.getAttribute mgr.topRef ATTRIBUTE_H with
    | none => rw [ht] at h; exact Option.noConfusion h
    | some topH =>
      rw [ht] at h
      simp only [] at h
      cases hb : mgr.getAttribute mgr.bottomRef ATTRIBUTE_H with
      | none => rw [hb] at h; exact Option.noConfusion h
      | some botH =>
        rw [hb] at h
        simp only [] at h
        cases hc : mgr.computeTransmission stats model with
        | none => rw [hc] at h; exact Option.noConfusion h
        | some r =>
          obtain ⟨modelT, s⟩ := r
          rw [hc] at h
          obtain ⟨h1, h2⟩ := Prod.mk.inj (Option.some.inj h)
          refine ⟨m, topH, botH, modelT, s, rfl, rfl, rfl, hc, h1.symm, ?_⟩
          rw [← h2, ← h1]

/-- A call of `computeUnexplainedInformation` whose primitive is done and whose
write changes nothing returns and leaves the state. -/
theorem computeUnexplainedInformation_fixed (stats : ocStatistics) (mgr : ocVBMManager)
    (model : Nat) (topH botH modelT : ocDouble) (hl : mgr.Live (some model))
    (ht : mgr.getAttribute mgr.topRef ATTRIBUTE_H = some topH)
    (hb : mgr.getAttribute mgr.bottomRef ATTRIBUTE_H = some botH)
    (hd : mgr.StatDone model ATTRIBUTE_T stats.t modelT)
    (hh : mgr.Holds model ATTRIBUTE_UNEXPLAINED_I
      (clampInfo (ocDouble.div modelT (ocDouble.sub botH topH)))) :
    mgr.computeUnexplainedInformation stats model
      = some (clampInfo (ocDouble.div modelT (ocDouble.sub botH topH)), mgr) := by
  obtain ⟨a', m, hp', hm⟩ := hl
  cases hp'
  unfold ocVBMManager.StatDone at hd
  unfold ocVBMManager.Holds at hh
  unfold ocVBMManager.computeUnexplainedInformation
  simp only [hm, ht, hb, ocVBMManager.computeTransmission, hd, hh]

/-- What a call of `computeExplainedInformation` that returns leaves: a run under
the names it uses, its primitive done and its write changing nothing. -/
theorem computeExplainedInformation_facts (stats : ocStatistics) (bp : ocBPService)
    (names : List String) (mgr : ocVBMManager) (model : Nat) (info : ocDouble)
    (mgr' : ocVBMManager) (hT : ATTRIBUTE_T ∈ names) (hE : ATTRIBUTE_EXPLAINED_I ∈ names)
    (h : mgr.computeExplainedInformation stats model = some (info, mgr')) :
    ∃ topH botH modelT, mgr.getAttribute mgr.topRef ATTRIBUTE_H = some topH
      ∧ mgr.getAttribute mgr.bottomRef ATTRIBUTE_H = some botH
      ∧ info = clampInfo (ocDouble.div (ocDouble.sub (ocDouble.sub botH topH) modelT)
          (ocDouble.sub botH topH))
      ∧ ocVBMManager.Runs stats bp names mgr mgr'
      ∧ mgr'.StatDone model ATTRIBUTE_T stats.t modelT
      ∧ mgr'.Holds model ATTRIBUTE_EXPLAINED_I info
      ∧ mgr'.Live (some model) := by
  obtain ⟨m, topH, botH, modelT, s, hm, ht, hb, hc, hinfo, hmgr⟩ :=
    computeExplainedInformation_run stats mgr model info mgr' h
  obtain ⟨r1, d1⟩ := stat_step stats bp names mgr model ATTRIBUTE_T stats.t modelT s hT rfl hc
  obtain ⟨r2, h2⟩ := set_step stats bp names s model ATTRIBUTE_EXPLAINED_I info hE rfl
    (by decide)
  subst hmgr
  have hrun := r1.followedBy r2
  exact ⟨topH, botH, modelT, ht, hb, hinfo, hrun,
    statDone_setAttribute_other s model ATTRIBUTE_T stats.t modelT model
      ATTRIBUTE_EXPLAINED_I info (Or.inl (by decide)) d1,
    h2, hrun.same.live _ ⟨model, m, rfl, hm⟩⟩

/-- What a call of `computeUnexplainedInformation` that returns leaves. -/
theorem computeUnexplainedInformation_facts (stats : ocStatistics) (bp : ocBPService)
    (names : List String) (mgr : ocVBMManager) (model : Nat) (info : ocDouble)
    (mgr' : ocVBMManager) (hT : ATTRIBUTE_T ∈ names) (hE : ATTRIBUTE_UNEXPLAINED_I ∈ names)
    (h : mgr.computeUnexplainedInformation stats model = some (info, mgr')) :
    ∃ topH botH modelT, mgr.getAttribute mgr.topRef ATTRIBUTE_H = some topH
      ∧ mgr.getAttribute mgr.bottomRef ATTRIBUTE_H = some botH
      ∧ info = clampInfo (ocDouble.div modelT (ocDouble.sub botH topH))
      ∧ ocVBMManager.Runs stats bp names mgr mgr'
      ∧ mgr'.StatDone model ATTRIBUTE_T stats.t modelT
      ∧ mgr'.Holds model ATTRIBUTE_UNEXPLAINED_I info
      ∧ mgr'.Live (some model) := by
  obtain ⟨m, topH, botH, modelT, s, hm, ht, hb, hc, hinfo, hmgr⟩ :=
    computeUnexplainedInformation_run stats mgr model info mgr' h
  obtain ⟨r1, d1⟩ := stat_step stats bp names mgr model ATTRIBUTE_T stats.t modelT s hT rfl hc
  obtain ⟨r2, h2⟩ := set_step stats bp names s model ATTRIBUTE_UNEXPLAINED_I info hE rfl
    (by decide)
  subst hmgr
  have hrun := r1.followedBy r2
  exact ⟨topH, botH, modelT, ht, hb, hinfo, hrun,
    statDone_setAttribute_other s model ATTRIBUTE_T stats.t modelT model
      ATTRIBUTE_UNEXPLAINED_I info (Or.inl (by decide)) d1,
    h2, hrun.same.live _ ⟨model, m, rfl, hm⟩⟩

/-- What is read through a reference is the same after a run that does not use
the name. -/
theorem ocVBMManager.Runs.readsTop {stats : ocStatistics} {bp : ocBPService}
    {names : List String} {m1 m2 : ocVBMManager}
    (h : ocVBMManager.Runs stats bp names m1 m2) (n : String) (hn : n ∉ names) :
    m2.getAttribute m2.topRef n = m1.getAttribute m1.topRef n
    ∧ m2.getAttribute m2.bottomRef n = m1.getAttribute m1.bottomRef n
    ∧ m2.getAttribute m2.refModel n = m1.getAttribute m1.refModel n := by
  have hs := h.same
  rw [hs.2.2.1, hs.2.2.2.1, hs.2.2.2.2.1]
  exact ⟨h.reads _ n hn, h.reads _ n hn, h.reads _ n hn⟩

/-- Idempotence of `computeExplainedInformation`. -/
theorem computeExplainedInformation_again (stats : ocStatistics) (mgr : ocVBMManager)
    (model : Nat) (info : ocDouble) (mgr' : ocVBMManager)
    (h : mgr.computeExplainedInformation stats model = some (info, mgr')) :
    mgr'.computeExplainedInformation stats model = some (info, mgr') := by
  obtain ⟨topH, botH, modelT, ht, hb, hinfo, hrun, hd, hh, hl⟩ :=
    computeExplainedInformation_facts stats exampleBPService
      [ATTRIBUTE_T, ATTRIBUTE_EXPLAINED_I] mgr model info mgr' (by decide) (by decide) h
  obtain ⟨rt, rb, _⟩ := hrun.readsTop ATTRIBUTE_H (by decide)
  have := computeExplainedInformation_fixed stats mgr' model topH botH modelT hl
    (rt.trans ht) (rb.trans hb) hd (by rw [← hinfo]; exact hh)
  rw [← hinfo] at this
  exact this

/-- Idempotence of `computeUnexplainedInformation`. -/
theorem computeUnexplainedInformation_again (stats : ocStatistics) (mgr : ocVBMManager)
    (model : Nat) (info : ocDouble) (mgr' : ocVBMManager)
    (h : mgr.computeUnexplainedInformation stats model = some (info, mgr')) :
    mgr'.computeUnexplainedInformation stats model = some (info, mgr') := by
  obtain ⟨topH, botH, modelT, ht, hb, hinfo, hrun, hd, hh, hl⟩ :=
    computeUnexplainedInformation_facts stats exampleBPService
      [ATTRIBUTE_T, ATTRIBUTE_UNEXPLAINED_I] mgr model info mgr' (by decide) (by decide) h
  obtain ⟨rt, rb, _⟩ := hrun.readsTop ATTRIBUTE_H (by decide)
  have := computeUnexplainedInformation_fixed stats mgr' model topH botH modelT hl
    (rt.trans ht) (rb.trans hb) hd (by rw [← hinfo]; exact hh)
  rw [← hinfo] at this
  exact this

/-- What a call of `computeDFStatistics` that returns leaves. -/
theorem computeDFStatistics_facts (stats : ocStatistics) (bp : ocBPService)
    (names : List String) (mgr : ocVBMManager) (model : Nat) (mgr' : ocVBMManager)
    (hDF : ATTRIBUTE_DF ∈ names) (hDDF : ATTRIBUTE_DDF ∈ names)
    (h : mgr.computeDFStatistics stats model = some mgr') :
    ∃ modelDF, ocVBMManager.Runs stats bp names mgr mgr'
      ∧ mgr'.StatDone model ATTRIBUTE_DF stats.df modelDF := by
  unfold ocVBMManager.computeDFStatistics at h
  simp only [Option.bind_eq_bind, Option.pure_def] at h
  obtain ⟨⟨modelDF, s1⟩, c1, h⟩ := Option.bind_eq_some.mp h
  simp only [] at h
  obtain ⟨⟨ddf, s2⟩, c2, h⟩ := Option.bind_eq_some.mp h
  simp only [Option.some.injEq] at h
  subst h
  obtain ⟨r1, d1⟩ := stat_step stats bp names mgr model ATTRIBUTE_DF stats.df modelDF s1 hDF
    rfl c1
  obtain ⟨_, _, _, _, _, hs2⟩ := computeDDF_run s1 model ddf s2 c2
  obtain ⟨r2, _⟩ := set_step stats bp names s1 model ATTRIBUTE_DDF ddf hDDF rfl (by decide)
  subst hs2
  exact ⟨modelDF, r1.followedBy r2,
    statDone_setAttribute_other s1 model ATTRIBUTE_DF stats.df modelDF model ATTRIBUTE_DDF ddf
      (Or.inl (by decide)) d1⟩

/-- A primitive that is done has one value. -/
theorem statDone_unique (mgr : ocVBMManager) (a : Nat) (name : String)
    (oracle : List ocRelation → ocDouble) (v v' : ocDouble)
    (h1 : mgr.StatDone a name oracle v) (h2 : mgr.StatDone a name oracle v') : v = v' := by
  unfold ocVBMManager.StatDone at h1 h2
  rw [h1] at h2
  exact (Prod.mk.inj (Option.some.inj h2)).1

/-- Settled information statistics stay settled through a run that uses none of
their names but the primitives. -/
theorem ocVBMManager.Runs.informationSettled {stats : ocStatistics} {bp : ocBPService}
    {names : List String} {m1 m2 : ocVBMManager}
    (h : ocVBMManager.Runs stats bp names m1 m2) (model : Nat)
    (modelH modelT topH botH : ocDouble)
    (hH : ATTRIBUTE_H ∉ names) (hE : ATTRIBUTE_EXPLAINED_I ∉ names)
    (hU : ATTRIBUTE_UNEXPLAINED_I ∉ names)
    (hs : m1.InformationSettled stats model modelH modelT topH botH) :
    m2.InformationSettled stats model modelH modelT topH botH := by
  obtain ⟨f1, f2, f3, f4, f5, f6, f7⟩ := hs
  obtain ⟨rt, rb, _⟩ := h.readsTop ATTRIBUTE_H hH
  exact ⟨h.same.live _ f1, h.statDone model ATTRIBUTE_H stats.h modelH rfl f2,
    h.statDone model ATTRIBUTE_T stats.t modelT rfl f3, rt.trans f4, rb.trans f5,
    h.holds model ATTRIBUTE_EXPLAINED_I _ hE f6, h.holds model ATTRIBUTE_UNEXPLAINED_I _ hU f7⟩

/-- With settled information statistics `computeInformationStatistics` returns and
leaves the state. -/
theorem computeInformationStatistics_fixed (stats : ocStatistics) (mgr : ocVBMManager)
    (model : Nat) (modelH modelT topH botH : ocDouble)
    (hs : mgr.InformationSettled stats model modelH modelT topH botH) :
    mgr.computeInformationStatistics stats model = some mgr := by
  obtain ⟨f1, f2, f3, f4, f5, f6, f7⟩ := hs
  have e1 := computeExplainedInformation_fixed stats mgr model topH botH modelT f1 f4 f5 f3 f6
  have e2 := computeUnexplainedInformation_fixed stats mgr model topH botH modelT f1 f4 f5 f3 f7
  unfold ocVBMManager.StatDone at f2 f3
  unfold ocVBMManager.computeInformationStatistics
  simp only [ocVBMManager.computeH, ocVBMManager.computeTransmission, f2, f3, e1, e2,
    Option.bind_eq_bind, Option.some_bind, Option.pure_def]

/-- What a call of `computeInformationStatistics` that returns leaves: a run, and
settled information statistics. -/
theorem computeInformationStatistics_facts (stats : ocStatistics) (bp : ocBPService)
    (mgr : ocVBMManager) (model : Nat) (mgr' : ocVBMManager)
    (h : mgr.computeInformationStatistics stats model = some mgr') :
    ∃ modelH modelT topH botH,
      ocVBMManager.Runs stats bp
        [ATTRIBUTE_H, ATTRIBUTE_T, ATTRIBUTE_EXPLAINED_I, ATTRIBUTE_UNEXPLAINED_I] mgr mgr'
      ∧ mgr'.InformationSettled stats model modelH modelT topH botH := by
  unfold ocVBMManager.computeInformationStatistics at h
  simp only [Option.bind_eq_bind, Option.pure_def] at h
  obtain ⟨⟨modelH, s1⟩, c1, h⟩ := Option.bind_eq_some.mp h
  simp only [] at h
  obtain ⟨⟨modelT, s2⟩, c2, h⟩ := Option.bind_eq_some.mp h
  simp only [] at h
  obtain ⟨⟨infoE, s3⟩, c3, h⟩ := Option.bind_eq_some.mp h
  simp only [] at h
  obtain ⟨⟨infoU, s4⟩, c4, h⟩ := Option.bind_eq_some.mp h
  simp only [Option.some.injEq] at h
  subst h
  obtain ⟨r1, d1⟩ := stat_step stats bp [ATTRIBUTE_H] mgr model ATTRIBUTE_H stats.h modelH s1
    (by decide) rfl c1
  obtain ⟨r2, d2⟩ := stat_step stats bp [ATTRIBUTE_T] s1 model ATTRIBUTE_T stats.t modelT s2
    (by decide) rfl c2
  obtain ⟨topH, botH, tE, ht, hb, hiE, r3, d3, h3, l3⟩ :=
    computeExplainedInformation_facts stats bp [ATTRIBUTE_T, ATTRIBUTE_EXPLAINED_I] s2 model
      infoE s3 (by decide) (by decide) c3
  obtain ⟨topH', botH', tU, ht', hb', hiU, r4, d4, h4, l4⟩ :=
    computeUnexplainedInformation_facts stats bp [ATTRIBUTE_T, ATTRIBUTE_UNEXPLAINED_I] s3 model
      infoU s4 (by decide) (by decide) c4
  have dT3 := r3.statDone model ATTRIBUTE_T stats.t modelT rfl d2
  have hE : tE = modelT := statDone_unique s3 model ATTRIBUTE_T stats.t _ _ d3 dT3
  have dT4 := r4.statDone model ATTRIBUTE_T stats.t modelT rfl dT3
  have hU : tU = modelT := statDone_unique s4 model ATTRIBUTE_T stats.t _ _ d4 dT4
  obtain ⟨rt3, rb3, _⟩ := r3.readsTop ATTRIBUTE_H (by decide)
  obtain ⟨rt4, rb4, _⟩ := r4.readsTop ATTRIBUTE_H (by decide)
  have htop : topH' = topH := Option.some.inj (ht'.symm.trans (rt3.trans ht))
  have hbot : botH' = botH := Option.some.inj (hb'.symm.trans (rb3.trans hb))
  rw [hE] at hiE
  rw [hU, htop, hbot] at hiU
  have dH4 := r4.statDone model ATTRIBUTE_H stats.h modelH rfl
    (r3.statDone model ATTRIBUTE_H stats.h modelH rfl
      (r2.statDone model ATTRIBUTE_H stats.h modelH rfl d1))
  refine ⟨modelH, modelT, topH, botH, ?_, l4, dH4, dT4, rt4.trans (rt3.trans ht),
    rb4.trans (rb3.trans hb), ?_, ?_⟩
  · exact (((r1.more (by decide)).followedBy (r2.more (by decide))).followedBy
      (r3.more (by decide))).followedBy (r4.more (by decide))
  · rw [← hiE]
    exact r4.holds model ATTRIBUTE_EXPLAINED_I infoE (by decide) h3
  · rw [← hiU]
    exact h4

/-- The absolute difference that `computeDDF` writes is the sign-corrected
difference of the chi-squared block, for all doubles. -/
theorem fabs_sub_eq_refDDF (dist : ocDistributions) (opts : ocOptions)
    (modelT refT modelDF refDF : ocDouble) :
    ocDouble.fabs (ocDouble.sub refDF modelDF)
      = (computeL2Statistics.chiSquared dist opts modelT refT modelDF refDF).refDDF := by
  have h1 : (computeL2Statistics.chiSquared dist opts modelT refT modelDF refDF).refDDF
      = if ocDouble.lt (ocDouble.sub modelDF refDF) (ocDouble.fin 0) = true
        then ocDouble.neg (ocDouble.sub modelDF refDF) else ocDouble.sub modelDF refDF := by
    unfold computeL2Statistics.chiSquared
    simp only []
    split <;> rfl
  rw [h1]
  cases refDF with
  | nan => cases modelDF <;> rfl
  | posInf => cases modelDF <;> rfl
  | negInf => cases modelDF <;> rfl
  | fin r =>
    cases modelDF with
    | nan => rfl
    | posInf => rfl
    | negInf => rfl
    | fin m =>
      simp only [ocDouble.sub, ocDouble.neg, ocDouble.add, ocDouble.fabs, ocDouble.lt,
        decide_eq_true_eq]
      split
      · next hlt =>
        congr 1
        rw [abs_of_nonneg (by linarith)]
        ring
      · next hge =>
        congr 1
        rw [abs_of_nonpos (by linarith)]
        ring

/-- With the degrees of freedom done and a write of the absolute difference
that changes nothing, `computeDFStatistics` returns and leaves the state. -/
theorem computeDFStatistics_fixed (stats : ocStatistics) (mgr : ocVBMManager) (model : Nat)
    (modelDF refDF : ocDouble) (hd : mgr.StatDone model ATTRIBUTE_DF stats.df modelDF)
    (href : mgr.getAttribute mgr.refModel ATTRIBUTE_DF = some refDF)
    (hh : mgr.Holds model ATTRIBUTE_DDF (ocDouble.fabs (ocDouble.sub refDF modelDF))) :
    mgr.computeDFStatistics stats model = some mgr := by
  have e1 := computeDDF_fixed mgr model refDF modelDF
    (statDone_read mgr model ATTRIBUTE_DF stats.df modelDF hd) href hh
  unfold ocVBMManager.StatDone at hd
  unfold ocVBMManager.computeDFStatistics
  simp only [ocVBMManager.computeDF, hd, e1, Option.bind_eq_bind, Option.some_bind,
    Option.pure_def]

/-- After four writes under four names, none of the four changes anything when
made again. -/
theorem holds_four (mgr : ocVBMManager) (a : Nat) (n1 n2 n3 n4 : String)
    (v1 v2 v3 v4 : ocDouble)
    (h12 : n2 ≠ n1) (h13 : n3 ≠ n1) (h14 : n4 ≠ n1) (h23 : n3 ≠ n2) (h24 : n4 ≠ n2)
    (h34 : n4 ≠ n3) :
    ((((mgr.setAttribute a n1 v1).setAttribute a n2 v2).setAttribute a n3 v3).setAttribute
        a n4 v4).Holds a n1 v1
    ∧ ((((mgr.setAttribute a n1 v1).setAttribute a n2 v2).setAttribute a n3 v3).setAttribute
        a n4 v4).Holds a n2 v2
    ∧ ((((mgr.setAttribute a n1 v1).setAttribute a n2 v2).setAttribute a n3 v3).setAttribute
        a n4 v4).Holds a n3 v3
    ∧ ((((mgr.setAttribute a n1 v1).setAttribute a n2 v2).setAttribute a n3 v3).setAttribute
        a n4 v4).Holds a n4 v4 := by
  refine ⟨?_, ?_, ?_, holds_setAttribute_self _ a n4 v4⟩
  · exact holds_setAttribute_other _ a n1 v1 a n4 v4 (Or.inl h14)
      (holds_setAttribute_other _ a n1 v1 a n3 v3 (Or.inl h13)
        (holds_setAttribute_other _ a n1 v1 a n2 v2 (Or.inl h12)
          (holds_setAttribute_self mgr a n1 v1)))
  · exact holds_setAttribute_other _ a n2 v2 a n4 v4 (Or.inl h24)
      (holds_setAttribute_other _ a n2 v2 a n3 v3 (Or.inl h23)
        (holds_setAttribute_self _ a n2 v2))
  · exact holds_setAttribute_other _ a n3 v3 a n4 v4 (Or.inl h34)
      (holds_setAttribute_self _ a n3 v3)

/-- Four writes of attributes that are not primitives are a run. -/
theorem runs_four (stats : ocStatistics) (bp : ocBPService) (names : List String)
    (mgr : ocVBMManager) (a : Nat) (n1 n2 n3 n4 : String) (v1 v2 v3 v4 : ocDouble)
    (m1 : n1 ∈ names) (m2 : n2 ∈ names) (m3 : n3 ∈ names) (m4 : n4 ∈ names)
    (p1 : stats.prim n1 = none) (p2 : stats.prim n2 = none) (p3 : stats.prim n3 = none)
    (p4 : stats.prim n4 = none)
    (b1 : n1 ≠ ATTRIBUTE_BP_T) (b2 : n2 ≠ ATTRIBUTE_BP_T) (b3 : n3 ≠ ATTRIBUTE_BP_T)
    (b4 : n4 ≠ ATTRIBUTE_BP_T) :
    ocVBMManager.Runs stats bp names mgr
      ((((mgr.setAttribute a n1 v1).setAttribute a n2 v2).setAttribute a n3 v3).setAttribute
        a n4 v4) :=
  ocVBMManager.Runs.set a n4 v4
    (ocVBMManager.Runs.set a n3 v3
      (ocVBMManager.Runs.set a n2 v2
        (ocVBMManager.Runs.set a n1 v1 (ocVBMManager.Runs.refl mgr) m1 p1 b1) m2 p2 b2)
      m3 p3 b3)
    m4 p4 b4

/-- With everything it computes settled, `computeL2Statistics` returns the
output of the chi-squared block and leaves the state. -/
theorem computeL2Statistics_fixed (stats : ocStatistics) (dist : ocDistributions)
    (opts : ocOptions) (mgr : ocVBMManager) (model ref : Nat)
    (modelH modelT topH botH refT modelDF refDF : ocDouble)
    (hinfo : mgr.InformationSettled stats model modelH modelT topH botH)
    (href : mgr.refModel = some ref)
    (dT : mgr.StatDone ref ATTRIBUTE_T stats.t refT)
    (dDF : mgr.StatDone model ATTRIBUTE_DF stats.df modelDF)
    (dRDF : mgr.StatDone ref ATTRIBUTE_DF stats.df refDF)
    (h1 : mgr.Holds model ATTRIBUTE_DDF
      (computeL2Statistics.chiSquared dist opts modelT refT modelDF refDF).refDDF)
    (h2 : mgr.Holds model ATTRIBUTE_LR
      (computeL2Statistics.chiSquared dist opts modelT refT modelDF refDF).refModelL2)
    (h3 : mgr.Holds model ATTRIBUTE_ALPHA
      (computeL2Statistics.chiSquared dist opts modelT refT modelDF refDF).refL2Prob)
    (h4 : mgr.Holds model ATTRIBUTE_BETA
      (computeL2Statistics.chiSquared dist opts modelT refT modelDF refDF).refL2Power) :
    mgr.computeL2Statistics stats dist opts model
      = some ((computeL2Statistics.chiSquared dist opts modelT refT modelDF refDF).output,
          mgr) := by
  have e1 : mgr.computeDFStatistics stats model = some mgr :=
    computeDFStatistics_fixed stats mgr model modelDF refDF dDF
      (by rw [href]; exact statDone_read mgr ref ATTRIBUTE_DF stats.df refDF dRDF)
      (by rw [fabs_sub_eq_refDDF dist opts modelT refT modelDF refDF]; exact h1)
  have e2 := computeInformationStatistics_fixed stats mgr model modelH modelT topH botH hinfo
  obtain ⟨⟨a', m, hp', hm⟩, _, dMT, _⟩ := hinfo
  cases hp'
  unfold ocVBMManager.StatDone at dT dDF dRDF dMT
  unfold ocVBMManager.Holds at h1 h2 h3 h4
  unfold ocVBMManager.computeL2Statistics
  simp only [hm, e1, e2, ocVBMManager.computeTransmission, ocVBMManager.computeDF, dMT, href,
    dT, dDF, dRDF, h1, h2, h3, h4, Option.bind_eq_bind, Option.some_bind, Option.pure_def]

/-- Idempotence of `computeL2Statistics`: a second call prints what the first
printed and leaves the state the first call left. -/
theorem computeL2Statistics_again (stats : ocStatistics) (dist : ocDistributions)
    (opts : ocOptions) (mgr : ocVBMManager) (model : Nat) (output : List String)
    (mgr' : ocVBMManager)
    (h : mgr.computeL2Statistics stats dist opts model = some (output, mgr')) :
    mgr'.computeL2Statistics stats dist opts model = some (output, mgr') := by
  unfold ocVBMManager.computeL2Statistics at h
  simp only [Option.bind_eq_bind, Option.pure_def] at h
  obtain ⟨m, _, h⟩ := Option.bind_eq_some.mp h
  obtain ⟨s1, c1, h⟩ := Option.bind_eq_some.mp h
  obtain ⟨s2, c2, h⟩ := Option.bind_eq_some.mp h
  obtain ⟨⟨modelT, s3⟩, c3, h⟩ := Option.bind_eq_some.mp h
  simp only [] at h
  obtain ⟨ref, hr3, h⟩ := Option.bind_eq_some.mp h
  obtain ⟨⟨refT, s4⟩, c4, h⟩ := Option.bind_eq_some.mp h
  simp only [] at h
  obtain ⟨⟨modelDF, s5⟩, c5, h⟩ := Option.bind_eq_some.mp h
  simp only [] at h
  obtain ⟨ref', hr5, h⟩ := Option.bind_eq_some.mp h
  obtain ⟨⟨refDF, s6⟩, c6, h⟩ := Option.bind_eq_some.mp h
  simp only [Option.some.injEq, Prod.mk.injEq] at h
  obtain ⟨hout, hmgr⟩ := h
  obtain ⟨modelH, modelT', topH, botH, _, info2⟩ :=
    computeInformationStatistics_facts stats exampleBPService s1 model s2 c2
  obtain ⟨r3, d3⟩ := stat_step stats exampleBPService [ATTRIBUTE_T, ATTRIBUTE_DF] s2 model
    ATTRIBUTE_T stats.t modelT s3 (by decide) rfl c3
  obtain ⟨r4, d4⟩ := stat_step stats exampleBPService [ATTRIBUTE_T, ATTRIBUTE_DF] s3 ref
    ATTRIBUTE_T stats.t refT s4 (by decide) rfl c4
  obtain ⟨r5, d5⟩ := stat_step stats exampleBPService [ATTRIBUTE_T, ATTRIBUTE_DF] s4 model
    ATTRIBUTE_DF stats.df modelDF s5 (by decide) rfl c5
  obtain ⟨r6, d6⟩ := stat_step stats exampleBPService [ATTRIBUTE_T, ATTRIBUTE_DF] s5 ref'
    ATTRIBUTE_DF stats.df refDF s6 (by decide) rfl c6
  have r7 := runs_four stats exampleBPService
    [ATTRIBUTE_DDF, ATTRIBUTE_LR, ATTRIBUTE_ALPHA, ATTRIBUTE_BETA] s6 model
    ATTRIBUTE_DDF ATTRIBUTE_LR ATTRIBUTE_ALPHA ATTRIBUTE_BETA
    (computeL2Statistics.chiSquared dist opts modelT refT modelDF refDF).refDDF
    (computeL2Statistics.chiSquared dist opts modelT refT modelDF refDF).refModelL2
    (computeL2Statistics.chiSquared dist opts modelT refT modelDF refDF).refL2Prob
    (computeL2Statistics.chiSquared dist opts modelT refT modelDF refDF).refL2Power
    (by decide) (by decide) (by decide) (by decide) rfl rfl rfl rfl
    (by decide) (by decide) (by decide) (by decide)
  obtain ⟨g1, g2, g3, g4⟩ := holds_four s6 model
    ATTRIBUTE_DDF ATTRIBUTE_LR ATTRIBUTE_ALPHA ATTRIBUTE_BETA
    (computeL2Statistics.chiSquared dist opts modelT refT modelDF refDF).refDDF
    (computeL2Statistics.chiSquared dist opts modelT refT modelDF refDF).refModelL2
    (computeL2Statistics.chiSquared dist opts modelT refT modelDF refDF).refL2Prob
    (computeL2Statistics.chiSquared dist opts modelT refT modelDF refDF).refL2Power
    (by decide) (by decide) (by decide) (by decide) (by decide) (by decide)
  rw [hmgr] at r7 g1 g2 g3 g4
  -- the run from the state after the information statistics to the end
  have r36 := ((r3.followedBy r4).followedBy r5).followedBy r6
  have info6 := r36.informationSettled model modelH modelT' topH botH (by decide) (by decide)
    (by decide) info2
  have info7 := r7.informationSettled model modelH modelT' topH botH (by decide) (by decide)
    (by decide) info6
  -- the values of the primitives at the end
  have dT7 := r7.statDone model ATTRIBUTE_T stats.t modelT rfl
    (((r4.followedBy r5).followedBy r6).statDone model ATTRIBUTE_T stats.t modelT rfl d3)
  have hT : modelT' = modelT :=
    statDone_unique mgr' model ATTRIBUTE_T stats.t _ _ info7.2.2.1 dT7
  rw [hT] at info7
  have dRT7 := r7.statDone ref ATTRIBUTE_T stats.t refT rfl
    ((r5.followedBy r6).statDone ref ATTRIBUTE_T stats.t refT rfl d4)
  have dDF7 := r7.statDone model ATTRIBUTE_DF stats.df modelDF rfl
    (r6.statDone model ATTRIBUTE_DF stats.df modelDF rfl d5)
  have dRDF7 := r7.statDone ref' ATTRIBUTE_DF stats.df refDF rfl d6
  -- the reference is the same model throughout
  have href5 : s5.refModel = s3.refModel := (r4.followedBy r5).same.2.2.2.2.1
  have hrr : ref' = ref := Option.some.inj (hr5.symm.trans (href5.trans hr3))
  rw [hrr] at dRDF7
  have href7 : mgr'.refModel = some ref :=
    (r7.same.2.2.2.2.1).trans
      ((((r4.followedBy r5).followedBy r6).same.2.2.2.2.1).trans hr3)
  rw [← hout]
  exact computeL2Statistics_fixed stats dist opts mgr' model ref modelH modelT topH botH refT
    modelDF refDF info7 href7 dRT7 dDF7 dRDF7 g1 g2 g3 g4

/-- After three writes under three names, none of the three changes anything
when made again. -/
theorem holds_three (mgr : ocVBMManager) (a : Nat) (n1 n2 n3 : String) (v1 v2 v3 : ocDouble)
    (h12 : n2 ≠ n1) (h13 : n3 ≠ n1) (h23 : n3 ≠ n2) :
    (((mgr.setAttribute a n1 v1).setAttribute a n2 v2).setAttribute a n3 v3).Holds a n1 v1
    ∧ (((mgr.setAttribute a n1 v1).setAttribute a n2 v2).setAttribute a n3 v3).Holds a n2 v2
    ∧ (((mgr.setAttribute a n1 v1).setAttribute a n2 v2).setAttribute a n3 v3).Holds a n3 v3 := by
  refine ⟨?_, ?_, holds_setAttribute_self _ a n3 v3⟩
  · exact holds_setAttribute_other _ a n1 v1 a n3 v3 (Or.inl h13)
      (holds_setAttribute_other _ a n1 v1 a n2 v2 (Or.inl h12)
        (holds_setAttribute_self mgr a n1 v1))
  · exact holds_setAttribute_other _ a n2 v2 a n3 v3 (Or.inl h23)
      (holds_setAttribute_self _ a n2 v2)

/-- Three writes of attributes that are not primitives are a run. -/
theorem runs_three (stats : ocStatistics) (bp : ocBPService) (names : List String)
    (mgr : ocVBMManager) (a : Nat) (n1 n2 n3 : String) (v1 v2 v3 : ocDouble)
    (m1 : n1 ∈ names) (m2 : n2 ∈ names) (m3 : n3 ∈ names)
    (p1 : stats.prim n1 = none) (p2 : stats.prim n2 = none) (p3 : stats.prim n3 = none)
    (b1 : n1 ≠ ATTRIBUTE_BP_T) (b2 : n2 ≠ ATTRIBUTE_BP_T) (b3 : n3 ≠ ATTRIBUTE_BP_T) :
    ocVBMManager.Runs stats bp names mgr
      (((mgr.setAttribute a n1 v1).setAttribute a n2 v2).setAttribute a n3 v3) :=
  ocVBMManager.Runs.set a n3 v3
    (ocVBMManager.Runs.set a n2 v2
      (ocVBMManager.Runs.set a n1 v1 (ocVBMManager.Runs.refl mgr) m1 p1 b1) m2 p2 b2)
    m3 p3 b3

/-- With everything it computes settled, `computePearsonStatistics` returns the
output of its chi-squared block and leaves the manager state, after two more
`makeFitTable` calls. -/
theorem computePearsonStatistics_fixed (stats : ocStatistics) (dist : ocDistributions)
    (opts : ocOptions) (fit : ocFitService) (mgr : ocVBMManager) (st : ocFitState)
    (model bottom ref : Nat) (m mb : ocModel) (modelDF refDF : ocDouble)
    (hm : mgr.heap[model]? = some m) (hbot : mgr.bottomRef = some bottom)
    (hmb : mgr.heap[bottom]? = some mb) (href : mgr.refModel = some ref)
    (dDF : mgr.StatDone model ATTRIBUTE_DF stats.df modelDF)
    (dRDF : mgr.StatDone ref ATTRIBUTE_DF stats.df refDF)
    (h1 : mgr.Holds model ATTRIBUTE_P2
      (fit.ocPearsonChiSquared fit.inputData (fit.makeFitTable m.relations) opts.sampleSize))
    (h2 : mgr.Holds model ATTRIBUTE_P2_ALPHA
      (computePearsonStatistics.chiSquared dist opts
        (fit.ocPearsonChiSquared fit.inputData (fit.makeFitTable m.relations) opts.sampleSize)
        (fit.ocPearsonChiSquared fit.inputData (fit.makeFitTable mb.relations) opts.sampleSize)
        modelDF refDF).refP2Prob)
    (h3 : mgr.Holds model ATTRIBUTE_P2_BETA
      (computePearsonStatistics.chiSquared dist opts
        (fit.ocPearsonChiSquared fit.inputData (fit.makeFitTable m.relations) opts.sampleSize)
        (fit.ocPearsonChiSquared fit.inputData (fit.makeFitTable mb.relations) opts.sampleSize)
        modelDF refDF).refP2Power) :
    mgr.computePearsonStatistics stats dist opts fit st (some model)
      = some ((computePearsonStatistics.chiSquared dist opts
          (fit.ocPearsonChiSquared fit.inputData (fit.makeFitTable m.relations)
            opts.sampleSize)
          (fit.ocPearsonChiSquared fit.inputData (fit.makeFitTable mb.relations)
            opts.sampleSize) modelDF refDF).output,
        ⟨some (fit.makeFitTable mb.relations), st.makeFitTableCalls + 2⟩, mgr) := by
  unfold ocVBMManager.StatDone at dDF dRDF
  unfold ocVBMManager.Holds at h1 h2 h3
  unfold ocVBMManager.computePearsonStatistics
  simp only [hbot, ocVBMManager.makeFitTable, hm, hmb, ocVBMManager.computeDF, dDF, href,
    dRDF, h1, h2, h3, Option.bind_eq_bind, Option.some_bind, Option.pure_def, add_assoc]

/-- Idempotence of `computePearsonStatistics` on the manager state: a second call
prints what the first printed and leaves the manager state the first call
left; it builds the two fit tables again. -/
theorem computePearsonStatistics_again (stats : ocStatistics) (dist : ocDistributions)
    (opts : ocOptions) (fit : ocFitService) (mgr : ocVBMManager) (st : ocFitState)
    (model bottom : Nat) (output : List String) (st1 : ocFitState) (mgr1 : ocVBMManager)
    (hbot : mgr.bottomRef = some bottom)
    (h : mgr.computePearsonStatistics stats dist opts fit st (some model)
      = some (output, st1, mgr1)) :
    st1.makeFitTableCalls = st.makeFitTableCalls + 2
    ∧ mgr1.computePearsonStatistics stats dist opts fit st1 (some model)
      = some (output, ⟨st1.fitTable1, st1.makeFitTableCalls + 2⟩, mgr1) := by
  unfold ocVBMManager.computePearsonStatistics at h
  rw [hbot] at h
  simp only [Option.bind_eq_bind, Option.pure_def, ocVBMManager.makeFitTable] at h
  cases hm : mgr.heap[model]? with
  | none => rw [hm] at h; exact Option.noConfusion h
  | some m =>
    cases hmb : mgr.heap[bottom]? with
    | none =>
      rw [hm, hmb] at h
      exact Option.noConfusion h
    | some mb =>
      rw [hm, hmb] at h
      simp only [Option.some_bind] at h
      obtain ⟨⟨modelDF, s1⟩, c1, h⟩ := Option.bind_eq_some.mp h
      simp only [] at h
      obtain ⟨ref, hr1, h⟩ := Option.bind_eq_some.mp h
      obtain ⟨⟨refDF, s2⟩, c2, h⟩ := Option.bind_eq_some.mp h
      simp only [Option.some.injEq, Prod.mk.injEq] at h
      obtain ⟨hout, hst, hmgr⟩ := h
      obtain ⟨r1, d1⟩ := stat_step stats exampleBPService [ATTRIBUTE_DF] mgr model
        ATTRIBUTE_DF stats.df modelDF s1 (by decide) rfl c1
      obtain ⟨r2, d2⟩ := stat_step stats exampleBPService [ATTRIBUTE_DF] s1 ref
        ATTRIBUTE_DF stats.df refDF s2 (by decide) rfl c2
      have r3 := runs_three stats exampleBPService
        [ATTRIBUTE_P2, ATTRIBUTE_P2_ALPHA, ATTRIBUTE_P2_BETA] s2 model
        ATTRIBUTE_P2 ATTRIBUTE_P2_ALPHA ATTRIBUTE_P2_BETA
        (fit.ocPearsonChiSquared fit.inputData (fit.makeFitTable m.relations) opts.sampleSize)
        (computePearsonStatistics.chiSquared dist opts
          (fit.ocPearsonChiSquared fit.inputData (fit.makeFitTable m.relations)
            opts.sampleSize)
          (fit.ocPearsonChiSquared fit.inputData (fit.makeFitTable mb.relations)
            opts.sampleSize) modelDF refDF).refP2Prob
        (computePearsonStatistics.chiSquared dist opts
          (fit.ocPearsonChiSquared fit.inputData (fit.makeFitTable m.relations)
            opts.sampleSize)
          (fit.ocPearsonChiSquared fit.inputData (fit.makeFitTable mb.relations)
            opts.sampleSize) modelDF refDF).refP2Power
        (by decide) (by decide) (by decide) rfl rfl rfl (by decide) (by decide) (by decide)
      obtain ⟨g1, g2, g3⟩ := holds_three s2 model
        ATTRIBUTE_P2 ATTRIBUTE_P2_ALPHA ATTRIBUTE_P2_BETA
        (fit.ocPearsonChiSquared fit.inputData (fit.makeFitTable m.relations) opts.sampleSize)
        (computePearsonStatistics.chiSquared dist opts
          (fit.ocPearsonChiSquared fit.inputData (fit.makeFitTable m.relations)
            opts.sampleSize)
          (fit.ocPearsonChiSquared fit.inputData (fit.makeFitTable mb.relations)
            opts.sampleSize) modelDF refDF).refP2Prob
        (computePearsonStatistics.chiSquared dist opts
          (fit.ocPearsonChiSquared fit.inputData (fit.makeFitTable m.relations)
            opts.sampleSize)
          (fit.ocPearsonChiSquared fit.inputData (fit.makeFitTable mb.relations)
            opts.sampleSize) modelDF refDF).refP2Power
        (by decide) (by decide) (by decide)
      rw [hmgr] at r3 g1 g2 g3
      have hs := (r1.followedBy r2).same.trans r3.same
      obtain ⟨m1, hm1, hrel1⟩ := hs.heap model m hm
      obtain ⟨mb1, hmb1, hrelb1⟩ := hs.heap bottom mb hmb
      have dDF := r3.statDone model ATTRIBUTE_DF stats.df modelDF rfl
        (r2.statDone model ATTRIBUTE_DF stats.df modelDF rfl d1)
      have dRDF := r3.statDone ref ATTRIBUTE_DF stats.df refDF rfl d2
      have href : mgr1.refModel = some ref :=
        (r3.same.2.2.2.2.1).trans ((r2.same.2.2.2.2.1).trans hr1)
      have hfix := computePearsonStatistics_fixed stats dist opts fit mgr1 st1 model bottom ref
        m1 mb1 modelDF refDF hm1 (hs.2.2.2.1.trans hbot) hmb1 href dDF dRDF
        (by rw [hrel1]; exact g1) (by rw [hrel1, hrelb1]; exact g2)
        (by rw [hrel1, hrelb1]; exact g3)
      rw [hrel1, hrelb1, hout] at hfix
      refine ⟨by rw [← hst], ?_⟩
      rw [hfix, ← hst]

/-- With everything it computes settled, the information part of
`computeBPStatistics` returns its two values and leaves the state. -/
theorem computeBPStatistics_information_fixed (stats : ocStatistics) (bp : ocBPService)
    (mgr : ocVBMManager) (model top bottom : Nat) (m : ocModel)
    (modelT topH botBPT botStdT : ocDouble)
    (hm : mgr.heap[model]? = some m)
    (bM : mgr.BptDone bp model modelT)
    (htop : mgr.topRef = some top)
    (dTop : mgr.StatDone top ATTRIBUTE_H stats.h topH)
    (hbot : mgr.bottomRef = some bottom)
    (bB : mgr.BptDone bp bottom botBPT)
    (dBot : mgr.StatDone bottom ATTRIBUTE_T stats.t botStdT)
    (h1 : mgr.Holds model ATTRIBUTE_BP_H
      (ocDouble.add topH (ocDouble.div (ocDouble.mul modelT botStdT) botBPT)))
    (h2 : mgr.Holds model ATTRIBUTE_BP_EXPLAINED_I
      (ocDouble.sub (ocDouble.fin 1) (clampInfo (ocDouble.div modelT botBPT))))
    (h3 : mgr.Holds model ATTRIBUTE_BP_UNEXPLAINED_I
      (clampInfo (ocDouble.div modelT botBPT))) :
    computeBPStatistics.information stats bp mgr model
      = some (modelT, ocDouble.add topH (ocDouble.div (ocDouble.mul modelT botStdT) botBPT),
          mgr) := by
  unfold ocVBMManager.StatDone at dTop dBot
  unfold ocVBMManager.BptDone at bM bB
  unfold ocVBMManager.Holds at h1 h2 h3
  unfold computeBPStatistics.information
  simp only [hm, bM, htop, ocVBMManager.computeH, dTop, hbot, bB,
    ocVBMManager.computeTransmission, dBot, h1, h2, h3, Option.bind_eq_bind, Option.some_bind,
    Option.pure_def]

/-- What a call of the information part of `computeBPStatistics` that returns
leaves: a run, after which, and after any further run that writes none of its
three attributes, the part returns the same values and leaves the state. -/
theorem computeBPStatistics_information_settles (stats : ocStatistics) (bp : ocBPService)
    (mgr : ocVBMManager) (model : Nat) (modelT modelH : ocDouble) (mgr' : ocVBMManager)
    (h : computeBPStatistics.information stats bp mgr model = some (modelT, modelH, mgr')) :
    ocVBMManager.Runs stats bp
        [ATTRIBUTE_BP_T, ATTRIBUTE_H, ATTRIBUTE_T, ATTRIBUTE_BP_H, ATTRIBUTE_BP_EXPLAINED_I,
          ATTRIBUTE_BP_UNEXPLAINED_I] mgr mgr'
      ∧ ∀ (names : List String) (mgr'' : ocVBMManager),
          ATTRIBUTE_BP_H ∉ names → ATTRIBUTE_BP_EXPLAINED_I ∉ names →
          ATTRIBUTE_BP_UNEXPLAINED_I ∉ names →
          ocVBMManager.Runs stats bp names mgr' mgr'' →
          computeBPStatistics.information stats bp mgr'' model
            = some (modelT, modelH, mgr'') := by
  unfold computeBPStatistics.information at h
  simp only [Option.bind_eq_bind, Option.pure_def] at h
  obtain ⟨m, hm, h⟩ := Option.bind_eq_some.mp h
  obtain ⟨⟨modelT0, s1⟩, c1, h⟩ := Option.bind_eq_some.mp h
  simp only [] at h
  obtain ⟨top, ht, h⟩ := Option.bind_eq_some.mp h
  obtain ⟨⟨topH, s2⟩, c2, h⟩ := Option.bind_eq_some.mp h
  simp only [] at h
  obtain ⟨bottom, hb, h⟩ := Option.bind_eq_some.mp h
  obtain ⟨⟨botBPT, s3⟩, c3, h⟩ := Option.bind_eq_some.mp h
  simp only [] at h
  obtain ⟨⟨botStdT, s4⟩, c4, h⟩ := Option.bind_eq_some.mp h
  simp only [Option.some.injEq, Prod.mk.injEq] at h
  obtain ⟨hT, hH, hmgr⟩ := h
  subst hT
  obtain ⟨r1, d1⟩ := bpt_step stats bp [ATTRIBUTE_BP_T, ATTRIBUTE_H, ATTRIBUTE_T] mgr model
    modelT0 s1 (by decide) c1
  obtain ⟨r2, d2⟩ := stat_step stats bp [ATTRIBUTE_BP_T, ATTRIBUTE_H, ATTRIBUTE_T] s1 top
    ATTRIBUTE_H stats.h topH s2 (by decide) rfl c2
  obtain ⟨r3, d3⟩ := bpt_step stats bp [ATTRIBUTE_BP_T, ATTRIBUTE_H, ATTRIBUTE_T] s2 bottom
    botBPT s3 (by decide) c3
  obtain ⟨r4, d4⟩ := stat_step stats bp [ATTRIBUTE_BP_T, ATTRIBUTE_H, ATTRIBUTE_T] s3 bottom
    ATTRIBUTE_T stats.t botStdT s4 (by decide) rfl c4
  have r5 := runs_three stats bp
    [ATTRIBUTE_BP_H, ATTRIBUTE_BP_EXPLAINED_I, ATTRIBUTE_BP_UNEXPLAINED_I] s4 model
    ATTRIBUTE_BP_H ATTRIBUTE_BP_EXPLAINED_I ATTRIBUTE_BP_UNEXPLAINED_I
    (ocDouble.add topH (ocDouble.div (ocDouble.mul modelT0 botStdT) botBPT))
    (ocDouble.sub (ocDouble.fin 1) (clampInfo (ocDouble.div modelT0 botBPT)))
    (clampInfo (ocDouble.div modelT0 botBPT))
    (by decide) (by decide) (by decide) rfl rfl rfl (by decide) (by decide) (by decide)
  obtain ⟨g1, g2, g3⟩ := holds_three s4 model
    ATTRIBUTE_BP_H ATTRIBUTE_BP_EXPLAINED_I ATTRIBUTE_BP_UNEXPLAINED_I
    (ocDouble.add topH (ocDouble.div (ocDouble.mul modelT0 botStdT) botBPT))
    (ocDouble.sub (ocDouble.fin 1) (clampInfo (ocDouble.div modelT0 botBPT)))
    (clampInfo (ocDouble.div modelT0 botBPT))
    (by decide) (by decide) (by decide)
  rw [hmgr] at r5 g1 g2 g3
  have r14 := ((r1.followedBy r2).followedBy r3).followedBy r4
  refine ⟨(r14.more (by decide)).followedBy (r5.more (by decide)), ?_⟩
  intro names mgr'' n1 n2 n3 rr
  have hs := (r14.same.trans r5.same).trans rr.same
  obtain ⟨m'', hm'', _⟩ := hs.heap model m hm
  have htop'' : mgr''.topRef = some top :=
    (rr.same.2.2.1).trans ((r5.same.2.2.1).trans
      ((((r2.followedBy r3).followedBy r4).same.2.2.1).trans ht))
  have hbot'' : mgr''.bottomRef = some bottom :=
    (rr.same.2.2.2.1).trans ((r5.same.2.2.2.1).trans
      (((r3.followedBy r4).same.2.2.2.1).trans hb))
  have bM := rr.bptDone model modelT0
    (r5.bptDone model modelT0 (((r2.followedBy r3).followedBy r4).bptDone model modelT0 d1))
  have dTop := rr.statDone top ATTRIBUTE_H stats.h topH rfl
    (r5.statDone top ATTRIBUTE_H stats.h topH rfl
      ((r3.followedBy r4).statDone top ATTRIBUTE_H stats.h topH rfl d2))
  have bB := rr.bptDone bottom botBPT (r5.bptDone bottom botBPT (r4.bptDone bottom botBPT d3))
  have dBot := rr.statDone bottom ATTRIBUTE_T stats.t botStdT rfl
    (r5.statDone bottom ATTRIBUTE_T stats.t botStdT rfl d4)
  rw [← hH]
  exact computeBPStatistics_information_fixed stats bp mgr'' model top bottom m'' modelT0 topH
    botBPT botStdT hm'' bM htop'' dTop hbot'' bB dBot
    (rr.holds model ATTRIBUTE_BP_H _ n1 g1)
    (rr.holds model ATTRIBUTE_BP_EXPLAINED_I _ n2 g2)
    (rr.holds model ATTRIBUTE_BP_UNEXPLAINED_I _ n3 g3)

end Occam

namespace Occam

/-- With everything it computes settled, the significance part of
`computeBPStatistics` returns the output of the chi-squared block and leaves
the state. -/
theorem computeBPStatistics_significance_fixed (stats : ocStatistics) (dist : ocDistributions)
    (opts : ocOptions) (bp : ocBPService) (mgr : ocVBMManager) (model ref : Nat)
    (modelT refT modelDF refDF : ocDouble)
    (href : mgr.refModel = some ref)
    (bR : mgr.BptDone bp ref refT)
    (dDF : mgr.StatDone model ATTRIBUTE_DF stats.df modelDF)
    (dRDF : mgr.StatDone ref ATTRIBUTE_DF stats.df refDF)
    (h1 : mgr.Holds model ATTRIBUTE_DDF
      (computeL2Statistics.chiSquared dist opts modelT refT modelDF refDF).refDDF)
    (h2 : mgr.Holds model ATTRIBUTE_BP_LR
      (computeL2Statistics.chiSquared dist opts modelT refT modelDF refDF).refModelL2)
    (h3 : mgr.Holds model ATTRIBUTE_BP_ALPHA
      (computeL2Statistics.chiSquared dist opts modelT refT modelDF refDF).refL2Prob)
    (h4 : mgr.Holds model ATTRIBUTE_BP_BETA
      (computeL2Statistics.chiSquared dist opts modelT refT modelDF refDF).refL2Power) :
    computeBPStatistics.significance stats dist opts bp modelT mgr model
      = some ((computeL2Statistics.chiSquared dist opts modelT refT modelDF refDF).output,
          mgr) := by
  have e1 : mgr.computeDFStatistics stats model = some mgr :=
    computeDFStatistics_fixed stats mgr model modelDF refDF dDF
      (by rw [href]; exact statDone_read mgr ref ATTRIBUTE_DF stats.df refDF dRDF)
      (by rw [fabs_sub_eq_refDDF dist opts modelT refT modelDF refDF]; exact h1)
  unfold ocVBMManager.StatDone at dDF dRDF
  unfold ocVBMManager.BptDone at bR
  unfold ocVBMManager.Holds at h1 h2 h3 h4
  unfold computeBPStatistics.significance
  simp only [e1, href, bR, ocVBMManager.computeDF, dDF, dRDF, h1, h2, h3, h4,
    Option.bind_eq_bind, Option.some_bind, Option.pure_def]

/-- What a call of the significance part of `computeBPStatistics` that returns
leaves: a run, after which, and after any further run that writes none of its
four attributes, the part prints the same and leaves the state. -/
theorem computeBPStatistics_significance_settles (stats : ocStatistics)
    (dist : ocDistributions) (opts : ocOptions) (bp : ocBPService) (modelT : ocDouble)
    (mgr : ocVBMManager) (model : Nat) (output : List String) (mgr' : ocVBMManager)
    (h : computeBPStatistics.significance stats dist opts bp modelT mgr model
      = some (output, mgr')) :
    ocVBMManager.Runs stats bp
        [ATTRIBUTE_DF, ATTRIBUTE_DDF, ATTRIBUTE_BP_T, ATTRIBUTE_BP_LR, ATTRIBUTE_BP_ALPHA,
          ATTRIBUTE_BP_BETA] mgr mgr'
      ∧ ∀ (names : List String) (mgr'' : ocVBMManager),
          ATTRIBUTE_DDF ∉ names → ATTRIBUTE_BP_LR ∉ names → ATTRIBUTE_BP_ALPHA ∉ names →
          ATTRIBUTE_BP_BETA ∉ names →
          ocVBMManager.Runs stats bp names mgr' mgr'' →
          computeBPStatistics.significance stats dist opts bp modelT mgr'' model
            = some (output, mgr'') := by
  unfold computeBPStatistics.significance at h
  simp only [Option.bind_eq_bind, Option.pure_def] at h
  obtain ⟨s1, c1, h⟩ := Option.bind_eq_some.mp h
  obtain ⟨ref, hr1, h⟩ := Option.bind_eq_some.mp h
  obtain ⟨⟨refT, s2⟩, c2, h⟩ := Option.bind_eq_some.mp h
  simp only [] at h
  obtain ⟨⟨modelDF, s3⟩, c3, h⟩ := Option.bind_eq_some.mp h
  simp only [] at h
  obtain ⟨ref', hr3, h⟩ := Option.bind_eq_some.mp h
  obtain ⟨⟨refDF, s4⟩, c4, h⟩ := Option.bind_eq_some.mp h
  simp only [Option.some.injEq, Prod.mk.injEq] at h
  obtain ⟨hout, hmgr⟩ := h
  obtain ⟨_, r1, _⟩ := computeDFStatistics_facts stats bp
    [ATTRIBUTE_DF, ATTRIBUTE_DDF, ATTRIBUTE_BP_T] mgr model s1 (by decide) (by decide) c1
  obtain ⟨r2, d2⟩ := bpt_step stats bp [ATTRIBUTE_DF, ATTRIBUTE_DDF, ATTRIBUTE_BP_T] s1 ref
    refT s2 (by decide) c2
  obtain ⟨r3, d3⟩ := stat_step stats bp [ATTRIBUTE_DF, ATTRIBUTE_DDF, ATTRIBUTE_BP_T] s2 model
    ATTRIBUTE_DF stats.df modelDF s3 (by decide) rfl c3
  obtain ⟨r4, d4⟩ := stat_step stats bp [ATTRIBUTE_DF, ATTRIBUTE_DDF, ATTRIBUTE_BP_T] s3 ref'
    ATTRIBUTE_DF stats.df refDF s4 (by decide) rfl c4
  have r5 := runs_four stats bp
    [ATTRIBUTE_DDF, ATTRIBUTE_BP_LR, ATTRIBUTE_BP_ALPHA, ATTRIBUTE_BP_BETA] s4 model
    ATTRIBUTE_DDF ATTRIBUTE_BP_LR ATTRIBUTE_BP_ALPHA ATTRIBUTE_BP_BETA
    (computeL2Statistics.chiSquared dist opts modelT refT modelDF refDF).refDDF
    (computeL2Statistics.chiSquared dist opts modelT refT modelDF refDF).refModelL2
    (computeL2Statistics.chiSquared dist opts modelT refT modelDF refDF).refL2Prob
    (computeL2Statistics.chiSquared dist opts modelT refT modelDF refDF).refL2Power
    (by decide) (by decide) (by decide) (by decide) rfl rfl rfl rfl
    (by decide) (by decide) (by decide) (by decide)
  obtain ⟨g1, g2, g3, g4⟩ := holds_four s4 model
    ATTRIBUTE_DDF ATTRIBUTE_BP_LR ATTRIBUTE_BP_ALPHA ATTRIBUTE_BP_BETA
    (computeL2Statistics.chiSquared dist opts modelT refT modelDF refDF).refDDF
    (computeL2Statistics.chiSquared dist opts modelT refT modelDF refDF).refModelL2
    (computeL2Statistics.chiSquared dist opts modelT refT modelDF refDF).refL2Prob
    (computeL2Statistics.chiSquared dist opts modelT refT modelDF refDF).refL2Power
    (by decide) (by decide) (by decide) (by decide) (by decide) (by decide)
  rw [hmgr] at r5 g1 g2 g3 g4
  have r14 := ((r1.followedBy r2).followedBy r3).followedBy r4
  refine ⟨(r14.more (by decide)).followedBy (r5.more (by decide)), ?_⟩
  intro names mgr'' n1 n2 n3 n4 rr
  have href3 : s3.refModel = s1.refModel := (r2.followedBy r3).same.2.2.2.2.1
  have hrr : ref' = ref := Option.some.inj (hr3.symm.trans (href3.trans hr1))
  rw [hrr] at d4
  have href'' : mgr''.refModel = some ref :=
    (rr.same.2.2.2.2.1).trans ((r5.same.2.2.2.2.1).trans
      ((((r2.followedBy r3).followedBy r4).same.2.2.2.2.1).trans hr1))
  have bR := rr.bptDone ref refT (r5.bptDone ref refT ((r3.followedBy r4).bptDone ref refT d2))
  have dDF := rr.statDone model ATTRIBUTE_DF stats.df modelDF rfl
    (r5.statDone model ATTRIBUTE_DF stats.df modelDF rfl
      (r4.statDone model ATTRIBUTE_DF stats.df modelDF rfl d3))
  have dRDF := rr.statDone ref ATTRIBUTE_DF stats.df refDF rfl
    (r5.statDone ref ATTRIBUTE_DF stats.df refDF rfl d4)
  rw [← hout]
  exact computeBPStatistics_significance_fixed stats dist opts bp mgr'' model ref modelT refT
    modelDF refDF href'' bR dDF dRDF
    (rr.holds model ATTRIBUTE_DDF _ n1 g1) (rr.holds model ATTRIBUTE_BP_LR _ n2 g2)
    (rr.holds model ATTRIBUTE_BP_ALPHA _ n3 g3) (rr.holds model ATTRIBUTE_BP_BETA _ n4 g4)

/-- In a directed system, with everything it computes settled, the dependent
part of `computeBPStatistics` returns and leaves the state. -/
theorem computeBPStatistics_dependent_fixed (stats : ocStatistics)
    (relAttrs : ocRelation → ocAttributeList) (modelH : ocDouble) (mgr : ocVBMManager)
    (model top bottom : Nat) (topm : ocModel) (rel0 : ocRelation) (refH : ocDouble)
    (hd : mgr.varList.isDirected = true)
    (htop : mgr.topRef = some top) (hm : mgr.heap[top]? = some topm)
    (hrel : topm.getRelation 0 = some rel0)
    (hbot : mgr.bottomRef = some bottom)
    (dBot : mgr.StatDone bottom ATTRIBUTE_H stats.h refH)
    (h1 : mgr.Holds model ATTRIBUTE_BP_COND_H
      (ocDouble.sub modelH ((relAttrs rel0).getAttribute ATTRIBUTE_IND_H)))
    (h2 : mgr.Holds model ATTRIBUTE_BP_COND_DH (ocDouble.sub refH modelH))
    (h3 : mgr.Holds model ATTRIBUTE_BP_COND_PCT_DH
      (ocDouble.div (ocDouble.mul (ocDouble.fin 100) (ocDouble.sub refH modelH))
        ((relAttrs rel0).getAttribute ATTRIBUTE_DEP_H))) :
    computeBPStatistics.dependent stats relAttrs modelH mgr model = some mgr := by
  unfold ocVBMManager.StatDone at dBot
  unfold ocVBMManager.Holds at h1 h2 h3
  unfold computeBPStatistics.dependent
  simp only [hd, htop, hm, hrel, hbot, ocVBMManager.computeH, dBot, h1, h2, h3,
    Option.bind_eq_bind, Option.some_bind, Option.pure_def, Bool.not_true,
    Bool.false_eq_true, if_false]

/-- A call of the dependent part of `computeBPStatistics` that returns is a run,
after which the part returns again and leaves the state. -/
theorem computeBPStatistics_dependent_again (stats : ocStatistics) (bp : ocBPService)
    (relAttrs : ocRelation → ocAttributeList) (modelH : ocDouble) (mgr : ocVBMManager)
    (model : Nat) (mgr' : ocVBMManager)
    (h : computeBPStatistics.dependent stats relAttrs modelH mgr model = some mgr') :
    ocVBMManager.Runs stats bp
        [ATTRIBUTE_H, ATTRIBUTE_BP_COND_H, ATTRIBUTE_BP_COND_DH, ATTRIBUTE_BP_COND_PCT_DH]
        mgr mgr'
      ∧ computeBPStatistics.dependent stats relAttrs modelH mgr' model = some mgr' := by
  cases hd : mgr.varList.isDirected with
  | false =>
    unfold computeBPStatistics.dependent at h
    simp only [hd, Bool.not_false, if_true, Option.some.injEq] at h
    subst h
    refine ⟨ocVBMManager.Runs.refl _, ?_⟩
    unfold computeBPStatistics.dependent
    simp [hd]
  | true =>
    unfold computeBPStatistics.dependent at h
    simp only [hd, Bool.not_true, Bool.false_eq_true, if_false, Option.bind_eq_bind,
      Option.pure_def] at h
    obtain ⟨top, ht, h⟩ := Option.bind_eq_some.mp h
    obtain ⟨topm, hm, h⟩ := Option.bind_eq_some.mp h
    obtain ⟨rel0, hrel, h⟩ := Option.bind_eq_some.mp h
    obtain ⟨bottom, hb, h⟩ := Option.bind_eq_some.mp h
    obtain ⟨⟨refH, s1⟩, c1, h⟩ := Option.bind_eq_some.mp h
    simp only [Option.some.injEq] at h
    obtain ⟨r1, d1⟩ := stat_step stats bp [ATTRIBUTE_H] mgr bottom ATTRIBUTE_H stats.h refH s1
      (by decide) rfl c1
    have r2 := runs_three stats bp
      [ATTRIBUTE_BP_COND_H, ATTRIBUTE_BP_COND_DH, ATTRIBUTE_BP_COND_PCT_DH] s1 model
      ATTRIBUTE_BP_COND_H ATTRIBUTE_BP_COND_DH ATTRIBUTE_BP_COND_PCT_DH
      (ocDouble.sub modelH ((relAttrs rel0).getAttribute ATTRIBUTE_IND_H))
      (ocDouble.sub refH modelH)
      (ocDouble.div (ocDouble.mul (ocDouble.fin 100) (ocDouble.sub refH modelH))
        ((relAttrs rel0).getAttribute ATTRIBUTE_DEP_H))
      (by decide) (by decide) (by decide) rfl rfl rfl (by decide) (by decide) (by decide)
    obtain ⟨g1, g2, g3⟩ := holds_three s1 model
      ATTRIBUTE_BP_COND_H ATTRIBUTE_BP_COND_DH ATTRIBUTE_BP_COND_PCT_DH
      (ocDouble.sub modelH ((relAttrs rel0).getAttribute ATTRIBUTE_IND_H))
      (ocDouble.sub refH modelH)
      (ocDouble.div (ocDouble.mul (ocDouble.fin 100) (ocDouble.sub refH modelH))
        ((relAttrs rel0).getAttribute ATTRIBUTE_DEP_H))
      (by decide) (by decide) (by decide)
    rw [h] at r2 g1 g2 g3
    have hs := r1.same.trans r2.same
    obtain ⟨topm', hm', hrel'⟩ := hs.heap top topm hm
    refine ⟨(r1.more (by decide)).followedBy (r2.more (by decide)), ?_⟩
    exact computeBPStatistics_dependent_fixed stats relAttrs modelH mgr' model top bottom topm'
      rel0 refH (hs.1 ▸ hd) (hs.2.2.1.trans ht) hm'
      (by unfold ocModel.getRelation at hrel ⊢; rw [hrel']; exact hrel)
      (hs.2.2.2.1.trans hb) (r2.statDone bottom ATTRIBUTE_H stats.h refH rfl d1) g1 g2 g3

/-- Idempotence of `computeBPStatistics`: a second call prints what the first
printed and leaves the state the first call left. -/
theorem computeBPStatistics_again (stats : ocStatistics) (dist : ocDistributions)
    (opts : ocOptions) (bp : ocBPService) (relAttrs : ocRelation → ocAttributeList)
    (mgr : ocVBMManager) (model : Nat) (output : List String) (mgr' : ocVBMManager)
    (h : mgr.computeBPStatistics stats dist opts bp relAttrs model = some (output, mgr')) :
    mgr'.computeBPStatistics stats dist opts bp relAttrs model = some (output, mgr') := by
  unfold ocVBMManager.computeBPStatistics at h
  simp only [Option.bind_eq_bind, Option.pure_def] at h
  obtain ⟨⟨modelT, modelH, s1⟩, c1, h⟩ := Option.bind_eq_some.mp h
  simp only [] at h
  obtain ⟨⟨out, s2⟩, c2, h⟩ := Option.bind_eq_some.mp h
  simp only [] at h
  obtain ⟨s3, c3, h⟩ := Option.bind_eq_some.mp h
  simp only [Option.some.injEq, Prod.mk.injEq] at h
  obtain ⟨hout, hmgr⟩ := h
  subst hout hmgr
  obtain ⟨_, k1⟩ := computeBPStatistics_information_settles stats bp mgr model modelT modelH
    s1 c1
  obtain ⟨r2, k2⟩ := computeBPStatistics_significance_settles stats dist opts bp modelT s1
    model out s2 c2
  obtain ⟨r3, e3⟩ := computeBPStatistics_dependent_again stats bp relAttrs modelH s2 model
    s3 c3
  have e1 := k1 [ATTRIBUTE_DF, ATTRIBUTE_DDF, ATTRIBUTE_BP_T, ATTRIBUTE_BP_LR,
      ATTRIBUTE_BP_ALPHA, ATTRIBUTE_BP_BETA, ATTRIBUTE_H, ATTRIBUTE_BP_COND_H,
      ATTRIBUTE_BP_COND_DH, ATTRIBUTE_BP_COND_PCT_DH] s3 (by decide) (by decide) (by decide)
    ((r2.more (by decide)).followedBy (r3.more (by decide)))
  have e2 := k2 [ATTRIBUTE_H, ATTRIBUTE_BP_COND_H, ATTRIBUTE_BP_COND_DH,
      ATTRIBUTE_BP_COND_PCT_DH] s3 (by decide) (by decide) (by decide) (by decide) r3
  unfold ocVBMManager.computeBPStatistics
  simp only [e1, e2, e3, Option.bind_eq_bind, Option.some_bind, Option.pure_def]

/-- A `computeBPT` that is done with a value that is not below 0 reads the value
from the attribute: the call returns it whatever the service is. -/
theorem bptDone_cached (bp : ocBPService) (mgr : ocVBMManager) (a : Nat) (v : ocDouble)
    (hd : mgr.BptDone bp a v) (hge : ocDouble.ge v (ocDouble.fin 0) = true)
    (bp' : ocBPService) : mgr.computeBPT bp' a = some (v, mgr) := by
  rw [bptDone_iff] at hd
  obtain ⟨m, hm, hcase⟩ := hd
  have hattr : m.attrs.getAttribute ATTRIBUTE_BP_T = v := by
    rcases hcase with ⟨_, h2⟩ | ⟨_, _, h3⟩
    · exact h2.symm
    · rw [holds_iff] at h3
      have := getAttribute_setAttribute_self m.attrs ATTRIBUTE_BP_T v
      rw [h3 m hm] at this
      exact this
  have := computeBPT_cached bp' mgr a m hm (by rw [hattr]; exact hge)
  rw [hattr] at this
  exact this

/-- C14 (amended): idempotence of the computeX statistics on the manager state.
For every manager state and model address, and each of
`computeExplainedInformation`, `computeUnexplainedInformation`, `computeDDF`,
`computeL2Statistics`, `computePearsonStatistics`, `computeBPT` and
`computeBPStatistics`: when a call returns, a second call in the state the
first call left returns the same value (prints the same lines) and leaves
that state as it is, so every attribute value is identical.  The second call
is not skipped: only `computeBPT` reads its value back, when the value is not
below 0 (its second call then returns it whatever the service is), and every
`computePearsonStatistics` call with a bottom reference makes its two
`makeFitTable` calls again. -/
theorem computeX_idempotent (stats : ocStatistics) (dist : ocDistributions) (opts : ocOptions)
    (fit : ocFitService) (bp : ocBPService) (relAttrs : ocRelation → ocAttributeList)
    (mgr : ocVBMManager) (model : Nat) :
    (∀ info mgr1, mgr.computeExplainedInformation stats model = some (info, mgr1) →
      mgr1.computeExplainedInformation stats model = some (info, mgr1))
    ∧ (∀ info mgr1, mgr.computeUnexplainedInformation stats model = some (info, mgr1) →
      mgr1.computeUnexplainedInformation stats model = some (info, mgr1))
    ∧ (∀ ddf mgr1, mgr.computeDDF model = some (ddf, mgr1) →
      mgr1.computeDDF model = some (ddf, mgr1))
    ∧ (∀ output mgr1, mgr.computeL2Statistics stats dist opts model = some (output, mgr1) →
      mgr1.computeL2Statistics stats dist opts model = some (output, mgr1))
    ∧ (∀ bottom st output st1 mgr1, mgr.bottomRef = some bottom →
      mgr.computePearsonStatistics stats dist opts fit st (some model)
        = some (output, st1, mgr1) →
      st1.makeFitTableCalls = st.makeFitTableCalls + 2
      ∧ mgr1.computePearsonStatistics stats dist opts fit st1 (some model)
        = some (output, ⟨st1.fitTable1, st1.makeFitTableCalls + 2⟩, mgr1))
    ∧ (∀ modelT mgr1, mgr.computeBPT bp model = some (modelT, mgr1) →
      mgr1.computeBPT bp model = some (modelT, mgr1)
      ∧ (ocDouble.ge modelT (ocDouble.fin 0) = true →
        ∀ bp', mgr1.computeBPT bp' model = some (modelT, mgr1)))
    ∧ (∀ output mgr1,
      mgr.computeBPStatistics stats dist opts bp relAttrs model = some (output, mgr1) →
      mgr1.computeBPStatistics stats dist opts bp relAttrs model = some (output, mgr1)) := by
  refine ⟨?_, ?_, ?_, ?_, ?_, ?_, ?_⟩
  · intro info mgr1 h
    exact computeExplainedInformation_again stats mgr model info mgr1 h
  · intro info mgr1 h
    exact computeUnexplainedInformation_again stats mgr model info mgr1 h
  · intro ddf mgr1 h
    exact computeDDF_again mgr model ddf mgr1 h
  · intro output mgr1 h
    exact computeL2Statistics_again stats dist opts mgr model output mgr1 h
  · intro bottom st output st1 mgr1 hbot h
    exact computePearsonStatistics_again stats dist opts fit mgr st model bottom output st1
      mgr1 hbot h
  · intro modelT mgr1 h
    have hd := bptDone_after bp mgr model modelT mgr1 h
    exact ⟨hd, fun hge bp' => bptDone_cached bp mgr1 model modelT hd hge bp'⟩
  · intro output mgr1 h
    exact computeBPStatistics_again stats dist opts bp relAttrs mgr model output mgr1 h

/-- Witness of C14: the model `AB:C` of `examplePearsonManager`, no fit table
built yet.  The first `computePearsonStatistics` call returns; the second
prints the same, leaves the state and the fit table, and has made two more
`makeFitTable` calls. -/
theorem computeX_idempotent_witness :
    ∃ output st1 mgr1,
      examplePearsonManager.computePearsonStatistics (exampleStatistics 5)
          exampleRevealingDistributions exampleOptions exampleFitService ⟨none, 0⟩ (some 2)
        = some (output, st1, mgr1)
      ∧ st1.makeFitTableCalls = 0 + 2
      ∧ mgr1.computePearsonStatistics (exampleStatistics 5) exampleRevealingDistributions
          exampleOptions exampleFitService st1 (some 2)
        = some (output, ⟨st1.fitTable1, st1.makeFitTableCalls + 2⟩, mgr1) := by
  have hlive : examplePearsonManager.RefsLive 2 :=
    ⟨⟨2, _, rfl, rfl⟩, ⟨0, _, rfl, rfl⟩, ⟨0, _, rfl, rfl⟩, ⟨1, _, rfl, rfl⟩⟩
  obtain ⟨modelDF, refDF, mgrP, _, _, _, hcall⟩ :=
    computePearsonStatistics_spec (exampleStatistics 5) exampleRevealingDistributions
      exampleOptions exampleFitService examplePearsonManager ⟨none, 0⟩ 2 0 1
      ⟨[⟨[0, 1]⟩, ⟨[2]⟩], [(ATTRIBUTE_DF, ocDouble.fin 4), (ATTRIBUTE_H, ocDouble.fin 2),
        (ATTRIBUTE_T, ocDouble.fin (1 / 2))]⟩
      ⟨[⟨[0]⟩, ⟨[1]⟩, ⟨[2]⟩], [(ATTRIBUTE_DF, ocDouble.fin 3), (ATTRIBUTE_H, ocDouble.fin 3),
        (ATTRIBUTE_T, ocDouble.fin 1)]⟩
      hlive rfl rfl rfl rfl
  exact ⟨_, _, _, hcall,
    (computeX_idempotent (exampleStatistics 5) exampleRevealingDistributions exampleOptions
      exampleFitService exampleBPService (fun _ => []) examplePearsonManager 2).2.2.2.2.1
      1 ⟨none, 0⟩ _ _ _ rfl hcall⟩

/-- C14, counterexample to the claim as stated: on the model `AB:C` of
`examplePearsonManager` the first `computePearsonStatistics` call has made 2
`makeFitTable` calls, and the second call, in the state the first left, makes
2 more (4 in all), where the claim has it make none. -/
theorem computePearsonStatistics_recomputes_counterexample :
    ∃ output st1 mgr1 st2,
      examplePearsonManager.computePearsonStatistics (exampleStatistics 5)
          exampleRevealingDistributions exampleOptions exampleFitService ⟨none, 0⟩ (some 2)
        = some (output, st1, mgr1)
      ∧ st1.makeFitTableCalls = 2
      ∧ mgr1.computePearsonStatistics (exampleStatistics 5) exampleRevealingDistributions
          exampleOptions exampleFitService st1 (some 2)
        = some (output, st2, mgr1)
      ∧ st2.makeFitTableCalls = 4
      ∧ st2.makeFitTableCalls ≠ st1.makeFitTableCalls := by
  have hlive : examplePearsonManager.RefsLive 2 :=
    ⟨⟨2, _, rfl, rfl⟩, ⟨0, _, rfl, rfl⟩, ⟨0, _, rfl, rfl⟩, ⟨1, _, rfl, rfl⟩⟩
  obtain ⟨modelDF, refDF, mgrP, _, _, _, hcall⟩ :=
    computePearsonStatistics_spec (exampleStatistics 5) exampleRevealingDistributions
      exampleOptions exampleFitService examplePearsonManager ⟨none, 0⟩ 2 0 1
      ⟨[⟨[0, 1]⟩, ⟨[2]⟩], [(ATTRIBUTE_DF, ocDouble.fin 4), (ATTRIBUTE_H, ocDouble.fin 2),
        (ATTRIBUTE_T, ocDouble.fin (1 / 2))]⟩
      ⟨[⟨[0]⟩, ⟨[1]⟩, ⟨[2]⟩], [(ATTRIBUTE_DF, ocDouble.fin 3), (ATTRIBUTE_H, ocDouble.fin 3),
        (ATTRIBUTE_T, ocDouble.fin 1)]⟩
      hlive rfl rfl rfl rfl
  obtain ⟨_, hsecond⟩ := computePearsonStatistics_again (exampleStatistics 5)
    exampleRevealingDistributions exampleOptions exampleFitService examplePearsonManager
    ⟨none, 0⟩ 2 1 _ _ _ rfl hcall
  exact ⟨_, _, _, _, hcall, rfl, hsecond, rfl, by decide⟩

end Occam
